import Mathlib

/-! The remap overlay of `drivers/input/keyboard/atkbd.c`.

A shallow embedding of the modal remapping overlay (`wataash_do_atkbd_emacs`,
`release_modifier`, `action`) that sits in front of the AT keyboard decoder.

Conventions of the embedding:

* `unsigned int` values are `Nat`; `~0x80U` is the 32-bit constant `0xFFFFFF7F`.
* A C array of action codes is the `List Nat` of its elements, terminator included.
  A `NULL` pointer (the zero-initialised slots of the designated-initialiser tables)
  is `none`; dereferencing it is a fault, and a faulting run returns `none`.
* `struct key_map` is split into its constant fields (`key_map`, looked up in the
  tables `maps_capslock` / `maps_henkan`) and its only mutable field `key_state`,
  kept per table in `overlay`.  The two `*_str` fields are used by log lines only
  and are left out, as are all `dev_dbg` / `pr_err` / `pr_info` lines.
* `action` calls `atkbd_interrupt(serio, code, SERIO_WATAASH_DOING_ACTION)`; the
  overlay never reads decoder state, so each such call is recorded as the pair
  `(data, flags)` and the functions return the calls they made, in order.
-/

namespace Atkbd

/-! ## Data model -/

/-- The anonymous `enum` inside `struct key_map`: lifecycle of one remappable key. -/
inductive key_state where
  | KEY_STATE_RELEASED
  | KEY_STATE_PRESSING
  | KEY_STATE_MODIFIER_RELEASED
  deriving DecidableEq, Repr

/-- The anonymous `static enum` of `wataash_do_atkbd_emacs` holding the pressed modifier. -/
inductive held_mode where
  | HELD_CAPSLOCK
  | HELD_HENKAN
  | HELD_NONE
  deriving DecidableEq, Repr

/-- The return type `enum wataash_do_atkbd_emacs_ret`. -/
inductive wataash_do_atkbd_emacs_ret where
  | wataash_do_atkbd_emacs_bypass
  | wataash_do_atkbd_emacs_consumed
  deriving DecidableEq, Repr

open key_state held_mode wataash_do_atkbd_emacs_ret

/-- The constant fields of `struct key_map`; `none` is a `NULL` pointer. -/
structure key_map where
  key : Option String
  press_action_codes : Option (List Nat)
  release_action_codes : Option (List Nat)
  deriving DecidableEq, Repr

/-- The mutable overlay state: the static `held` and the `key_state` field of every
slot of `maps_capslock` and `maps_henkan` (slots `0 .. 0x7f`; other indices are
never read or written). -/
structure overlay where
  held : held_mode
  maps_capslock_key_state : Nat → key_state
  maps_henkan_key_state : Nat → key_state

/-- The `#define and ((unsigned int)-1)` separator. -/
def and_marker : Nat := 0xFFFFFFFF

/-- The `#define end ((unsigned int)-2)` terminator. -/
def end_marker : Nat := 0xFFFFFFFE

/-- The flag `SERIO_WATAASH_DOING_ACTION`, `_BITUL(9)`. -/
def SERIO_WATAASH_DOING_ACTION : Nat := 0x200

/-- The trigger codes of the anonymous `enum` at lines 680-692 (non-QEMU branch). -/
def code_caps_press : Nat := 0x3a
def code_caps_release : Nat := 0xba
def code_hen_press : Nat := 0x79
def code_hen_release : Nat := 0xf9

/-! ## The action code arrays (lines 428-504) -/

def action_codes_BackSpace_press : List Nat := [0x0e, end_marker]
def action_codes_BackSpace_release : List Nat := [0x8e, end_marker]
def action_codes_Delete_press : List Nat := [0xe0, 0x53, end_marker]
def action_codes_Delete_release : List Nat := [0xe0, 0xd3, end_marker]
def action_codes_Down_press : List Nat := [0xe0, 0x50, end_marker]
def action_codes_Down_release : List Nat := [0xe0, 0xd0, end_marker]
def action_codes_End_press : List Nat := [0xe0, 0x4f, end_marker]
def action_codes_End_release : List Nat := [0xe0, 0xcf, end_marker]
def action_codes_Escape_press : List Nat := [0x01, end_marker]
def action_codes_Escape_release : List Nat := [0x81, end_marker]
def action_codes_F10_press : List Nat := [0x44, end_marker]
def action_codes_F10_release : List Nat := [0xc4, end_marker]
def action_codes_F11_press : List Nat := [0x57, end_marker]
def action_codes_F11_release : List Nat := [0xd7, end_marker]
def action_codes_F12_press : List Nat := [0x58, end_marker]
def action_codes_F12_release : List Nat := [0xd8, end_marker]
def action_codes_F1_press : List Nat := [0x3b, end_marker]
def action_codes_F1_release : List Nat := [0xbb, end_marker]
def action_codes_F2_press : List Nat := [0x3c, end_marker]
def action_codes_F2_release : List Nat := [0xbc, end_marker]
def action_codes_F3_press : List Nat := [0x3d, end_marker]
def action_codes_F3_release : List Nat := [0xbd, end_marker]
def action_codes_F4_press : List Nat := [0x3e, end_marker]
def action_codes_F4_release : List Nat := [0xbe, end_marker]
def action_codes_F5_press : List Nat := [0x3f, end_marker]
def action_codes_F5_release : List Nat := [0xbf, end_marker]
def action_codes_F6_press : List Nat := [0x40, end_marker]
def action_codes_F6_release : List Nat := [0xc0, end_marker]
def action_codes_F7_press : List Nat := [0x41, end_marker]
def action_codes_F7_release : List Nat := [0xc1, end_marker]
def action_codes_F8_press : List Nat := [0x42, end_marker]
def action_codes_F8_release : List Nat := [0xc2, end_marker]
def action_codes_F9_press : List Nat := [0x43, end_marker]
def action_codes_F9_release : List Nat := [0xc3, end_marker]
def action_codes_Home_press : List Nat := [0xe0, 0x47, end_marker]
def action_codes_Home_release : List Nat := [0xe0, 0xc7, end_marker]
def action_codes_Left_press : List Nat := [0xe0, 0x4b, end_marker]
def action_codes_Left_release : List Nat := [0xe0, 0xcb, end_marker]
def action_codes_Next_press : List Nat := [0xe0, 0x51, end_marker]
def action_codes_Next_release : List Nat := [0xe0, 0xd1, end_marker]
def action_codes_Prior_press : List Nat := [0xe0, 0x49, end_marker]
def action_codes_Prior_release : List Nat := [0xe0, 0xc9, end_marker]
def action_codes_Return_press : List Nat := [0x1c, end_marker]
def action_codes_Return_release : List Nat := [0x9c, end_marker]
def action_codes_Right_press : List Nat := [0xe0, 0x4d, end_marker]
def action_codes_Right_release : List Nat := [0xe0, 0xcd, end_marker]
def action_codes_Tab_press : List Nat := [0x0f, end_marker]
def action_codes_Tab_release : List Nat := [0x8f, end_marker]
def action_codes_Up_press : List Nat := [0xe0, 0x48, end_marker]
def action_codes_Up_release : List Nat := [0xe0, 0xc8, end_marker]
def action_codes_asciicircum_10 : List Nat := [0x0d, 0x8d, and_marker, 0x0d, 0x8d, and_marker, 0x0d, 0x8d, and_marker, 0x0d, 0x8d, and_marker, 0x0d, 0x8d, and_marker, 0x0d, 0x8d, and_marker, 0x0d, 0x8d, and_marker, 0x0d, 0x8d, and_marker, 0x0d, 0x8d, and_marker, 0x0d, 0x8d, end_marker]
def action_codes_kill_line : List Nat := [0x2a, and_marker, 0xe0, 0x4f, and_marker, 0xe0, 0xcf, and_marker, 0xaa, and_marker, 0xe0, 0x53, and_marker, 0xe0, 0xd3, end_marker]
def action_codes_minus_10 : List Nat := [0x0c, 0x8c, and_marker, 0x0c, 0x8c, and_marker, 0x0c, 0x8c, and_marker, 0x0c, 0x8c, and_marker, 0x0c, 0x8c, and_marker, 0x0c, 0x8c, and_marker, 0x0c, 0x8c, and_marker, 0x0c, 0x8c, and_marker, 0x0c, 0x8c, and_marker, 0x0c, 0x8c, end_marker]
def action_codes_nop : List Nat := [end_marker]
def action_codes_space_10 : List Nat := [0x39, 0xb9, and_marker, 0x39, 0xb9, and_marker, 0x39, 0xb9, and_marker, 0x39, 0xb9, and_marker, 0x39, 0xb9, and_marker, 0x39, 0xb9, and_marker, 0x39, 0xb9, and_marker, 0x39, 0xb9, and_marker, 0x39, 0xb9, and_marker, 0x39, 0xb9, end_marker]
def action_codes_todo_numpad0_press : List Nat := [0x52, end_marker]
def action_codes_todo_numpad0_release : List Nat := [0xd2, end_marker]
def action_codes_todo_numpad1_press : List Nat := [0x4f, end_marker]
def action_codes_todo_numpad1_release : List Nat := [0xcf, end_marker]
def action_codes_todo_numpad2_press : List Nat := [0x50, end_marker]
def action_codes_todo_numpad2_release : List Nat := [0xd0, end_marker]
def action_codes_todo_numpad3_press : List Nat := [0x51, end_marker]
def action_codes_todo_numpad3_release : List Nat := [0xd1, end_marker]
def action_codes_todo_numpad4_press : List Nat := [0x4b, end_marker]
def action_codes_todo_numpad4_release : List Nat := [0xcb, end_marker]
def action_codes_todo_numpad5_press : List Nat := [0x4c, end_marker]
def action_codes_todo_numpad5_release : List Nat := [0xcc, end_marker]
def action_codes_todo_numpad6_press : List Nat := [0x4d, end_marker]
def action_codes_todo_numpad6_release : List Nat := [0xcd, end_marker]
def action_codes_todo_numpad7_press : List Nat := [0x47, end_marker]
def action_codes_todo_numpad7_release : List Nat := [0xc7, end_marker]
def action_codes_todo_numpad8_press : List Nat := [0x48, end_marker]
def action_codes_todo_numpad8_release : List Nat := [0xc8, end_marker]
def action_codes_todo_numpad9_press : List Nat := [0x49, end_marker]
def action_codes_todo_numpad9_release : List Nat := [0xc9, end_marker]
def action_codes_unix_line_discard : List Nat := [0x2a, and_marker, 0xe0, 0x47, and_marker, 0xe0, 0xc7, and_marker, 0xaa, and_marker, 0xe0, 0x53, and_marker, 0xe0, 0xd3, end_marker]
def action_codes_unix_word_rubout : List Nat := [0x1d, and_marker, 0x0e, and_marker, 0x8e, and_marker, 0x9d, end_marker]

/-! ## The two mode tables (lines 518-583) -/

def maps_capslock : Nat → key_map
  | 0x02 => ⟨some "1", some action_codes_todo_numpad1_press, some action_codes_todo_numpad1_release⟩
  | 0x03 => ⟨some "2", some action_codes_todo_numpad2_press, some action_codes_todo_numpad2_release⟩
  | 0x04 => ⟨some "3", some action_codes_todo_numpad3_press, some action_codes_todo_numpad3_release⟩
  | 0x05 => ⟨some "4", some action_codes_todo_numpad4_press, some action_codes_todo_numpad4_release⟩
  | 0x06 => ⟨some "5", some action_codes_todo_numpad5_press, some action_codes_todo_numpad5_release⟩
  | 0x07 => ⟨some "6", some action_codes_todo_numpad6_press, some action_codes_todo_numpad6_release⟩
  | 0x08 => ⟨some "7", some action_codes_todo_numpad7_press, some action_codes_todo_numpad7_release⟩
  | 0x09 => ⟨some "8", some action_codes_todo_numpad8_press, some action_codes_todo_numpad8_release⟩
  | 0x0a => ⟨some "9", some action_codes_todo_numpad9_press, some action_codes_todo_numpad9_release⟩
  | 0x0b => ⟨some "0", some action_codes_todo_numpad0_press, some action_codes_todo_numpad0_release⟩
  | 0x0c => ⟨some "-", some action_codes_minus_10, some action_codes_nop⟩
  | 0x0d => ⟨some "^", some action_codes_asciicircum_10, some action_codes_nop⟩
  | 0x39 => ⟨some "SP", some action_codes_space_10, some action_codes_nop⟩
  | 0x1e => ⟨some "a", some action_codes_Home_press, some action_codes_Home_release⟩
  | 0x30 => ⟨some "b", some action_codes_Left_press, some action_codes_Left_release⟩
  | 0x20 => ⟨some "d", some action_codes_Delete_press, some action_codes_Delete_release⟩
  | 0x12 => ⟨some "e", some action_codes_End_press, some action_codes_End_release⟩
  | 0x21 => ⟨some "f", some action_codes_Right_press, some action_codes_Right_release⟩
  | 0x22 => ⟨some "g", some action_codes_Escape_press, some action_codes_Escape_release⟩
  | 0x23 => ⟨some "h", some action_codes_BackSpace_press, some action_codes_BackSpace_release⟩
  | 0x17 => ⟨some "i", some action_codes_Tab_press, some action_codes_Tab_release⟩
  | 0x24 => ⟨some "j", some action_codes_Return_press, some action_codes_Return_release⟩
  | 0x25 => ⟨some "k", some action_codes_kill_line, some action_codes_nop⟩
  | 0x32 => ⟨some "m", some action_codes_Return_press, some action_codes_Return_release⟩
  | 0x31 => ⟨some "n", some action_codes_Down_press, some action_codes_Down_release⟩
  | 0x19 => ⟨some "p", some action_codes_Up_press, some action_codes_Up_release⟩
  | 0x16 => ⟨some "u", some action_codes_unix_line_discard, some action_codes_nop⟩
  | 0x11 => ⟨some "w", some action_codes_unix_word_rubout, some action_codes_nop⟩
  | _ => ⟨none, none, none⟩

def maps_henkan : Nat → key_map
  | 0x02 => ⟨some "1", some action_codes_F1_press, some action_codes_F1_release⟩
  | 0x03 => ⟨some "2", some action_codes_F2_press, some action_codes_F2_release⟩
  | 0x04 => ⟨some "3", some action_codes_F3_press, some action_codes_F3_release⟩
  | 0x05 => ⟨some "4", some action_codes_F4_press, some action_codes_F4_release⟩
  | 0x06 => ⟨some "5", some action_codes_F5_press, some action_codes_F5_release⟩
  | 0x07 => ⟨some "6", some action_codes_F6_press, some action_codes_F6_release⟩
  | 0x08 => ⟨some "7", some action_codes_F7_press, some action_codes_F7_release⟩
  | 0x09 => ⟨some "8", some action_codes_F8_press, some action_codes_F8_release⟩
  | 0x0a => ⟨some "9", some action_codes_F9_press, some action_codes_F9_release⟩
  | 0x0b => ⟨some "0", some action_codes_F10_press, some action_codes_F10_release⟩
  | 0x0c => ⟨some "-", some action_codes_F11_press, some action_codes_F11_release⟩
  | 0x0d => ⟨some "^", some action_codes_F12_press, some action_codes_F12_release⟩
  | 0x16 => ⟨some "u", some action_codes_Home_press, some action_codes_Home_release⟩
  | 0x18 => ⟨some "o", some action_codes_End_press, some action_codes_End_release⟩
  | 0x17 => ⟨some "i", some action_codes_Up_press, some action_codes_Up_release⟩
  | 0x24 => ⟨some "j", some action_codes_Left_press, some action_codes_Left_release⟩
  | 0x25 => ⟨some "k", some action_codes_Down_press, some action_codes_Down_release⟩
  | 0x26 => ⟨some "l", some action_codes_Right_press, some action_codes_Right_release⟩
  | 0x23 => ⟨some "h", some action_codes_Prior_press, some action_codes_Prior_release⟩
  | 0x31 => ⟨some "n", some action_codes_Next_press, some action_codes_Next_release⟩
  | _ => ⟨none, none, none⟩

/-! ## The action replay primitive and the overlay step -/

/-- The function `action` (lines 593-606): walk the array up to `end`, skip `and`,
and call `atkbd_interrupt(serio, code, SERIO_WATAASH_DOING_ACTION)` for every other
code (the parameter `data` is an `unsigned char`).  Returns the calls made.  Running
off the array without meeting `end` is an out-of-bounds read: `none`. -/
def action_walk : List Nat → Option (List (Nat × Nat))
  | [] => none
  | code :: rest =>
    if code = end_marker then some []
    else if code = and_marker then action_walk rest
    else
      match action_walk rest with
      | none => none
      | some calls => some ((code % 256, SERIO_WATAASH_DOING_ACTION) :: calls)

/-- The function `action` on a pointer: a `NULL` array faults at the first read. -/
def action : Option (List Nat) → Option (List (Nat × Nat))
  | none => none
  | some action_codes => action_walk action_codes

/-- The loop of `release_modifier` (lines 615-630) from index `i` with `n` iterations
left: a slot in `KEY_STATE_PRESSING` has its release codes replayed and becomes
`KEY_STATE_MODIFIER_RELEASED`; the two other states `continue`. -/
def release_modifier_loop (maps : Nat → key_map) :
    Nat → Nat → (Nat → key_state) → Option ((Nat → key_state) × List (Nat × Nat))
  | 0, _, ks => some (ks, [])
  | n + 1, i, ks =>
    match ks i with
    | KEY_STATE_RELEASED => release_modifier_loop maps n (i + 1) ks
    | KEY_STATE_PRESSING =>
      match action (maps i).release_action_codes with
      | none => none
      | some calls =>
        match release_modifier_loop maps n (i + 1)
            (Function.update ks i KEY_STATE_MODIFIER_RELEASED) with
        | none => none
        | some (ks1, calls1) => some (ks1, calls ++ calls1)
    | KEY_STATE_MODIFIER_RELEASED => release_modifier_loop maps n (i + 1) ks

/-- The function `release_modifier` (lines 608-631): the loop over
`i = 0 .. ARRAY_SIZE(maps_capslock) - 1`. -/
def release_modifier (maps : Nat → key_map) (ks : Nat → key_state) :
    Option ((Nat → key_state) × List (Nat × Nat)) :=
  release_modifier_loop maps 0x80 0 ks

/-- One of the two blocks inside `if (!press)` (lines 784-791 for `maps_capslock`,
lines 793-800 for `maps_henkan`): a slot in `KEY_STATE_MODIFIER_RELEASED` has its
release codes replayed and becomes `KEY_STATE_RELEASED`. -/
def release_deferred (maps : Nat → key_map) (ks : Nat → key_state) (idx : Nat) :
    Option ((Nat → key_state) × List (Nat × Nat)) :=
  if ks idx = KEY_STATE_MODIFIER_RELEASED then
    match action (maps idx).release_action_codes with
    | none => none
    | some calls => some (Function.update ks idx KEY_STATE_RELEASED, calls)
  else some (ks, [])

/-- Lines 780-801 of `wataash_do_atkbd_emacs`: for a release byte, first the
`maps_capslock` block, then the `maps_henkan` block; a press byte does nothing. -/
def release_pending_keys (st : overlay) (code : Nat) :
    Option (overlay × List (Nat × Nat)) :=
  if code &&& 0x80 = 0 then some (st, [])
  else
    match release_deferred maps_capslock st.maps_capslock_key_state (code &&& 0xFFFFFF7F) with
    | none => none
    | some (ks_caps, calls_caps) =>
      match release_deferred maps_henkan st.maps_henkan_key_state (code &&& 0xFFFFFF7F) with
      | none => none
      | some (ks_hen, calls_hen) =>
        some ({ st with maps_capslock_key_state := ks_caps, maps_henkan_key_state := ks_hen },
              calls_caps ++ calls_hen)

/-- Lines 829-869 of `wataash_do_atkbd_emacs` on the selected slot `map` with state
table `ks`: the state is first reset (`KEY_STATE_RELEASED` on press,
`KEY_STATE_PRESSING` on release, whatever it was), the press or release codes are
replayed, and the state becomes `KEY_STATE_PRESSING` on press, `KEY_STATE_RELEASED`
on release. -/
def mapped_key_action (map : key_map) (ks : Nat → key_state) (idx : Nat) (press : Bool) :
    Option ((Nat → key_state) × List (Nat × Nat)) :=
  let ks1 := Function.update ks idx (if press then KEY_STATE_RELEASED else KEY_STATE_PRESSING)
  match action (if press then map.press_action_codes else map.release_action_codes) with
  | none => none
  | some calls =>
    some (Function.update ks1 idx (if press then KEY_STATE_PRESSING else KEY_STATE_RELEASED),
          calls)

/-- Lines 803-869 of `wataash_do_atkbd_emacs`: bypass when no modifier is held or the
slot of the held table has `key == NULL`, else run the mapped action and consume. -/
def held_key_action (st : overlay) (code : Nat) :
    Option (wataash_do_atkbd_emacs_ret × overlay × List (Nat × Nat)) :=
  let press : Bool := decide (code &&& 0x80 = 0)
  let idx := code &&& 0xFFFFFF7F
  match st.held with
  | HELD_NONE => some (wataash_do_atkbd_emacs_bypass, st, [])
  | HELD_CAPSLOCK =>
    if (maps_capslock idx).key = none then some (wataash_do_atkbd_emacs_bypass, st, [])
    else
      match mapped_key_action (maps_capslock idx) st.maps_capslock_key_state idx press with
      | none => none
      | some (ks, calls) =>
        some (wataash_do_atkbd_emacs_consumed, { st with maps_capslock_key_state := ks }, calls)
  | HELD_HENKAN =>
    if (maps_henkan idx).key = none then some (wataash_do_atkbd_emacs_bypass, st, [])
    else
      match mapped_key_action (maps_henkan idx) st.maps_henkan_key_state idx press with
      | none => none
      | some (ks, calls) =>
        some (wataash_do_atkbd_emacs_consumed, { st with maps_henkan_key_state := ks }, calls)

/-- The function `wataash_do_atkbd_emacs` (lines 644-870).  The first argument is the
global `wataash_atkbd_emacs` (the enable flag, `init/wataash_sandbox.c` line 382).
Returns the verdict, the new overlay state and the `atkbd_interrupt` calls made by
`action`, in order; `none` is a fault.  Both trigger-release cases pass
`maps_capslock` to `release_modifier`, as lines 732 and 765 do. -/
def wataash_do_atkbd_emacs (wataash_atkbd_emacs : Nat) (st : overlay) (code : Nat) :
    Option (wataash_do_atkbd_emacs_ret × overlay × List (Nat × Nat)) :=
  if code = 0 then some (wataash_do_atkbd_emacs_bypass, st, [])
  else if (code &&& 0xFFFFFF7F) ≥ 0x80 then some (wataash_do_atkbd_emacs_bypass, st, [])
  else if wataash_atkbd_emacs = 0 then some (wataash_do_atkbd_emacs_bypass, st, [])
  else if code = code_caps_press then
    some (wataash_do_atkbd_emacs_consumed, { st with held := HELD_CAPSLOCK }, [])
  else if code = code_caps_release then
    match release_modifier maps_capslock st.maps_capslock_key_state with
    | none => none
    | some (ks, calls) =>
      some (wataash_do_atkbd_emacs_consumed,
            { st with maps_capslock_key_state := ks, held := HELD_NONE }, calls)
  else if code = code_hen_press then
    some (wataash_do_atkbd_emacs_consumed, { st with held := HELD_HENKAN }, [])
  else if code = code_hen_release then
    match release_modifier maps_capslock st.maps_capslock_key_state with
    | none => none
    | some (ks, calls) =>
      some (wataash_do_atkbd_emacs_consumed,
            { st with maps_capslock_key_state := ks, held := HELD_NONE }, calls)
  else
    match release_pending_keys st code with
    | none => none
    | some (st1, calls1) =>
      match held_key_action st1 code with
      | none => none
      | some (ret, st2, calls2) => some (ret, st2, calls1 ++ calls2)

/-- The initial overlay state: `held = HELD_NONE` and every slot zero-initialised,
that is `KEY_STATE_RELEASED`. -/
def overlay_init : overlay :=
  { held := HELD_NONE
    maps_capslock_key_state := fun _ => KEY_STATE_RELEASED
    maps_henkan_key_state := fun _ => KEY_STATE_RELEASED }

/-- Lines 919-930 of `atkbd_interrupt`: a call without `SERIO_WATAASH_DOING_ACTION`
goes through the overlay and stops (`goto out`) when the overlay consumed it; a call
carrying the flag skips the overlay.  Returns the new overlay state and the codes
that arrive at line 930 (the decoder proper), in order.  Every call made by `action`
carries the flag, so each of them arrives there with its `data`. -/
def atkbd_interrupt_overlay (wataash_atkbd_emacs : Nat) (st : overlay) (data flags : Nat) :
    Option (overlay × List Nat) :=
  if flags &&& SERIO_WATAASH_DOING_ACTION = 0 then
    match wataash_do_atkbd_emacs wataash_atkbd_emacs st data with
    | none => none
    | some (wataash_do_atkbd_emacs_consumed, st1, calls) => some (st1, calls.map Prod.fst)
    | some (wataash_do_atkbd_emacs_bypass, st1, calls) => some (st1, calls.map Prod.fst ++ [data])
  else some (st, [data])

/-- The loop of `wdev_atkbd_write` (`init/wataash_sandbox.c` lines 121-125) seen from
the overlay: the bytes are handed over one by one with `flags = 0`; returns the last
overlay state and all the calls made by `action`, in order. -/
def overlay_run (wataash_atkbd_emacs : Nat) : overlay → List Nat → Option (overlay × List (Nat × Nat))
  | st, [] => some (st, [])
  | st, data :: rest =>
    match wataash_do_atkbd_emacs wataash_atkbd_emacs st data with
    | none => none
    | some (_, st1, calls) =>
      match overlay_run wataash_atkbd_emacs st1 rest with
      | none => none
      | some (st2, calls2) => some (st2, calls ++ calls2)

/-! ## Specification-side definitions -/

/-- The state invariant of the overlay: a slot whose `key` is `NULL` (no table entry)
is in `KEY_STATE_RELEASED`.  It holds initially and every step keeps it; in a state
violating it the C code would hand a `NULL` array to `action`. -/
def overlay_wf (st : overlay) : Prop :=
  ∀ i, i < 0x80 →
    ((maps_capslock i).key = none → st.maps_capslock_key_state i = KEY_STATE_RELEASED) ∧
    ((maps_henkan i).key = none → st.maps_henkan_key_state i = KEY_STATE_RELEASED)

/-- Following the spec's words for a trigger release: for every slot of the table
that is in state pressing, in ascending scancode order, the calls that replay its
release action sequence. -/
def pressing_release_calls (maps : Nat → key_map) (ks : Nat → key_state) : List (Nat × Nat) :=
  (List.range 0x80).flatMap fun i =>
    if ks i = KEY_STATE_PRESSING then (action (maps i).release_action_codes).getD [] else []

/-- An example state: CapsLock held and key "a" (slot `0x1e`) pressing. -/
def overlay_caps_a_pressing : overlay :=
  { held := HELD_CAPSLOCK
    maps_capslock_key_state := fun i => if i = 0x1e then KEY_STATE_PRESSING else KEY_STATE_RELEASED
    maps_henkan_key_state := fun _ => KEY_STATE_RELEASED }

/-- An example state: no modifier held and key "a" (slot `0x1e`) of `maps_capslock`
modifier-released, as after the bytes 0x3a, 0x1e, 0xba. -/
def overlay_caps_a_modifier_released : overlay :=
  { held := HELD_NONE
    maps_capslock_key_state := fun i =>
      if i = 0x1e then KEY_STATE_MODIFIER_RELEASED else KEY_STATE_RELEASED
    maps_henkan_key_state := fun _ => KEY_STATE_RELEASED }

/-! ## The decoder: constants and data model -/

def ATKBD_KEYMAP_SIZE : Nat := 512

def ATKBD_RET_ACK : Nat := 0xfa
def ATKBD_RET_NAK : Nat := 0xfe
def ATKBD_RET_BAT : Nat := 0xaa
def ATKBD_RET_EMUL0 : Nat := 0xe0
def ATKBD_RET_EMUL1 : Nat := 0xe1
def ATKBD_RET_RELEASE : Nat := 0xf0
def ATKBD_RET_HANJA : Nat := 0xf1
def ATKBD_RET_HANGEUL : Nat := 0xf2
def ATKBD_RET_ERR : Nat := 0xff

def ATKBD_KEY_UNKNOWN : Nat := 0
def ATKBD_KEY_NULL : Nat := 255

def ATKBD_SCR_1 : Nat := 0xfffe
def ATKBD_SCR_2 : Nat := 0xfffd
def ATKBD_SCR_4 : Nat := 0xfffc
def ATKBD_SCR_8 : Nat := 0xfffb
def ATKBD_SCR_CLICK : Nat := 0xfffa
def ATKBD_SCR_LEFT : Nat := 0xfff9
def ATKBD_SCR_RIGHT : Nat := 0xfff8

/-- The flags `SERIO_TIMEOUT`, `SERIO_PARITY`, `SERIO_FRAME`, with the values that the
`static_assert`s of lines 587-589 fix. -/
def SERIO_TIMEOUT : Nat := 1
def SERIO_PARITY : Nat := 2
def SERIO_FRAME : Nat := 4

/-- Modelled from the spec: the constants `PS2_FLAG_ACK`, `PS2_FLAG_CMD` of libps2 and
`KEY_HANGEUL`, `KEY_HANJA`, `BTN_MIDDLE` of the input event codes, whose headers are
not under src/. -/
def PS2_FLAG_ACK : Nat := 1
def PS2_FLAG_CMD : Nat := 2
def KEY_HANGEUL : Nat := 122
def KEY_HANJA : Nat := 123
def BTN_MIDDLE : Nat := 0x112

/-- The pairs `(keycode, set2)` of `atkbd_scroll_keys` (lines 185-196). -/
def atkbd_scroll_keys : List (Nat × Nat) :=
  [(ATKBD_SCR_1, 0xc5), (ATKBD_SCR_2, 0x9d), (ATKBD_SCR_4, 0xa4), (ATKBD_SCR_8, 0x9b),
   (ATKBD_SCR_CLICK, 0xe0), (ATKBD_SCR_LEFT, 0xcb), (ATKBD_SCR_RIGHT, 0xd2)]

/-- The table `xl_table` (lines 331-334). -/
def xl_table : List Nat :=
  [ATKBD_RET_BAT, ATKBD_RET_ERR, ATKBD_RET_ACK, ATKBD_RET_NAK, ATKBD_RET_HANJA,
   ATKBD_RET_HANGEUL]

/-- What the decoder does to its collaborators, in call order: the calls into the
input core (`input_event`, `input_report_key`, `input_report_rel`, `input_sync`), into
serio (`serio_write`, `serio_reconnect`) and the "Unknown key" warning.
`input_report_key(dev, k, v)` is `input_event(dev, EV_KEY, k, !!v)`.  The rate-limited
"Spurious ACK" warning and `pm_wakeup_event` are not recorded. -/
inductive effect where
  | input_event_msc_raw (code : Nat)
  | input_event_msc_scan (code : Nat)
  | input_event_key (keycode : Nat) (value : Nat)
  | input_report_rel_wheel (value : Int)
  | input_report_rel_hwheel (value : Int)
  | input_sync
  | serio_write_resend
  | serio_reconnect
  | dev_warn_unknown_key (code : Nat)
  deriving DecidableEq, Repr

/-- The fields of `struct atkbd` (lines 202-240) that `atkbd_interrupt` and
`atkbd_set_keycode_table` use; `keycode[512]` and the bitmap `force_release_mask` are
functions of the index.  With them: `ps2dev_flags`, the field `flags` of the embedded
`struct ps2dev`, and `dev_key`, the bitmap `key` of the input device `atkbd->dev`. -/
structure atkbd where
  keycode : Nat → Nat
  force_release_mask : Nat → Bool
  set : Nat
  translated : Bool
  write : Bool
  softrepeat : Bool
  scroll : Bool
  enabled : Bool
  emul : Nat
  resend : Bool
  release : Bool
  xl_bit : Nat
  last : Nat
  time : Nat
  err_count : Nat
  ps2dev_flags : Nat
  dev_key : Nat → Bool

/-- What `atkbd_interrupt` reads from outside `struct atkbd` when a byte arrives: the
global `wataash_atkbd_emacs`, whether the build is for `__i386__` / `__x86_64__`
(lines 894-904 are compiled only otherwise), `jiffies`,
`msecs_to_jiffies(dev->rep[REP_DELAY])`, the two libps2 handlers (not under src/:
from `ps2dev.flags` and the byte to "handled" and the new `ps2dev.flags`), and the
function pointer `atkbd_platform_scancode_fixup` (`none` is `NULL`). -/
structure platform where
  wataash_atkbd_emacs : Nat
  arch_x86 : Bool
  jiffies : Nat
  rep_delay_jiffies : Nat
  ps2_handle_ack : Nat → Nat → Bool × Nat
  ps2_handle_response : Nat → Nat → Bool × Nat
  atkbd_platform_scancode_fixup : Option (atkbd → Nat → atkbd × Nat)

/-! ## The decoder: helper functions -/

/-- The macro `__set_bit(i, &x)` on an `unsigned long`. -/
def set_bit (i x : Nat) : Nat := x ||| (1 <<< i)

/-- The macro `__clear_bit(i, &x)` on an `unsigned long` (64 bits). -/
def clear_bit (i x : Nat) : Nat := x &&& (0xFFFFFFFFFFFFFFFF ^^^ (1 <<< i))

/-- The macro `test_bit(i, &x)`. -/
def test_bit (i x : Nat) : Bool := x.testBit i

/-- The macro `time_before(a, b)`, `(long)(a - b) < 0` on 64-bit `unsigned long`. -/
def time_before (a b : Nat) : Bool :=
  decide ((a % 2 ^ 64 + 2 ^ 64 - b % 2 ^ 64) % 2 ^ 64 ≥ 2 ^ 63)

/-- The loop of `atkbd_need_xlate` (lines 347-349) from index `i`. -/
def atkbd_need_xlate_loop (xl_bit code : Nat) : List Nat → Nat → Bool
  | [], _ => true
  | x :: rest, i =>
    if code = x then test_bit i xl_bit else atkbd_need_xlate_loop xl_bit code rest (i + 1)

/-- The function `atkbd_need_xlate` (lines 340-352); `code` is an `unsigned char`. -/
def atkbd_need_xlate (xl_bit : Nat) (code : Nat) : Bool :=
  if code % 256 = ATKBD_RET_EMUL0 ∨ code % 256 = ATKBD_RET_EMUL1 then false
  else atkbd_need_xlate_loop xl_bit (code % 256) xl_table 0

/-- The loop of `atkbd_calculate_xl_bit` (lines 363-371) from index `i`, on the value
of `atkbd->xl_bit`. -/
def atkbd_calculate_xl_bit_loop (code xl_bit : Nat) : List Nat → Nat → Nat
  | [], _ => xl_bit
  | x :: rest, i =>
    if (code ^^^ x) &&& 0x7f = 0 then
      if code &&& 0x80 ≠ 0 then clear_bit i xl_bit else set_bit i xl_bit
    else atkbd_calculate_xl_bit_loop code xl_bit rest (i + 1)

/-- The function `atkbd_calculate_xl_bit` (lines 359-372); `code` is an
`unsigned char`. -/
def atkbd_calculate_xl_bit (a : atkbd) (code : Nat) : atkbd :=
  { a with xl_bit := atkbd_calculate_xl_bit_loop (code % 256) a.xl_bit xl_table 0 }

/-- The function `atkbd_compat_scancode` (lines 378-390). -/
def atkbd_compat_scancode (a : atkbd) (code : Nat) : Nat :=
  if a.set = 3 then
    if a.emul = 1 then code ||| 0x100 else code
  else
    if a.emul = 1 then ((code &&& 0x7f) ||| ((code &&& 0x80) <<< 1)) ||| 0x80
    else (code &&& 0x7f) ||| ((code &&& 0x80) <<< 1)

/-- The function `atkbd_oqo_01plus_scancode_fixup` (lines 1510-1520). -/
def atkbd_oqo_01plus_scancode_fixup (a : atkbd) (code : Nat) : atkbd × Nat :=
  if a.translated = true ∧ a.emul = 1 ∧ (code = 0x64 ∨ code = 0x65 ∨ code = 0x66) then
    ({ a with emul := 0 }, code ||| 0x80)
  else (a, code)

/-- Modelled from the spec: the host event bus keeps, for every key, whether it was
last reported down; this is the bitmap `dev->key` that line 1025 reads, kept by the
input core (not under src/): a key event with value 0 clears the bit, value 1 sets
it, value 2 (repeat) leaves it. -/
def input_core_key (dev_key : Nat → Bool) (keycode value : Nat) : Nat → Bool :=
  if value = 0 then Function.update dev_key keycode false
  else if value = 1 then Function.update dev_key keycode true
  else dev_key
/-- The explicit initialisers of `atkbd_set2_keycode[ATKBD_KEYMAP_SIZE]` (lines 87-105,
the branch without `CONFIG_KEYBOARD_ATKBD_HP_KEYCODES`); the remaining elements of
the 512 are zero. -/
def atkbd_set2_keycode : List Nat :=
  [0,  67,  65,  63,  61,  59,  60,  88,   0,  68,  66,  64,  62,  15,  41, 117,
     0,  56,  42,  93,  29,  16,   2,   0,   0,   0,  44,  31,  30,  17,   3,   0,
     0,  46,  45,  32,  18,   5,   4,  95,   0,  57,  47,  33,  20,  19,   6, 183,
     0,  49,  48,  35,  34,  21,   7, 184,   0,   0,  50,  36,  22,   8,   9, 185,
     0,  51,  37,  23,  24,  11,  10,   0,   0,  52,  53,  38,  39,  25,  12,   0,
     0,  89,  40,   0,  26,  13,   0,   0,  58,  54,  28,  27,   0,  43,   0,  85,
     0,  86,  91,  90,  92,   0,  14,  94,   0,  79, 124,  75,  71, 121,   0,   0,
    82,  83,  80,  76,  77,  72,   1,  69,  87,  78,  81,  74,  55,  73,  70,  99,
     0,   0,   0,   0,   0,   0,   0,   0,   0,   0,   0,   0,   0,   0,   0,   0,
   217, 100, 255,   0,  97, 165,   0,   0, 156,   0,   0,   0,   0,   0,   0, 125,
   173, 114,   0, 113,   0,   0,   0, 126, 128,   0,   0, 140,   0,   0,   0, 127,
   159,   0, 115,   0, 164,   0,   0, 116, 158,   0, 172, 166,   0,   0,   0, 142,
   157,   0,   0,   0,   0,   0,   0,   0, 155,   0,  98,   0,   0, 163,   0,   0,
   226,   0,   0,   0,   0,   0,   0,   0,   0, 255,  96,   0,   0,   0, 143,   0,
     0,   0,   0,   0,   0,   0,   0,   0,   0, 107,   0, 105, 102,   0,   0, 112,
   110, 111, 108, 112, 106, 103,   0, 119,   0, 118, 109,   0,  99, 104, 119,   0,
     0,   0,   0,  65,  99]

/-- The explicit initialisers of `atkbd_set3_keycode[ATKBD_KEYMAP_SIZE]` (lines 111-122);
the remaining elements of the 512 are zero. -/
def atkbd_set3_keycode : List Nat :=
  [0,   0,   0,   0,   0,   0,   0,  59,   1, 138, 128, 129, 130,  15,  41,  60,
   131,  29,  42,  86,  58,  16,   2,  61, 133,  56,  44,  31,  30,  17,   3,  62,
   134,  46,  45,  32,  18,   5,   4,  63, 135,  57,  47,  33,  20,  19,   6,  64,
   136,  49,  48,  35,  34,  21,   7,  65, 137, 100,  50,  36,  22,   8,   9,  66,
   125,  51,  37,  23,  24,  11,  10,  67, 126,  52,  53,  38,  39,  25,  12,  68,
   113, 114,  40,  43,  26,  13,  87,  99,  97,  54,  28,  27,  43,  43,  88,  70,
   108, 105, 119, 103, 111, 107,  14, 110,   0,  79, 106,  75,  71, 109, 102, 104,
    82,  83,  80,  76,  77,  72,  69,  98,   0,  96,  81,   0,  78,  73,  55, 183,
   184, 185, 186, 187,  74,  94,  92,  93,   0,   0,   0, 125, 126, 127, 112,   0,
     0, 139, 172, 163, 165, 115, 152, 172, 166, 140, 160, 154, 113, 114, 167, 168,
   148, 149, 147, 140]

/-- The table `atkbd_unxlate_table[128]` (lines 125-134). -/
def atkbd_unxlate_table : List Nat :=
  [0, 118,  22,  30,  38,  37,  46,  54,  61,  62,  70,  69,  78,  85, 102,  13,
    21,  29,  36,  45,  44,  53,  60,  67,  68,  77,  84,  91,  90,  20,  28,  27,
    35,  43,  52,  51,  59,  66,  75,  76,  82,  14,  18,  93,  26,  34,  33,  42,
    50,  49,  58,  65,  73,  74,  89, 124,  17,  41,  88,   5,   6,   4,  12,   3,
    11,   2,  10,   1,   9, 119, 126, 108, 117, 125, 123, 107, 115, 116, 121, 105,
   114, 122, 112, 113, 127,  96,  97, 120,   7,  15,  23,  31,  39,  47,  55,  63,
    71,  79,  86,  94,   8,  16,  24,  32,  40,  48,  56,  64,  72,  80,  87, 111,
    19,  25,  57,  81,  83,  92,  95,  98,  99, 100, 101, 103, 104, 106, 109, 110]

/-! ## The decoder: `atkbd_interrupt` -/

/-- Lines 892-917 of `atkbd_interrupt`: the resend request on a frame or parity error
(not on x86 builds), the libps2 handshake and the `enabled` test.  The last component
is `false` when the function left through `goto out`. -/
def atkbd_interrupt_head (p : platform) (a : atkbd) (data flags : Nat) :
    atkbd × List effect × Bool :=
  if p.arch_x86 = false ∧ flags &&& (SERIO_FRAME ||| SERIO_PARITY) ≠ 0 ∧
      flags &&& SERIO_TIMEOUT = 0 ∧ a.resend = false ∧ a.write = true then
    ({ a with resend := true }, [effect.serio_write_resend], false)
  else
    let a1 : atkbd :=
      if p.arch_x86 = false ∧ flags = 0 ∧ data = ATKBD_RET_ACK then { a with resend := false }
      else a
    let ack : Bool × Nat :=
      if a1.ps2dev_flags &&& PS2_FLAG_ACK ≠ 0 then p.ps2_handle_ack a1.ps2dev_flags data
      else (false, a1.ps2dev_flags)
    let a2 : atkbd := { a1 with ps2dev_flags := ack.2 }
    if ack.1 = true then (a2, [], false)
    else
      let cmd : Bool × Nat :=
        if a2.ps2dev_flags &&& PS2_FLAG_CMD ≠ 0 then p.ps2_handle_response a2.ps2dev_flags data
        else (false, a2.ps2dev_flags)
      let a3 : atkbd := { a2 with ps2dev_flags := cmd.2 }
      if cmd.1 = true then (a3, [], false)
      else if a3.enabled = false then (a3, [], false)
      else (a3, [], true)

/-- Lines 935-944 of `atkbd_interrupt`: in translated mode, take the release bit out
of the byte when `atkbd->emul` is set or `atkbd_need_xlate` says so, then recompute
`xl_bit` from the original byte `data` when `atkbd->emul` is 0. -/
def atkbd_unmangle (a : atkbd) (code data : Nat) : atkbd × Nat :=
  if a.translated = true then
    if a.emul ≠ 0 ∨ atkbd_need_xlate a.xl_bit code = true then
      if a.emul = 0 then
        (atkbd_calculate_xl_bit { a with release := decide (code >>> 7 ≠ 0) } data, code &&& 0x7f)
      else ({ a with release := decide (code >>> 7 ≠ 0) }, code &&& 0x7f)
    else
      if a.emul = 0 then (atkbd_calculate_xl_bit a data, code) else (a, code)
  else (a, code)

/-- Lines 932-933 of `atkbd_interrupt`: the call through the function pointer
`atkbd_platform_scancode_fixup` when it is not `NULL`. -/
def atkbd_fixup (p : platform) (a : atkbd) (code : Nat) : atkbd × Nat :=
  match p.atkbd_platform_scancode_fixup with
  | none => (a, code)
  | some fixup => fixup a code

/-- Lines 946-978 of `atkbd_interrupt`: the `switch` on the protocol codes, then
`atkbd_compat_scancode` and the countdown of `atkbd->emul`.  The last component is
the composed scancode when the function goes on to the key lookup of line 980,
`none` when it left through `goto out`. -/
def atkbd_switch (a : atkbd) (code : Nat) : atkbd × List effect × Option Nat :=
  if code = ATKBD_RET_BAT then
    ({ a with enabled := false }, [effect.serio_reconnect], none)
  else if code = ATKBD_RET_EMUL0 then ({ a with emul := 1 }, [], none)
  else if code = ATKBD_RET_EMUL1 then ({ a with emul := 2 }, [], none)
  else if code = ATKBD_RET_RELEASE then ({ a with release := true }, [], none)
  else if code = ATKBD_RET_ACK ∨ code = ATKBD_RET_NAK then (a, [], none)
  else if code = ATKBD_RET_ERR then
    ({ a with err_count := (a.err_count + 1) % 2 ^ 64 }, [], none)
  else if a.emul ≠ 0 then
    if a.emul - 1 ≠ 0 then ({ a with emul := a.emul - 1 }, [], none)
    else ({ a with emul := a.emul - 1 }, [], some (atkbd_compat_scancode a code))
  else (a, [], some (atkbd_compat_scancode a code))

/-- Lines 930-978 of `atkbd_interrupt`: the raw-scancode event, the platform scancode
fixup, the unmangling (which recomputes `xl_bit` from the original byte `data`), and
the `switch` with what follows it up to the key lookup. -/
def atkbd_scancode (p : platform) (a : atkbd) (data : Nat) :
    atkbd × List effect × Option Nat :=
  let f := atkbd_fixup p a data
  let u := atkbd_unmangle f.1 f.2 data
  let s := atkbd_switch u.1 u.2
  (s.1, effect.input_event_msc_raw data :: s.2.1, s.2.2)

/-- Lines 1021-1042 of `atkbd_interrupt`, the `default` case of the `switch` on the
keycode: the value of the key event (0 release, 1 press, 2 repeat), the event, and the
release that follows at once when the scancode is in `force_release_mask`. -/
def atkbd_report_key (p : platform) (a : atkbd) (code keycode : Nat) : atkbd × List effect :=
  let v : Nat × atkbd :=
    if a.release = true then (0, { a with last := 0 })
    else if a.softrepeat = false ∧ a.dev_key keycode = true then
      ((if time_before p.jiffies a.time = true ∧ a.last = code then 1 else 2), a)
    else (1, { a with last := code, time := (p.jiffies + p.rep_delay_jiffies / 2) % 2 ^ 64 })
  let a1 : atkbd := { v.2 with dev_key := input_core_key v.2.dev_key keycode v.1 }
  if v.1 ≠ 0 ∧ a1.force_release_mask code = true then
    ({ a1 with dev_key := input_core_key a1.dev_key keycode 0 },
      [effect.input_event_key keycode v.1, effect.input_sync,
       effect.input_event_msc_scan code, effect.input_event_key keycode 0, effect.input_sync])
  else (a1, [effect.input_event_key keycode v.1, effect.input_sync])

/-- Lines 986-1042 of `atkbd_interrupt`, the `switch` on the keycode: the new state,
the calls made, and the locals `scroll`, `hscroll`, `click`. -/
def atkbd_report_switch (p : platform) (a : atkbd) (code keycode : Nat) :
    atkbd × List effect × Int × Int × Int :=
  if keycode = ATKBD_KEY_NULL then (a, [], 0, 0, -1)
  else if keycode = ATKBD_KEY_UNKNOWN then
    (a, [effect.dev_warn_unknown_key code, effect.input_sync], 0, 0, -1)
  else if keycode = ATKBD_SCR_1 then (a, [], 1, 0, -1)
  else if keycode = ATKBD_SCR_2 then (a, [], 2, 0, -1)
  else if keycode = ATKBD_SCR_4 then (a, [], 4, 0, -1)
  else if keycode = ATKBD_SCR_8 then (a, [], 8, 0, -1)
  else if keycode = ATKBD_SCR_CLICK then (a, [], 0, 0, if a.release = true then 0 else 1)
  else if keycode = ATKBD_SCR_LEFT then (a, [], 0, -1, -1)
  else if keycode = ATKBD_SCR_RIGHT then (a, [], 0, 1, -1)
  else
    let r := atkbd_report_key p a code keycode
    (r.1, r.2, 0, 0, -1)

/-- Lines 980-1053 of `atkbd_interrupt`: the key lookup, the scancode event, the
`switch` on the keycode, the scroll block and the reset of `atkbd->release`. -/
def atkbd_report (p : platform) (a : atkbd) (code : Nat) : atkbd × List effect :=
  let keycode := a.keycode code
  let scan : List effect :=
    if ¬ (a.release = true ∧ a.force_release_mask code = true) ∧ keycode ≠ ATKBD_KEY_NULL then
      [effect.input_event_msc_scan code]
    else []
  let s := atkbd_report_switch p a code keycode
  let a1 := s.1
  let scroll := s.2.2.1
  let hscroll := s.2.2.2.1
  let click := s.2.2.2.2
  if a1.scroll = true then
    let middle : List effect :=
      if click ≠ -1 then [effect.input_event_key BTN_MIDDLE click.toNat] else []
    ({ a1 with release := false,
               dev_key := if click ≠ -1 then input_core_key a1.dev_key BTN_MIDDLE click.toNat
                          else a1.dev_key },
      scan ++ s.2.1 ++ middle ++
        [effect.input_report_rel_wheel (if a1.release = true then -scroll else scroll),
         effect.input_report_rel_hwheel hscroll, effect.input_sync])
  else ({ a1 with release := false }, scan ++ s.2.1)

/-- Lines 930-1056 of `atkbd_interrupt`: the decoder proper, which no longer reads
`flags`. -/
def atkbd_decode (p : platform) (a : atkbd) (data : Nat) : atkbd × List effect :=
  match atkbd_scancode p a data with
  | (a1, out1, none) => (a1, out1)
  | (a1, out1, some code) => ((atkbd_report p a1 code).1, out1 ++ (atkbd_report p a1 code).2)

/-- The function `atkbd_interrupt` without the overlay stage of lines 919-928: what a
call does when the overlay is skipped. -/
def atkbd_interrupt_decoder (p : platform) (a : atkbd) (data flags : Nat) :
    atkbd × List effect :=
  match atkbd_interrupt_head p a data flags with
  | (a1, out1, false) => (a1, out1)
  | (a1, out1, true) => ((atkbd_decode p a1 data).1, out1 ++ (atkbd_decode p a1 data).2)

/-- The calls `atkbd_interrupt(serio, code, SERIO_WATAASH_DOING_ACTION)` made by
`action`, one after the other on the decoder state.  Each carries the marker, so each
takes the `else` branch of line 925 and skips the overlay. -/
def atkbd_replay (p : platform) : atkbd → List (Nat × Nat) → atkbd × List effect
  | a, [] => (a, [])
  | a, call :: rest =>
    ((atkbd_replay p (atkbd_interrupt_decoder p a call.1 call.2).1 rest).1,
     (atkbd_interrupt_decoder p a call.1 call.2).2 ++
       (atkbd_replay p (atkbd_interrupt_decoder p a call.1 call.2).1 rest).2)

/-- The function `atkbd_interrupt` (lines 882-1056) on the overlay state and the
decoder state: lines 892-917, then the overlay for a call without
`SERIO_WATAASH_DOING_ACTION` (its replayed calls run before it returns; a consumed
byte stops here), then the decoder proper.  `none` is a fault of the overlay. -/
def atkbd_interrupt (p : platform) (ov : overlay) (a : atkbd) (data flags : Nat) :
    Option (overlay × atkbd × List effect) :=
  match atkbd_interrupt_head p a data flags with
  | (a1, out1, false) => some (ov, a1, out1)
  | (a1, out1, true) =>
    if flags &&& SERIO_WATAASH_DOING_ACTION = 0 then
      match wataash_do_atkbd_emacs p.wataash_atkbd_emacs ov data with
      | none => none
      | some (wataash_do_atkbd_emacs_consumed, ov1, calls) =>
        some (ov1, (atkbd_replay p a1 calls).1, out1 ++ (atkbd_replay p a1 calls).2)
      | some (wataash_do_atkbd_emacs_bypass, ov1, calls) =>
        some (ov1, (atkbd_decode p (atkbd_replay p a1 calls).1 data).1,
              out1 ++ (atkbd_replay p a1 calls).2 ++
                (atkbd_decode p (atkbd_replay p a1 calls).1 data).2)
    else some (ov, (atkbd_decode p a1 data).1, out1 ++ (atkbd_decode p a1 data).2)

/-- Bytes arriving one after the other, each with its flags and with what the
platform shows at that moment; `wdev_atkbd_write` (`init/wataash_sandbox.c` lines
121-125) is the case where every `flags` is 0. -/
def atkbd_interrupt_seq :
    overlay → atkbd → List (platform × Nat × Nat) → Option (overlay × atkbd × List effect)
  | ov, a, [] => some (ov, a, [])
  | ov, a, (p, data, flags) :: rest =>
    match atkbd_interrupt p ov a data flags with
    | none => none
    | some (ov1, a1, out1) =>
      match atkbd_interrupt_seq ov1 a1 rest with
      | none => none
      | some (ov2, a2, out2) => some (ov2, a2, out1 ++ out2)

/-- The key events among the calls made: the pairs `(keycode, value)` of the
`EV_KEY` events, in order. -/
def key_events : List effect → List (Nat × Nat)
  | [] => []
  | effect.input_event_key keycode value :: rest => (keycode, value) :: key_events rest
  | _ :: rest => key_events rest

/-! ## The keycode table set-up -/

/-- The macro `SCANCODE(keymap)` (line 68). -/
def SCANCODE (keymap : Nat) : Nat := (keymap >>> 16) &&& 0xFFFF

/-- The macro `KEYCODE(keymap)` (line 69). -/
def KEYCODE (keymap : Nat) : Nat := keymap &&& 0xFFFF

/-- The loop of lines 1545-1549 on the table.  Line 1548 writes
`atkbd->keycode[scancode]`, an array of `ATKBD_KEYMAP_SIZE` elements, and `scancode`,
16 bits of the property element, is not checked against that size: `none` is a write
outside the array, a fault (what it overwrites depends on the memory layout). -/
def atkbd_get_keymap_loop : List Nat → (Nat → Nat) → Option (Nat → Nat)
  | [], keycode => some keycode
  | x :: rest, keycode =>
    if SCANCODE x < ATKBD_KEYMAP_SIZE then
      atkbd_get_keymap_loop rest (Function.update keycode (SCANCODE x) (KEYCODE x))
    else none

/-- The function `atkbd_get_keymap_from_fwnode` (lines 1522-1553) on the zeroed table:
`fw` is the content of the device property "linux,keymap", `none` when it is missing
or cannot be read or copied.  The result is `none` on a fault (a write outside
`keycode[512]`, line 1548), `some none` on an error return, which leaves the table as
it was, and `some (some keycode)` with the new table on the return of 0. -/
def atkbd_get_keymap_from_fwnode (fw : Option (List Nat)) : Option (Option (Nat → Nat)) :=
  match fw with
  | none => some none
  | some ptr =>
    if ptr.length = 0 ∨ ptr.length > ATKBD_KEYMAP_SIZE then some none
    else
      match atkbd_get_keymap_loop ptr (fun _ => 0) with
      | none => none
      | some keycode => some (some keycode)

/-- The inner loop over `atkbd_scroll_keys` of lines 1575-1578, on the value of
`atkbd->keycode[i | 0x80]`. -/
def atkbd_scroll_override (scancode : Nat) : Nat → List (Nat × Nat) → Nat
  | keycode, [] => keycode
  | keycode, (scr, set2) :: rest =>
    atkbd_scroll_override scancode (if scancode ||| 0x80 = set2 then scr else keycode) rest

/-- The loop of lines 1571-1579 (translated mode) from index `i` with `n` iterations
left. -/
def atkbd_translated_loop (scroll : Bool) : Nat → Nat → (Nat → Nat) → (Nat → Nat)
  | 0, _, keycode => keycode
  | n + 1, i, keycode =>
    atkbd_translated_loop scroll n (i + 1)
      (Function.update
        (Function.update keycode i (atkbd_set2_keycode.getD (atkbd_unxlate_table.getD i 0) 0))
        (i ||| 0x80)
        (if scroll = true then
          atkbd_scroll_override (atkbd_unxlate_table.getD i 0)
            (atkbd_set2_keycode.getD (atkbd_unxlate_table.getD i 0 ||| 0x80) 0)
            atkbd_scroll_keys
         else atkbd_set2_keycode.getD (atkbd_unxlate_table.getD i 0 ||| 0x80) 0))

/-- Lines 1566-1567 and 1569-1610 of `atkbd_set_keycode_table`, from what the call of
`atkbd_get_keymap_from_fwnode` at line 1569 gave: `keymap` is the table it left on
the return of 0, `none` on an error return.  `atkbd_platform_fixup` is the function
pointer of that name with its data applied (`none` is `NULL`). -/
def atkbd_set_keycode_table_rest (keymap : Option (Nat → Nat))
    (atkbd_platform_fixup : Option (atkbd → atkbd)) (a : atkbd) : atkbd :=
  let a1 : atkbd :=
    { a with
      force_release_mask := fun _ => false
      keycode :=
        match keymap with
        | some keycode => keycode
        | none =>
          if a.translated = true then atkbd_translated_loop a.scroll 128 0 (fun _ => 0)
          else if a.set = 3 then fun i => atkbd_set3_keycode.getD i 0
          else if a.scroll = true then
            atkbd_scroll_keys.foldl (fun keycode k => Function.update keycode k.2 k.1)
              (fun i => atkbd_set2_keycode.getD i 0)
          else fun i => atkbd_set2_keycode.getD i 0 }
  let a2 : atkbd :=
    { a1 with
      keycode := Function.update a1.keycode (atkbd_compat_scancode a1 ATKBD_RET_HANGEUL)
        KEY_HANGEUL
      force_release_mask := Function.update a1.force_release_mask
        (atkbd_compat_scancode a1 ATKBD_RET_HANGEUL) true }
  let a3 : atkbd :=
    { a2 with
      keycode := Function.update a2.keycode (atkbd_compat_scancode a2 ATKBD_RET_HANJA) KEY_HANJA
      force_release_mask := Function.update a2.force_release_mask
        (atkbd_compat_scancode a2 ATKBD_RET_HANJA) true }
  match atkbd_platform_fixup with
  | none => a3
  | some fixup => fixup a3

/-- The function `atkbd_set_keycode_table` (lines 1560-1610).  `fw` is the firmware
keymap property, `atkbd_platform_fixup` the function pointer of that name with its
data applied (`none` is `NULL`).  `none` is the fault of
`atkbd_get_keymap_from_fwnode`, a write outside `keycode[512]`. -/
def atkbd_set_keycode_table (fw : Option (List Nat))
    (atkbd_platform_fixup : Option (atkbd → atkbd)) (a : atkbd) : Option atkbd :=
  match atkbd_get_keymap_from_fwnode fw with
  | none => none
  | some keymap => some (atkbd_set_keycode_table_rest keymap atkbd_platform_fixup a)

/-! ## Example decoder states -/

/-- An idle decoder in translated mode with the default keycode table, the one that
`atkbd_set_keycode_table` builds without firmware keymap: enabled, no command in
flight, emulation depth 0, no release pending, `xl_bit` clear, every key up. -/
def atkbd_idle_translated : atkbd :=
  atkbd_set_keycode_table_rest none none
    { keycode := fun _ => 0
      force_release_mask := fun _ => false
      set := 2
      translated := true
      write := true
      softrepeat := false
      scroll := false
      enabled := true
      emul := 0
      resend := false
      release := false
      xl_bit := 0
      last := 0
      time := 0
      err_count := 0
      ps2dev_flags := 0
      dev_key := fun _ => false }

/-- An example platform: x86 build, overlay enabled, no scancode fixup installed, the
default repeat delay of 250 jiffies-milliseconds; the libps2 handlers (never called
while no command is in flight) handle nothing. -/
def platform_x86 : platform :=
  { wataash_atkbd_emacs := 1
    arch_x86 := true
    jiffies := 1000
    rep_delay_jiffies := 250
    ps2_handle_ack := fun flags _ => (false, flags)
    ps2_handle_response := fun flags _ => (false, flags)
    atkbd_platform_scancode_fixup := none }

/-- Following the words of the round-trip property: the codes are read as translated
scancodes, where 0xe0 marks the next code as an extended key, the high bit means
release and the low seven bits name the key.  Returns the keys left down after the
codes, starting from the keys `down`; `none` when a key is released that is not
down. -/
def keys_left_down : List Nat → Bool → List (Bool × Nat) → Option (List (Bool × Nat))
  | [], _, down => some down
  | code :: rest, extended, down =>
    if code = 0xe0 then keys_left_down rest true down
    else if code &&& 0x80 = 0 then
      keys_left_down rest false
        (if (extended, code &&& 0x7f) ∈ down then down else (extended, code &&& 0x7f) :: down)
    else if (extended, code &&& 0x7f) ∈ down then
      keys_left_down rest false (down.erase (extended, code &&& 0x7f))
    else none

/-- Following the words of the round-trip property for one table entry: the press
action sequence followed by the release action sequence, as delivered by `action`
(separators dropped), leaves no key down and releases no key that is not down. -/
def round_trip (map : key_map) : Bool :=
  match action map.press_action_codes, action map.release_action_codes with
  | some press, some release =>
    decide (keys_left_down ((press ++ release).map Prod.fst) false [] = some [])
  | _, _ => false

/-- The two values of the pointer `atkbd_platform_scancode_fixup` that the source can
install: `NULL`, or `atkbd_oqo_01plus_scancode_fixup` (the only function of that
type). -/
def fixup_known (p : platform) : Prop :=
  p.atkbd_platform_scancode_fixup = none ∨
  p.atkbd_platform_scancode_fixup = some atkbd_oqo_01plus_scancode_fixup

/-- A keycode that is looked up as an ordinary key: neither `ATKBD_KEY_NULL`, nor
`ATKBD_KEY_UNKNOWN`, nor one of the seven scroll pseudo-keys, so that the `switch` of
line 986 takes its `default` case. -/
def ordinary_key (keycode : Nat) : Prop :=
  keycode ≠ ATKBD_KEY_NULL ∧ keycode ≠ ATKBD_KEY_UNKNOWN ∧ keycode ≠ ATKBD_SCR_1 ∧
  keycode ≠ ATKBD_SCR_2 ∧ keycode ≠ ATKBD_SCR_4 ∧ keycode ≠ ATKBD_SCR_8 ∧
  keycode ≠ ATKBD_SCR_CLICK ∧ keycode ≠ ATKBD_SCR_LEFT ∧ keycode ≠ ATKBD_SCR_RIGHT

instance (keycode : Nat) : Decidable (ordinary_key keycode) := by
  unfold ordinary_key
  infer_instance

/-! ## The repeat rate -/

/-- The array `period[32]` of `atkbd_set_repeat_rate` (lines 1060-1062). -/
def atkbd_repeat_period : List Int :=
  [33, 37, 42, 46, 50, 54, 58, 63, 67, 75, 83, 92, 100, 109, 116, 125,
   133, 149, 167, 182, 200, 217, 232, 250, 270, 303, 333, 370, 400, 435, 470, 500]

/-- The array `delay[4]` of `atkbd_set_repeat_rate` (lines 1063-1064). -/
def atkbd_repeat_delay : List Int := [250, 500, 750, 1000]

/-- The `while` loops of lines 1070-1071 and 1074-1075, on the part of the array that
starts at index `i`: the index advances while it is not the last one and the element
there is below `rep`. -/
def atkbd_repeat_index (rep : Int) : List Int → Nat → Nat
  | [], i => i
  | [_], i => i
  | x :: y :: rest, i => if x < rep then atkbd_repeat_index rep (y :: rest) (i + 1) else i

/-- The function `atkbd_set_repeat_rate` (lines 1058-1080) on `dev->rep[REP_PERIOD]`
and `dev->rep[REP_DELAY]`: their new values and the `unsigned char param` that is
handed to `ps2_command` with `ATKBD_CMD_SETREP` (libps2, not under src/; the function
returns what `ps2_command` returns). -/
def atkbd_set_repeat_rate (rep_period rep_delay : Int) : Int × Int × Nat :=
  (atkbd_repeat_period.getD (atkbd_repeat_index rep_period atkbd_repeat_period 0) 0,
   atkbd_repeat_delay.getD (atkbd_repeat_index rep_delay atkbd_repeat_delay 0) 0,
   (atkbd_repeat_index rep_period atkbd_repeat_period 0 |||
     (atkbd_repeat_index rep_delay atkbd_repeat_delay 0 <<< 5)) % 256)

/-! ## Further specification-side definitions -/

/-- The values of the enumerators of the `static enum` of `held` (lines 695-699):
`HELD_NONE` is also the size of the two arrays that `held` indexes at lines 815 and
820-823. -/
def held_mode_value : held_mode → Nat
  | HELD_CAPSLOCK => 0
  | HELD_HENKAN => 1
  | HELD_NONE => 2

/-- An invariant of the overlay states that genuine bytes reach from the initial
state: `overlay_wf`; no slot of `maps_henkan` is modifier-released (both
trigger-release branches pass `maps_capslock` to `release_modifier`); and while no
modifier is held no slot of `maps_capslock` is pressing. -/
def overlay_inv (st : overlay) : Prop :=
  overlay_wf st ∧
  (∀ i, i < 0x80 → st.maps_henkan_key_state i ≠ KEY_STATE_MODIFIER_RELEASED) ∧
  (st.held = HELD_NONE → ∀ i, i < 0x80 → st.maps_capslock_key_state i ≠ KEY_STATE_PRESSING)

/-- Following the words of the property on replayed action sequences: every call
finds the device enabled and passes lines 892-917 untouched, and its byte either is
the prefix 0xe0 at emulation depth 0, which the `switch` stops as such (the depth
becomes 1), or goes on to the key lookup with the scancode composed from its low
seven bits, bit 7 being the release flag. -/
def replay_reaches_lookup (p : platform) : atkbd → List (Nat × Nat) → Prop
  | _, [] => True
  | a, call :: rest =>
    a.enabled = true ∧
    atkbd_interrupt_head p a call.1 call.2 = (a, [], true) ∧
    ((call.1 = 0xe0 ∧ a.emul = 0 ∧ (atkbd_scancode p a call.1).2.2 = none ∧
        (atkbd_scancode p a call.1).1.emul = 1) ∨
     ((atkbd_scancode p a call.1).2.2 = some (atkbd_compat_scancode a (call.1 &&& 0x7f)) ∧
        (atkbd_scancode p a call.1).1.release = decide (call.1 &&& 0x80 ≠ 0))) ∧
    replay_reaches_lookup p (atkbd_interrupt_decoder p a call.1 call.2).1 rest

/-- A condition on the bytes of an action sequence alone that suffices for
`replay_reaches_lookup` in translated mode: `d` is the emulation depth and `m` a set
of bits known to be set in `xl_bit`.  At depth 0 the byte 0xe0 opens a prefix, a byte
below 0x80 goes through `atkbd_calculate_xl_bit`, and any other byte must be accepted
by `atkbd_need_xlate`, after which nothing is known of `xl_bit`; at depth 1 the byte
must not be one that the OQO fixup rewrites. -/
def action_bytes_ok : Nat → Nat → List Nat → Bool
  | d, _, [] => decide (d = 0)
  | d, m, c :: rest =>
    if d = 0 then
      if c = 0xe0 then action_bytes_ok 1 m rest
      else if c < 0x80 then
        action_bytes_ok 0 (atkbd_calculate_xl_bit_loop c m xl_table 0) rest
      else decide (c < 256) && atkbd_need_xlate m c && action_bytes_ok 0 0 rest
    else
      decide (d = 1) && decide (c < 256) && decide (c ≠ 0x64 ∧ c ≠ 0x65 ∧ c ≠ 0x66) &&
        action_bytes_ok 0 m rest

/-- The check `action_bytes_ok` on the calls that `action` makes for an array; an
array on which `action` faults fails it. -/
def action_codes_ok (action_codes : Option (List Nat)) : Bool :=
  match action action_codes with
  | none => false
  | some calls =>
    action_bytes_ok 0 0 (calls.map Prod.fst) &&
      calls.all fun c => decide (c.2 = SERIO_WATAASH_DOING_ACTION)

/-! ## Auxiliary lemmas -/

set_option maxRecDepth 100000 in
/-- On a byte, `code & ~0x80U` is `code & 0x7f`, an index inside both tables. -/
theorem base_index_of_byte :
    ∀ code, code < 256 → code &&& 0xFFFFFF7F = code &&& 0x7f ∧ code &&& 0x7f < 0x80 := by
  decide

set_option maxRecDepth 100000 in
/-- Every entry of `maps_capslock` has both action arrays, each terminated by `end`;
and no entry sits at the base scancode of a trigger. -/
theorem maps_capslock_entries :
    ∀ i, i < 0x80 → (maps_capslock i).key ≠ none →
      (action (maps_capslock i).press_action_codes).isSome = true ∧
      (action (maps_capslock i).release_action_codes).isSome = true ∧
      i ≠ 0x3a ∧ i ≠ 0x79 := by
  decide

set_option maxRecDepth 100000 in
/-- Every entry of `maps_henkan` has both action arrays, each terminated by `end`;
and no entry sits at the base scancode of a trigger. -/
theorem maps_henkan_entries :
    ∀ i, i < 0x80 → (maps_henkan i).key ≠ none →
      (action (maps_henkan i).press_action_codes).isSome = true ∧
      (action (maps_henkan i).release_action_codes).isSome = true ∧
      i ≠ 0x3a ∧ i ≠ 0x79 := by
  decide

theorem overlay_wf_init : overlay_wf overlay_init := by
  intro i _
  exact ⟨fun _ => rfl, fun _ => rfl⟩

/-- The loop of `release_modifier`, run over slots `i .. i + n - 1` whose pressing
slots all have a release array, returns: the pressing slots of that range become
modifier-released, and the calls are the replays in ascending order. -/
theorem release_modifier_loop_eq (maps : Nat → key_map) :
    ∀ (n i : Nat) (ks : Nat → key_state),
      (∀ j, i ≤ j → j < i + n → ks j = KEY_STATE_PRESSING →
        (action (maps j).release_action_codes).isSome = true) →
      release_modifier_loop maps n i ks =
        some (fun j => if (i ≤ j ∧ j < i + n) ∧ ks j = KEY_STATE_PRESSING
                then KEY_STATE_MODIFIER_RELEASED else ks j,
              (List.range' i n).flatMap fun j =>
                if ks j = KEY_STATE_PRESSING
                then (action (maps j).release_action_codes).getD [] else []) := by
  intro n
  induction n with
  | zero =>
    intro i ks _
    have e : (fun j => if (i ≤ j ∧ j < i + 0) ∧ ks j = KEY_STATE_PRESSING
        then KEY_STATE_MODIFIER_RELEASED else ks j) = ks := by
      funext j
      have : ¬ (i ≤ j ∧ j < i + 0) := by omega
      simp [this]
    rw [release_modifier_loop, e]
    rfl
  | succ n ih =>
    intro i ks h
    have hrest : ∀ ks1 : Nat → key_state, (∀ j, i + 1 ≤ j → ks1 j = ks j) →
        release_modifier_loop maps n (i + 1) ks1 =
          some (fun j => if (i + 1 ≤ j ∧ j < i + 1 + n) ∧ ks j = KEY_STATE_PRESSING
                  then KEY_STATE_MODIFIER_RELEASED else ks1 j,
                (List.range' (i + 1) n).flatMap fun j =>
                  if ks j = KEY_STATE_PRESSING
                  then (action (maps j).release_action_codes).getD [] else []) := by
      intro ks1 hks1
      rw [ih (i + 1) ks1]
      · congr 1
        congr 1
        · funext j
          by_cases hj : i + 1 ≤ j
          · simp [hks1 j hj]
          · simp [hj]
        · apply List.flatMap_congr
          intro j hj
          have : i + 1 ≤ j := by
            rcases List.mem_range'.1 hj with ⟨k, _, rfl⟩
            omega
          rw [hks1 j this]
      · intro j hj1 hj2 hp
        rw [hks1 j hj1] at hp
        exact h j (by omega) (by omega) hp
    rw [List.range'_succ, List.flatMap_cons]
    cases hs : ks i with
    | KEY_STATE_RELEASED =>
      rw [release_modifier_loop, hs]
      simp only []
      rw [hrest ks (fun _ _ => rfl)]
      congr 1
      congr 1
      · funext j
        by_cases hj : j = i
        · subst hj; simp [hs]
        · by_cases hj1 : i + 1 ≤ j
          · have : i ≤ j := by omega
            have e : (j < i + 1 + n) = (j < i + (n + 1)) := by
              apply propext; constructor <;> intro <;> omega
            simp [hj1, this, e]
          · have : ¬ i ≤ j := by omega
            simp [hj1, this]
    | KEY_STATE_PRESSING =>
      have hact := h i (le_refl i) (by omega) hs
      obtain ⟨calls, hcalls⟩ := Option.isSome_iff_exists.1 hact
      rw [release_modifier_loop, hs]
      simp only [hcalls]
      rw [hrest (Function.update ks i KEY_STATE_MODIFIER_RELEASED)
        (fun j hj => Function.update_noteq (by omega) _ _)]
      simp only [Option.getD_some, if_true]
      congr 1
      congr 1
      funext j
      by_cases hj : j = i
      · subst hj; simp [hs]
      · by_cases hj1 : i + 1 ≤ j
        · have : i ≤ j := by omega
          have e : (j < i + 1 + n) = (j < i + (n + 1)) := by
            apply propext; constructor <;> intro <;> omega
          simp [hj1, this, e, Function.update_noteq hj]
        · have : ¬ i ≤ j := by omega
          simp [hj1, this, Function.update_noteq hj]
    | KEY_STATE_MODIFIER_RELEASED =>
      rw [release_modifier_loop, hs]
      simp only []
      rw [hrest ks (fun _ _ => rfl)]
      congr 1
      congr 1
      · funext j
        by_cases hj : j = i
        · subst hj; simp [hs]
        · by_cases hj1 : i + 1 ≤ j
          · have : i ≤ j := by omega
            have e : (j < i + 1 + n) = (j < i + (n + 1)) := by
              apply propext; constructor <;> intro <;> omega
            simp [hj1, this, e]
          · have : ¬ i ≤ j := by omega
            simp [hj1, this]

theorem overlay_wf_caps_a_pressing : overlay_wf overlay_caps_a_pressing := by
  intro i _
  refine ⟨fun hk => ?_, fun _ => rfl⟩
  by_cases hi : i = 0x1e
  · subst hi
    exact absurd hk (by decide)
  · simp [overlay_caps_a_pressing, hi]

/-- In a well-formed state `release_modifier(serio, maps_capslock)` does not fault:
the pressing slots become modifier-released and their release arrays are replayed in
ascending order. -/
theorem release_modifier_capslock_eq (st : overlay) (hwf : overlay_wf st) :
    release_modifier maps_capslock st.maps_capslock_key_state =
      some (fun i => if i < 0x80 ∧ st.maps_capslock_key_state i = KEY_STATE_PRESSING
              then KEY_STATE_MODIFIER_RELEASED else st.maps_capslock_key_state i,
            pressing_release_calls maps_capslock st.maps_capslock_key_state) := by
  unfold release_modifier
  rw [release_modifier_loop_eq]
  · unfold pressing_release_calls
    rw [List.range_eq_range']
    congr 1
    congr 1
    funext j
    simp
  · intro j _ hj hp
    have hj1 : j < 0x80 := by omega
    have hk : (maps_capslock j).key ≠ none := by
      intro hk
      have := (hwf j hj1).1 hk
      rw [hp] at this
      exact absurd this (by decide)
    exact (maps_capslock_entries j hj1 hk).2.1

/-- A byte that is none of the four trigger codes, with the overlay enabled, runs
lines 780-801 and then lines 803-869. -/
theorem wataash_do_atkbd_emacs_other (en : Nat) (hen : en ≠ 0) (st : overlay) (code : Nat)
    (h0 : code ≠ 0) (hb : code < 256)
    (h1 : code ≠ 0x3a) (h2 : code ≠ 0xba) (h3 : code ≠ 0x79) (h4 : code ≠ 0xf9) :
    wataash_do_atkbd_emacs en st code =
      match release_pending_keys st code with
      | none => none
      | some (st1, calls1) =>
        match held_key_action st1 code with
        | none => none
        | some (ret, st2, calls2) => some (ret, st2, calls1 ++ calls2) := by
  have hidx := base_index_of_byte code hb
  have hlt : ¬ (code &&& 0xFFFFFF7F ≥ 0x80) := by
    rw [hidx.1]; have := hidx.2; omega
  unfold wataash_do_atkbd_emacs
  simp only [code_caps_press, code_caps_release, code_hen_press, code_hen_release]
  rw [if_neg h0, if_neg hlt, if_neg hen, if_neg h1, if_neg h2, if_neg h3, if_neg h4]

theorem overlay_wf_caps_a_modifier_released : overlay_wf overlay_caps_a_modifier_released := by
  intro i _
  refine ⟨fun hk => ?_, fun _ => rfl⟩
  by_cases hi : i = 0x1e
  · subst hi
    exact absurd hk (by decide)
  · simp [overlay_caps_a_modifier_released, hi]

/-- One block of lines 784-800 on a slot whose release array exists when the slot
is modifier-released. -/
theorem release_deferred_eq (maps : Nat → key_map) (ks : Nat → key_state) (idx : Nat)
    (h : ks idx = KEY_STATE_MODIFIER_RELEASED →
      (action (maps idx).release_action_codes).isSome = true) :
    release_deferred maps ks idx =
      some (fun i => if i = idx ∧ ks i = KEY_STATE_MODIFIER_RELEASED
              then KEY_STATE_RELEASED else ks i,
            if ks idx = KEY_STATE_MODIFIER_RELEASED
            then (action (maps idx).release_action_codes).getD [] else []) := by
  unfold release_deferred
  by_cases hm : ks idx = KEY_STATE_MODIFIER_RELEASED
  · obtain ⟨calls, hcalls⟩ := Option.isSome_iff_exists.1 (h hm)
    rw [if_pos hm, if_pos hm, hcalls]
    simp only [Option.getD_some]
    congr 1
    congr 1
    funext i
    by_cases hi : i = idx
    · subst hi; simp [hm]
    · simp [hi, Function.update_noteq hi]
  · rw [if_neg hm, if_neg hm]
    congr 1
    congr 1
    funext i
    by_cases hi : i = idx
    · subst hi; simp [hm]
    · simp [hi]

/-- Lines 780-801 on a release byte in a well-formed state. -/
theorem release_pending_keys_eq (st : overlay) (hwf : overlay_wf st) (code : Nat)
    (hb : code < 256) (hrel : code &&& 0x80 ≠ 0) :
    release_pending_keys st code =
      some ({ held := st.held
              maps_capslock_key_state := fun i =>
                if i = code &&& 0x7f ∧ st.maps_capslock_key_state i = KEY_STATE_MODIFIER_RELEASED
                then KEY_STATE_RELEASED else st.maps_capslock_key_state i
              maps_henkan_key_state := fun i =>
                if i = code &&& 0x7f ∧ st.maps_henkan_key_state i = KEY_STATE_MODIFIER_RELEASED
                then KEY_STATE_RELEASED else st.maps_henkan_key_state i },
            (if st.maps_capslock_key_state (code &&& 0x7f) = KEY_STATE_MODIFIER_RELEASED
             then (action (maps_capslock (code &&& 0x7f)).release_action_codes).getD [] else []) ++
            (if st.maps_henkan_key_state (code &&& 0x7f) = KEY_STATE_MODIFIER_RELEASED
             then (action (maps_henkan (code &&& 0x7f)).release_action_codes).getD [] else [])) := by
  have hidx := base_index_of_byte code hb
  unfold release_pending_keys
  rw [if_neg hrel, hidx.1, release_deferred_eq, release_deferred_eq]
  · intro hm
    have hk : (maps_henkan (code &&& 0x7f)).key ≠ none := by
      intro hk
      have := (hwf _ hidx.2).2 hk
      rw [hm] at this
      exact absurd this (by decide)
    exact (maps_henkan_entries _ hidx.2 hk).2.1
  · intro hm
    have hk : (maps_capslock (code &&& 0x7f)).key ≠ none := by
      intro hk
      have := (hwf _ hidx.2).1 hk
      rw [hm] at this
      exact absurd this (by decide)
    exact (maps_capslock_entries _ hidx.2 hk).2.1

/-- Lines 780-801 on a press byte: nothing happens. -/
theorem release_pending_keys_press (st : overlay) (code : Nat) (hp : code &&& 0x80 = 0) :
    release_pending_keys st code = some (st, []) := by
  unfold release_pending_keys
  rw [if_pos hp]

/-- Lines 829-869 when the selected array exists: the slot ends pressing on a press
byte and released on a release byte, and the array is replayed once. -/
theorem mapped_key_action_eq (map : key_map) (ks : Nat → key_state) (idx : Nat) (press : Bool)
    (calls : List (Nat × Nat))
    (h : action (if press then map.press_action_codes else map.release_action_codes) =
      some calls) :
    mapped_key_action map ks idx press =
      some (Function.update ks idx (if press then KEY_STATE_PRESSING else KEY_STATE_RELEASED),
            calls) := by
  unfold mapped_key_action
  simp only [h, Function.update_idem]

/-- A byte whose base scancode is neither 0x3a nor 0x79, and which is not the zero
byte, is none of the four trigger codes. -/
theorem not_trigger_of_base (code : Nat) (h3a : code &&& 0x7f ≠ 0x3a)
    (h79 : code &&& 0x7f ≠ 0x79) :
    code ≠ 0x3a ∧ code ≠ 0xba ∧ code ≠ 0x79 ∧ code ≠ 0xf9 := by
  refine ⟨?_, ?_, ?_, ?_⟩
  · intro h; subst h; exact h3a (by decide)
  · intro h; subst h; exact h3a (by decide)
  · intro h; subst h; exact h79 (by decide)
  · intro h; subst h; exact h79 (by decide)

/-- Lines 803-869 with CapsLock held on a slot that has an entry. -/
theorem held_key_action_capslock (st : overlay) (code : Nat) (hb : code < 256)
    (hheld : st.held = HELD_CAPSLOCK)
    (hkey : (maps_capslock (code &&& 0x7f)).key ≠ none) (calls : List (Nat × Nat))
    (h : action (if decide (code &&& 0x80 = 0) = true
                 then (maps_capslock (code &&& 0x7f)).press_action_codes
                 else (maps_capslock (code &&& 0x7f)).release_action_codes) = some calls) :
    held_key_action st code =
      some (wataash_do_atkbd_emacs_consumed,
            { held := HELD_CAPSLOCK
              maps_capslock_key_state :=
                Function.update st.maps_capslock_key_state (code &&& 0x7f)
                  (if decide (code &&& 0x80 = 0) = true
                   then KEY_STATE_PRESSING else KEY_STATE_RELEASED)
              maps_henkan_key_state := st.maps_henkan_key_state },
            calls) := by
  have hidx := base_index_of_byte code hb
  unfold held_key_action
  simp only [hheld, hidx.1]
  rw [if_neg hkey, mapped_key_action_eq _ _ _ _ calls h]

/-- Lines 803-869 with Henkan held on a slot that has an entry. -/
theorem held_key_action_henkan (st : overlay) (code : Nat) (hb : code < 256)
    (hheld : st.held = HELD_HENKAN)
    (hkey : (maps_henkan (code &&& 0x7f)).key ≠ none) (calls : List (Nat × Nat))
    (h : action (if decide (code &&& 0x80 = 0) = true
                 then (maps_henkan (code &&& 0x7f)).press_action_codes
                 else (maps_henkan (code &&& 0x7f)).release_action_codes) = some calls) :
    held_key_action st code =
      some (wataash_do_atkbd_emacs_consumed,
            { held := HELD_HENKAN
              maps_capslock_key_state := st.maps_capslock_key_state
              maps_henkan_key_state :=
                Function.update st.maps_henkan_key_state (code &&& 0x7f)
                  (if decide (code &&& 0x80 = 0) = true
                   then KEY_STATE_PRESSING else KEY_STATE_RELEASED) },
            calls) := by
  have hidx := base_index_of_byte code hb
  unfold held_key_action
  simp only [hheld, hidx.1]
  rw [if_neg hkey, mapped_key_action_eq _ _ _ _ calls h]

/-- A press byte for an entry of `maps_capslock` while CapsLock is held, whatever the
state of the slot: the press array is replayed, the slot ends pressing, the byte is
consumed. -/
theorem press_mapped_capslock (en : Nat) (hen : en ≠ 0) (st : overlay) (code : Nat)
    (hb : code < 256) (hp : code &&& 0x80 = 0) (hheld : st.held = HELD_CAPSLOCK)
    (hkey : (maps_capslock (code &&& 0x7f)).key ≠ none) :
    ∃ calls, action (maps_capslock (code &&& 0x7f)).press_action_codes = some calls ∧
      wataash_do_atkbd_emacs en st code =
        some (wataash_do_atkbd_emacs_consumed,
              { held := HELD_CAPSLOCK
                maps_capslock_key_state :=
                  Function.update st.maps_capslock_key_state (code &&& 0x7f) KEY_STATE_PRESSING
                maps_henkan_key_state := st.maps_henkan_key_state },
              calls) := by
  have hidx := base_index_of_byte code hb
  have hent := maps_capslock_entries _ hidx.2 hkey
  obtain ⟨calls, hcalls⟩ := Option.isSome_iff_exists.1 hent.1
  have hnt := not_trigger_of_base code hent.2.2.1 hent.2.2.2
  have h0 : code ≠ 0 := by
    intro h; subst h; exact hkey (by decide)
  refine ⟨calls, hcalls, ?_⟩
  rw [wataash_do_atkbd_emacs_other en hen st code h0 hb hnt.1 hnt.2.1 hnt.2.2.1 hnt.2.2.2,
    release_pending_keys_press st code hp]
  simp only []
  rw [held_key_action_capslock st code hb hheld hkey calls (by simp [hp, hcalls])]
  simp [hp]

/-- A press byte for an entry of `maps_henkan` while Henkan is held, whatever the
state of the slot: the press array is replayed, the slot ends pressing, the byte is
consumed. -/
theorem press_mapped_henkan (en : Nat) (hen : en ≠ 0) (st : overlay) (code : Nat)
    (hb : code < 256) (hp : code &&& 0x80 = 0) (hheld : st.held = HELD_HENKAN)
    (hkey : (maps_henkan (code &&& 0x7f)).key ≠ none) :
    ∃ calls, action (maps_henkan (code &&& 0x7f)).press_action_codes = some calls ∧
      wataash_do_atkbd_emacs en st code =
        some (wataash_do_atkbd_emacs_consumed,
              { held := HELD_HENKAN
                maps_capslock_key_state := st.maps_capslock_key_state
                maps_henkan_key_state :=
                  Function.update st.maps_henkan_key_state (code &&& 0x7f) KEY_STATE_PRESSING },
              calls) := by
  have hidx := base_index_of_byte code hb
  have hent := maps_henkan_entries _ hidx.2 hkey
  obtain ⟨calls, hcalls⟩ := Option.isSome_iff_exists.1 hent.1
  have hnt := not_trigger_of_base code hent.2.2.1 hent.2.2.2
  have h0 : code ≠ 0 := by
    intro h; subst h; exact hkey (by decide)
  refine ⟨calls, hcalls, ?_⟩
  rw [wataash_do_atkbd_emacs_other en hen st code h0 hb hnt.1 hnt.2.1 hnt.2.2.1 hnt.2.2.2,
    release_pending_keys_press st code hp]
  simp only []
  rw [held_key_action_henkan st code hb hheld hkey calls (by simp [hp, hcalls])]
  simp [hp]

/-- The trigger-press bytes, for use in other lemmas. -/
theorem wataash_trigger_press_eq (en : Nat) (hen : en ≠ 0) (st : overlay) :
    wataash_do_atkbd_emacs en st 0x3a =
      some (wataash_do_atkbd_emacs_consumed,
            { held := HELD_CAPSLOCK
              maps_capslock_key_state := st.maps_capslock_key_state
              maps_henkan_key_state := st.maps_henkan_key_state }, []) ∧
    wataash_do_atkbd_emacs en st 0x79 =
      some (wataash_do_atkbd_emacs_consumed,
            { held := HELD_HENKAN
              maps_capslock_key_state := st.maps_capslock_key_state
              maps_henkan_key_state := st.maps_henkan_key_state }, []) := by
  constructor
  · unfold wataash_do_atkbd_emacs
    simp only [code_caps_press]
    rw [if_neg (by decide), if_neg (by decide), if_neg hen, if_pos trivial]
  · unfold wataash_do_atkbd_emacs
    simp only [code_caps_press, code_caps_release, code_hen_press]
    rw [if_neg (by decide), if_neg (by decide), if_neg hen, if_neg (by decide),
      if_neg (by decide), if_pos trivial]

/-- Both trigger-release bytes run `release_modifier` on `maps_capslock` (lines 732
and 765) and clear `held`. -/
theorem wataash_trigger_release_eq (en : Nat) (hen : en ≠ 0) (st : overlay)
    (hwf : overlay_wf st) (code : Nat) (hc : code = 0xba ∨ code = 0xf9) :
    wataash_do_atkbd_emacs en st code =
      some (wataash_do_atkbd_emacs_consumed,
            { held := HELD_NONE
              maps_capslock_key_state := fun i =>
                if i < 0x80 ∧ st.maps_capslock_key_state i = KEY_STATE_PRESSING
                then KEY_STATE_MODIFIER_RELEASED else st.maps_capslock_key_state i
              maps_henkan_key_state := st.maps_henkan_key_state },
            pressing_release_calls maps_capslock st.maps_capslock_key_state) := by
  rcases hc with rfl | rfl
  · unfold wataash_do_atkbd_emacs
    simp only [code_caps_press, code_caps_release]
    rw [if_neg (by decide), if_neg (by decide), if_neg hen, if_neg (by decide), if_pos trivial,
      release_modifier_capslock_eq st hwf]
  · unfold wataash_do_atkbd_emacs
    simp only [code_caps_press, code_caps_release, code_hen_press, code_hen_release]
    rw [if_neg (by decide), if_neg (by decide), if_neg hen, if_neg (by decide),
      if_neg (by decide), if_neg (by decide), if_pos trivial,
      release_modifier_capslock_eq st hwf]

/-- Lines 780-801 on a release byte, when the slots that are modifier-released have
a release array. -/
theorem release_pending_keys_of (st : overlay) (code : Nat) (hb : code < 256)
    (hrel : code &&& 0x80 ≠ 0)
    (hc : st.maps_capslock_key_state (code &&& 0x7f) = KEY_STATE_MODIFIER_RELEASED →
      (action (maps_capslock (code &&& 0x7f)).release_action_codes).isSome = true)
    (hh : st.maps_henkan_key_state (code &&& 0x7f) = KEY_STATE_MODIFIER_RELEASED →
      (action (maps_henkan (code &&& 0x7f)).release_action_codes).isSome = true) :
    release_pending_keys st code =
      some ({ held := st.held
              maps_capslock_key_state := fun i =>
                if i = code &&& 0x7f ∧ st.maps_capslock_key_state i = KEY_STATE_MODIFIER_RELEASED
                then KEY_STATE_RELEASED else st.maps_capslock_key_state i
              maps_henkan_key_state := fun i =>
                if i = code &&& 0x7f ∧ st.maps_henkan_key_state i = KEY_STATE_MODIFIER_RELEASED
                then KEY_STATE_RELEASED else st.maps_henkan_key_state i },
            (if st.maps_capslock_key_state (code &&& 0x7f) = KEY_STATE_MODIFIER_RELEASED
             then (action (maps_capslock (code &&& 0x7f)).release_action_codes).getD [] else []) ++
            (if st.maps_henkan_key_state (code &&& 0x7f) = KEY_STATE_MODIFIER_RELEASED
             then (action (maps_henkan (code &&& 0x7f)).release_action_codes).getD [] else [])) := by
  have hidx := base_index_of_byte code hb
  unfold release_pending_keys
  rw [if_neg hrel, hidx.1, release_deferred_eq _ _ _ hc, release_deferred_eq _ _ _ hh]

/-- A slot that is not modifier-released is not changed by lines 784-800. -/
theorem deferred_noop (ks : Nat → key_state) (idx : Nat)
    (h : ks idx ≠ KEY_STATE_MODIFIER_RELEASED) :
    (fun i => if i = idx ∧ ks i = KEY_STATE_MODIFIER_RELEASED
      then KEY_STATE_RELEASED else ks i) = ks := by
  funext i
  by_cases hi : i = idx
  · subst hi; simp [h]
  · simp [hi]

/-- A release byte is neither the zero byte nor a trigger-press code. -/
theorem release_byte_facts (code : Nat) (hrel : code &&& 0x80 ≠ 0) :
    code ≠ 0 ∧ code ≠ 0x3a ∧ code ≠ 0x79 := by
  refine ⟨?_, ?_, ?_⟩
  · intro h; subst h; exact hrel (by decide)
  · intro h; subst h; exact hrel (by decide)
  · intro h; subst h; exact hrel (by decide)

/-- Lines 803-869 never fault, and consume exactly when a mode is held whose table
has an entry at the base scancode. -/
theorem held_key_action_verdict (st : overlay) (code : Nat) (hb : code < 256) :
    ∃ ret st2 calls2, held_key_action st code = some (ret, st2, calls2) ∧
      (ret = wataash_do_atkbd_emacs_consumed ↔
        (st.held = HELD_CAPSLOCK ∧ (maps_capslock (code &&& 0x7f)).key ≠ none) ∨
        (st.held = HELD_HENKAN ∧ (maps_henkan (code &&& 0x7f)).key ≠ none)) := by
  have hidx := base_index_of_byte code hb
  cases hheld : st.held with
  | HELD_NONE =>
    refine ⟨wataash_do_atkbd_emacs_bypass, st, [], ?_, ?_⟩
    · simp only [held_key_action, hheld]
    · simp
  | HELD_CAPSLOCK =>
    by_cases hkey : (maps_capslock (code &&& 0x7f)).key = none
    · refine ⟨wataash_do_atkbd_emacs_bypass, st, [], ?_, ?_⟩
      · simp only [held_key_action, hheld, hidx.1, hkey, if_true]
      · simp [hkey]
    · have hent := maps_capslock_entries _ hidx.2 hkey
      have hsel : (action (if decide (code &&& 0x80 = 0) = true
          then (maps_capslock (code &&& 0x7f)).press_action_codes
          else (maps_capslock (code &&& 0x7f)).release_action_codes)).isSome = true := by
        by_cases hp : code &&& 0x80 = 0
        · simp only [hp, decide_True, if_true]; exact hent.1
        · simp only [hp, decide_False]; exact hent.2.1
      obtain ⟨calls, hcalls⟩ := Option.isSome_iff_exists.1 hsel
      exact ⟨_, _, _, held_key_action_capslock st code hb hheld hkey calls hcalls,
        by simp [hkey]⟩
  | HELD_HENKAN =>
    by_cases hkey : (maps_henkan (code &&& 0x7f)).key = none
    · refine ⟨wataash_do_atkbd_emacs_bypass, st, [], ?_, ?_⟩
      · simp only [held_key_action, hheld, hidx.1, hkey, if_true]
      · simp [hkey]
    · have hent := maps_henkan_entries _ hidx.2 hkey
      have hsel : (action (if decide (code &&& 0x80 = 0) = true
          then (maps_henkan (code &&& 0x7f)).press_action_codes
          else (maps_henkan (code &&& 0x7f)).release_action_codes)).isSome = true := by
        by_cases hp : code &&& 0x80 = 0
        · simp only [hp, decide_True, if_true]; exact hent.1
        · simp only [hp, decide_False]; exact hent.2.1
      obtain ⟨calls, hcalls⟩ := Option.isSome_iff_exists.1 hsel
      exact ⟨_, _, _, held_key_action_henkan st code hb hheld hkey calls hcalls,
        by simp [hkey]⟩

/-- In a well-formed state lines 780-801 never fault and leave `held` as it is. -/
theorem release_pending_keys_held (st : overlay) (hwf : overlay_wf st) (code : Nat)
    (hb : code < 256) :
    ∃ st1 calls1, release_pending_keys st code = some (st1, calls1) ∧ st1.held = st.held := by
  by_cases hp : code &&& 0x80 = 0
  · exact ⟨st, [], release_pending_keys_press st code hp, rfl⟩
  · exact ⟨_, _, release_pending_keys_eq st hwf code hb hp, rfl⟩

/-- Lines 780-801 keep the state invariant. -/
theorem release_pending_keys_wf (st : overlay) (hwf : overlay_wf st) (code : Nat)
    (hb : code < 256) :
    ∃ st1 calls1, release_pending_keys st code = some (st1, calls1) ∧ overlay_wf st1 := by
  by_cases hp : code &&& 0x80 = 0
  · exact ⟨st, [], release_pending_keys_press st code hp, hwf⟩
  · refine ⟨_, _, release_pending_keys_eq st hwf code hb hp, ?_⟩
    intro i hi
    constructor
    · intro hk
      have := (hwf i hi).1 hk
      simp [this]
    · intro hk
      have := (hwf i hi).2 hk
      simp [this]

/-- Lines 803-869 keep the state invariant. -/
theorem held_key_action_wf (st : overlay) (hwf : overlay_wf st) (code : Nat) (hb : code < 256)
    (ret : wataash_do_atkbd_emacs_ret) (st2 : overlay) (calls2 : List (Nat × Nat))
    (h : held_key_action st code = some (ret, st2, calls2)) : overlay_wf st2 := by
  have hidx := base_index_of_byte code hb
  cases hheld : st.held with
  | HELD_NONE =>
    simp only [held_key_action, hheld, Option.some.injEq, Prod.mk.injEq] at h
    rw [← h.2.1]; exact hwf
  | HELD_CAPSLOCK =>
    by_cases hkey : (maps_capslock (code &&& 0x7f)).key = none
    · simp only [held_key_action, hheld, hidx.1, hkey, if_true, Option.some.injEq,
        Prod.mk.injEq] at h
      rw [← h.2.1]; exact hwf
    · have hent := maps_capslock_entries _ hidx.2 hkey
      have hsel : (action (if decide (code &&& 0x80 = 0) = true
          then (maps_capslock (code &&& 0x7f)).press_action_codes
          else (maps_capslock (code &&& 0x7f)).release_action_codes)).isSome = true := by
        by_cases hp : code &&& 0x80 = 0
        · simp only [hp, decide_True, if_true]; exact hent.1
        · simp only [hp, decide_False]; exact hent.2.1
      obtain ⟨calls, hcalls⟩ := Option.isSome_iff_exists.1 hsel
      rw [held_key_action_capslock st code hb hheld hkey calls hcalls] at h
      simp only [Option.some.injEq, Prod.mk.injEq] at h
      rw [← h.2.1]
      intro i hi
      refine ⟨fun hk => ?_, (hwf i hi).2⟩
      have hne : i ≠ code &&& 0x7f := by
        intro e; rw [e] at hk; exact hkey hk
      show Function.update st.maps_capslock_key_state _ _ i = _
      rw [Function.update_noteq hne]
      exact (hwf i hi).1 hk
  | HELD_HENKAN =>
    by_cases hkey : (maps_henkan (code &&& 0x7f)).key = none
    · simp only [held_key_action, hheld, hidx.1, hkey, if_true, Option.some.injEq,
        Prod.mk.injEq] at h
      rw [← h.2.1]; exact hwf
    · have hent := maps_henkan_entries _ hidx.2 hkey
      have hsel : (action (if decide (code &&& 0x80 = 0) = true
          then (maps_henkan (code &&& 0x7f)).press_action_codes
          else (maps_henkan (code &&& 0x7f)).release_action_codes)).isSome = true := by
        by_cases hp : code &&& 0x80 = 0
        · simp only [hp, decide_True, if_true]; exact hent.1
        · simp only [hp, decide_False]; exact hent.2.1
      obtain ⟨calls, hcalls⟩ := Option.isSome_iff_exists.1 hsel
      rw [held_key_action_henkan st code hb hheld hkey calls hcalls] at h
      simp only [Option.some.injEq, Prod.mk.injEq] at h
      rw [← h.2.1]
      intro i hi
      refine ⟨(hwf i hi).1, fun hk => ?_⟩
      have hne : i ≠ code &&& 0x7f := by
        intro e; rw [e] at hk; exact hkey hk
      show Function.update st.maps_henkan_key_state _ _ i = _
      rw [Function.update_noteq hne]
      exact (hwf i hi).2 hk

/-- The state invariant is kept by every step on a byte, so it holds in every state
reached from `overlay_init`; and in such a state the step does not fault. -/
theorem overlay_wf_step (en : Nat) (st : overlay) (hwf : overlay_wf st) (code : Nat)
    (hb : code < 256) :
    ∃ ret st1 calls, wataash_do_atkbd_emacs en st code = some (ret, st1, calls) ∧
      overlay_wf st1 := by
  have hidx := base_index_of_byte code hb
  by_cases h0 : code = 0
  · exact ⟨wataash_do_atkbd_emacs_bypass, st, [],
      by simp only [wataash_do_atkbd_emacs, h0, if_true], hwf⟩
  by_cases hen : en = 0
  · refine ⟨wataash_do_atkbd_emacs_bypass, st, [], ?_, hwf⟩
    unfold wataash_do_atkbd_emacs
    rw [if_neg h0, if_neg (by rw [hidx.1]; have := hidx.2; omega), if_pos hen]
  by_cases h1 : code = 0x3a
  · have h := (wataash_trigger_press_eq en hen st).1
    rw [← h1] at h
    exact ⟨_, _, _, h, hwf⟩
  by_cases h3 : code = 0x79
  · have h := (wataash_trigger_press_eq en hen st).2
    rw [← h3] at h
    exact ⟨_, _, _, h, hwf⟩
  by_cases h24 : code = 0xba ∨ code = 0xf9
  · refine ⟨_, _, _, wataash_trigger_release_eq en hen st hwf code h24, ?_⟩
    intro i hi
    refine ⟨fun hk => ?_, (hwf i hi).2⟩
    have := (hwf i hi).1 hk
    simp [this]
  obtain ⟨st1, calls1, hpend, hwf1⟩ := release_pending_keys_wf st hwf code hb
  obtain ⟨ret, st2, calls2, hact, _⟩ := held_key_action_verdict st1 code hb
  refine ⟨ret, st2, calls1 ++ calls2, ?_, held_key_action_wf st1 hwf1 code hb ret st2 calls2 hact⟩
  rw [wataash_do_atkbd_emacs_other en hen st code h0 hb h1 (fun h => h24 (Or.inl h)) h3
    (fun h => h24 (Or.inr h)), hpend]
  simp only [hact]

/-! ## The claims -/

/-- C3: with the overlay enabled and the state well formed, the CapsLock release
byte 0xba replays, in ascending scancode order, the release action sequence of every
`maps_capslock` slot in state pressing and makes that slot modifier-released; slots
in state released or modifier-released keep their state, as does every `maps_henkan`
slot; `held` becomes none; the verdict is consumed, so that only the replayed codes
(and not 0xba) go on to the decoder.  Every pressing slot has a release array, so
each replay in `pressing_release_calls` is a real one. -/
theorem caps_release_replays_pressing (en : Nat) (hen : en ≠ 0) (st : overlay)
    (hwf : overlay_wf st) :
    wataash_do_atkbd_emacs en st 0xba =
      some (wataash_do_atkbd_emacs_consumed,
            { held := HELD_NONE
              maps_capslock_key_state := fun i =>
                if i < 0x80 ∧ st.maps_capslock_key_state i = KEY_STATE_PRESSING
                then KEY_STATE_MODIFIER_RELEASED else st.maps_capslock_key_state i
              maps_henkan_key_state := st.maps_henkan_key_state },
            pressing_release_calls maps_capslock st.maps_capslock_key_state) ∧
    atkbd_interrupt_overlay en st 0xba 0 =
      some ({ held := HELD_NONE
              maps_capslock_key_state := fun i =>
                if i < 0x80 ∧ st.maps_capslock_key_state i = KEY_STATE_PRESSING
                then KEY_STATE_MODIFIER_RELEASED else st.maps_capslock_key_state i
              maps_henkan_key_state := st.maps_henkan_key_state },
            (pressing_release_calls maps_capslock st.maps_capslock_key_state).map Prod.fst) ∧
    (∀ i, i < 0x80 → st.maps_capslock_key_state i = KEY_STATE_PRESSING →
      (action (maps_capslock i).release_action_codes).isSome = true) := by
  have hstep : wataash_do_atkbd_emacs en st 0xba =
      some (wataash_do_atkbd_emacs_consumed,
            { held := HELD_NONE
              maps_capslock_key_state := fun i =>
                if i < 0x80 ∧ st.maps_capslock_key_state i = KEY_STATE_PRESSING
                then KEY_STATE_MODIFIER_RELEASED else st.maps_capslock_key_state i
              maps_henkan_key_state := st.maps_henkan_key_state },
            pressing_release_calls maps_capslock st.maps_capslock_key_state) := by
    unfold wataash_do_atkbd_emacs
    simp only [code_caps_press, code_caps_release, code_hen_press, code_hen_release]
    rw [if_neg (by decide), if_neg (by decide), if_neg hen, if_neg (by decide), if_pos trivial,
      release_modifier_capslock_eq st hwf]
  refine ⟨hstep, ?_, ?_⟩
  · unfold atkbd_interrupt_overlay
    rw [if_pos (by decide), hstep]
  · intro i hi hp
    have hk : (maps_capslock i).key ≠ none := by
      intro hk
      have := (hwf i hi).1 hk
      rw [hp] at this
      exact absurd this (by decide)
    exact (maps_capslock_entries i hi hk).2.1

/-- C3, instance: CapsLock held with key "a" pressing; 0xba replays Home release. -/
theorem caps_release_replays_pressing_witness :
    wataash_do_atkbd_emacs 1 overlay_caps_a_pressing 0xba =
      some (wataash_do_atkbd_emacs_consumed,
            { held := HELD_NONE
              maps_capslock_key_state := fun i =>
                if i < 0x80 ∧ overlay_caps_a_pressing.maps_capslock_key_state i = KEY_STATE_PRESSING
                then KEY_STATE_MODIFIER_RELEASED
                else overlay_caps_a_pressing.maps_capslock_key_state i
              maps_henkan_key_state := overlay_caps_a_pressing.maps_henkan_key_state },
            pressing_release_calls maps_capslock overlay_caps_a_pressing.maps_capslock_key_state) ∧
    pressing_release_calls maps_capslock overlay_caps_a_pressing.maps_capslock_key_state =
      [(0xe0, 0x200), (0xc7, 0x200)] :=
  ⟨(caps_release_replays_pressing 1 (by decide) overlay_caps_a_pressing
      overlay_wf_caps_a_pressing).1, by decide⟩

/-- C9: with the overlay enabled, in every overlay state, the trigger-press byte
0x3a (resp. 0x79) sets `held` to CapsLock (resp. Henkan), is consumed, replays no
action sequence and leaves every slot of both tables as it was, so that nothing goes
on to the decoder; pressing the trigger of the mode already held leaves the whole
overlay state unchanged. -/
theorem trigger_press_sets_held (en : Nat) (hen : en ≠ 0) (st : overlay) :
    wataash_do_atkbd_emacs en st 0x3a =
      some (wataash_do_atkbd_emacs_consumed,
            { held := HELD_CAPSLOCK
              maps_capslock_key_state := st.maps_capslock_key_state
              maps_henkan_key_state := st.maps_henkan_key_state }, []) ∧
    wataash_do_atkbd_emacs en st 0x79 =
      some (wataash_do_atkbd_emacs_consumed,
            { held := HELD_HENKAN
              maps_capslock_key_state := st.maps_capslock_key_state
              maps_henkan_key_state := st.maps_henkan_key_state }, []) ∧
    atkbd_interrupt_overlay en st 0x3a 0 =
      some ({ held := HELD_CAPSLOCK
              maps_capslock_key_state := st.maps_capslock_key_state
              maps_henkan_key_state := st.maps_henkan_key_state }, []) ∧
    atkbd_interrupt_overlay en st 0x79 0 =
      some ({ held := HELD_HENKAN
              maps_capslock_key_state := st.maps_capslock_key_state
              maps_henkan_key_state := st.maps_henkan_key_state }, []) ∧
    (st.held = HELD_CAPSLOCK →
      wataash_do_atkbd_emacs en st 0x3a = some (wataash_do_atkbd_emacs_consumed, st, [])) ∧
    (st.held = HELD_HENKAN →
      wataash_do_atkbd_emacs en st 0x79 = some (wataash_do_atkbd_emacs_consumed, st, [])) := by
  have hcaps : wataash_do_atkbd_emacs en st 0x3a =
      some (wataash_do_atkbd_emacs_consumed,
            { held := HELD_CAPSLOCK
              maps_capslock_key_state := st.maps_capslock_key_state
              maps_henkan_key_state := st.maps_henkan_key_state }, []) := by
    unfold wataash_do_atkbd_emacs
    simp only [code_caps_press]
    rw [if_neg (by decide), if_neg (by decide), if_neg hen, if_pos trivial]
  have hhen : wataash_do_atkbd_emacs en st 0x79 =
      some (wataash_do_atkbd_emacs_consumed,
            { held := HELD_HENKAN
              maps_capslock_key_state := st.maps_capslock_key_state
              maps_henkan_key_state := st.maps_henkan_key_state }, []) := by
    unfold wataash_do_atkbd_emacs
    simp only [code_caps_press, code_caps_release, code_hen_press]
    rw [if_neg (by decide), if_neg (by decide), if_neg hen, if_neg (by decide),
      if_neg (by decide), if_pos trivial]
  refine ⟨hcaps, hhen, ?_, ?_, ?_, ?_⟩
  · unfold atkbd_interrupt_overlay
    rw [if_pos (by decide), hcaps]
    rfl
  · unfold atkbd_interrupt_overlay
    rw [if_pos (by decide), hhen]
    rfl
  · intro h
    rw [hcaps, ← h]
  · intro h
    rw [hhen, ← h]

/-- C9, instance: CapsLock pressed again while CapsLock is held and "a" is pressing. -/
theorem trigger_press_sets_held_witness :
    wataash_do_atkbd_emacs 1 overlay_caps_a_pressing 0x3a =
      some (wataash_do_atkbd_emacs_consumed, overlay_caps_a_pressing, []) :=
  (trigger_press_sets_held 1 (by decide) overlay_caps_a_pressing).2.2.2.2.1 rfl

/-- C2, the code at the failing input: after Henkan press (0x79) and "1" press (0x02)
the slot `maps_henkan[0x02]` is pressing with Henkan held; the Henkan release byte
0xf9 is consumed and clears `held`, but replays nothing and leaves the slot pressing,
because line 765 passes `maps_capslock` to `release_modifier`. -/
theorem hen_release_leaves_henkan_pressing :
    (overlay_run 1 overlay_init [0x79, 0x02]).bind (fun r =>
      (wataash_do_atkbd_emacs 1 r.1 0xf9).map (fun q =>
        (r.1.held, r.1.maps_henkan_key_state 0x02,
         q.1, q.2.1.held, q.2.1.maps_henkan_key_state 0x02, q.2.2))) =
    some (HELD_HENKAN, KEY_STATE_PRESSING,
          wataash_do_atkbd_emacs_consumed, HELD_NONE, KEY_STATE_PRESSING, []) := by
  rfl

/-- C1, the code at the failing input: in mode B (Henkan) with key "1", the bytes
trigger-press 0x79, key-press 0x02, trigger-release 0xf9, key-release 0x82 from the
initial state replay only the press action (F1 press, 0x3b): the release action
(0xbb) is never replayed and the slot `maps_henkan[0x02]` ends pressing. -/
theorem henkan_cycle_leaves_action_down :
    (overlay_run 1 overlay_init [0x79, 0x02, 0xf9, 0x82]).map (fun r =>
      (r.1.held, r.1.maps_henkan_key_state 0x02, r.2)) =
    some (HELD_NONE, KEY_STATE_PRESSING, [(0x3b, 0x200)]) := by
  decide

/-- C6: with the overlay enabled and a mode held, a press byte (high bit clear) whose
base scancode has an entry in the held table in state released or pressing replays
exactly that entry's press action sequence, leaves the slot pressing and is consumed;
sending the byte twice in a row replays the press sequence twice, and nothing else,
and the slot stays pressing.  (A byte with such an entry is never a trigger code.) -/
theorem press_replays_press_sequence (en : Nat) (hen : en ≠ 0) (st : overlay) (code : Nat)
    (hb : code < 256) (hp : code &&& 0x80 = 0) :
    (st.held = HELD_CAPSLOCK → (maps_capslock (code &&& 0x7f)).key ≠ none →
      (st.maps_capslock_key_state (code &&& 0x7f) = KEY_STATE_RELEASED ∨
       st.maps_capslock_key_state (code &&& 0x7f) = KEY_STATE_PRESSING) →
      ∃ calls, action (maps_capslock (code &&& 0x7f)).press_action_codes = some calls ∧
        wataash_do_atkbd_emacs en st code =
          some (wataash_do_atkbd_emacs_consumed,
                { held := HELD_CAPSLOCK
                  maps_capslock_key_state :=
                    Function.update st.maps_capslock_key_state (code &&& 0x7f)
                      KEY_STATE_PRESSING
                  maps_henkan_key_state := st.maps_henkan_key_state },
                calls) ∧
        overlay_run en st [code, code] =
          some ({ held := HELD_CAPSLOCK
                  maps_capslock_key_state :=
                    Function.update st.maps_capslock_key_state (code &&& 0x7f)
                      KEY_STATE_PRESSING
                  maps_henkan_key_state := st.maps_henkan_key_state },
                calls ++ calls)) ∧
    (st.held = HELD_HENKAN → (maps_henkan (code &&& 0x7f)).key ≠ none →
      (st.maps_henkan_key_state (code &&& 0x7f) = KEY_STATE_RELEASED ∨
       st.maps_henkan_key_state (code &&& 0x7f) = KEY_STATE_PRESSING) →
      ∃ calls, action (maps_henkan (code &&& 0x7f)).press_action_codes = some calls ∧
        wataash_do_atkbd_emacs en st code =
          some (wataash_do_atkbd_emacs_consumed,
                { held := HELD_HENKAN
                  maps_capslock_key_state := st.maps_capslock_key_state
                  maps_henkan_key_state :=
                    Function.update st.maps_henkan_key_state (code &&& 0x7f)
                      KEY_STATE_PRESSING },
                calls) ∧
        overlay_run en st [code, code] =
          some ({ held := HELD_HENKAN
                  maps_capslock_key_state := st.maps_capslock_key_state
                  maps_henkan_key_state :=
                    Function.update st.maps_henkan_key_state (code &&& 0x7f)
                      KEY_STATE_PRESSING },
                calls ++ calls)) := by
  constructor
  · intro hheld hkey _
    obtain ⟨calls, hcalls, h1⟩ := press_mapped_capslock en hen st code hb hp hheld hkey
    obtain ⟨calls2, hcalls2, h2⟩ := press_mapped_capslock en hen
      { held := HELD_CAPSLOCK
        maps_capslock_key_state :=
          Function.update st.maps_capslock_key_state (code &&& 0x7f) KEY_STATE_PRESSING
        maps_henkan_key_state := st.maps_henkan_key_state } code hb hp rfl hkey
    have e : calls2 = calls := Option.some.inj (hcalls2.symm.trans hcalls)
    subst e
    refine ⟨calls2, hcalls, h1, ?_⟩
    simp only [overlay_run, h1, h2, Function.update_idem, List.append_nil]
  · intro hheld hkey _
    obtain ⟨calls, hcalls, h1⟩ := press_mapped_henkan en hen st code hb hp hheld hkey
    obtain ⟨calls2, hcalls2, h2⟩ := press_mapped_henkan en hen
      { held := HELD_HENKAN
        maps_capslock_key_state := st.maps_capslock_key_state
        maps_henkan_key_state :=
          Function.update st.maps_henkan_key_state (code &&& 0x7f) KEY_STATE_PRESSING }
      code hb hp rfl hkey
    have e : calls2 = calls := Option.some.inj (hcalls2.symm.trans hcalls)
    subst e
    refine ⟨calls2, hcalls, h1, ?_⟩
    simp only [overlay_run, h1, h2, Function.update_idem, List.append_nil]

/-- C6, instance: CapsLock held, key "a" already pressing, byte 0x1e (auto-repeat). -/
theorem press_replays_press_sequence_witness :
    ∃ calls, action (maps_capslock (0x1e &&& 0x7f)).press_action_codes = some calls ∧
      wataash_do_atkbd_emacs 1 overlay_caps_a_pressing 0x1e =
        some (wataash_do_atkbd_emacs_consumed,
              { held := HELD_CAPSLOCK
                maps_capslock_key_state :=
                  Function.update overlay_caps_a_pressing.maps_capslock_key_state
                    (0x1e &&& 0x7f) KEY_STATE_PRESSING
                maps_henkan_key_state := overlay_caps_a_pressing.maps_henkan_key_state },
              calls) ∧
      overlay_run 1 overlay_caps_a_pressing [0x1e, 0x1e] =
        some ({ held := HELD_CAPSLOCK
                maps_capslock_key_state :=
                  Function.update overlay_caps_a_pressing.maps_capslock_key_state
                    (0x1e &&& 0x7f) KEY_STATE_PRESSING
                maps_henkan_key_state := overlay_caps_a_pressing.maps_henkan_key_state },
              calls ++ calls) :=
  (press_replays_press_sequence 1 (by decide) overlay_caps_a_pressing 0x1e (by decide)
    (by decide)).1 rfl (by decide) (Or.inr rfl)

/-- C4: with the overlay enabled and the state well formed, for every release byte
(high bit set) other than the two trigger-release codes and for every value of
`held`, lines 780-801 do this for each of the two tables: if the slot at the base
scancode `code & 0x7f` is modifier-released, its release action sequence is replayed
(`maps_capslock` first, then `maps_henkan`) and the slot becomes released; every
other slot keeps its state.  The whole step is this, followed by lines 803-869 on
the resulting state. -/
theorem release_byte_completes_deferred (en : Nat) (hen : en ≠ 0) (st : overlay)
    (hwf : overlay_wf st) (code : Nat) (hb : code < 256) (hrel : code &&& 0x80 ≠ 0)
    (h2 : code ≠ 0xba) (h4 : code ≠ 0xf9) :
    ∃ calls_caps calls_hen,
      (st.maps_capslock_key_state (code &&& 0x7f) = KEY_STATE_MODIFIER_RELEASED →
        action (maps_capslock (code &&& 0x7f)).release_action_codes = some calls_caps) ∧
      (st.maps_capslock_key_state (code &&& 0x7f) ≠ KEY_STATE_MODIFIER_RELEASED →
        calls_caps = []) ∧
      (st.maps_henkan_key_state (code &&& 0x7f) = KEY_STATE_MODIFIER_RELEASED →
        action (maps_henkan (code &&& 0x7f)).release_action_codes = some calls_hen) ∧
      (st.maps_henkan_key_state (code &&& 0x7f) ≠ KEY_STATE_MODIFIER_RELEASED →
        calls_hen = []) ∧
      release_pending_keys st code =
        some ({ held := st.held
                maps_capslock_key_state := fun i =>
                  if i = code &&& 0x7f ∧
                    st.maps_capslock_key_state i = KEY_STATE_MODIFIER_RELEASED
                  then KEY_STATE_RELEASED else st.maps_capslock_key_state i
                maps_henkan_key_state := fun i =>
                  if i = code &&& 0x7f ∧
                    st.maps_henkan_key_state i = KEY_STATE_MODIFIER_RELEASED
                  then KEY_STATE_RELEASED else st.maps_henkan_key_state i },
              calls_caps ++ calls_hen) ∧
      wataash_do_atkbd_emacs en st code =
        (held_key_action
          { held := st.held
            maps_capslock_key_state := fun i =>
              if i = code &&& 0x7f ∧
                st.maps_capslock_key_state i = KEY_STATE_MODIFIER_RELEASED
              then KEY_STATE_RELEASED else st.maps_capslock_key_state i
            maps_henkan_key_state := fun i =>
              if i = code &&& 0x7f ∧
                st.maps_henkan_key_state i = KEY_STATE_MODIFIER_RELEASED
              then KEY_STATE_RELEASED else st.maps_henkan_key_state i } code).map
          (fun r => (r.1, r.2.1, (calls_caps ++ calls_hen) ++ r.2.2)) := by
  have hstep := release_pending_keys_eq st hwf code hb hrel
  have hf := release_byte_facts code hrel
  refine ⟨_, _, ?_, ?_, ?_, ?_, hstep, ?_⟩
  · intro hm
    rw [if_pos hm]
    cases hact : action (maps_capslock (code &&& 0x7f)).release_action_codes with
    | none =>
      exfalso
      have hk : (maps_capslock (code &&& 0x7f)).key ≠ none := by
        intro hk
        have := (hwf _ (base_index_of_byte code hb).2).1 hk
        rw [hm] at this
        exact absurd this (by decide)
      have := (maps_capslock_entries _ (base_index_of_byte code hb).2 hk).2.1
      rw [hact] at this
      exact absurd this (by decide)
    | some c => rfl
  · intro hm
    rw [if_neg hm]
  · intro hm
    rw [if_pos hm]
    cases hact : action (maps_henkan (code &&& 0x7f)).release_action_codes with
    | none =>
      exfalso
      have hk : (maps_henkan (code &&& 0x7f)).key ≠ none := by
        intro hk
        have := (hwf _ (base_index_of_byte code hb).2).2 hk
        rw [hm] at this
        exact absurd this (by decide)
      have := (maps_henkan_entries _ (base_index_of_byte code hb).2 hk).2.1
      rw [hact] at this
      exact absurd this (by decide)
    | some c => rfl
  · intro hm
    rw [if_neg hm]
  · rw [wataash_do_atkbd_emacs_other en hen st code hf.1 hb hf.2.1 h2 hf.2.2 h4, hstep]
    simp only []
    cases held_key_action _ code with
    | none => rfl
    | some r => rfl

/-- C4, instance: key "a" of `maps_capslock` modifier-released, release byte 0x9e. -/
theorem release_byte_completes_deferred_witness :
    ∃ calls_caps calls_hen,
      (overlay_caps_a_modifier_released.maps_capslock_key_state (0x9e &&& 0x7f) =
          KEY_STATE_MODIFIER_RELEASED →
        action (maps_capslock (0x9e &&& 0x7f)).release_action_codes = some calls_caps) ∧
      (overlay_caps_a_modifier_released.maps_henkan_key_state (0x9e &&& 0x7f) ≠
          KEY_STATE_MODIFIER_RELEASED →
        calls_hen = []) ∧
      (release_pending_keys overlay_caps_a_modifier_released 0x9e).map Prod.snd =
        some (calls_caps ++ calls_hen) := by
  obtain ⟨cc, ch, h1, _, _, h4, h5, _⟩ :=
    release_byte_completes_deferred 1 (by decide) overlay_caps_a_modifier_released
      overlay_wf_caps_a_modifier_released 0x9e (by decide) (by decide) (by decide) (by decide)
  exact ⟨cc, ch, h1, h4, by rw [h5]; rfl⟩

/-- C8, counterexample: after 0x3a, 0x1e, 0xba, 0x3a CapsLock is held and the slot of
key "a" is modifier-released; the press byte 0x1e is then not ignored: the Home press
sequence (0xe0, 0x47) is replayed and the slot becomes pressing. -/
theorem press_on_modifier_released_replays :
    (overlay_run 1 overlay_init [0x3a, 0x1e, 0xba, 0x3a]).bind (fun r =>
      (wataash_do_atkbd_emacs 1 r.1 0x1e).map (fun q =>
        (r.1.held, r.1.maps_capslock_key_state 0x1e,
         q.1, q.2.1.maps_capslock_key_state 0x1e, q.2.2))) =
    some (HELD_CAPSLOCK, KEY_STATE_MODIFIER_RELEASED,
          wataash_do_atkbd_emacs_consumed, KEY_STATE_PRESSING,
          [(0xe0, 0x200), (0x47, 0x200)]) := by
  rfl

/-- C8, amended: with the overlay enabled and a mode held, a press byte for a key
whose slot in the held table is modifier-released is handled like any other press
(the state is only logged and reset): the entry's press action sequence is replayed,
the slot becomes pressing and the byte is consumed. -/
theorem press_on_modifier_released_recovers (en : Nat) (hen : en ≠ 0) (st : overlay)
    (code : Nat) (hb : code < 256) (hp : code &&& 0x80 = 0) :
    (st.held = HELD_CAPSLOCK → (maps_capslock (code &&& 0x7f)).key ≠ none →
      st.maps_capslock_key_state (code &&& 0x7f) = KEY_STATE_MODIFIER_RELEASED →
      ∃ calls, action (maps_capslock (code &&& 0x7f)).press_action_codes = some calls ∧
        wataash_do_atkbd_emacs en st code =
          some (wataash_do_atkbd_emacs_consumed,
                { held := HELD_CAPSLOCK
                  maps_capslock_key_state :=
                    Function.update st.maps_capslock_key_state (code &&& 0x7f)
                      KEY_STATE_PRESSING
                  maps_henkan_key_state := st.maps_henkan_key_state },
                calls)) ∧
    (st.held = HELD_HENKAN → (maps_henkan (code &&& 0x7f)).key ≠ none →
      st.maps_henkan_key_state (code &&& 0x7f) = KEY_STATE_MODIFIER_RELEASED →
      ∃ calls, action (maps_henkan (code &&& 0x7f)).press_action_codes = some calls ∧
        wataash_do_atkbd_emacs en st code =
          some (wataash_do_atkbd_emacs_consumed,
                { held := HELD_HENKAN
                  maps_capslock_key_state := st.maps_capslock_key_state
                  maps_henkan_key_state :=
                    Function.update st.maps_henkan_key_state (code &&& 0x7f)
                      KEY_STATE_PRESSING },
                calls)) :=
  ⟨fun hheld hkey _ => press_mapped_capslock en hen st code hb hp hheld hkey,
   fun hheld hkey _ => press_mapped_henkan en hen st code hb hp hheld hkey⟩

/-- C8 amended, instance: CapsLock held, key "a" modifier-released, press byte 0x1e. -/
theorem press_on_modifier_released_recovers_witness :
    ∃ calls, action (maps_capslock (0x1e &&& 0x7f)).press_action_codes = some calls ∧
      wataash_do_atkbd_emacs 1
          { held := HELD_CAPSLOCK
            maps_capslock_key_state :=
              overlay_caps_a_modifier_released.maps_capslock_key_state
            maps_henkan_key_state := overlay_caps_a_modifier_released.maps_henkan_key_state }
          0x1e =
        some (wataash_do_atkbd_emacs_consumed,
              { held := HELD_CAPSLOCK
                maps_capslock_key_state :=
                  Function.update overlay_caps_a_modifier_released.maps_capslock_key_state
                    (0x1e &&& 0x7f) KEY_STATE_PRESSING
                maps_henkan_key_state :=
                  overlay_caps_a_modifier_released.maps_henkan_key_state },
              calls) :=
  (press_on_modifier_released_recovers 1 (by decide)
    { held := HELD_CAPSLOCK
      maps_capslock_key_state := overlay_caps_a_modifier_released.maps_capslock_key_state
      maps_henkan_key_state := overlay_caps_a_modifier_released.maps_henkan_key_state }
    0x1e (by decide) (by decide)).1 rfl (by decide) (by decide)

/-- C7: with the overlay enabled, the state well formed and a mode held, a release
byte (high bit set) whose base scancode has an entry in the held table: if the slot
is pressing, or already released (the logged inconsistency), the entry's release
action sequence is replayed exactly once by lines 829-869, the slot ends released
and the byte is consumed.  The only other calls are those of lines 780-801 for the
other table, made before, and none when that table's slot is not
modifier-released.  (A byte with such an entry is never a trigger code.) -/
theorem release_replays_release_sequence (en : Nat) (hen : en ≠ 0) (st : overlay)
    (hwf : overlay_wf st) (code : Nat) (hb : code < 256) (hrel : code &&& 0x80 ≠ 0) :
    (st.held = HELD_CAPSLOCK → (maps_capslock (code &&& 0x7f)).key ≠ none →
      (st.maps_capslock_key_state (code &&& 0x7f) = KEY_STATE_PRESSING ∨
       st.maps_capslock_key_state (code &&& 0x7f) = KEY_STATE_RELEASED) →
      ∃ calls other,
        action (maps_capslock (code &&& 0x7f)).release_action_codes = some calls ∧
        (st.maps_henkan_key_state (code &&& 0x7f) = KEY_STATE_MODIFIER_RELEASED →
          action (maps_henkan (code &&& 0x7f)).release_action_codes = some other) ∧
        (st.maps_henkan_key_state (code &&& 0x7f) ≠ KEY_STATE_MODIFIER_RELEASED →
          other = []) ∧
        wataash_do_atkbd_emacs en st code =
          some (wataash_do_atkbd_emacs_consumed,
                { held := HELD_CAPSLOCK
                  maps_capslock_key_state :=
                    Function.update st.maps_capslock_key_state (code &&& 0x7f)
                      KEY_STATE_RELEASED
                  maps_henkan_key_state := fun i =>
                    if i = code &&& 0x7f ∧
                      st.maps_henkan_key_state i = KEY_STATE_MODIFIER_RELEASED
                    then KEY_STATE_RELEASED else st.maps_henkan_key_state i },
                other ++ calls)) ∧
    (st.held = HELD_HENKAN → (maps_henkan (code &&& 0x7f)).key ≠ none →
      (st.maps_henkan_key_state (code &&& 0x7f) = KEY_STATE_PRESSING ∨
       st.maps_henkan_key_state (code &&& 0x7f) = KEY_STATE_RELEASED) →
      ∃ calls other,
        action (maps_henkan (code &&& 0x7f)).release_action_codes = some calls ∧
        (st.maps_capslock_key_state (code &&& 0x7f) = KEY_STATE_MODIFIER_RELEASED →
          action (maps_capslock (code &&& 0x7f)).release_action_codes = some other) ∧
        (st.maps_capslock_key_state (code &&& 0x7f) ≠ KEY_STATE_MODIFIER_RELEASED →
          other = []) ∧
        wataash_do_atkbd_emacs en st code =
          some (wataash_do_atkbd_emacs_consumed,
                { held := HELD_HENKAN
                  maps_capslock_key_state := fun i =>
                    if i = code &&& 0x7f ∧
                      st.maps_capslock_key_state i = KEY_STATE_MODIFIER_RELEASED
                    then KEY_STATE_RELEASED else st.maps_capslock_key_state i
                  maps_henkan_key_state :=
                    Function.update st.maps_henkan_key_state (code &&& 0x7f)
                      KEY_STATE_RELEASED },
                other ++ calls)) := by
  have hidx := base_index_of_byte code hb
  have hf := release_byte_facts code hrel
  have hdec : decide (code &&& 0x80 = 0) = false := by simp [hrel]
  constructor
  · intro hheld hkey hstate
    have hent := maps_capslock_entries _ hidx.2 hkey
    obtain ⟨calls, hcalls⟩ := Option.isSome_iff_exists.1 hent.2.1
    have hnt := not_trigger_of_base code hent.2.2.1 hent.2.2.2
    have hnm : st.maps_capslock_key_state (code &&& 0x7f) ≠ KEY_STATE_MODIFIER_RELEASED := by
      rcases hstate with h | h <;> rw [h] <;> decide
    have hother : st.maps_henkan_key_state (code &&& 0x7f) = KEY_STATE_MODIFIER_RELEASED →
        (action (maps_henkan (code &&& 0x7f)).release_action_codes).isSome = true := by
      intro hm
      have hk : (maps_henkan (code &&& 0x7f)).key ≠ none := by
        intro hk
        have := (hwf _ hidx.2).2 hk
        rw [hm] at this
        exact absurd this (by decide)
      exact (maps_henkan_entries _ hidx.2 hk).2.1
    refine ⟨calls,
      if st.maps_henkan_key_state (code &&& 0x7f) = KEY_STATE_MODIFIER_RELEASED
      then (action (maps_henkan (code &&& 0x7f)).release_action_codes).getD [] else [],
      hcalls, ?_, ?_, ?_⟩
    · intro hm
      obtain ⟨c, hc⟩ := Option.isSome_iff_exists.1 (hother hm)
      rw [if_pos hm, hc]
      rfl
    · intro hm
      rw [if_neg hm]
    · rw [wataash_do_atkbd_emacs_other en hen st code hf.1 hb hnt.1 hnt.2.1 hnt.2.2.1
          hnt.2.2.2,
        release_pending_keys_of st code hb hrel (fun h => absurd h hnm) hother,
        deferred_noop _ _ hnm, if_neg hnm]
      simp only []
      rw [held_key_action_capslock
        { held := st.held
          maps_capslock_key_state := st.maps_capslock_key_state
          maps_henkan_key_state := fun i =>
            if i = code &&& 0x7f ∧ st.maps_henkan_key_state i = KEY_STATE_MODIFIER_RELEASED
            then KEY_STATE_RELEASED else st.maps_henkan_key_state i }
        code hb hheld hkey calls (by simp [hdec, hcalls])]
      simp [hdec]
  · intro hheld hkey hstate
    have hent := maps_henkan_entries _ hidx.2 hkey
    obtain ⟨calls, hcalls⟩ := Option.isSome_iff_exists.1 hent.2.1
    have hnt := not_trigger_of_base code hent.2.2.1 hent.2.2.2
    have hnm : st.maps_henkan_key_state (code &&& 0x7f) ≠ KEY_STATE_MODIFIER_RELEASED := by
      rcases hstate with h | h <;> rw [h] <;> decide
    have hother : st.maps_capslock_key_state (code &&& 0x7f) = KEY_STATE_MODIFIER_RELEASED →
        (action (maps_capslock (code &&& 0x7f)).release_action_codes).isSome = true := by
      intro hm
      have hk : (maps_capslock (code &&& 0x7f)).key ≠ none := by
        intro hk
        have := (hwf _ hidx.2).1 hk
        rw [hm] at this
        exact absurd this (by decide)
      exact (maps_capslock_entries _ hidx.2 hk).2.1
    refine ⟨calls,
      if st.maps_capslock_key_state (code &&& 0x7f) = KEY_STATE_MODIFIER_RELEASED
      then (action (maps_capslock (code &&& 0x7f)).release_action_codes).getD [] else [],
      hcalls, ?_, ?_, ?_⟩
    · intro hm
      obtain ⟨c, hc⟩ := Option.isSome_iff_exists.1 (hother hm)
      rw [if_pos hm, hc]
      rfl
    · intro hm
      rw [if_neg hm]
    · rw [wataash_do_atkbd_emacs_other en hen st code hf.1 hb hnt.1 hnt.2.1 hnt.2.2.1
          hnt.2.2.2,
        release_pending_keys_of st code hb hrel hother (fun h => absurd h hnm),
        deferred_noop _ _ hnm, if_neg hnm]
      simp only []
      rw [held_key_action_henkan
        { held := st.held
          maps_capslock_key_state := fun i =>
            if i = code &&& 0x7f ∧ st.maps_capslock_key_state i = KEY_STATE_MODIFIER_RELEASED
            then KEY_STATE_RELEASED else st.maps_capslock_key_state i
          maps_henkan_key_state := st.maps_henkan_key_state }
        code hb hheld hkey calls (by simp [hdec, hcalls])]
      simp [hdec]

/-- C7, instance: CapsLock held, key "a" pressing, release byte 0x9e. -/
theorem release_replays_release_sequence_witness :
    ∃ calls other,
      action (maps_capslock (0x9e &&& 0x7f)).release_action_codes = some calls ∧
      (overlay_caps_a_pressing.maps_henkan_key_state (0x9e &&& 0x7f) ≠
          KEY_STATE_MODIFIER_RELEASED → other = []) ∧
      wataash_do_atkbd_emacs 1 overlay_caps_a_pressing 0x9e =
        some (wataash_do_atkbd_emacs_consumed,
              { held := HELD_CAPSLOCK
                maps_capslock_key_state :=
                  Function.update overlay_caps_a_pressing.maps_capslock_key_state
                    (0x9e &&& 0x7f) KEY_STATE_RELEASED
                maps_henkan_key_state := fun i =>
                  if i = 0x9e &&& 0x7f ∧
                    overlay_caps_a_pressing.maps_henkan_key_state i =
                      KEY_STATE_MODIFIER_RELEASED
                  then KEY_STATE_RELEASED
                  else overlay_caps_a_pressing.maps_henkan_key_state i },
              other ++ calls) := by
  obtain ⟨calls, other, h1, _, h3, h4⟩ :=
    (release_replays_release_sequence 1 (by decide) overlay_caps_a_pressing
      overlay_wf_caps_a_pressing 0x9e (by decide) (by decide)).1 rfl (by decide)
      (Or.inl rfl)
  exact ⟨calls, other, h1, h3, h4⟩

/-- C10: with the overlay enabled and the state well formed, a byte in 0x01..0xff
never faults and is consumed if and only if it is one of the four trigger codes, or
a mode is held and the held table has an entry at the base scancode `code & 0x7f`;
in every other case the verdict is bypass and `atkbd_interrupt` hands the original
byte, unmodified, to the decoder (after the calls the overlay made, if any). -/
theorem consumed_iff_trigger_or_mapped (en : Nat) (hen : en ≠ 0) (st : overlay)
    (hwf : overlay_wf st) (code : Nat) (h0 : 0 < code) (hb : code < 256) :
    ∃ ret st1 calls, wataash_do_atkbd_emacs en st code = some (ret, st1, calls) ∧
      (ret = wataash_do_atkbd_emacs_consumed ↔
        (code = 0x3a ∨ code = 0xba ∨ code = 0x79 ∨ code = 0xf9) ∨
        (st.held = HELD_CAPSLOCK ∧ (maps_capslock (code &&& 0x7f)).key ≠ none) ∨
        (st.held = HELD_HENKAN ∧ (maps_henkan (code &&& 0x7f)).key ≠ none)) ∧
      (ret = wataash_do_atkbd_emacs_bypass →
        atkbd_interrupt_overlay en st code 0 = some (st1, calls.map Prod.fst ++ [code])) ∧
      (ret = wataash_do_atkbd_emacs_consumed →
        atkbd_interrupt_overlay en st code 0 = some (st1, calls.map Prod.fst)) := by
  have hdispatch : ∀ ret st1 calls, wataash_do_atkbd_emacs en st code = some (ret, st1, calls) →
      (ret = wataash_do_atkbd_emacs_bypass →
        atkbd_interrupt_overlay en st code 0 = some (st1, calls.map Prod.fst ++ [code])) ∧
      (ret = wataash_do_atkbd_emacs_consumed →
        atkbd_interrupt_overlay en st code 0 = some (st1, calls.map Prod.fst)) := by
    intro ret st1 calls h
    unfold atkbd_interrupt_overlay
    rw [if_pos (by decide), h]
    constructor
    · intro hr; subst hr; rfl
    · intro hr; subst hr; rfl
  by_cases h1 : code = 0x3a
  · have h := (wataash_trigger_press_eq en hen st).1
    rw [← h1] at h
    exact ⟨_, _, _, h, by simp [h1], hdispatch _ _ _ h⟩
  by_cases h3 : code = 0x79
  · have h := (wataash_trigger_press_eq en hen st).2
    rw [← h3] at h
    exact ⟨_, _, _, h, by simp [h3], hdispatch _ _ _ h⟩
  by_cases h2 : code = 0xba
  · have h := wataash_trigger_release_eq en hen st hwf code (Or.inl h2)
    exact ⟨_, _, _, h, by simp [h2], hdispatch _ _ _ h⟩
  by_cases h4 : code = 0xf9
  · have h := wataash_trigger_release_eq en hen st hwf code (Or.inr h4)
    exact ⟨_, _, _, h, by simp [h4], hdispatch _ _ _ h⟩
  obtain ⟨st1, calls1, hpend, hheld⟩ := release_pending_keys_held st hwf code hb
  obtain ⟨ret, st2, calls2, hact, hiff⟩ := held_key_action_verdict st1 code hb
  have h : wataash_do_atkbd_emacs en st code = some (ret, st2, calls1 ++ calls2) := by
    rw [wataash_do_atkbd_emacs_other en hen st code (by omega) hb h1 h2 h3 h4, hpend]
    simp only [hact]
  refine ⟨_, _, _, h, ?_, hdispatch _ _ _ h⟩
  rw [hiff, hheld]
  simp [h1, h2, h3, h4]

/-- C10, instance: with CapsLock held, the unmapped key "c" (byte 0x2e) is bypassed
and goes on to the decoder unchanged. -/
theorem consumed_iff_trigger_or_mapped_witness :
    ∃ ret st1 calls,
      wataash_do_atkbd_emacs 1 overlay_caps_a_pressing 0x2e = some (ret, st1, calls) ∧
      (ret = wataash_do_atkbd_emacs_consumed ↔
        ((0x2e : Nat) = 0x3a ∨ (0x2e : Nat) = 0xba ∨ (0x2e : Nat) = 0x79 ∨ (0x2e : Nat) = 0xf9) ∨
        (overlay_caps_a_pressing.held = HELD_CAPSLOCK ∧
          (maps_capslock (0x2e &&& 0x7f)).key ≠ none) ∨
        (overlay_caps_a_pressing.held = HELD_HENKAN ∧
          (maps_henkan (0x2e &&& 0x7f)).key ≠ none)) ∧
      (ret = wataash_do_atkbd_emacs_bypass →
        atkbd_interrupt_overlay 1 overlay_caps_a_pressing 0x2e 0 =
          some (st1, calls.map Prod.fst ++ [0x2e])) := by
  obtain ⟨ret, st1, calls, h1, h2, h3, _⟩ :=
    consumed_iff_trigger_or_mapped 1 (by decide) overlay_caps_a_pressing
      overlay_wf_caps_a_pressing 0x2e (by decide) (by decide)
  exact ⟨ret, st1, calls, h1, h2, h3⟩

/-! ## Lemmas on the action replay and the decoder -/

/-- Walking an array up to its first `end`: the codes before it, without the
separators, each as a call carrying the marker. -/
theorem action_walk_eq (pre rest : List Nat) (hpre : end_marker ∉ pre) :
    action_walk (pre ++ end_marker :: rest) =
      some ((pre.filter fun c => decide (c ≠ and_marker)).map
        fun c => (c % 256, SERIO_WATAASH_DOING_ACTION)) := by
  induction pre with
  | nil => simp [action_walk]
  | cons c pre ih =>
    have hc : c ≠ end_marker := fun h => hpre (by simp [h])
    have hpre1 : end_marker ∉ pre := fun h => hpre (by simp [h])
    rw [List.cons_append, action_walk, if_neg hc]
    by_cases ha : c = and_marker
    · rw [if_pos ha, ih hpre1]
      simp [ha]
    · rw [if_neg ha, ih hpre1]
      simp [ha]

/-- Every call made by `action` carries `SERIO_WATAASH_DOING_ACTION`. -/
theorem action_walk_flags :
    ∀ (codes : List Nat) (calls : List (Nat × Nat)), action_walk codes = some calls →
      ∀ c ∈ calls, c.2 = SERIO_WATAASH_DOING_ACTION := by
  intro codes
  induction codes with
  | nil => intro calls h; simp [action_walk] at h
  | cons code rest ih =>
    intro calls h
    rw [action_walk] at h
    by_cases he : code = end_marker
    · rw [if_pos he] at h
      cases h
      simp
    · rw [if_neg he] at h
      by_cases ha : code = and_marker
      · rw [if_pos ha] at h
        exact ih calls h
      · rw [if_neg ha] at h
        cases hr : action_walk rest with
        | none => rw [hr] at h; simp at h
        | some calls1 =>
          rw [hr] at h
          simp only [Option.some.injEq] at h
          subst h
          intro c hc
          rcases List.mem_cons.1 hc with rfl | hc
          · rfl
          · exact ih calls1 hr c hc

/-- C12: for an action sequence `pre ++ [end] ++ rest` whose part `pre` holds no end
marker, `action` makes exactly one call `atkbd_interrupt(serio, code,
SERIO_WATAASH_DOING_ACTION)` for each code of `pre` that is not the separator `and`,
in sequence order and nothing after the first end marker; the data of a call is the
code itself when the codes are bytes; the empty sequence `action_codes_nop` makes no
call; and each such call skips the overlay and goes to the decoder. -/
theorem action_delivers_codes_before_end (pre rest : List Nat) (hpre : end_marker ∉ pre) :
    action (some (pre ++ end_marker :: rest)) =
      some ((pre.filter fun c => decide (c ≠ and_marker)).map
        fun c => (c % 256, SERIO_WATAASH_DOING_ACTION)) ∧
    ((∀ c ∈ pre, c ≠ and_marker → c ≤ 0xff) →
      action (some (pre ++ end_marker :: rest)) =
        some ((pre.filter fun c => decide (c ≠ and_marker)).map
          fun c => (c, SERIO_WATAASH_DOING_ACTION))) ∧
    action (some action_codes_nop) = some [] ∧
    (∀ (p : platform) (ov : overlay) (a : atkbd) (c : Nat), c ∈ pre → c ≠ and_marker →
      atkbd_interrupt p ov a (c % 256) SERIO_WATAASH_DOING_ACTION =
        some (ov, atkbd_interrupt_decoder p a (c % 256) SERIO_WATAASH_DOING_ACTION)) := by
  refine ⟨action_walk_eq pre rest hpre, ?_, rfl, ?_⟩
  · intro hbytes
    show action_walk _ = _
    rw [action_walk_eq pre rest hpre]
    congr 1
    apply List.map_congr_left
    intro c hc
    have hc1 := List.mem_filter.1 hc
    have : c ≤ 0xff := hbytes c hc1.1 (by simpa using hc1.2)
    rw [Nat.mod_eq_of_lt (by omega)]
  · intro p ov a c _ _
    unfold atkbd_interrupt atkbd_interrupt_decoder
    rcases hh : atkbd_interrupt_head p a (c % 256) SERIO_WATAASH_DOING_ACTION with
      ⟨a1, out1, b⟩
    cases b with
    | false => rfl
    | true =>
      simp only []
      rw [if_neg (by decide)]

/-- C12, instance: the array `action_codes_kill_line`, with its five separators. -/
theorem action_delivers_codes_before_end_witness :
    action (some action_codes_kill_line) =
      some [(0x2a, 0x200), (0xe0, 0x200), (0x4f, 0x200), (0xe0, 0x200), (0xcf, 0x200),
            (0xaa, 0x200), (0xe0, 0x200), (0x53, 0x200), (0xe0, 0x200), (0xd3, 0x200)] :=
  (action_delivers_codes_before_end
    [0x2a, and_marker, 0xe0, 0x4f, and_marker, 0xe0, 0xcf, and_marker, 0xaa, and_marker,
     0xe0, 0x53, and_marker, 0xe0, 0xd3] [] (by decide)).1

set_option maxRecDepth 100000 in
/-- C14: for every entry of `maps_capslock` and of `maps_henkan`, the press action
sequence followed by the release action sequence, read as translated scancodes (0xe0
selects the extended key, high bit is release, separators dropped), has no net
effect: every key pressed is released later and no key is released that is not
down, so no key is left down. -/
theorem action_tables_round_trip :
    ∀ i, i < 0x80 →
      ((maps_capslock i).key ≠ none → round_trip (maps_capslock i) = true) ∧
      ((maps_henkan i).key ≠ none → round_trip (maps_henkan i) = true) := by
  decide

/-- C14, instance: key "k" of `maps_capslock` (kill-line: Shift, End, Delete). -/
theorem action_tables_round_trip_witness : round_trip (maps_capslock 0x25) = true :=
  (action_tables_round_trip 0x25 (by decide)).1 (by decide)

/-- With the marker in `flags`, `atkbd_interrupt` is the decoder without the overlay
stage, whatever the overlay state. -/
theorem atkbd_interrupt_marked (p : platform) (ov : overlay) (a : atkbd) (data flags : Nat)
    (hflag : flags &&& SERIO_WATAASH_DOING_ACTION ≠ 0) :
    atkbd_interrupt p ov a data flags = some (ov, atkbd_interrupt_decoder p a data flags) := by
  unfold atkbd_interrupt atkbd_interrupt_decoder
  rcases hh : atkbd_interrupt_head p a data flags with ⟨a1, out1, b⟩
  cases b with
  | false => rfl
  | true =>
    simp only []
    rw [if_neg hflag]

/-- An `unsigned int` whose only set bit is the marker is the marker. -/
theorem flags_eq_marker (flags : Nat) (hlt : flags < 2 ^ 32)
    (hz : flags &&& 0xFFFFFDFF = 0) : flags = 0 ∨ flags = SERIO_WATAASH_DOING_ACTION := by
  have h1 : flags &&& 0xFFFFFFFF = flags := by
    have := Nat.and_pow_two_sub_one_eq_mod flags 32
    simp at this
    omega
  have h2 : flags &&& (0xFFFFFDFF ||| 0x200) = flags := h1
  rw [Nat.and_or_distrib_left, hz, Nat.zero_or] at h2
  have h3 := Nat.and_two_pow flags 9
  have h4 : flags &&& 0x200 = (flags.testBit 9).toNat * 2 ^ 9 := h3
  rw [h2] at h4
  cases hb : flags.testBit 9 with
  | false => left; rw [h4, hb]; rfl
  | true => right; rw [h4, hb]; rfl

/-- Taking the marker out of `flags` changes no test of lines 892-917 but `!flags`. -/
theorem atkbd_interrupt_head_unmarked (p : platform) (a : atkbd) (data flags : Nat)
    (hlt : flags < 2 ^ 32)
    (h : p.arch_x86 = true ∨ flags ≠ SERIO_WATAASH_DOING_ACTION ∨ data ≠ ATKBD_RET_ACK ∨
      a.resend = false) (hflag : flags &&& SERIO_WATAASH_DOING_ACTION ≠ 0) :
    atkbd_interrupt_head p a data (flags &&& 0xFFFFFDFF) = atkbd_interrupt_head p a data flags := by
  have e1 : flags &&& 0xFFFFFDFF &&& (SERIO_FRAME ||| SERIO_PARITY) =
      flags &&& (SERIO_FRAME ||| SERIO_PARITY) := by
    rw [Nat.land_assoc]; rfl
  have e2 : flags &&& 0xFFFFFDFF &&& SERIO_TIMEOUT = flags &&& SERIO_TIMEOUT := by
    rw [Nat.land_assoc]; rfl
  have hne : flags ≠ 0 := by
    intro h0; rw [h0] at hflag; exact hflag (by decide)
  unfold atkbd_interrupt_head
  rw [e1, e2]
  by_cases hx : p.arch_x86 = true
  · simp [hx]
  · have hx1 : p.arch_x86 = false := by simpa using hx
    by_cases hz : flags &&& 0xFFFFFDFF = 0
    · by_cases hd : data = ATKBD_RET_ACK
      · have hr : a.resend = false := by
          rcases h with h | h | h | h
          · exact absurd h hx
          · rcases flags_eq_marker flags hlt hz with h0 | h0
            · exact absurd h0 hne
            · exact absurd h0 h
          · exact absurd hd h
          · exact h
        have ea : ({ a with resend := false } : atkbd) = a := by
          cases a; simp_all
        simp [hx1, hz, hd, hne, ea]
      · simp [hx1, hz, hd, hne]
    · simp [hx1, hz, hne]

/-- C11: a call of `atkbd_interrupt` whose flags carry `SERIO_WATAASH_DOING_ACTION`
never reaches the overlay: for every byte, overlay state and decoder state the
overlay state (held mode and every slot) is returned unchanged and the byte is
decoded as by `atkbd_interrupt` without the overlay stage, also when the byte is a
trigger code or a mapped key.  The result is also that of the decoder called without
the marker, except on a non-x86 build for a lone ACK byte while a resend is pending
(the test `!flags` of line 902 sees the marker). -/
theorem synthetic_byte_skips_overlay (p : platform) (ov : overlay) (a : atkbd)
    (data flags : Nat) (hflag : flags &&& SERIO_WATAASH_DOING_ACTION ≠ 0) :
    atkbd_interrupt p ov a data flags = some (ov, atkbd_interrupt_decoder p a data flags) ∧
    (flags < 2 ^ 32 →
      (p.arch_x86 = true ∨ flags ≠ SERIO_WATAASH_DOING_ACTION ∨ data ≠ ATKBD_RET_ACK ∨
        a.resend = false) →
      atkbd_interrupt_decoder p a data flags =
        atkbd_interrupt_decoder p a data (flags &&& 0xFFFFFDFF)) := by
  refine ⟨atkbd_interrupt_marked p ov a data flags hflag, ?_⟩
  intro hlt h
  unfold atkbd_interrupt_decoder
  rw [atkbd_interrupt_head_unmarked p a data flags hlt h hflag]

/-- C11, instance: the trigger code 0x3a injected with the marker while CapsLock is
held and "a" is pressing leaves the overlay as it is. -/
theorem synthetic_byte_skips_overlay_witness :
    atkbd_interrupt platform_x86 overlay_caps_a_pressing atkbd_idle_translated 0x3a 0x200 =
      some (overlay_caps_a_pressing,
            atkbd_interrupt_decoder platform_x86 atkbd_idle_translated 0x3a 0x200) :=
  (synthetic_byte_skips_overlay platform_x86 overlay_caps_a_pressing atkbd_idle_translated
    0x3a 0x200 (by decide)).1

/-- Lines 935-944 do not touch `atkbd->emul`. -/
theorem atkbd_unmangle_emul (a : atkbd) (code data : Nat) :
    (atkbd_unmangle a code data).1.emul = a.emul := by
  unfold atkbd_unmangle atkbd_calculate_xl_bit
  split_ifs <;> rfl

/-- The scancode fixup, when one of the two known values is installed, leaves
`atkbd->emul` or resets it to 0. -/
theorem atkbd_fixup_emul (p : platform) (hp : fixup_known p) (a : atkbd) (data : Nat) :
    (atkbd_fixup p a data).1.emul = a.emul ∨ (atkbd_fixup p a data).1.emul = 0 := by
  unfold atkbd_fixup
  rcases hp with h | h
  · rw [h]; left; rfl
  · rw [h]
    simp only [atkbd_oqo_01plus_scancode_fixup]
    split_ifs
    · right; rfl
    · left; rfl

/-- Lines 946-978 emit no key event. -/
theorem atkbd_switch_no_key_event (a : atkbd) (code : Nat) :
    key_events (atkbd_switch a code).2.1 = [] := by
  unfold atkbd_switch
  split_ifs <;> rfl

/-- Lines 930-978 emit no key event. -/
theorem atkbd_scancode_no_key_event (p : platform) (a : atkbd) (data : Nat) :
    key_events (atkbd_scancode p a data).2.1 = [] := by
  simp only [atkbd_scancode, key_events]
  exact atkbd_switch_no_key_event _ _

/-- After lines 946-978 the emulation depth is at most 2 when it was before; and it
is 0 when the key lookup is reached. -/
theorem atkbd_switch_emul (a : atkbd) (code : Nat) :
    (a.emul ≤ 2 → (atkbd_switch a code).1.emul ≤ 2) ∧
    (∀ sc, (atkbd_switch a code).2.2 = some sc → (atkbd_switch a code).1.emul = 0) := by
  unfold atkbd_switch
  constructor
  · intro h2
    split_ifs <;> simp <;> omega
  · intro sc
    split_ifs <;> simp <;> omega

/-- After lines 930-978 the emulation depth is at most 2 when it was before; and it
is 0 when the key lookup is reached. -/
theorem atkbd_scancode_emul (p : platform) (hp : fixup_known p) (a : atkbd) (data : Nat) :
    (a.emul ≤ 2 → (atkbd_scancode p a data).1.emul ≤ 2) ∧
    (∀ sc, (atkbd_scancode p a data).2.2 = some sc → (atkbd_scancode p a data).1.emul = 0) := by
  have hf := atkbd_fixup_emul p hp a data
  have hu := atkbd_unmangle_emul (atkbd_fixup p a data).1 (atkbd_fixup p a data).2 data
  simp only [atkbd_scancode]
  constructor
  · intro h2
    apply (atkbd_switch_emul _ _).1
    rcases hf with h | h <;> omega
  · intro sc h
    exact (atkbd_switch_emul _ _).2 sc h

/-- Lines 1021-1042 do not touch `atkbd->emul`. -/
theorem atkbd_report_key_emul (p : platform) (a : atkbd) (code keycode : Nat) :
    (atkbd_report_key p a code keycode).1.emul = a.emul := by
  unfold atkbd_report_key
  simp only []
  split_ifs <;> rfl

/-- Lines 986-1042 do not touch `atkbd->emul`. -/
theorem atkbd_report_switch_emul (p : platform) (a : atkbd) (code keycode : Nat) :
    (atkbd_report_switch p a code keycode).1.emul = a.emul := by
  unfold atkbd_report_switch
  split_ifs
  all_goals first | rfl | exact atkbd_report_key_emul p a code keycode

/-- Lines 980-1053 do not touch `atkbd->emul`. -/
theorem atkbd_report_emul (p : platform) (a : atkbd) (code : Nat) :
    (atkbd_report p a code).1.emul = a.emul := by
  unfold atkbd_report
  simp only []
  split_ifs
  all_goals exact atkbd_report_switch_emul p a code _

/-- Lines 892-917 do not touch `atkbd->emul`. -/
theorem atkbd_interrupt_head_emul (p : platform) (a : atkbd) (data flags : Nat) :
    (atkbd_interrupt_head p a data flags).1.emul = a.emul := by
  unfold atkbd_interrupt_head
  simp only []
  split_ifs <;> rfl

/-- The decoder proper reaches the key lookup or not. -/
theorem atkbd_decode_eq (p : platform) (a : atkbd) (data : Nat) :
    atkbd_decode p a data =
      match (atkbd_scancode p a data).2.2 with
      | none => ((atkbd_scancode p a data).1, (atkbd_scancode p a data).2.1)
      | some sc =>
        ((atkbd_report p (atkbd_scancode p a data).1 sc).1,
         (atkbd_scancode p a data).2.1 ++ (atkbd_report p (atkbd_scancode p a data).1 sc).2) := by
  unfold atkbd_decode
  rcases atkbd_scancode p a data with ⟨a1, out1, sc⟩
  cases sc <;> rfl

/-- The decoder proper keeps the emulation depth at most 2. -/
theorem atkbd_decode_emul (p : platform) (hp : fixup_known p) (a : atkbd) (data : Nat)
    (h2 : a.emul ≤ 2) : (atkbd_decode p a data).1.emul ≤ 2 := by
  rw [atkbd_decode_eq]
  have h := (atkbd_scancode_emul p hp a data).1 h2
  cases hs : (atkbd_scancode p a data).2.2 with
  | none => exact h
  | some sc =>
    simp only []
    rw [atkbd_report_emul]
    exact h

/-- The function without the overlay stage goes through lines 892-917 and then, if
these did not leave, the decoder proper. -/
theorem atkbd_interrupt_decoder_eq (p : platform) (a : atkbd) (data flags : Nat) :
    atkbd_interrupt_decoder p a data flags =
      if (atkbd_interrupt_head p a data flags).2.2 = true then
        ((atkbd_decode p (atkbd_interrupt_head p a data flags).1 data).1,
         (atkbd_interrupt_head p a data flags).2.1 ++
           (atkbd_decode p (atkbd_interrupt_head p a data flags).1 data).2)
      else ((atkbd_interrupt_head p a data flags).1, (atkbd_interrupt_head p a data flags).2.1) := by
  unfold atkbd_interrupt_decoder
  rcases atkbd_interrupt_head p a data flags with ⟨a1, out1, b⟩
  cases b <;> rfl

/-- The function without the overlay stage keeps the emulation depth at most 2. -/
theorem atkbd_interrupt_decoder_emul (p : platform) (hp : fixup_known p) (a : atkbd)
    (data flags : Nat) (h2 : a.emul ≤ 2) :
    (atkbd_interrupt_decoder p a data flags).1.emul ≤ 2 := by
  rw [atkbd_interrupt_decoder_eq]
  have hh := atkbd_interrupt_head_emul p a data flags
  split_ifs
  · exact atkbd_decode_emul p hp _ data (by omega)
  · show (atkbd_interrupt_head p a data flags).1.emul ≤ 2
    omega

/-- Replaying the calls of `action` keeps the emulation depth at most 2. -/
theorem atkbd_replay_emul (p : platform) (hp : fixup_known p) :
    ∀ (calls : List (Nat × Nat)) (a : atkbd), a.emul ≤ 2 → (atkbd_replay p a calls).1.emul ≤ 2 := by
  intro calls
  induction calls with
  | nil => intro a h; exact h
  | cons c rest ih =>
    intro a h
    rw [atkbd_replay]
    exact ih _ (atkbd_interrupt_decoder_emul p hp a c.1 c.2 h)

/-- The whole of `atkbd_interrupt`, in terms of the verdict of the overlay. -/
theorem atkbd_interrupt_eq (p : platform) (ov : overlay) (a : atkbd) (data flags : Nat)
    (hflag : flags &&& SERIO_WATAASH_DOING_ACTION = 0)
    (hhead : (atkbd_interrupt_head p a data flags).2.2 = true)
    (ret : wataash_do_atkbd_emacs_ret) (ov1 : overlay) (calls : List (Nat × Nat))
    (hov : wataash_do_atkbd_emacs p.wataash_atkbd_emacs ov data = some (ret, ov1, calls)) :
    atkbd_interrupt p ov a data flags =
      some (ov1,
        if ret = wataash_do_atkbd_emacs_consumed then
          ((atkbd_replay p (atkbd_interrupt_head p a data flags).1 calls).1,
           (atkbd_interrupt_head p a data flags).2.1 ++
             (atkbd_replay p (atkbd_interrupt_head p a data flags).1 calls).2)
        else
          ((atkbd_decode p (atkbd_replay p (atkbd_interrupt_head p a data flags).1 calls).1
              data).1,
           (atkbd_interrupt_head p a data flags).2.1 ++
             (atkbd_replay p (atkbd_interrupt_head p a data flags).1 calls).2 ++
             (atkbd_decode p (atkbd_replay p (atkbd_interrupt_head p a data flags).1 calls).1
               data).2)) := by
  unfold atkbd_interrupt
  rcases hh : atkbd_interrupt_head p a data flags with ⟨a1, out1, b⟩
  rw [hh] at hhead
  simp only [] at hhead
  subst hhead
  simp only []
  rw [if_pos hflag, hov]
  cases ret <;> rfl

/-- When lines 892-917 leave through `goto out`, nothing else happens. -/
theorem atkbd_interrupt_out (p : platform) (ov : overlay) (a : atkbd) (data flags : Nat)
    (hhead : (atkbd_interrupt_head p a data flags).2.2 = false) :
    atkbd_interrupt p ov a data flags =
      some (ov, (atkbd_interrupt_head p a data flags).1,
        (atkbd_interrupt_head p a data flags).2.1) := by
  unfold atkbd_interrupt
  rcases hh : atkbd_interrupt_head p a data flags with ⟨a1, out1, b⟩
  rw [hh] at hhead
  simp only [] at hhead
  subst hhead
  rfl

/-- With `NULL` or the OQO fixup installed, the fixup does nothing unless the
emulation depth is 1. -/
theorem atkbd_fixup_id (p : platform) (hp : fixup_known p) (a : atkbd) (data : Nat)
    (h : a.emul ≠ 1) : atkbd_fixup p a data = (a, data) := by
  unfold atkbd_fixup
  rcases hp with h1 | h1
  · rw [h1]
  · rw [h1]
    simp only [atkbd_oqo_01plus_scancode_fixup]
    rw [if_neg (fun hc => h hc.2.1)]

/-- The prefix bytes 0xe0 and 0xe1 are never unmangled by `atkbd_need_xlate`. -/
theorem atkbd_need_xlate_emul (xl_bit : Nat) :
    atkbd_need_xlate xl_bit 0xe0 = false ∧ atkbd_need_xlate xl_bit 0xe1 = false := by
  constructor <;> rfl

/-- Lines 892-917 emit no key event. -/
theorem atkbd_interrupt_head_no_key_event (p : platform) (a : atkbd) (data flags : Nat) :
    key_events (atkbd_interrupt_head p a data flags).2.1 = [] := by
  unfold atkbd_interrupt_head
  simp only []
  split_ifs <;> rfl

/-- The key events of two runs of calls, one after the other. -/
theorem key_events_append (xs ys : List effect) :
    key_events (xs ++ ys) = key_events xs ++ key_events ys := by
  induction xs with
  | nil => rfl
  | cons x xs ih =>
    cases x <;> simp [key_events, ih]

/-- At emulation depth 2 lines 946-978 never reach the key lookup. -/
theorem atkbd_switch_depth2 (a : atkbd) (code : Nat) (h : a.emul = 2) :
    (atkbd_switch a code).2.2 = none := by
  unfold atkbd_switch
  split_ifs <;> first | rfl | omega

/-- When the key lookup is not reached the decoder proper emits no key event. -/
theorem atkbd_decode_no_lookup (p : platform) (a : atkbd) (data : Nat)
    (h : (atkbd_scancode p a data).2.2 = none) :
    atkbd_decode p a data = ((atkbd_scancode p a data).1, (atkbd_scancode p a data).2.1) ∧
    key_events (atkbd_decode p a data).2 = [] := by
  have e : atkbd_decode p a data =
      ((atkbd_scancode p a data).1, (atkbd_scancode p a data).2.1) := by
    rw [atkbd_decode_eq, h]
  exact ⟨e, by rw [e]; exact atkbd_scancode_no_key_event p a data⟩

/-- The decoder proper on the byte 0xe1 at depth 0, and on any byte at depth 2. -/
theorem emulation_bytes_decode (p : platform) (hp : fixup_known p) (a : atkbd) :
    (a.emul = 0 →
      (atkbd_scancode p a 0xe1).2.2 = none ∧
      key_events (atkbd_decode p a 0xe1).2 = [] ∧
      (atkbd_decode p a 0xe1).1.emul = 2) ∧
    (∀ data, a.emul = 2 →
      (atkbd_scancode p a data).2.2 = none ∧
      key_events (atkbd_decode p a data).2 = [] ∧
      (a.translated = true → (atkbd_decode p a data).1.emul = 1)) := by
  have h0 : a.emul = 0 →
      (atkbd_scancode p a 0xe1).2.2 = none ∧
      key_events (atkbd_decode p a 0xe1).2 = [] ∧
      (atkbd_decode p a 0xe1).1.emul = 2 := by
    intro he
    have hsw : atkbd_switch (atkbd_unmangle a 0xe1 0xe1).1 (atkbd_unmangle a 0xe1 0xe1).2 =
        ({ (atkbd_unmangle a 0xe1 0xe1).1 with emul := 2 }, [], none) := by
      have hc : (atkbd_unmangle a 0xe1 0xe1).2 = 0xe1 := by
        unfold atkbd_unmangle
        rw [(atkbd_need_xlate_emul a.xl_bit).2]
        split_ifs <;> first | rfl | simp_all
      rw [hc]
      rfl
    have hs : (atkbd_scancode p a 0xe1).2.2 = none := by
      simp only [atkbd_scancode, atkbd_fixup_id p hp a 0xe1 (by omega), hsw]
    have hd := atkbd_decode_no_lookup p a 0xe1 hs
    refine ⟨hs, hd.2, ?_⟩
    rw [hd.1]
    simp only [atkbd_scancode, atkbd_fixup_id p hp a 0xe1 (by omega), hsw]
  have h2 : ∀ data, a.emul = 2 →
      (atkbd_scancode p a data).2.2 = none ∧
      key_events (atkbd_decode p a data).2 = [] ∧
      (a.translated = true → (atkbd_decode p a data).1.emul = 1) := by
    intro data he
    have hue := atkbd_unmangle_emul a data data
    have hs : (atkbd_scancode p a data).2.2 = none := by
      simp only [atkbd_scancode, atkbd_fixup_id p hp a data (by omega)]
      exact atkbd_switch_depth2 _ _ (by omega)
    have hd := atkbd_decode_no_lookup p a data hs
    refine ⟨hs, hd.2, ?_⟩
    intro ht
    rw [hd.1]
    simp only [atkbd_scancode, atkbd_fixup_id p hp a data (by omega)]
    have hu : atkbd_unmangle a data data =
        ({ a with release := decide (data >>> 7 ≠ 0) }, data &&& 0x7f) := by
      unfold atkbd_unmangle
      rw [if_pos ht, if_pos (Or.inl (by omega)), if_neg (by omega)]
    rw [hu]
    have hlt : data &&& 0x7f ≤ 0x7f := Nat.and_le_right
    unfold atkbd_switch
    simp only [ATKBD_RET_BAT, ATKBD_RET_EMUL0, ATKBD_RET_EMUL1, ATKBD_RET_RELEASE,
      ATKBD_RET_ACK, ATKBD_RET_NAK, ATKBD_RET_ERR]
    rw [if_neg (by omega), if_neg (by omega), if_neg (by omega), if_neg (by omega),
      if_neg (by omega), if_neg (by omega), if_pos (by show a.emul ≠ 0; omega),
      if_pos (by show a.emul - 1 ≠ 0; omega)]
    show a.emul - 1 = 1
    omega
  exact ⟨h0, h2⟩

/-- C16: for every decoder configuration (translated or raw, any code set, `NULL` or
the OQO fixup installed): the prefix byte 0xe1 arriving at emulation depth 0 emits no
key event and sets the depth to 2; and any byte arriving at depth 2 emits no key
event, because it never reaches the key lookup (it takes a protocol branch or only
brings the depth down to 1, which is what happens in translated mode).  The same
holds for the whole of `atkbd_interrupt` without the overlay stage.  So of a
three-byte sequence only the last byte can emit a key event. -/
theorem emulation_bytes_emit_no_key_event (p : platform) (hp : fixup_known p) (a : atkbd) :
    (a.emul = 0 →
      (atkbd_scancode p a 0xe1).2.2 = none ∧
      key_events (atkbd_decode p a 0xe1).2 = [] ∧
      (atkbd_decode p a 0xe1).1.emul = 2) ∧
    (∀ data, a.emul = 2 →
      (atkbd_scancode p a data).2.2 = none ∧
      key_events (atkbd_decode p a data).2 = [] ∧
      (a.translated = true → (atkbd_decode p a data).1.emul = 1)) ∧
    (∀ data flags, (a.emul = 2 ∨ (a.emul = 0 ∧ data = 0xe1)) →
      key_events (atkbd_interrupt_decoder p a data flags).2 = []) := by
  refine ⟨(emulation_bytes_decode p hp a).1, (emulation_bytes_decode p hp a).2, ?_⟩
  intro data flags h
  rw [atkbd_interrupt_decoder_eq]
  have hhe := atkbd_interrupt_head_emul p a data flags
  split_ifs
  · rw [key_events_append, atkbd_interrupt_head_no_key_event, List.nil_append]
    rcases h with h | ⟨h, hd⟩
    · exact ((emulation_bytes_decode p hp (atkbd_interrupt_head p a data flags).1).2 data
        (by omega)).2.1
    · subst hd
      exact ((emulation_bytes_decode p hp (atkbd_interrupt_head p a 0xe1 flags).1).1
        (by omega)).2.1
  · exact atkbd_interrupt_head_no_key_event p a data flags

/-- C16, instance: an idle translated-mode decoder receives 0xe1. -/
theorem emulation_bytes_emit_no_key_event_witness :
    (atkbd_scancode platform_x86 atkbd_idle_translated 0xe1).2.2 = none ∧
    key_events (atkbd_decode platform_x86 atkbd_idle_translated 0xe1).2 = [] ∧
    (atkbd_decode platform_x86 atkbd_idle_translated 0xe1).1.emul = 2 :=
  (emulation_bytes_emit_no_key_event platform_x86 (Or.inl rfl) atkbd_idle_translated).1 rfl

/-- One call of `atkbd_interrupt` on a byte, from a well-formed overlay state and an
emulation depth of at most 2: it returns, and both properties hold again. -/
theorem atkbd_interrupt_invariant (p : platform) (hp : fixup_known p) (ov : overlay)
    (a : atkbd) (data flags : Nat) (hd : data < 256) (hwf : overlay_wf ov) (h2 : a.emul ≤ 2) :
    ∃ ov1 a1 out, atkbd_interrupt p ov a data flags = some (ov1, a1, out) ∧
      overlay_wf ov1 ∧ a1.emul ≤ 2 := by
  have hhe := atkbd_interrupt_head_emul p a data flags
  cases hh : (atkbd_interrupt_head p a data flags).2.2 with
  | false =>
    exact ⟨_, _, _, atkbd_interrupt_out p ov a data flags hh, hwf, by omega⟩
  | true =>
    by_cases hflag : flags &&& SERIO_WATAASH_DOING_ACTION = 0
    · obtain ⟨ret, ov1, calls, hov, hwf1⟩ :=
        overlay_wf_step p.wataash_atkbd_emacs ov hwf data hd
      have hr := atkbd_replay_emul p hp calls (atkbd_interrupt_head p a data flags).1 (by omega)
      have he := atkbd_interrupt_eq p ov a data flags hflag hh ret ov1 calls hov
      cases ret with
      | wataash_do_atkbd_emacs_bypass =>
        rw [if_neg (by decide)] at he
        exact ⟨_, _, _, he, hwf1, atkbd_decode_emul p hp _ data hr⟩
      | wataash_do_atkbd_emacs_consumed =>
        rw [if_pos rfl] at he
        exact ⟨_, _, _, he, hwf1, hr⟩
    · exact ⟨_, _, _, atkbd_interrupt_marked p ov a data flags hflag, hwf,
        atkbd_interrupt_decoder_emul p hp a data flags h2⟩

/-- A sequence of calls of `atkbd_interrupt` keeps both properties. -/
theorem atkbd_interrupt_seq_invariant :
    ∀ (bytes : List (platform × Nat × Nat)) (ov : overlay) (a : atkbd),
      (∀ b ∈ bytes, fixup_known b.1 ∧ b.2.1 < 256) → overlay_wf ov → a.emul ≤ 2 →
      ∃ ov1 a1 out, atkbd_interrupt_seq ov a bytes = some (ov1, a1, out) ∧
        overlay_wf ov1 ∧ a1.emul ≤ 2 := by
  intro bytes
  induction bytes with
  | nil =>
    intro ov a _ hwf h2
    exact ⟨ov, a, [], rfl, hwf, h2⟩
  | cons b rest ih =>
    intro ov a hb hwf h2
    rcases b with ⟨p, data, flags⟩
    have hb0 := hb (p, data, flags) (List.mem_cons_self _ _)
    obtain ⟨ov1, a1, out1, h1, hwf1, h21⟩ :=
      atkbd_interrupt_invariant p hb0.1 ov a data flags hb0.2 hwf h2
    obtain ⟨ov2, a2, out2, h3, hwf2, h22⟩ :=
      ih ov1 a1 (fun b hbm => hb b (List.mem_cons_of_mem _ hbm)) hwf1 h21
    refine ⟨ov2, a2, out1 ++ out2, ?_, hwf2, h22⟩
    simp only [atkbd_interrupt_seq, h1, h3]

/-- C17: starting from emulation depth 0 and a well-formed overlay state, after any
sequence of bytes with any flags, each in any configuration with `NULL` or the OQO
scancode fixup installed, `atkbd_interrupt` has returned every time and the emulation
depth is 0, 1 or 2; and after every byte that reaches the key lookup the depth is
0. -/
theorem emulation_depth_bounded (bytes : List (platform × Nat × Nat)) (ov : overlay)
    (a : atkbd) (hb : ∀ b ∈ bytes, fixup_known b.1 ∧ b.2.1 < 256) (hwf : overlay_wf ov)
    (h0 : a.emul = 0) :
    (∃ ov1 a1 out, atkbd_interrupt_seq ov a bytes = some (ov1, a1, out) ∧
      (a1.emul = 0 ∨ a1.emul = 1 ∨ a1.emul = 2)) ∧
    (∀ (p : platform) (a : atkbd) (data sc : Nat), (atkbd_scancode p a data).2.2 = some sc →
      (atkbd_decode p a data).1.emul = 0) := by
  constructor
  · obtain ⟨ov1, a1, out, h1, _, h2⟩ :=
      atkbd_interrupt_seq_invariant bytes ov a hb hwf (by omega)
    exact ⟨ov1, a1, out, h1, by omega⟩
  · intro p a data sc hs
    rw [atkbd_decode_eq, hs]
    simp only []
    rw [atkbd_report_emul]
    have := atkbd_switch_emul
      (atkbd_unmangle (atkbd_fixup p a data).1 (atkbd_fixup p a data).2 data).1
      (atkbd_unmangle (atkbd_fixup p a data).1 (atkbd_fixup p a data).2 data).2
    simp only [atkbd_scancode] at hs ⊢
    exact this.2 sc hs

/-- C17, instance: the bytes 0xe1, 0x1d, 0x45 (Pause) reach an idle translated-mode
decoder. -/
theorem emulation_depth_bounded_witness :
    ∃ ov1 a1 out,
      atkbd_interrupt_seq overlay_init atkbd_idle_translated
        [(platform_x86, 0xe1, 0), (platform_x86, 0x1d, 0), (platform_x86, 0x45, 0)] =
        some (ov1, a1, out) ∧
      (a1.emul = 0 ∨ a1.emul = 1 ∨ a1.emul = 2) :=
  (emulation_depth_bounded
    [(platform_x86, 0xe1, 0), (platform_x86, 0x1d, 0), (platform_x86, 0x45, 0)]
    overlay_init atkbd_idle_translated
    (by
      intro b hb
      simp only [List.mem_cons, List.mem_singleton, List.not_mem_nil, or_false] at hb
      rcases hb with rfl | rfl | rfl <;> exact ⟨Or.inl rfl, by decide⟩)
    overlay_wf_init rfl).1

/-- With `NULL` or the OQO fixup installed, the fixup does nothing in raw mode, and
nothing to a byte other than 0x64, 0x65, 0x66. -/
theorem atkbd_fixup_id_of (p : platform) (hp : fixup_known p) (a : atkbd) (data : Nat)
    (h : a.translated = false ∨ (data ≠ 0x64 ∧ data ≠ 0x65 ∧ data ≠ 0x66)) :
    atkbd_fixup p a data = (a, data) := by
  unfold atkbd_fixup
  rcases hp with h1 | h1
  · rw [h1]
  · rw [h1]
    simp only [atkbd_oqo_01plus_scancode_fixup]
    rw [if_neg]
    rintro ⟨ht, _, hd⟩
    rcases h with h | h
    · rw [h] at ht; exact absurd ht (by decide)
    · omega

/-- For the i-th code of `xl_table`, `atkbd_need_xlate` returns bit i of `xl_bit`. -/
theorem atkbd_need_xlate_table (xl_bit i : Nat) (hi : i < 6) :
    atkbd_need_xlate xl_bit (xl_table.getD i 0) = test_bit i xl_bit := by
  interval_cases i <;> rfl

/-- The `switch` of line 986 on an ordinary key takes its `default` case. -/
theorem atkbd_report_switch_ordinary (p : platform) (a : atkbd) (code keycode : Nat)
    (hk : ordinary_key keycode) :
    atkbd_report_switch p a code keycode =
      ((atkbd_report_key p a code keycode).1, (atkbd_report_key p a code keycode).2, 0, 0, -1) := by
  obtain ⟨h1, h2, h3, h4, h5, h6, h7, h8, h9⟩ := hk
  unfold atkbd_report_switch
  rw [if_neg h1, if_neg h2, if_neg h3, if_neg h4, if_neg h5, if_neg h6, if_neg h7, if_neg h8,
    if_neg h9]

/-- The key event for a press (no release pending) of a key that is up, or with
software repeat on: value 1. -/
theorem atkbd_report_key_press (p : platform) (a : atkbd) (code keycode : Nat)
    (hr : a.release = false) (hup : a.softrepeat = true ∨ a.dev_key keycode = false) :
    atkbd_report_key p a code keycode =
      if a.force_release_mask code = true then
        ({ a with last := code, time := (p.jiffies + p.rep_delay_jiffies / 2) % 2 ^ 64,
                  dev_key := Function.update a.dev_key keycode false },
          [effect.input_event_key keycode 1, effect.input_sync,
           effect.input_event_msc_scan code, effect.input_event_key keycode 0,
           effect.input_sync])
      else
        ({ a with last := code, time := (p.jiffies + p.rep_delay_jiffies / 2) % 2 ^ 64,
                  dev_key := Function.update a.dev_key keycode true },
          [effect.input_event_key keycode 1, effect.input_sync]) := by
  have hn : ¬ (a.softrepeat = false ∧ a.dev_key keycode = true) := by
    rintro ⟨h1, h2⟩
    rcases hup with h | h
    · rw [h1] at h; exact absurd h (by decide)
    · rw [h2] at h; exact absurd h (by decide)
  unfold atkbd_report_key
  simp only [hr, hn, if_false, Bool.false_eq_true, input_core_key]
  by_cases hm : a.force_release_mask code = true
  · simp [hm]
  · simp [hm]

/-- The key event for a release (release pending): value 0, and no forced release. -/
theorem atkbd_report_key_release (p : platform) (a : atkbd) (code keycode : Nat)
    (hr : a.release = true) :
    atkbd_report_key p a code keycode =
      ({ a with last := 0, dev_key := Function.update a.dev_key keycode false },
        [effect.input_event_key keycode 0, effect.input_sync]) := by
  unfold atkbd_report_key
  simp [hr, input_core_key]

set_option maxRecDepth 100000 in
/-- C18, counterexample: an idle translated-mode decoder (emulation depth 0, `xl_bit`
clear, so the bit of 0xaa is not armed) receives 0xaa: the byte is not unmangled
(the code stays 0xaa, release is not set) and it is handled as the handshake byte
(the device is disabled and a reconnect requested). -/
theorem unarmed_handshake_byte_is_protocol :
    test_bit 0 atkbd_idle_translated.xl_bit = false ∧
    (atkbd_unmangle atkbd_idle_translated 0xaa 0xaa).2 = 0xaa ∧
    (atkbd_unmangle atkbd_idle_translated 0xaa 0xaa).1.release = false ∧
    (atkbd_decode platform_x86 atkbd_idle_translated 0xaa).1.enabled = false ∧
    (atkbd_decode platform_x86 atkbd_idle_translated 0xaa).2 =
      [effect.input_event_msc_raw 0xaa, effect.serio_reconnect] := by
  decide

/-- C18, amended: in translated mode at emulation depth 0, for the i-th handshake
code of `xl_table` (0xaa, 0xff, 0xfa, 0xfe, 0xf1, 0xf2): when bit i of `xl_bit` is
armed the unmangling step treats the byte as a release-flagged scancode (release set,
code := byte & 0x7f); when the bit is not armed the byte is left as it is (code :=
byte, release untouched) and goes on as the handshake byte. -/
theorem handshake_byte_unmangled_iff_armed (a : atkbd) (ht : a.translated = true)
    (he : a.emul = 0) (i : Nat) (hi : i < 6) :
    (test_bit i a.xl_bit = true →
      (atkbd_unmangle a (xl_table.getD i 0) (xl_table.getD i 0)).2 = xl_table.getD i 0 &&& 0x7f ∧
      (atkbd_unmangle a (xl_table.getD i 0) (xl_table.getD i 0)).1.release = true) ∧
    (test_bit i a.xl_bit = false →
      (atkbd_unmangle a (xl_table.getD i 0) (xl_table.getD i 0)).2 = xl_table.getD i 0 ∧
      (atkbd_unmangle a (xl_table.getD i 0) (xl_table.getD i 0)).1.release = a.release) := by
  have hn := atkbd_need_xlate_table a.xl_bit i hi
  constructor
  · intro hb
    have hc : a.emul ≠ 0 ∨ atkbd_need_xlate a.xl_bit (xl_table.getD i 0) = true :=
      Or.inr (by rw [hn, hb])
    unfold atkbd_unmangle
    rw [if_pos ht, if_pos hc, if_pos he]
    refine ⟨rfl, ?_⟩
    show decide (xl_table.getD i 0 >>> 7 ≠ 0) = true
    interval_cases i <;> decide
  · intro hb
    have hc : ¬ (a.emul ≠ 0 ∨ atkbd_need_xlate a.xl_bit (xl_table.getD i 0) = true) := by
      rw [hn, hb]
      simp [he]
    unfold atkbd_unmangle
    rw [if_pos ht, if_neg hc, if_pos he]
    exact ⟨rfl, rfl⟩

set_option maxRecDepth 100000 in
/-- C18 amended, instance: the byte 0xaa while bit 0 of `xl_bit` is armed. -/
theorem handshake_byte_unmangled_iff_armed_witness :
    (atkbd_unmangle { atkbd_idle_translated with xl_bit := 1 } 0xaa 0xaa).2 = 0x2a ∧
    (atkbd_unmangle { atkbd_idle_translated with xl_bit := 1 } 0xaa 0xaa).1.release = true :=
  (handshake_byte_unmangled_iff_armed { atkbd_idle_translated with xl_bit := 1 } rfl rfl 0
    (by decide)).1 (by decide)

/-- The key events of lines 980-1053 for a press (no release pending) of an ordinary
key that is up and whose scancode is in `force_release_mask`. -/
theorem atkbd_report_forced_release (p : platform) (a : atkbd) (code : Nat)
    (hr : a.release = false) (hm : a.force_release_mask code = true)
    (hk : ordinary_key (a.keycode code)) (hup : a.dev_key (a.keycode code) = false) :
    key_events (atkbd_report p a code).2 = [(a.keycode code, 1), (a.keycode code, 0)] := by
  unfold atkbd_report
  simp only [atkbd_report_switch_ordinary p a code _ hk,
    atkbd_report_key_press p a code _ hr (Or.inr hup), hm, if_true]
  have hnull : a.keycode code ≠ ATKBD_KEY_NULL := hk.1
  simp only [hr, hnull, ne_eq, not_false_eq_true, and_true, Bool.false_eq_true, false_and,
    if_true, if_false, not_true_eq_false]
  split_ifs <;> simp [key_events]

/-- C20: for every scancode whose bit is set in the force-release mask and whose
table entry is an ordinary key, a press (no release pending) while the key is up
emits exactly two key events, the press of the key and then its release, from that
one byte: for the key lookup stage on the composed scancode, and for the decoder
proper on any byte that reaches the lookup with that scancode. -/
theorem forced_release_press_then_release (p : platform) (a : atkbd) :
    (∀ code, a.release = false → a.force_release_mask code = true →
      ordinary_key (a.keycode code) → a.dev_key (a.keycode code) = false →
      key_events (atkbd_report p a code).2 = [(a.keycode code, 1), (a.keycode code, 0)]) ∧
    (∀ data code, (atkbd_scancode p a data).2.2 = some code →
      (atkbd_scancode p a data).1.release = false →
      (atkbd_scancode p a data).1.force_release_mask code = true →
      ordinary_key ((atkbd_scancode p a data).1.keycode code) →
      (atkbd_scancode p a data).1.dev_key ((atkbd_scancode p a data).1.keycode code) = false →
      key_events (atkbd_decode p a data).2 =
        [((atkbd_scancode p a data).1.keycode code, 1),
         ((atkbd_scancode p a data).1.keycode code, 0)]) := by
  refine ⟨fun code hr hm hk hup => atkbd_report_forced_release p a code hr hm hk hup, ?_⟩
  intro data code hs hr hm hk hup
  rw [atkbd_decode_eq, hs]
  simp only []
  rw [key_events_append, atkbd_scancode_no_key_event, List.nil_append]
  exact atkbd_report_forced_release p _ code hr hm hk hup

set_option maxRecDepth 100000 in
/-- C20, instance: the Hangeul byte 0xf2 on an idle translated-mode decoder (composed
scancode 0x172, keycode 122). -/
theorem forced_release_press_then_release_witness :
    key_events (atkbd_decode platform_x86 atkbd_idle_translated 0xf2).2 = [(122, 1), (122, 0)] :=
  (forced_release_press_then_release platform_x86 atkbd_idle_translated).2 0xf2 0x172
    (by decide) (by decide) (by decide) (by decide) (by decide)

/-- Lines 892-917 when nothing is wrong: no frame or parity error is reported (or
the build is for x86), the byte is not a lone ACK (or the build is for x86), no
command is in flight and the device is enabled. -/
theorem atkbd_interrupt_head_quiet (p : platform) (a : atkbd) (data flags : Nat)
    (hq : p.arch_x86 = true ∨
      (flags &&& (SERIO_FRAME ||| SERIO_PARITY) = 0 ∧ (flags ≠ 0 ∨ data ≠ ATKBD_RET_ACK)))
    (hps2 : a.ps2dev_flags = 0) (hen : a.enabled = true) :
    atkbd_interrupt_head p a data flags = (a, [], true) := by
  have h1 : ¬ (p.arch_x86 = false ∧ flags &&& (SERIO_FRAME ||| SERIO_PARITY) ≠ 0 ∧
      flags &&& SERIO_TIMEOUT = 0 ∧ a.resend = false ∧ a.write = true) := by
    rintro ⟨hx, hf, _⟩
    rcases hq with h | h
    · rw [hx] at h; exact absurd h (by decide)
    · exact hf h.1
  have h2 : ¬ (p.arch_x86 = false ∧ flags = 0 ∧ data = ATKBD_RET_ACK) := by
    rintro ⟨hx, hf, hd⟩
    rcases hq with h | h
    · rw [hx] at h; exact absurd h (by decide)
    · rcases h.2 with h | h
      · exact h hf
      · exact h hd
  unfold atkbd_interrupt_head
  rw [if_neg h1]
  simp only [if_neg h2, hps2, hen]
  cases a
  simp_all [PS2_FLAG_ACK, PS2_FLAG_CMD]

/-- In the initial overlay state a byte that is no trigger code is bypassed and
changes nothing. -/
theorem wataash_init_bypass (en : Nat) (code : Nat) (hb : code < 256)
    (h1 : code ≠ 0x3a) (h2 : code ≠ 0xba) (h3 : code ≠ 0x79) (h4 : code ≠ 0xf9) :
    wataash_do_atkbd_emacs en overlay_init code =
      some (wataash_do_atkbd_emacs_bypass, overlay_init, []) := by
  have hidx := base_index_of_byte code hb
  by_cases h0 : code = 0
  · simp only [wataash_do_atkbd_emacs, h0, if_true]
  by_cases hen : en = 0
  · unfold wataash_do_atkbd_emacs
    rw [if_neg h0, if_neg (by rw [hidx.1]; have := hidx.2; omega), if_pos hen]
  rw [wataash_do_atkbd_emacs_other en hen overlay_init code h0 hb h1 h2 h3 h4]
  by_cases hp : code &&& 0x80 = 0
  · rw [release_pending_keys_press overlay_init code hp]
    rfl
  · have hc : overlay_init.maps_capslock_key_state (code &&& 0x7f) ≠
        KEY_STATE_MODIFIER_RELEASED := fun h => by cases h
    have hh : overlay_init.maps_henkan_key_state (code &&& 0x7f) ≠
        KEY_STATE_MODIFIER_RELEASED := fun h => by cases h
    rw [release_pending_keys_of overlay_init code hb hp (fun h => absurd h hc)
      (fun h => absurd h hh), deferred_noop _ _ hc, deferred_noop _ _ hh, if_neg hc, if_neg hh]
    rfl

/-- Masking with 0x7f gives a code below 0x80 without the bit 0x80. -/
theorem low_code_facts (code : Nat) (h : code < 0x80) :
    code &&& 0x7f = code ∧ code &&& 0x80 = 0 := by
  constructor
  · have := Nat.and_pow_two_sub_one_eq_mod code 7
    simp at this
    rw [this]
    exact Nat.mod_eq_of_lt h
  · have := Nat.and_two_pow code 7
    rw [Nat.testBit_lt_two_pow h] at this
    simpa using this

/-- The function `atkbd_compat_scancode` on a code below 0x80: the code itself at
emulation depth 0 or 2, and outside set 3 the code with the bit 0x80 at depth 1. -/
theorem atkbd_compat_scancode_low (a : atkbd) (code : Nat) (h : code < 0x80) :
    (a.emul ≠ 1 → atkbd_compat_scancode a code = code) ∧
    (a.emul = 1 → a.set ≠ 3 → atkbd_compat_scancode a code = code ||| 0x80) := by
  have hl := low_code_facts code h
  unfold atkbd_compat_scancode
  constructor
  · intro he
    rw [if_neg he, if_neg he, hl.1, hl.2]
    simp
  · intro he hs
    rw [if_neg hs, if_pos he, hl.1, hl.2]
    simp

/-- A code below 0x80 is no protocol code: lines 946-978 compose the scancode and
count the emulation depth down. -/
theorem atkbd_switch_low (a : atkbd) (code : Nat) (h : code < 0x80) :
    atkbd_switch a code =
      if a.emul ≠ 0 then
        if a.emul - 1 ≠ 0 then ({ a with emul := a.emul - 1 }, [], none)
        else ({ a with emul := a.emul - 1 }, [], some (atkbd_compat_scancode a code))
      else (a, [], some (atkbd_compat_scancode a code)) := by
  unfold atkbd_switch
  simp only [ATKBD_RET_BAT, ATKBD_RET_EMUL0, ATKBD_RET_EMUL1, ATKBD_RET_RELEASE,
    ATKBD_RET_ACK, ATKBD_RET_NAK, ATKBD_RET_ERR]
  rw [if_neg (by omega), if_neg (by omega), if_neg (by omega), if_neg (by omega),
    if_neg (by omega), if_neg (by omega)]

/-- Translated mode, emulation depth 0, a byte that `atkbd_need_xlate` lets be
unmangled: the release bit goes to `atkbd->release`, `xl_bit` is recomputed, and the
key lookup is reached with the low seven bits. -/
theorem atkbd_scancode_translated (p : platform) (hp : fixup_known p) (a : atkbd) (data : Nat)
    (ht : a.translated = true) (he : a.emul = 0)
    (hx : atkbd_need_xlate a.xl_bit data = true) :
    atkbd_scancode p a data =
      (atkbd_calculate_xl_bit { a with release := decide (data >>> 7 ≠ 0) } data,
        [effect.input_event_msc_raw data], some (data &&& 0x7f)) := by
  have hlt : data &&& 0x7f < 0x80 := by
    have : data &&& 0x7f ≤ 0x7f := Nat.and_le_right
    omega
  have hu : atkbd_unmangle a data data =
      (atkbd_calculate_xl_bit { a with release := decide (data >>> 7 ≠ 0) } data,
        data &&& 0x7f) := by
    unfold atkbd_unmangle
    rw [if_pos ht, if_pos (Or.inr hx), if_pos he]
  simp only [atkbd_scancode, atkbd_fixup_id p hp a data (by omega), hu,
    atkbd_switch_low _ _ hlt]
  have he1 : (atkbd_calculate_xl_bit { a with release := decide (data >>> 7 ≠ 0) } data).emul
      = 0 := he
  rw [if_neg (by rw [he1]; decide),
    (atkbd_compat_scancode_low _ _ hlt).1 (by rw [he1]; decide)]

/-- Translated mode, emulation depth 0: the byte 0xe0 sets the depth to 1 and nothing
else. -/
theorem atkbd_decode_translated_e0 (p : platform) (hp : fixup_known p) (a : atkbd)
    (ht : a.translated = true) (he : a.emul = 0) :
    atkbd_decode p a 0xe0 = ({ a with emul := 1 }, [effect.input_event_msc_raw 0xe0]) := by
  have hu : atkbd_unmangle a 0xe0 0xe0 = (a, 0xe0) := by
    unfold atkbd_unmangle
    rw [if_pos ht, if_neg (by rw [(atkbd_need_xlate_emul a.xl_bit).1]; simp [he]), if_pos he]
    rfl
  have hs : atkbd_scancode p a 0xe0 =
      ({ a with emul := 1 }, [effect.input_event_msc_raw 0xe0], none) := by
    simp only [atkbd_scancode, atkbd_fixup_id p hp a 0xe0 (by omega), hu]
    rfl
  rw [(atkbd_decode_no_lookup p a 0xe0 (by rw [hs])).1, hs]

/-- Translated mode outside set 3, emulation depth 1, a byte other than those the
OQO fixup rewrites: the release bit goes to `atkbd->release`, the depth returns to 0
and the key lookup is reached with the low seven bits and the bit 0x80. -/
theorem atkbd_scancode_translated_extended (p : platform) (hp : fixup_known p) (a : atkbd)
    (data : Nat) (ht : a.translated = true) (he : a.emul = 1) (hs3 : a.set ≠ 3)
    (hd : data ≠ 0x64 ∧ data ≠ 0x65 ∧ data ≠ 0x66) :
    atkbd_scancode p a data =
      ({ a with release := decide (data >>> 7 ≠ 0), emul := 0 },
        [effect.input_event_msc_raw data], some (data &&& 0x7f ||| 0x80)) := by
  have hlt : data &&& 0x7f < 0x80 := by
    have : data &&& 0x7f ≤ 0x7f := Nat.and_le_right
    omega
  have hu : atkbd_unmangle a data data =
      ({ a with release := decide (data >>> 7 ≠ 0) }, data &&& 0x7f) := by
    unfold atkbd_unmangle
    rw [if_pos ht, if_pos (Or.inl (by omega)), if_neg (by omega)]
  simp only [atkbd_scancode, atkbd_fixup_id_of p hp a data (Or.inr hd), hu,
    atkbd_switch_low _ _ hlt]
  have he1 : ({ a with release := decide (data >>> 7 ≠ 0) } : atkbd).emul = 1 := he
  rw [if_pos (by rw [he1]; decide), if_neg (by rw [he1]; decide),
    (atkbd_compat_scancode_low _ _ hlt).2 he1 hs3]
  simp only [he]

/-- Lines 980-1053 for a press (no release pending) of an ordinary key that is up
(or with software repeat on), whose scancode is not in `force_release_mask`: one key
event with value 1. -/
theorem atkbd_report_press (p : platform) (a : atkbd) (code : Nat)
    (hr : a.release = false) (hm : a.force_release_mask code = false)
    (hk : ordinary_key (a.keycode code))
    (hup : a.softrepeat = true ∨ a.dev_key (a.keycode code) = false) :
    atkbd_report p a code =
      ({ a with last := code, time := (p.jiffies + p.rep_delay_jiffies / 2) % 2 ^ 64,
                dev_key := Function.update a.dev_key (a.keycode code) true },
        [effect.input_event_msc_scan code, effect.input_event_key (a.keycode code) 1,
         effect.input_sync] ++
        if a.scroll = true then
          [effect.input_report_rel_wheel 0, effect.input_report_rel_hwheel 0, effect.input_sync]
        else []) := by
  have hnull : a.keycode code ≠ ATKBD_KEY_NULL := hk.1
  unfold atkbd_report
  simp only [atkbd_report_switch_ordinary p a code _ hk,
    atkbd_report_key_press p a code _ hr hup, hm, Bool.false_eq_true, if_false]
  simp only [hr, hnull, ne_eq, not_false_eq_true, and_true, Bool.false_eq_true, false_and,
    if_true, if_false, not_true_eq_false]
  cases hs : a.scroll
  · simp only [Bool.false_eq_true, if_false]
    cases a
    simp_all
  · simp only [if_true]
    cases a
    simp_all

/-- Lines 980-1053 for a release (release pending) of an ordinary key whose scancode
is not in `force_release_mask`: one key event with value 0. -/
theorem atkbd_report_release (p : platform) (a : atkbd) (code : Nat)
    (hr : a.release = true) (hm : a.force_release_mask code = false)
    (hk : ordinary_key (a.keycode code)) :
    atkbd_report p a code =
      ({ a with last := 0, release := false,
                dev_key := Function.update a.dev_key (a.keycode code) false },
        [effect.input_event_msc_scan code, effect.input_event_key (a.keycode code) 0,
         effect.input_sync] ++
        if a.scroll = true then
          [effect.input_report_rel_wheel 0, effect.input_report_rel_hwheel 0, effect.input_sync]
        else []) := by
  have hnull : a.keycode code ≠ ATKBD_KEY_NULL := hk.1
  unfold atkbd_report
  simp only [atkbd_report_switch_ordinary p a code _ hk,
    atkbd_report_key_release p a code _ hr, hm]
  simp only [hnull, ne_eq, not_false_eq_true, and_true, Bool.false_eq_true, and_false,
    if_true, if_false, not_true_eq_false]
  cases hs : a.scroll
  · simp only [Bool.false_eq_true, if_false]
    cases a
    simp_all
  · simp only [if_true]
    cases a
    simp_all

/-- The key events of the scroll block when no click is reported. -/
theorem key_events_scroll_tail (scroll : Bool) :
    key_events (if scroll = true then
      [effect.input_report_rel_wheel 0, effect.input_report_rel_hwheel 0, effect.input_sync]
      else []) = [] := by
  cases scroll <;> rfl

/-- Setting a bit makes its test true. -/
theorem test_bit_set_bit (i x : Nat) : test_bit i (set_bit i x) = true := by
  unfold test_bit set_bit
  rw [Nat.testBit_or, Nat.one_shiftLeft, Nat.testBit_two_pow_self]
  simp

/-- The loop of `atkbd_need_xlate` returns true for a code that is not in the
table. -/
theorem atkbd_need_xlate_loop_absent (xl_bit code : Nat) :
    ∀ (l : List Nat) (i : Nat), (∀ x ∈ l, code ≠ x) →
      atkbd_need_xlate_loop xl_bit code l i = true := by
  intro l
  induction l with
  | nil => intro i _; rfl
  | cons x rest ih =>
    intro i h
    rw [atkbd_need_xlate_loop, if_neg (h x (List.mem_cons_self _ _))]
    exact ih (i + 1) (fun y hy => h y (List.mem_cons_of_mem _ hy))

/-- A byte that is neither a prefix byte nor a handshake code is unmangled. -/
theorem atkbd_need_xlate_other (xl_bit code : Nat) (hb : code < 256)
    (h : code ≠ 0xe0 ∧ code ≠ 0xe1 ∧ code ≠ 0xaa ∧ code ≠ 0xff ∧ code ≠ 0xfa ∧ code ≠ 0xfe ∧
      code ≠ 0xf1 ∧ code ≠ 0xf2) :
    atkbd_need_xlate xl_bit code = true := by
  unfold atkbd_need_xlate
  rw [Nat.mod_eq_of_lt hb]
  simp only [ATKBD_RET_EMUL0, ATKBD_RET_EMUL1]
  rw [if_neg (by omega)]
  apply atkbd_need_xlate_loop_absent
  intro x hx
  simp only [xl_table, ATKBD_RET_BAT, ATKBD_RET_ERR, ATKBD_RET_ACK, ATKBD_RET_NAK,
    ATKBD_RET_HANJA, ATKBD_RET_HANGEUL, List.mem_cons, List.mem_singleton, List.not_mem_nil,
    or_false] at hx
  omega

/-- After the press byte of a scancode below 0x80 has recomputed `xl_bit`, the
release byte of the same scancode is unmangled, unless it is a prefix byte. -/
theorem atkbd_need_xlate_after_press (xl_bit c : Nat) (hc : c < 0x80)
    (h60 : c ≠ 0x60) (h61 : c ≠ 0x61) :
    atkbd_need_xlate (atkbd_calculate_xl_bit_loop (c % 256) xl_bit xl_table 0) (c + 0x80) =
      true := by
  by_cases ht : c = 0x2a ∨ c = 0x7f ∨ c = 0x7a ∨ c = 0x7e ∨ c = 0x71 ∨ c = 0x72
  · rcases ht with rfl | rfl | rfl | rfl | rfl | rfl <;> exact test_bit_set_bit _ _
  · exact atkbd_need_xlate_other _ _ (by omega) (by omega)

/-- The press byte and the release byte of a scancode below 0x80. -/
theorem make_break_facts (c : Nat) (hc : c < 0x80) :
    c ||| 0x80 = c + 0x80 ∧ (c + 0x80) &&& 0x7f = c ∧ decide ((c + 0x80) >>> 7 ≠ 0) = true ∧
    c &&& 0x7f = c ∧ decide (c >>> 7 ≠ 0) = false := by
  revert c
  decide

/-- Translated mode, emulation depth 0: the press byte of a scancode below 0x80 that
the table maps to an ordinary key, not in `force_release_mask`, while the key is up
or software repeat is on. -/
theorem atkbd_decode_translated_make (p : platform) (hp : fixup_known p) (a : atkbd) (c : Nat)
    (ht : a.translated = true) (he : a.emul = 0) (hc : c < 0x80)
    (hm : a.force_release_mask c = false) (hk : ordinary_key (a.keycode c))
    (hup : a.softrepeat = true ∨ a.dev_key (a.keycode c) = false) :
    atkbd_decode p a c =
      ({ a with release := false,
                xl_bit := atkbd_calculate_xl_bit_loop (c % 256) a.xl_bit xl_table 0,
                last := c, time := (p.jiffies + p.rep_delay_jiffies / 2) % 2 ^ 64,
                dev_key := Function.update a.dev_key (a.keycode c) true },
        [effect.input_event_msc_raw c, effect.input_event_msc_scan c,
         effect.input_event_key (a.keycode c) 1, effect.input_sync] ++
        if a.scroll = true then
          [effect.input_report_rel_wheel 0, effect.input_report_rel_hwheel 0, effect.input_sync]
        else []) := by
  have hf := make_break_facts c hc
  have hx : atkbd_need_xlate a.xl_bit c = true :=
    atkbd_need_xlate_other _ _ (by omega) (by omega)
  have hs := atkbd_scancode_translated p hp a c ht he hx
  rw [hf.2.2.2.1, hf.2.2.2.2] at hs
  rw [atkbd_decode_eq, hs]
  simp only []
  rw [atkbd_report_press p (atkbd_calculate_xl_bit { a with release := false } c) c rfl hm hk hup]
  rfl

/-- Translated mode, emulation depth 0: the release byte of a scancode below 0x80
that the table maps to an ordinary key, not in `force_release_mask`, when
`atkbd_need_xlate` lets the byte be unmangled. -/
theorem atkbd_decode_translated_break (p : platform) (hp : fixup_known p) (a : atkbd) (c : Nat)
    (ht : a.translated = true) (he : a.emul = 0) (hc : c < 0x80)
    (hx : atkbd_need_xlate a.xl_bit (c + 0x80) = true)
    (hm : a.force_release_mask c = false) (hk : ordinary_key (a.keycode c)) :
    atkbd_decode p a (c + 0x80) =
      ({ a with release := false,
                xl_bit := atkbd_calculate_xl_bit_loop ((c + 0x80) % 256) a.xl_bit xl_table 0,
                last := 0,
                dev_key := Function.update a.dev_key (a.keycode c) false },
        [effect.input_event_msc_raw (c + 0x80), effect.input_event_msc_scan c,
         effect.input_event_key (a.keycode c) 0, effect.input_sync] ++
        if a.scroll = true then
          [effect.input_report_rel_wheel 0, effect.input_report_rel_hwheel 0, effect.input_sync]
        else []) := by
  have hf := make_break_facts c hc
  have hs := atkbd_scancode_translated p hp a (c + 0x80) ht he hx
  rw [hf.2.1, hf.2.2.1] at hs
  rw [atkbd_decode_eq, hs]
  simp only []
  rw [atkbd_report_release p (atkbd_calculate_xl_bit { a with release := true } (c + 0x80)) c
    rfl hm hk]
  rfl

set_option maxRecDepth 100000 in
/-- In the default translated-mode table no scancode below 0x80 that is an ordinary
key is in `force_release_mask`, and none has 0xe0, 0xe1 or 0xfa as its release
byte. -/
theorem default_translated_table_facts :
    ∀ c, c < 0x80 → ordinary_key (atkbd_idle_translated.keycode c) →
      atkbd_idle_translated.force_release_mask c = false ∧ c ≠ 0x60 ∧ c ≠ 0x61 ∧ c ≠ 0x7a := by
  decide

/-- Replaying no call does nothing. -/
theorem atkbd_replay_nil (p : platform) (a : atkbd) : atkbd_replay p a [] = (a, []) := rfl

/-- A byte that the overlay bypasses without a replay, when lines 892-917 are quiet:
`atkbd_interrupt` is the decoder proper. -/
theorem atkbd_interrupt_bypass (p : platform) (ov : overlay) (a : atkbd) (data : Nat)
    (hq : p.arch_x86 = true ∨ data ≠ ATKBD_RET_ACK)
    (hps2 : a.ps2dev_flags = 0) (hen : a.enabled = true)
    (hov : wataash_do_atkbd_emacs p.wataash_atkbd_emacs ov data =
      some (wataash_do_atkbd_emacs_bypass, ov, [])) :
    atkbd_interrupt p ov a data 0 =
      some (ov, (atkbd_decode p a data).1, (atkbd_decode p a data).2) := by
  have hh := atkbd_interrupt_head_quiet p a data 0
    (hq.imp id (fun h => ⟨rfl, Or.inr h⟩)) hps2 hen
  rw [atkbd_interrupt_eq p ov a data 0 rfl (by rw [hh]) _ _ _ hov, hh]
  rfl

set_option maxRecDepth 100000 in
/-- C15, counterexample: on an idle translated-mode decoder with the default table
and the overlay enabled in its initial state, scancode 0x3a (CapsLock, an ordinary
key of the table, keycode 58) delivered as 0x3a then 0xba yields no key event at
all: the overlay consumes both bytes. -/
theorem capslock_make_break_emits_nothing :
    ordinary_key (atkbd_idle_translated.keycode 0x3a) ∧
    (atkbd_interrupt_seq overlay_init atkbd_idle_translated
      [(platform_x86, 0x3a, 0), (platform_x86, 0x3a ||| 0x80, 0)]).map
        (fun r => key_events r.2.2) = some [] := by
  constructor
  · decide
  · rfl

/-- C15, amended: in translated mode with the default keycode table and force-release
mask, from an idle decoder (enabled, no command in flight, emulation depth 0, every
key up; any `xl_bit`) and the overlay in its initial state, with `NULL` or the OQO
fixup installed: for every scancode c in 0x01..0x7f that the table maps to an
ordinary key, other than the two trigger codes 0x3a and 0x79 which the overlay
consumes, the genuine byte c followed by the genuine byte c|0x80 yields exactly one
key-press event then one key-release event for that key and no other key event, and
leaves the overlay in its initial state. -/
theorem make_break_pair_events (p : platform) (hp : fixup_known p) (a : atkbd)
    (ht : a.translated = true) (hkc : a.keycode = atkbd_idle_translated.keycode)
    (hmask : a.force_release_mask = atkbd_idle_translated.force_release_mask)
    (he : a.emul = 0) (hen : a.enabled = true) (hps2 : a.ps2dev_flags = 0)
    (hup : ∀ k, a.dev_key k = false) (c : Nat) (h1 : 1 ≤ c) (h2 : c < 0x80)
    (h3a : c ≠ 0x3a) (h79 : c ≠ 0x79) (hk : ordinary_key (a.keycode c)) :
    ∃ a1 out,
      atkbd_interrupt_seq overlay_init a [(p, c, 0), (p, c ||| 0x80, 0)] =
        some (overlay_init, a1, out) ∧
      key_events out = [(a.keycode c, 1), (a.keycode c, 0)] := by
  have hf := make_break_facts c h2
  have hd := default_translated_table_facts c h2 (by rw [← hkc]; exact hk)
  have hm : a.force_release_mask c = false := by rw [hmask]; exact hd.1
  have hmake := atkbd_decode_translated_make p hp a c ht he h2 hm hk (Or.inr (hup _))
  have hov1 := wataash_init_bypass p.wataash_atkbd_emacs c (by omega) h3a (by omega) h79
    (by omega)
  have hi1 := atkbd_interrupt_bypass p overlay_init a c
    (Or.inr (by simp only [ATKBD_RET_ACK]; omega)) hps2 hen hov1
  have hbreak := atkbd_decode_translated_break p hp
    { a with release := false,
             xl_bit := atkbd_calculate_xl_bit_loop (c % 256) a.xl_bit xl_table 0,
             last := c, time := (p.jiffies + p.rep_delay_jiffies / 2) % 2 ^ 64,
             dev_key := Function.update a.dev_key (a.keycode c) true }
    c ht he h2 (atkbd_need_xlate_after_press a.xl_bit c h2 hd.2.1 hd.2.2.1) hm hk
  have hA1 : (atkbd_decode p a c).1 =
      { a with release := false,
               xl_bit := atkbd_calculate_xl_bit_loop (c % 256) a.xl_bit xl_table 0,
               last := c, time := (p.jiffies + p.rep_delay_jiffies / 2) % 2 ^ 64,
               dev_key := Function.update a.dev_key (a.keycode c) true } := by
    rw [hmake]
  have hov2 := wataash_init_bypass p.wataash_atkbd_emacs (c + 0x80) (by omega) (by omega)
    (by omega) (by omega) (by omega)
  have hi2 := atkbd_interrupt_bypass p overlay_init (atkbd_decode p a c).1
    (c + 0x80) (Or.inr (by simp only [ATKBD_RET_ACK]; have := hd.2.2.2; omega))
    (by rw [hA1]; exact hps2) (by rw [hA1]; exact hen) hov2
  rw [hf.1]
  refine ⟨(atkbd_decode p (atkbd_decode p a c).1 (c + 0x80)).1,
    (atkbd_decode p a c).2 ++ ((atkbd_decode p (atkbd_decode p a c).1 (c + 0x80)).2 ++ []),
    ?_, ?_⟩
  · simp only [atkbd_interrupt_seq, hi1, hi2]
  · rw [hA1, hbreak, hmake]
    cases hs : a.scroll <;> simp [key_events]

set_option maxRecDepth 100000 in
/-- C15 amended, instance: scancode 0x1e (key "a", keycode 30) on the idle
translated-mode decoder. -/
theorem make_break_pair_events_witness :
    ∃ a1 out,
      atkbd_interrupt_seq overlay_init atkbd_idle_translated
        [(platform_x86, 0x1e, 0), (platform_x86, 0x1e ||| 0x80, 0)] =
        some (overlay_init, a1, out) ∧
      key_events out =
        [(atkbd_idle_translated.keycode 0x1e, 1), (atkbd_idle_translated.keycode 0x1e, 0)] :=
  make_break_pair_events platform_x86 (Or.inl rfl) atkbd_idle_translated rfl rfl rfl rfl rfl rfl
    (fun _ => rfl) 0x1e (by decide) (by decide) (by decide) (by decide) (by decide)

/-- A byte that the overlay consumes, when lines 892-917 are quiet: `atkbd_interrupt`
replays the calls of the overlay and stops. -/
theorem atkbd_interrupt_consumed (p : platform) (ov ov1 : overlay) (a : atkbd) (data : Nat)
    (calls : List (Nat × Nat)) (hq : p.arch_x86 = true ∨ data ≠ ATKBD_RET_ACK)
    (hps2 : a.ps2dev_flags = 0) (hen : a.enabled = true)
    (hov : wataash_do_atkbd_emacs p.wataash_atkbd_emacs ov data =
      some (wataash_do_atkbd_emacs_consumed, ov1, calls)) :
    atkbd_interrupt p ov a data 0 =
      some (ov1, (atkbd_replay p a calls).1, (atkbd_replay p a calls).2) := by
  have hh := atkbd_interrupt_head_quiet p a data 0
    (hq.imp id (fun h => ⟨rfl, Or.inr h⟩)) hps2 hen
  rw [atkbd_interrupt_eq p ov a data 0 rfl (by rw [hh]) _ _ _ hov, hh]
  rfl

/-- A replayed call, when lines 892-917 are quiet, is the decoder proper. -/
theorem atkbd_interrupt_decoder_replayed (p : platform) (a : atkbd) (data : Nat)
    (hps2 : a.ps2dev_flags = 0) (hen : a.enabled = true) :
    atkbd_interrupt_decoder p a data SERIO_WATAASH_DOING_ACTION = atkbd_decode p a data := by
  have hh := atkbd_interrupt_head_quiet p a data SERIO_WATAASH_DOING_ACTION
    (Or.inr ⟨by decide, Or.inl (by decide)⟩) hps2 hen
  rw [atkbd_interrupt_decoder_eq, hh]
  rfl

/-- Translated mode outside set 3, emulation depth 1: the press byte (below 0x80, not
one the OQO fixup rewrites) of an extended scancode that the table maps to an
ordinary key, not in `force_release_mask`, while the key is up or software repeat is
on. -/
theorem atkbd_decode_translated_extended_make (p : platform) (hp : fixup_known p) (a : atkbd)
    (c : Nat) (ht : a.translated = true) (he : a.emul = 1) (hs3 : a.set ≠ 3) (hc : c < 0x80)
    (hd : c ≠ 0x64 ∧ c ≠ 0x65 ∧ c ≠ 0x66)
    (hm : a.force_release_mask (c ||| 0x80) = false)
    (hk : ordinary_key (a.keycode (c ||| 0x80)))
    (hup : a.softrepeat = true ∨ a.dev_key (a.keycode (c ||| 0x80)) = false) :
    atkbd_decode p a c =
      ({ a with release := false, emul := 0, last := c ||| 0x80,
                time := (p.jiffies + p.rep_delay_jiffies / 2) % 2 ^ 64,
                dev_key := Function.update a.dev_key (a.keycode (c ||| 0x80)) true },
        [effect.input_event_msc_raw c, effect.input_event_msc_scan (c ||| 0x80),
         effect.input_event_key (a.keycode (c ||| 0x80)) 1, effect.input_sync] ++
        if a.scroll = true then
          [effect.input_report_rel_wheel 0, effect.input_report_rel_hwheel 0, effect.input_sync]
        else []) := by
  have hf := make_break_facts c hc
  have hs := atkbd_scancode_translated_extended p hp a c ht he hs3 hd
  rw [hf.2.2.2.1, hf.2.2.2.2] at hs
  rw [atkbd_decode_eq, hs]
  simp only []
  rw [atkbd_report_press p { a with release := false, emul := 0 } (c ||| 0x80) rfl hm hk hup]
  rfl

/-- Translated mode outside set 3, emulation depth 1: the release byte of an extended
scancode that the table maps to an ordinary key, not in `force_release_mask`. -/
theorem atkbd_decode_translated_extended_break (p : platform) (hp : fixup_known p) (a : atkbd)
    (c : Nat) (ht : a.translated = true) (he : a.emul = 1) (hs3 : a.set ≠ 3) (hc : c < 0x80)
    (hm : a.force_release_mask (c ||| 0x80) = false)
    (hk : ordinary_key (a.keycode (c ||| 0x80))) :
    atkbd_decode p a (c + 0x80) =
      ({ a with release := false, emul := 0, last := 0,
                dev_key := Function.update a.dev_key (a.keycode (c ||| 0x80)) false },
        [effect.input_event_msc_raw (c + 0x80), effect.input_event_msc_scan (c ||| 0x80),
         effect.input_event_key (a.keycode (c ||| 0x80)) 0, effect.input_sync] ++
        if a.scroll = true then
          [effect.input_report_rel_wheel 0, effect.input_report_rel_hwheel 0, effect.input_sync]
        else []) := by
  have hf := make_break_facts c hc
  have hs := atkbd_scancode_translated_extended p hp a (c + 0x80) ht he hs3
    (by omega)
  rw [hf.2.1, hf.2.2.1] at hs
  rw [atkbd_decode_eq, hs]
  simp only []
  rw [atkbd_report_release p { a with release := true, emul := 0 } (c ||| 0x80) rfl hm hk]
  rfl

/-- Replaying the two calls 0xe0, c of a press action on a quiet translated-mode
decoder at emulation depth 0 (outside set 3): one key-press event for the extended
scancode `c | 0x80`. -/
theorem atkbd_replay_extended_make (p : platform) (hp : fixup_known p) (a : atkbd) (c : Nat)
    (ht : a.translated = true) (he : a.emul = 0) (hs3 : a.set ≠ 3) (hc : c < 0x80)
    (hd : c ≠ 0x64 ∧ c ≠ 0x65 ∧ c ≠ 0x66) (hps2 : a.ps2dev_flags = 0)
    (hen : a.enabled = true) (hm : a.force_release_mask (c ||| 0x80) = false)
    (hk : ordinary_key (a.keycode (c ||| 0x80)))
    (hup : a.softrepeat = true ∨ a.dev_key (a.keycode (c ||| 0x80)) = false) :
    atkbd_replay p a [(0xe0, SERIO_WATAASH_DOING_ACTION), (c, SERIO_WATAASH_DOING_ACTION)] =
      ({ a with release := false, emul := 0, last := c ||| 0x80,
                time := (p.jiffies + p.rep_delay_jiffies / 2) % 2 ^ 64,
                dev_key := Function.update a.dev_key (a.keycode (c ||| 0x80)) true },
        [effect.input_event_msc_raw 0xe0, effect.input_event_msc_raw c,
         effect.input_event_msc_scan (c ||| 0x80),
         effect.input_event_key (a.keycode (c ||| 0x80)) 1, effect.input_sync] ++
        if a.scroll = true then
          [effect.input_report_rel_wheel 0, effect.input_report_rel_hwheel 0, effect.input_sync]
        else []) := by
  have h1 : atkbd_interrupt_decoder p a 0xe0 SERIO_WATAASH_DOING_ACTION =
      ({ a with emul := 1 }, [effect.input_event_msc_raw 0xe0]) := by
    rw [atkbd_interrupt_decoder_replayed p a 0xe0 hps2 hen,
      atkbd_decode_translated_e0 p hp a ht he]
  have h2 := atkbd_decode_translated_extended_make p hp { a with emul := 1 } c ht rfl hs3 hc hd
    hm hk hup
  simp only [atkbd_replay, h1,
    atkbd_interrupt_decoder_replayed p { a with emul := 1 } c hps2 hen, h2,
    List.append_nil, List.cons_append, List.nil_append]

/-- Replaying the two calls 0xe0, c + 0x80 of a release action on a quiet
translated-mode decoder at emulation depth 0 (outside set 3): one key-release event
for the extended scancode `c | 0x80`. -/
theorem atkbd_replay_extended_break (p : platform) (hp : fixup_known p) (a : atkbd) (c : Nat)
    (ht : a.translated = true) (he : a.emul = 0) (hs3 : a.set ≠ 3) (hc : c < 0x80)
    (hps2 : a.ps2dev_flags = 0) (hen : a.enabled = true)
    (hm : a.force_release_mask (c ||| 0x80) = false)
    (hk : ordinary_key (a.keycode (c ||| 0x80))) :
    atkbd_replay p a
        [(0xe0, SERIO_WATAASH_DOING_ACTION), (c + 0x80, SERIO_WATAASH_DOING_ACTION)] =
      ({ a with release := false, emul := 0, last := 0,
                dev_key := Function.update a.dev_key (a.keycode (c ||| 0x80)) false },
        [effect.input_event_msc_raw 0xe0, effect.input_event_msc_raw (c + 0x80),
         effect.input_event_msc_scan (c ||| 0x80),
         effect.input_event_key (a.keycode (c ||| 0x80)) 0, effect.input_sync] ++
        if a.scroll = true then
          [effect.input_report_rel_wheel 0, effect.input_report_rel_hwheel 0, effect.input_sync]
        else []) := by
  have h1 : atkbd_interrupt_decoder p a 0xe0 SERIO_WATAASH_DOING_ACTION =
      ({ a with emul := 1 }, [effect.input_event_msc_raw 0xe0]) := by
    rw [atkbd_interrupt_decoder_replayed p a 0xe0 hps2 hen,
      atkbd_decode_translated_e0 p hp a ht he]
  have h2 := atkbd_decode_translated_extended_break p hp { a with emul := 1 } c ht rfl hs3 hc
    hm hk
  simp only [atkbd_replay, h1,
    atkbd_interrupt_decoder_replayed p { a with emul := 1 } (c + 0x80) hps2 hen, h2,
    List.append_nil, List.cons_append, List.nil_append]

set_option maxRecDepth 100000 in
/-- C13 (Scenario 1): with the overlay enabled and in its initial state, `NULL` or
the OQO fixup installed, and an idle translated-mode decoder (default keycode table
and force-release mask, not set 3, enabled, no command in flight, emulation depth 0,
the Home key up), the genuine bytes 0x3a, 0x1e, 0xba are all three consumed by the
overlay.  0x3a reaches the decoder with nothing (no event at all, decoder state
unchanged).  0x1e replays the press action of "a" (0xe0, 0x47) and exactly one
key-press event comes out (keycode 102, Home).  0xba replays the release action of
"a" (0xe0, 0xc7) and exactly one key-release event comes out for the same key.
Afterwards the slot 0x1e of `maps_capslock` is modifier-released and no mode is
held. -/
theorem scenario_capslock_a (p : platform) (hp : fixup_known p)
    (hov : p.wataash_atkbd_emacs ≠ 0) (a : atkbd) (ht : a.translated = true)
    (hs3 : a.set ≠ 3) (hkc : a.keycode = atkbd_idle_translated.keycode)
    (hmask : a.force_release_mask = atkbd_idle_translated.force_release_mask)
    (he : a.emul = 0) (hen : a.enabled = true) (hps2 : a.ps2dev_flags = 0)
    (hup : a.dev_key 102 = false) :
    ∃ ov1 ov2 ov3 a2 a3 out2 out3,
      wataash_do_atkbd_emacs p.wataash_atkbd_emacs overlay_init 0x3a =
        some (wataash_do_atkbd_emacs_consumed, ov1, []) ∧
      atkbd_interrupt p overlay_init a 0x3a 0 = some (ov1, a, []) ∧
      wataash_do_atkbd_emacs p.wataash_atkbd_emacs ov1 0x1e =
        some (wataash_do_atkbd_emacs_consumed, ov2,
          [(0xe0, SERIO_WATAASH_DOING_ACTION), (0x47, SERIO_WATAASH_DOING_ACTION)]) ∧
      atkbd_interrupt p ov1 a 0x1e 0 = some (ov2, a2, out2) ∧
      key_events out2 = [(102, 1)] ∧
      wataash_do_atkbd_emacs p.wataash_atkbd_emacs ov2 0xba =
        some (wataash_do_atkbd_emacs_consumed, ov3,
          [(0xe0, SERIO_WATAASH_DOING_ACTION), (0xc7, SERIO_WATAASH_DOING_ACTION)]) ∧
      atkbd_interrupt p ov2 a2 0xba 0 = some (ov3, a3, out3) ∧
      key_events out3 = [(102, 0)] ∧
      ov3.held = HELD_NONE ∧
      ov3.maps_capslock_key_state 0x1e = KEY_STATE_MODIFIER_RELEASED := by
  have hk102 : a.keycode (0x47 ||| 0x80) = 102 := by rw [hkc]; decide
  have hm : a.force_release_mask (0x47 ||| 0x80) = false := by rw [hmask]; decide
  have hk : ordinary_key (a.keycode (0x47 ||| 0x80)) := by rw [hk102]; decide
  -- byte 0x3a
  have ho1 := (wataash_trigger_press_eq p.wataash_atkbd_emacs hov overlay_init).1
  have hi1 := atkbd_interrupt_consumed p overlay_init _ a 0x3a [] (Or.inr (by decide)) hps2 hen
    ho1
  -- byte 0x1e
  obtain ⟨calls2, hc2, ho2⟩ := press_mapped_capslock p.wataash_atkbd_emacs hov
    { held := HELD_CAPSLOCK
      maps_capslock_key_state := overlay_init.maps_capslock_key_state
      maps_henkan_key_state := overlay_init.maps_henkan_key_state }
    0x1e (by decide) (by decide) rfl (by decide)
  have hc2' : calls2 =
      [(0xe0, SERIO_WATAASH_DOING_ACTION), (0x47, SERIO_WATAASH_DOING_ACTION)] :=
    Option.some.inj (hc2.symm.trans (by decide))
  subst hc2'
  have hi2 := atkbd_interrupt_consumed p _ _ a 0x1e _ (Or.inr (by decide)) hps2 hen ho2
  have hr2 := atkbd_replay_extended_make p hp a 0x47 ht he hs3 (by decide) (by decide) hps2 hen
    hm hk (Or.inr (by rw [hk102]; exact hup))
  -- byte 0xba
  obtain ⟨_, _, _, hstep, hwf2⟩ := overlay_wf_step p.wataash_atkbd_emacs
    { held := HELD_CAPSLOCK
      maps_capslock_key_state := overlay_init.maps_capslock_key_state
      maps_henkan_key_state := overlay_init.maps_henkan_key_state }
    (fun i _ => ⟨fun _ => rfl, fun _ => rfl⟩) 0x1e (by decide)
  rw [ho2] at hstep
  simp only [Option.some.injEq, Prod.mk.injEq] at hstep
  rw [← hstep.2.1] at hwf2
  have ho3 := wataash_trigger_release_eq p.wataash_atkbd_emacs hov _ hwf2 0xba (Or.inl rfl)
  have hc3 : pressing_release_calls maps_capslock
      (Function.update overlay_init.maps_capslock_key_state (0x1e &&& 0x7f) KEY_STATE_PRESSING) =
      [(0xe0, SERIO_WATAASH_DOING_ACTION), (0x47 + 0x80, SERIO_WATAASH_DOING_ACTION)] := by
    decide
  simp only [hc3] at ho3
  have hi3 := atkbd_interrupt_consumed p _ _ (atkbd_replay p a
    [(0xe0, SERIO_WATAASH_DOING_ACTION), (0x47, SERIO_WATAASH_DOING_ACTION)]).1 0xba _
    (Or.inr (by decide)) (by rw [hr2]; exact hps2) (by rw [hr2]; exact hen) ho3
  have hr3 := atkbd_replay_extended_break p hp
    (atkbd_replay p a
      [(0xe0, SERIO_WATAASH_DOING_ACTION), (0x47, SERIO_WATAASH_DOING_ACTION)]).1 0x47
    (by rw [hr2]; exact ht) (by rw [hr2]) (by rw [hr2]; exact hs3) (by decide)
    (by rw [hr2]; exact hps2) (by rw [hr2]; exact hen) (by rw [hr2]; exact hm)
    (by rw [hr2]; exact hk)
  refine ⟨_, _, _, _, _, _, _, ho1, hi1, ho2, hi2, ?_, ho3, hi3, ?_, rfl, ?_⟩
  · rw [hr2, hk102]
    cases hs : a.scroll <;> simp [key_events]
  · rw [hr3]
    have hk' : (atkbd_replay p a
        [(0xe0, SERIO_WATAASH_DOING_ACTION), (0x47, SERIO_WATAASH_DOING_ACTION)]).1.keycode
        (0x47 ||| 0x80) = 102 := by rw [hr2]; exact hk102
    have hsc : (atkbd_replay p a
        [(0xe0, SERIO_WATAASH_DOING_ACTION), (0x47, SERIO_WATAASH_DOING_ACTION)]).1.scroll
        = a.scroll := by rw [hr2]
    rw [hk', hsc]
    cases hs : a.scroll <;> simp [key_events]
  · decide

set_option maxRecDepth 100000 in
/-- C13, instance: the example platform and the idle translated-mode decoder. -/
theorem scenario_capslock_a_witness :
    ∃ ov1 ov2 ov3 a2 a3 out2 out3,
      atkbd_interrupt platform_x86 overlay_init atkbd_idle_translated 0x3a 0 =
        some (ov1, atkbd_idle_translated, []) ∧
      atkbd_interrupt platform_x86 ov1 atkbd_idle_translated 0x1e 0 = some (ov2, a2, out2) ∧
      key_events out2 = [(102, 1)] ∧
      atkbd_interrupt platform_x86 ov2 a2 0xba 0 = some (ov3, a3, out3) ∧
      key_events out3 = [(102, 0)] ∧
      ov3.held = HELD_NONE ∧
      ov3.maps_capslock_key_state 0x1e = KEY_STATE_MODIFIER_RELEASED := by
  obtain ⟨ov1, ov2, ov3, a2, a3, out2, out3, _, h2, _, h4, h5, _, h7, h8, h9, h10⟩ :=
    scenario_capslock_a platform_x86 (Or.inl rfl) (by decide) atkbd_idle_translated rfl
      (by decide) rfl rfl rfl rfl rfl rfl
  exact ⟨ov1, ov2, ov3, a2, a3, out2, out3, h2, h4, h5, h7, h8, h9, h10⟩

/-! ## Lemmas on the bit operations, the scancode composition and `xl_bit` -/

/-- Setting bit `i` leaves every other bit. -/
theorem test_bit_set_bit_other (i j x : Nat) (h : j ≠ i) :
    test_bit j (set_bit i x) = test_bit j x := by
  unfold test_bit set_bit
  rw [Nat.testBit_or, Nat.one_shiftLeft, Nat.testBit_two_pow]
  have : decide (i = j) = false := by simp; exact fun e => h e.symm
  rw [this, Bool.or_false]

/-- The mask of `clear_bit` at a bit position of the 64-bit word. -/
theorem clear_bit_mask (i j : Nat) :
    (0xFFFFFFFFFFFFFFFF ^^^ (1 <<< i)).testBit j = (decide (j < 64) ^^ decide (i = j)) := by
  have h : (0xFFFFFFFFFFFFFFFF : Nat) = 2 ^ 64 - 1 := by norm_num
  rw [h, Nat.testBit_xor, Nat.testBit_two_pow_sub_one, Nat.one_shiftLeft, Nat.testBit_two_pow]

/-- Clearing bit `i` of the 64-bit word clears it. -/
theorem test_bit_clear_bit (i x : Nat) (hi : i < 64) : test_bit i (clear_bit i x) = false := by
  unfold test_bit clear_bit
  rw [Nat.testBit_and, clear_bit_mask]
  simp [hi]

/-- Clearing bit `i` of a 64-bit word leaves every other bit. -/
theorem test_bit_clear_bit_other (i j x : Nat) (hx : x < 2 ^ 64) (h : j ≠ i) :
    test_bit j (clear_bit i x) = test_bit j x := by
  unfold test_bit clear_bit
  rw [Nat.testBit_and, clear_bit_mask]
  have hij : decide (i = j) = false := by simp; exact fun e => h e.symm
  rw [hij]
  by_cases hj : j < 64
  · simp [hj]
  · have hz : x.testBit j = false :=
      Nat.testBit_lt_two_pow (lt_of_lt_of_le hx (Nat.pow_le_pow_right (by norm_num) (by omega)))
    simp [hz]

/-- Clearing a bit that is clear leaves a 64-bit word as it is. -/
theorem clear_bit_of_clear (i x : Nat) (hi : i < 64) (hx : x < 2 ^ 64)
    (h : test_bit i x = false) : clear_bit i x = x := by
  apply Nat.eq_of_testBit_eq
  intro j
  by_cases hj : j = i
  · subst hj
    have := test_bit_clear_bit j x hi
    unfold test_bit at this h
    rw [this, h]
  · exact test_bit_clear_bit_other i j x hx hj

/-- A composed scancode is below `ATKBD_KEYMAP_SIZE` when the code fits a byte. -/
theorem atkbd_compat_scancode_lt (a : atkbd) (code : Nat) (hc : code < 256) :
    atkbd_compat_scancode a code < ATKBD_KEYMAP_SIZE := by
  have h1 : code < 2 ^ 9 := lt_trans hc (by norm_num)
  have h2 : (0x100 : Nat) < 2 ^ 9 := by norm_num
  have h3 : (0x80 : Nat) < 2 ^ 9 := by norm_num
  have h4 : code &&& 0x7f < 2 ^ 9 := lt_of_le_of_lt Nat.and_le_right (by norm_num)
  have h5 : (code &&& 0x80) <<< 1 < 2 ^ 9 := by
    have : code &&& 0x80 ≤ 0x80 := Nat.and_le_right
    rw [Nat.shiftLeft_eq]
    omega
  have h6 := Nat.or_lt_two_pow h4 h5
  unfold atkbd_compat_scancode ATKBD_KEYMAP_SIZE
  split_ifs
  · exact Nat.or_lt_two_pow h1 h2
  · exact h1
  · exact Nat.or_lt_two_pow h6 h3
  · exact h6

/-- The composed scancode that `atkbd_switch` hands to the key lookup is the result of
`atkbd_compat_scancode` on the state and code it was given. -/
theorem atkbd_switch_some (a : atkbd) (code sc : Nat)
    (h : (atkbd_switch a code).2.2 = some sc) : sc = atkbd_compat_scancode a code := by
  unfold atkbd_switch at h
  split_ifs at h <;> simp at h <;> exact h.symm

/-- The unmangling step leaves the code or keeps its low seven bits. -/
theorem atkbd_unmangle_code (a : atkbd) (code data : Nat) :
    (atkbd_unmangle a code data).2 = code ∨ (atkbd_unmangle a code data).2 = code &&& 0x7f := by
  unfold atkbd_unmangle
  split_ifs <;> simp

/-- A known scancode fixup leaves the code or sets bit 7. -/
theorem atkbd_fixup_code (p : platform) (hp : fixup_known p) (a : atkbd) (data : Nat) :
    (atkbd_fixup p a data).2 = data ∨ (atkbd_fixup p a data).2 = data ||| 0x80 := by
  unfold atkbd_fixup
  rcases hp with h | h <;> rw [h]
  · exact Or.inl rfl
  · simp only [atkbd_oqo_01plus_scancode_fixup]
    split_ifs
    · exact Or.inr rfl
    · exact Or.inl rfl

/-- The code that reaches `atkbd_compat_scancode` in the decoder fits a byte. -/
theorem atkbd_scancode_code_lt (p : platform) (hp : fixup_known p) (a : atkbd) (data : Nat)
    (hd : data < 256) :
    (atkbd_unmangle (atkbd_fixup p a data).1 (atkbd_fixup p a data).2 data).2 < 256 := by
  have hf : (atkbd_fixup p a data).2 < 256 := by
    rcases atkbd_fixup_code p hp a data with h | h <;> rw [h]
    · exact hd
    · exact (Nat.or_lt_two_pow hd (by norm_num) : data ||| 0x80 < 2 ^ 8)
  rcases atkbd_unmangle_code (atkbd_fixup p a data).1 (atkbd_fixup p a data).2 data with h | h <;>
    rw [h]
  · exact hf
  · exact lt_of_le_of_lt Nat.and_le_right (by norm_num)

set_option maxRecDepth 100000 in
/-- The values of the composed scancode, for a code that fits a byte. -/
theorem compat_arith_facts :
    ∀ code, code < 256 →
      code ||| 0x100 = code + 0x100 ∧
      (code &&& 0x7f) ||| ((code &&& 0x80) <<< 1) =
        code % 0x80 + (if 0x80 ≤ code then 0x100 else 0) ∧
      ((code &&& 0x7f) ||| ((code &&& 0x80) <<< 1)) ||| 0x80 =
        code % 0x80 + (if 0x80 ≤ code then 0x100 else 0) + 0x80 := by
  decide

/-- C21: for every code that fits a byte and every decoder state (whatever the code set
and the emulation depth), `atkbd_compat_scancode` returns an index below
`ATKBD_KEYMAP_SIZE` (512): in set 3 the byte, with 0x100 when the depth is 1, otherwise
`(byte & 0x7f) | ((byte & 0x80) << 1)`, with 0x80 when the depth is 1.  So the
composed scancode with which the decoder reads `keycode[]` and `force_release_mask`
is below 512 for every received byte (scancode fixup `NULL` or the OQO fixup). -/
theorem compat_scancode_in_bounds (a : atkbd) (code : Nat) (hc : code < 256) :
    atkbd_compat_scancode a code < ATKBD_KEYMAP_SIZE ∧
    (a.set = 3 →
      atkbd_compat_scancode a code = (if a.emul = 1 then code ||| 0x100 else code) ∧
      atkbd_compat_scancode a code = code + (if a.emul = 1 then 0x100 else 0)) ∧
    (a.set ≠ 3 →
      atkbd_compat_scancode a code =
        (if a.emul = 1 then ((code &&& 0x7f) ||| ((code &&& 0x80) <<< 1)) ||| 0x80
         else (code &&& 0x7f) ||| ((code &&& 0x80) <<< 1)) ∧
      atkbd_compat_scancode a code =
        code % 0x80 + (if 0x80 ≤ code then 0x100 else 0) + (if a.emul = 1 then 0x80 else 0)) ∧
    (∀ (p : platform) (sc : Nat), fixup_known p →
      (atkbd_scancode p a code).2.2 = some sc → sc < ATKBD_KEYMAP_SIZE) := by
  obtain ⟨f1, f2, f3⟩ := compat_arith_facts code hc
  refine ⟨atkbd_compat_scancode_lt a code hc, ?_, ?_, ?_⟩
  · intro h3
    unfold atkbd_compat_scancode
    rw [if_pos h3]
    refine ⟨rfl, ?_⟩
    by_cases he : a.emul = 1
    · rw [if_pos he, if_pos he]
      exact f1
    · rw [if_neg he, if_neg he]
      rfl
  · intro h3
    unfold atkbd_compat_scancode
    rw [if_neg h3]
    refine ⟨rfl, ?_⟩
    by_cases he : a.emul = 1
    · rw [if_pos he, if_pos he]
      exact f3
    · rw [if_neg he, if_neg he]
      exact f2
  · intro p sc hp h
    have hs := atkbd_switch_some _ _ sc h
    rw [hs]
    exact atkbd_compat_scancode_lt _ _ (atkbd_scancode_code_lt p hp a code hc)

/-- C21 at the byte 0xf2 received by the idle translated decoder. -/
theorem compat_scancode_in_bounds_witness :
    atkbd_compat_scancode atkbd_idle_translated 0xf2 < ATKBD_KEYMAP_SIZE ∧
    atkbd_compat_scancode atkbd_idle_translated 0xf2 = 0x172 ∧
    (∀ (p : platform) (sc : Nat), fixup_known p →
      (atkbd_scancode p atkbd_idle_translated 0xf2).2.2 = some sc → sc < ATKBD_KEYMAP_SIZE) :=
  ⟨(compat_scancode_in_bounds atkbd_idle_translated 0xf2 (by decide)).1, by decide,
   (compat_scancode_in_bounds atkbd_idle_translated 0xf2 (by decide)).2.2.2⟩

set_option maxRecDepth 100000 in
/-- The test of line 364 against each element of `xl_table`, on the low seven bits. -/
theorem xl_match_facts :
    ∀ code, code < 256 →
      (((code ^^^ 0xaa) &&& 0x7f = 0) ↔ code &&& 0x7f = 0x2a) ∧
      (((code ^^^ 0xff) &&& 0x7f = 0) ↔ code &&& 0x7f = 0x7f) ∧
      (((code ^^^ 0xfa) &&& 0x7f = 0) ↔ code &&& 0x7f = 0x7a) ∧
      (((code ^^^ 0xfe) &&& 0x7f = 0) ↔ code &&& 0x7f = 0x7e) ∧
      (((code ^^^ 0xf1) &&& 0x7f = 0) ↔ code &&& 0x7f = 0x71) ∧
      (((code ^^^ 0xf2) &&& 0x7f = 0) ↔ code &&& 0x7f = 0x72) := by
  decide

/-- The loop of `atkbd_calculate_xl_bit` over `xl_table`, case by case. -/
theorem atkbd_calculate_xl_bit_loop_eq (code xl_bit : Nat) (hc : code < 256) :
    atkbd_calculate_xl_bit_loop code xl_bit xl_table 0 =
      if code &&& 0x7f = 0x2a then
        (if code &&& 0x80 ≠ 0 then clear_bit 0 xl_bit else set_bit 0 xl_bit)
      else if code &&& 0x7f = 0x7f then
        (if code &&& 0x80 ≠ 0 then clear_bit 1 xl_bit else set_bit 1 xl_bit)
      else if code &&& 0x7f = 0x7a then
        (if code &&& 0x80 ≠ 0 then clear_bit 2 xl_bit else set_bit 2 xl_bit)
      else if code &&& 0x7f = 0x7e then
        (if code &&& 0x80 ≠ 0 then clear_bit 3 xl_bit else set_bit 3 xl_bit)
      else if code &&& 0x7f = 0x71 then
        (if code &&& 0x80 ≠ 0 then clear_bit 4 xl_bit else set_bit 4 xl_bit)
      else if code &&& 0x7f = 0x72 then
        (if code &&& 0x80 ≠ 0 then clear_bit 5 xl_bit else set_bit 5 xl_bit)
      else xl_bit := by
  obtain ⟨f0, f1, f2, f3, f4, f5⟩ := xl_match_facts code hc
  simp only [atkbd_calculate_xl_bit_loop, xl_table, ATKBD_RET_BAT, ATKBD_RET_ERR, ATKBD_RET_ACK,
    ATKBD_RET_NAK, ATKBD_RET_HANJA, ATKBD_RET_HANGEUL, f0, f1, f2, f3, f4, f5, Nat.zero_add,
    Nat.reduceAdd]

/-- The function `atkbd_calculate_xl_bit` writes `xl_bit` only. -/
theorem atkbd_calculate_xl_bit_frame (a : atkbd) (code : Nat) :
    atkbd_calculate_xl_bit a code =
      { a with xl_bit := (atkbd_calculate_xl_bit a code).xl_bit } := rfl

/-- A code whose low seven bits match no element of `xl_table` leaves `xl_bit`. -/
theorem atkbd_calculate_xl_bit_loop_other (code xl_bit : Nat) (hc : code < 256)
    (h : code &&& 0x7f ≠ 0x2a ∧ code &&& 0x7f ≠ 0x7f ∧ code &&& 0x7f ≠ 0x7a ∧
      code &&& 0x7f ≠ 0x7e ∧ code &&& 0x7f ≠ 0x71 ∧ code &&& 0x7f ≠ 0x72) :
    atkbd_calculate_xl_bit_loop code xl_bit xl_table 0 = xl_bit := by
  rw [atkbd_calculate_xl_bit_loop_eq code xl_bit hc, if_neg h.1, if_neg h.2.1, if_neg h.2.2.1,
    if_neg h.2.2.2.1, if_neg h.2.2.2.2.1, if_neg h.2.2.2.2.2]

/-- The bit that a code matching the `i`-th element of `xl_table` gets, and the other
bits of a 64-bit `xl_bit`. -/
theorem atkbd_calculate_xl_bit_loop_match (code xl_bit i : Nat) (hc : code < 256)
    (hx : xl_bit < 2 ^ 64) (hi : i < 6) (hm : code &&& 0x7f = xl_table.getD i 0 &&& 0x7f) :
    test_bit i (atkbd_calculate_xl_bit_loop code xl_bit xl_table 0) =
      decide (code &&& 0x80 = 0) ∧
    ∀ j, j ≠ i → test_bit j (atkbd_calculate_xl_bit_loop code xl_bit xl_table 0) =
      test_bit j xl_bit := by
  rw [atkbd_calculate_xl_bit_loop_eq code xl_bit hc]
  have key : ∀ k, k < 64 →
      test_bit k (if code &&& 0x80 ≠ 0 then clear_bit k xl_bit else set_bit k xl_bit) =
        decide (code &&& 0x80 = 0) ∧
      ∀ j, j ≠ k →
        test_bit j (if code &&& 0x80 ≠ 0 then clear_bit k xl_bit else set_bit k xl_bit) =
          test_bit j xl_bit := by
    intro k hk
    by_cases h8 : code &&& 0x80 = 0
    · rw [if_neg (not_not.mpr h8)]
      exact ⟨by rw [test_bit_set_bit]; simp [h8], fun j hj => test_bit_set_bit_other k j _ hj⟩
    · rw [if_pos h8]
      exact ⟨by rw [test_bit_clear_bit k _ hk]; simp [h8],
        fun j hj => test_bit_clear_bit_other k j _ hx hj⟩
  interval_cases i
  · have hm0 : code &&& 0x7f = 0x2a := hm
    rw [if_pos hm0]
    exact key 0 (by norm_num)
  · have hm0 : code &&& 0x7f = 0x7f := hm
    rw [hm0]
    exact key 1 (by norm_num)
  · have hm0 : code &&& 0x7f = 0x7a := hm
    rw [hm0]
    exact key 2 (by norm_num)
  · have hm0 : code &&& 0x7f = 0x7e := hm
    rw [hm0]
    exact key 3 (by norm_num)
  · have hm0 : code &&& 0x7f = 0x71 := hm
    rw [hm0]
    exact key 4 (by norm_num)
  · have hm0 : code &&& 0x7f = 0x72 := hm
    rw [hm0]
    exact key 5 (by norm_num)

/-- The `switch` on the protocol codes writes neither `xl_bit` nor `translated`. -/
theorem atkbd_switch_xl_bit (a : atkbd) (code : Nat) :
    (atkbd_switch a code).1.xl_bit = a.xl_bit := by
  unfold atkbd_switch
  split_ifs <;> rfl

/-- The `default` case of the keycode `switch` does not write `xl_bit`. -/
theorem atkbd_report_key_xl_bit (p : platform) (a : atkbd) (code keycode : Nat) :
    (atkbd_report_key p a code keycode).1.xl_bit = a.xl_bit := by
  unfold atkbd_report_key
  simp only []
  split_ifs <;> rfl

/-- The keycode `switch` does not write `xl_bit`. -/
theorem atkbd_report_switch_xl_bit (p : platform) (a : atkbd) (code keycode : Nat) :
    (atkbd_report_switch p a code keycode).1.xl_bit = a.xl_bit := by
  unfold atkbd_report_switch
  split_ifs
  all_goals first | rfl | exact atkbd_report_key_xl_bit p a code keycode

/-- Lines 980-1053 do not write `xl_bit`. -/
theorem atkbd_report_xl_bit (p : platform) (a : atkbd) (code : Nat) :
    (atkbd_report p a code).1.xl_bit = a.xl_bit := by
  unfold atkbd_report
  simp only []
  split_ifs
  all_goals exact atkbd_report_switch_xl_bit p a code _

/-- Lines 892-917 write neither `xl_bit` nor `translated`. -/
theorem atkbd_interrupt_head_xl_bit (p : platform) (a : atkbd) (data flags : Nat) :
    (atkbd_interrupt_head p a data flags).1.xl_bit = a.xl_bit ∧
    (atkbd_interrupt_head p a data flags).1.translated = a.translated := by
  unfold atkbd_interrupt_head
  simp only []
  split_ifs <;> exact ⟨rfl, rfl⟩

/-- The unmangling step changes `xl_bit` only through `atkbd_calculate_xl_bit` on the
received byte, in translated mode at emulation depth 0. -/
theorem atkbd_unmangle_xl_bit (a : atkbd) (code data : Nat) :
    (atkbd_unmangle a code data).1.xl_bit = a.xl_bit ∨
    (a.translated = true ∧ a.emul = 0 ∧
      (atkbd_unmangle a code data).1.xl_bit = (atkbd_calculate_xl_bit a data).xl_bit) := by
  unfold atkbd_unmangle
  split_ifs with ht hx he he
  · exact Or.inr ⟨ht, he, rfl⟩
  · exact Or.inl rfl
  · exact Or.inr ⟨ht, he, rfl⟩
  · exact Or.inl rfl
  · exact Or.inl rfl

/-- The scancode stage (lines 930-978) changes `xl_bit` only through
`atkbd_calculate_xl_bit` on the received byte, in translated mode and for a byte
received at emulation depth 0. -/
theorem atkbd_scancode_xl_bit (p : platform) (hp : fixup_known p) (a : atkbd) (data : Nat) :
    (atkbd_scancode p a data).1.xl_bit = a.xl_bit ∨
    (a.translated = true ∧ a.emul = 0 ∧
      (atkbd_scancode p a data).1.xl_bit = (atkbd_calculate_xl_bit a data).xl_bit) := by
  simp only [atkbd_scancode, atkbd_switch_xl_bit]
  by_cases hf : atkbd_fixup p a data = (a, data)
  · rw [hf]
    exact atkbd_unmangle_xl_bit a data data
  · left
    have hold : p.atkbd_platform_scancode_fixup = some atkbd_oqo_01plus_scancode_fixup := by
      rcases hp with h | h
      · exact absurd (by unfold atkbd_fixup; rw [h]) hf
      · exact h
    have hfx : atkbd_fixup p a data = atkbd_oqo_01plus_scancode_fixup a data := by
      unfold atkbd_fixup; rw [hold]
    rw [hfx] at hf ⊢
    unfold atkbd_oqo_01plus_scancode_fixup at hf ⊢
    by_cases hc : a.translated = true ∧ a.emul = 1 ∧ (data = 0x64 ∨ data = 0x65 ∨ data = 0x66)
    · rw [if_pos hc]
      have hl : atkbd_calculate_xl_bit_loop (data % 256) a.xl_bit xl_table 0 = a.xl_bit := by
        rcases hc.2.2 with h | h | h <;> rw [h] <;>
          exact atkbd_calculate_xl_bit_loop_other _ _ (by norm_num) (by decide)
      rcases atkbd_unmangle_xl_bit { a with emul := 0 } (data ||| 0x80) data with h | h
      · exact h
      · rw [h.2.2]
        exact hl
    · rw [if_neg hc] at hf
      exact absurd rfl hf

/-- The decoder proper changes `xl_bit` only through `atkbd_calculate_xl_bit` on the
received byte, in translated mode and for a byte received at emulation depth 0. -/
theorem atkbd_decode_xl_bit (p : platform) (hp : fixup_known p) (a : atkbd) (data : Nat) :
    (atkbd_decode p a data).1.xl_bit = a.xl_bit ∨
    (a.translated = true ∧ a.emul = 0 ∧
      (atkbd_decode p a data).1.xl_bit = (atkbd_calculate_xl_bit a data).xl_bit) := by
  have h := atkbd_scancode_xl_bit p hp a data
  rw [atkbd_decode_eq]
  cases hs : (atkbd_scancode p a data).2.2 with
  | none => exact h
  | some sc =>
    simp only []
    rw [atkbd_report_xl_bit]
    exact h

/-- The function `atkbd_interrupt` without the overlay stage changes `xl_bit` only
through `atkbd_calculate_xl_bit` on the received byte, in translated mode and for a
byte received at emulation depth 0. -/
theorem atkbd_interrupt_decoder_xl_bit (p : platform) (hp : fixup_known p) (a : atkbd)
    (data flags : Nat) :
    (atkbd_interrupt_decoder p a data flags).1.xl_bit = a.xl_bit ∨
    (a.translated = true ∧ a.emul = 0 ∧
      (atkbd_interrupt_decoder p a data flags).1.xl_bit =
        (atkbd_calculate_xl_bit a data).xl_bit) := by
  rw [atkbd_interrupt_decoder_eq]
  obtain ⟨h1, h2⟩ := atkbd_interrupt_head_xl_bit p a data flags
  have h3 := atkbd_interrupt_head_emul p a data flags
  split_ifs
  · rcases atkbd_decode_xl_bit p hp (atkbd_interrupt_head p a data flags).1 data with h | h
    · left
      exact h.trans h1
    · right
      refine ⟨h2 ▸ h.1, h3 ▸ h.2.1, ?_⟩
      rw [h.2.2]
      show atkbd_calculate_xl_bit_loop _ (atkbd_interrupt_head p a data flags).1.xl_bit _ _ =
        atkbd_calculate_xl_bit_loop _ a.xl_bit _ _
      rw [h1]
  · left
    exact h1

/-- C29: `atkbd_need_xlate(xl_bit, code)` is false for the emulation bytes 0xe0 and
0xe1 whatever `xl_bit` is, so that in translated mode at emulation depth 0 these two
bytes keep their value and leave the release flag; for the `i`-th element of
`xl_table` (0xaa, 0xff, 0xfa, 0xfe, 0xf1, 0xf2 for `i` = 0..5) it is bit `i` of
`xl_bit`; for every other byte value it is true. -/
theorem need_xlate_by_cases (xl_bit : Nat) :
    atkbd_need_xlate xl_bit 0xe0 = false ∧ atkbd_need_xlate xl_bit 0xe1 = false ∧
    xl_table = [0xaa, 0xff, 0xfa, 0xfe, 0xf1, 0xf2] ∧
    (∀ i, i < 6 → atkbd_need_xlate xl_bit (xl_table.getD i 0) = test_bit i xl_bit) ∧
    (∀ code, code < 256 → code ≠ 0xe0 → code ≠ 0xe1 → code ∉ xl_table →
      atkbd_need_xlate xl_bit code = true) ∧
    (∀ (a : atkbd) (data : Nat), a.translated = true → a.emul = 0 → a.xl_bit = xl_bit →
      data = 0xe0 ∨ data = 0xe1 →
      (atkbd_unmangle a data data).2 = data ∧
      (atkbd_unmangle a data data).1.release = a.release) := by
  refine ⟨(atkbd_need_xlate_emul xl_bit).1, (atkbd_need_xlate_emul xl_bit).2, rfl,
    fun i hi => atkbd_need_xlate_table xl_bit i hi, ?_, ?_⟩
  · intro code hb h0 h1 ht
    have ht2 : code ≠ 0xaa ∧ code ≠ 0xff ∧ code ≠ 0xfa ∧ code ≠ 0xfe ∧ code ≠ 0xf1 ∧
        code ≠ 0xf2 := by
      simp only [xl_table, ATKBD_RET_BAT, ATKBD_RET_ERR, ATKBD_RET_ACK, ATKBD_RET_NAK,
        ATKBD_RET_HANJA, ATKBD_RET_HANGEUL, List.mem_cons, List.mem_singleton, not_or,
        List.not_mem_nil, not_false_eq_true, and_true] at ht
      exact ht
    exact atkbd_need_xlate_other xl_bit code hb ⟨h0, h1, ht2⟩
  · intro a data ht he hx hd
    have hn : atkbd_need_xlate a.xl_bit data = false := by
      rcases hd with h | h <;> rw [h]
      · exact (atkbd_need_xlate_emul a.xl_bit).1
      · exact (atkbd_need_xlate_emul a.xl_bit).2
    unfold atkbd_unmangle
    rw [if_pos ht, if_neg (by rw [he, hn]; simp), if_pos he]
    exact ⟨rfl, rfl⟩

/-- C29 with bit 2 of `xl_bit` set: the bytes 0xe0, 0xfa (bit 2), 0xf2 (bit 5) and
0x9e. -/
theorem need_xlate_by_cases_witness :
    atkbd_need_xlate 4 0xe0 = false ∧ atkbd_need_xlate 4 0xfa = true ∧
    atkbd_need_xlate 4 0xf2 = false ∧ atkbd_need_xlate 4 0x9e = true :=
  ⟨(need_xlate_by_cases 4).1,
   ((need_xlate_by_cases 4).2.2.2.1 2 (by decide)).trans (by decide),
   ((need_xlate_by_cases 4).2.2.2.1 5 (by decide)).trans (by decide),
   (need_xlate_by_cases 4).2.2.2.2.1 0x9e (by decide) (by decide) (by decide) (by decide)⟩

/-- C30: `atkbd_calculate_xl_bit` writes no field but `xl_bit`, and of a 64-bit
`xl_bit` at most one bit: when the low seven bits of the code are those of the `i`-th
element of `xl_table`, bit `i` becomes set if bit 7 of the code is clear and clear if
it is set, every other bit staying; when no element matches, `xl_bit` stays.  In the
decoder (scancode fixup `NULL` or the OQO fixup) `xl_bit` after a byte is the old
value, or, in translated mode for a byte received at emulation depth 0, the value
that this function computes from the received byte. -/
theorem calculate_xl_bit_one_bit (a : atkbd) (code : Nat) (hc : code < 256)
    (hx : a.xl_bit < 2 ^ 64) :
    atkbd_calculate_xl_bit a code =
      { a with xl_bit := (atkbd_calculate_xl_bit a code).xl_bit } ∧
    (∀ i, i < 6 → code &&& 0x7f = xl_table.getD i 0 &&& 0x7f →
      test_bit i (atkbd_calculate_xl_bit a code).xl_bit = decide (code &&& 0x80 = 0) ∧
      ∀ j, j ≠ i → test_bit j (atkbd_calculate_xl_bit a code).xl_bit = test_bit j a.xl_bit) ∧
    ((∀ i, i < 6 → code &&& 0x7f ≠ xl_table.getD i 0 &&& 0x7f) →
      (atkbd_calculate_xl_bit a code).xl_bit = a.xl_bit) ∧
    (∀ (p : platform) (data flags : Nat), fixup_known p →
      (atkbd_interrupt_decoder p a data flags).1.xl_bit = a.xl_bit ∨
      (a.translated = true ∧ a.emul = 0 ∧
        (atkbd_interrupt_decoder p a data flags).1.xl_bit =
          (atkbd_calculate_xl_bit a data).xl_bit)) := by
  have hmod : code % 256 = code := Nat.mod_eq_of_lt hc
  refine ⟨rfl, ?_, ?_, fun p data flags hp => atkbd_interrupt_decoder_xl_bit p hp a data flags⟩
  · intro i hi hm
    show test_bit i (atkbd_calculate_xl_bit_loop (code % 256) a.xl_bit xl_table 0) = _ ∧
      ∀ j, j ≠ i → test_bit j (atkbd_calculate_xl_bit_loop (code % 256) a.xl_bit xl_table 0) = _
    rw [hmod]
    exact atkbd_calculate_xl_bit_loop_match code a.xl_bit i hc hx hi hm
  · intro h
    show atkbd_calculate_xl_bit_loop (code % 256) a.xl_bit xl_table 0 = a.xl_bit
    rw [hmod]
    exact atkbd_calculate_xl_bit_loop_other code a.xl_bit hc
      ⟨h 0 (by norm_num), h 1 (by norm_num), h 2 (by norm_num), h 3 (by norm_num),
       h 4 (by norm_num), h 5 (by norm_num)⟩

/-- C30 at the press byte 0x2a on the idle translated decoder: bit 0 of `xl_bit`
becomes set, bit 1 stays clear. -/
theorem calculate_xl_bit_one_bit_witness :
    test_bit 0 (atkbd_calculate_xl_bit atkbd_idle_translated 0x2a).xl_bit = true ∧
    test_bit 1 (atkbd_calculate_xl_bit atkbd_idle_translated 0x2a).xl_bit = false :=
  ⟨((calculate_xl_bit_one_bit atkbd_idle_translated 0x2a (by decide) (by decide)).2.1 0
      (by decide) (by decide)).1,
   (((calculate_xl_bit_one_bit atkbd_idle_translated 0x2a (by decide) (by decide)).2.1 0
      (by decide) (by decide)).2 1 (by decide)).trans (by decide)⟩

/-- A code that leaves the unmangling step with bit 7 set was not touched: the fixup
left the byte, and in translated mode the byte came at emulation depth 0 and
`atkbd_need_xlate` refused it. -/
theorem atkbd_unmangle_high (p : platform) (hp : fixup_known p) (a : atkbd) (data : Nat)
    (h : 0x80 ≤ (atkbd_unmangle (atkbd_fixup p a data).1 (atkbd_fixup p a data).2 data).2) :
    atkbd_fixup p a data = (a, data) ∧
    atkbd_unmangle a data data =
      (if a.translated = true then atkbd_calculate_xl_bit a data else a, data) ∧
    (a.translated = true → a.emul = 0 ∧ atkbd_need_xlate a.xl_bit data = false) := by
  have hlow : ∀ x : Nat, ¬ 0x80 ≤ x &&& 0x7f := by
    intro x
    have : x &&& 0x7f ≤ 0x7f := Nat.and_le_right
    omega
  by_cases ht : a.translated = true
  · have hf : atkbd_fixup p a data = (a, data) := by
      by_cases hf : atkbd_fixup p a data = (a, data)
      · exact hf
      · exfalso
        have hold : p.atkbd_platform_scancode_fixup = some atkbd_oqo_01plus_scancode_fixup := by
          rcases hp with h1 | h1
          · exact absurd (by unfold atkbd_fixup; rw [h1]) hf
          · exact h1
        have hfx : atkbd_fixup p a data = atkbd_oqo_01plus_scancode_fixup a data := by
          unfold atkbd_fixup; rw [hold]
        rw [hfx] at hf h
        unfold atkbd_oqo_01plus_scancode_fixup at hf h
        by_cases hc : a.translated = true ∧ a.emul = 1 ∧
            (data = 0x64 ∨ data = 0x65 ∨ data = 0x66)
        · rw [if_pos hc] at h
          have hx : ∀ xl, atkbd_need_xlate xl (data ||| 0x80) = true := by
            intro xl
            rcases hc.2.2 with e | e | e <;> rw [e] <;>
              exact atkbd_need_xlate_other xl _ (by decide) (by decide)
          unfold atkbd_unmangle at h
          simp only [ht, hx, or_true, if_true, ne_eq, not_true_eq_false] at h
          exact hlow _ h
        · rw [if_neg hc] at hf
          exact hf rfl
    rw [hf] at h
    unfold atkbd_unmangle at h ⊢
    rw [if_pos ht] at h ⊢
    by_cases hc : a.emul ≠ 0 ∨ atkbd_need_xlate a.xl_bit data = true
    · rw [if_pos hc] at h
      exfalso
      split_ifs at h <;> exact hlow _ h
    · have he : a.emul = 0 := by
        by_contra he
        exact hc (Or.inl he)
      have hn : atkbd_need_xlate a.xl_bit data = false := by
        cases hx : atkbd_need_xlate a.xl_bit data
        · rfl
        · exact absurd (Or.inr hx) hc
      rw [if_neg hc, if_pos he]
      exact ⟨hf, by rw [if_pos ht], fun _ => ⟨he, hn⟩⟩
  · have htf : a.translated = false := by
      cases hb : a.translated
      · rfl
      · exact absurd hb ht
    have hf := atkbd_fixup_id_of p hp a data (Or.inl htf)
    refine ⟨hf, ?_, fun h1 => absurd h1 ht⟩
    unfold atkbd_unmangle
    rw [if_neg ht, if_neg ht]

/-- A byte that `atkbd_need_xlate` refuses leaves a 64-bit `xl_bit` as it is: the
emulation bytes match no element of `xl_table`, and an element of `xl_table` with its
bit clear clears that bit again. -/
theorem atkbd_calculate_xl_bit_refused (a : atkbd) (data : Nat) (hd : data < 256)
    (hx : a.xl_bit < 2 ^ 64) (hn : atkbd_need_xlate a.xl_bit data = false) :
    atkbd_calculate_xl_bit a data = a := by
  have hl : atkbd_calculate_xl_bit_loop (data % 256) a.xl_bit xl_table 0 = a.xl_bit := by
    rw [Nat.mod_eq_of_lt hd]
    by_cases h8 : data ≠ 0xe0 ∧ data ≠ 0xe1 ∧ data ≠ 0xaa ∧ data ≠ 0xff ∧ data ≠ 0xfa ∧
        data ≠ 0xfe ∧ data ≠ 0xf1 ∧ data ≠ 0xf2
    · rw [atkbd_need_xlate_other a.xl_bit data hd h8] at hn
      exact absurd hn (by decide)
    · have hcase : data = 0xe0 ∨ data = 0xe1 ∨ data = 0xaa ∨ data = 0xff ∨ data = 0xfa ∨
          data = 0xfe ∨ data = 0xf1 ∨ data = 0xf2 := by omega
      rcases hcase with e | e | e | e | e | e | e | e <;> subst e
      · exact atkbd_calculate_xl_bit_loop_other _ _ (by norm_num) (by decide)
      · exact atkbd_calculate_xl_bit_loop_other _ _ (by norm_num) (by decide)
      · exact clear_bit_of_clear 0 _ (by norm_num) hx
          ((atkbd_need_xlate_table a.xl_bit 0 (by norm_num)).symm.trans hn)
      · exact clear_bit_of_clear 1 _ (by norm_num) hx
          ((atkbd_need_xlate_table a.xl_bit 1 (by norm_num)).symm.trans hn)
      · exact clear_bit_of_clear 2 _ (by norm_num) hx
          ((atkbd_need_xlate_table a.xl_bit 2 (by norm_num)).symm.trans hn)
      · exact clear_bit_of_clear 3 _ (by norm_num) hx
          ((atkbd_need_xlate_table a.xl_bit 3 (by norm_num)).symm.trans hn)
      · exact clear_bit_of_clear 4 _ (by norm_num) hx
          ((atkbd_need_xlate_table a.xl_bit 4 (by norm_num)).symm.trans hn)
      · exact clear_bit_of_clear 5 _ (by norm_num) hx
          ((atkbd_need_xlate_table a.xl_bit 5 (by norm_num)).symm.trans hn)
  show ({ a with xl_bit := atkbd_calculate_xl_bit_loop (data % 256) a.xl_bit xl_table 0 } : atkbd)
    = a
  rw [hl]

/-- The scancode stage on a byte whose code leaves the unmangling step with bit 7 set:
the byte itself goes to the `switch`, on the state that `atkbd_calculate_xl_bit` may
have touched in translated mode. -/
theorem atkbd_scancode_high (p : platform) (hp : fixup_known p) (a : atkbd) (data : Nat)
    (h : 0x80 ≤ (atkbd_unmangle (atkbd_fixup p a data).1 (atkbd_fixup p a data).2 data).2) :
    (atkbd_unmangle (atkbd_fixup p a data).1 (atkbd_fixup p a data).2 data).2 = data ∧
    atkbd_scancode p a data =
      ((atkbd_switch (if a.translated = true then atkbd_calculate_xl_bit a data else a) data).1,
       effect.input_event_msc_raw data ::
         (atkbd_switch (if a.translated = true then atkbd_calculate_xl_bit a data else a)
           data).2.1,
       (atkbd_switch (if a.translated = true then atkbd_calculate_xl_bit a data else a)
           data).2.2) := by
  obtain ⟨hf, hu, _⟩ := atkbd_unmangle_high p hp a data h
  simp only [atkbd_scancode, hf, hu, and_self]

/-- The same for a 64-bit `xl_bit`: the decoder state reaches the `switch` untouched. -/
theorem atkbd_scancode_high_id (p : platform) (hp : fixup_known p) (a : atkbd) (data : Nat)
    (hd : data < 256) (hx : a.xl_bit < 2 ^ 64)
    (h : 0x80 ≤ (atkbd_unmangle (atkbd_fixup p a data).1 (atkbd_fixup p a data).2 data).2) :
    (atkbd_unmangle (atkbd_fixup p a data).1 (atkbd_fixup p a data).2 data).2 = data ∧
    atkbd_scancode p a data =
      ((atkbd_switch a data).1, effect.input_event_msc_raw data :: (atkbd_switch a data).2.1,
       (atkbd_switch a data).2.2) := by
  obtain ⟨h1, h2⟩ := atkbd_scancode_high p hp a data h
  obtain ⟨_, _, h3⟩ := atkbd_unmangle_high p hp a data h
  have hs : (if a.translated = true then atkbd_calculate_xl_bit a data else a) = a := by
    by_cases ht : a.translated = true
    · rw [if_pos ht]
      exact atkbd_calculate_xl_bit_refused a data hd hx (h3 ht).2
    · rw [if_neg ht]
  rw [hs] at h2
  exact ⟨h1, h2⟩

/-- Lines 980-1053 leave `release` false. -/
theorem atkbd_report_release_false (p : platform) (a : atkbd) (code : Nat) :
    (atkbd_report p a code).1.release = false := by
  unfold atkbd_report
  simp only []
  split_ifs <;> rfl

/-- The decoder proper on a byte whose code leaves the unmangling step with bit 7 set
and which the `switch` stops: the state is that of the `switch` on the byte, and the
only call made before it is the raw-scancode event. -/
theorem atkbd_decode_protocol (p : platform) (hp : fixup_known p) (a : atkbd) (data : Nat)
    (hd : data < 256) (hx : a.xl_bit < 2 ^ 64)
    (h : 0x80 ≤ (atkbd_unmangle (atkbd_fixup p a data).1 (atkbd_fixup p a data).2 data).2)
    (hnone : (atkbd_switch a data).2.2 = none) :
    atkbd_decode p a data =
      ((atkbd_switch a data).1, effect.input_event_msc_raw data :: (atkbd_switch a data).2.1) := by
  obtain ⟨_, hs⟩ := atkbd_scancode_high_id p hp a data hd hx h
  rw [atkbd_decode_eq, hs]
  simp only [hnone]

/-- The code that leaves the unmangling step with bit 7 set is the received byte. -/
theorem atkbd_unmangle_high_data (p : platform) (hp : fixup_known p) (a : atkbd)
    (data code : Nat)
    (hcode : (atkbd_unmangle (atkbd_fixup p a data).1 (atkbd_fixup p a data).2 data).2 = code)
    (h : 0x80 ≤ code) : data = code := by
  obtain ⟨h1, _⟩ := atkbd_scancode_high p hp a data (by rw [hcode]; exact h)
  exact h1.symm.trans hcode

/-- Lines 892-917 write `resend` and the flags of the embedded `ps2dev` only. -/
theorem atkbd_interrupt_head_frame (p : platform) (a : atkbd) (data flags : Nat) :
    (atkbd_interrupt_head p a data flags).1 =
      { a with resend := (atkbd_interrupt_head p a data flags).1.resend,
               ps2dev_flags := (atkbd_interrupt_head p a data flags).1.ps2dev_flags } := by
  unfold atkbd_interrupt_head
  simp only []
  split_ifs <;> rfl

/-- C22: when the code that leaves the translated-mode unmangling step is one of the
protocol codes 0xe0, 0xe1, 0xf0, 0xfa, 0xfe, 0xff, the decoder proper makes no call
but the raw-scancode event (so no key event), and the decoder state (with its
`unsigned long` fields `xl_bit` and `err_count` in range) changes as follows: 0xe0
sets `emul` to 1, 0xe1 sets it to 2, 0xf0 sets `release`, 0xfa and 0xfe change
nothing, 0xff adds one to `err_count` and changes nothing else.  The first conjunct is
the `switch` of lines 946-973 alone, on any state; the last one is what lines 892-917
may have written before the decoder proper runs: `resend` and the flags of the
embedded `ps2dev`, nothing else. -/
theorem protocol_code_effects (p : platform) (hp : fixup_known p) (a : atkbd)
    (hx : a.xl_bit < 2 ^ 64) (data : Nat) (hd : data < 256) (code : Nat)
    (hcode : (atkbd_unmangle (atkbd_fixup p a data).1 (atkbd_fixup p a data).2 data).2 = code) :
    (∀ s : atkbd,
      atkbd_switch s 0xe0 = ({ s with emul := 1 }, [], none) ∧
      atkbd_switch s 0xe1 = ({ s with emul := 2 }, [], none) ∧
      atkbd_switch s 0xf0 = ({ s with release := true }, [], none) ∧
      atkbd_switch s 0xfa = (s, [], none) ∧
      atkbd_switch s 0xfe = (s, [], none) ∧
      atkbd_switch s 0xff = ({ s with err_count := (s.err_count + 1) % 2 ^ 64 }, [], none)) ∧
    (code = 0xe0 →
      atkbd_decode p a data = ({ a with emul := 1 }, [effect.input_event_msc_raw data])) ∧
    (code = 0xe1 →
      atkbd_decode p a data = ({ a with emul := 2 }, [effect.input_event_msc_raw data])) ∧
    (code = 0xf0 →
      atkbd_decode p a data = ({ a with release := true }, [effect.input_event_msc_raw data])) ∧
    (code = 0xfa ∨ code = 0xfe →
      atkbd_decode p a data = (a, [effect.input_event_msc_raw data])) ∧
    (code = 0xff →
      atkbd_decode p a data =
        ({ a with err_count := (a.err_count + 1) % 2 ^ 64 }, [effect.input_event_msc_raw data]) ∧
      (a.err_count + 1 < 2 ^ 64 → (atkbd_decode p a data).1.err_count = a.err_count + 1)) ∧
    (code = 0xe0 ∨ code = 0xe1 ∨ code = 0xf0 ∨ code = 0xfa ∨ code = 0xfe ∨ code = 0xff →
      data = code ∧ key_events (atkbd_decode p a data).2 = []) ∧
    (∀ flags,
      (atkbd_interrupt_head p a data flags).1 =
        { a with resend := (atkbd_interrupt_head p a data flags).1.resend,
                 ps2dev_flags := (atkbd_interrupt_head p a data flags).1.ps2dev_flags } ∧
      key_events (atkbd_interrupt_head p a data flags).2.1 = []) := by
  have key : ∀ c, 0x80 ≤ c → code = c → (atkbd_switch a c).2.2 = none →
      data = c ∧ atkbd_decode p a c =
        ((atkbd_switch a c).1, effect.input_event_msc_raw c :: (atkbd_switch a c).2.1) := by
    intro c h80 hc hnone
    have hdc : data = c := (atkbd_unmangle_high_data p hp a data code hcode (hc ▸ h80)).trans hc
    subst hdc
    exact ⟨rfl, atkbd_decode_protocol p hp a data hd hx (by rw [hcode, hc]; exact h80) hnone⟩
  refine ⟨fun s => ⟨rfl, rfl, rfl, rfl, rfl, rfl⟩, ?_, ?_, ?_, ?_, ?_, ?_,
    fun flags => ⟨atkbd_interrupt_head_frame p a data flags,
      atkbd_interrupt_head_no_key_event p a data flags⟩⟩
  · intro hc
    obtain ⟨h1, h2⟩ := key 0xe0 (by norm_num) hc rfl
    rw [h1, h2]; rfl
  · intro hc
    obtain ⟨h1, h2⟩ := key 0xe1 (by norm_num) hc rfl
    rw [h1, h2]; rfl
  · intro hc
    obtain ⟨h1, h2⟩ := key 0xf0 (by norm_num) hc rfl
    rw [h1, h2]; rfl
  · rintro (hc | hc)
    · obtain ⟨h1, h2⟩ := key 0xfa (by norm_num) hc rfl
      rw [h1, h2]; rfl
    · obtain ⟨h1, h2⟩ := key 0xfe (by norm_num) hc rfl
      rw [h1, h2]; rfl
  · intro hc
    obtain ⟨h1, h2⟩ := key 0xff (by norm_num) hc rfl
    rw [h1, h2]
    refine ⟨rfl, fun hlt => ?_⟩
    show (a.err_count + 1) % 2 ^ 64 = a.err_count + 1
    exact Nat.mod_eq_of_lt hlt
  · rintro (hc | hc | hc | hc | hc | hc)
    · obtain ⟨h1, h2⟩ := key 0xe0 (by norm_num) hc rfl
      rw [h1, h2]; exact ⟨hc.symm, rfl⟩
    · obtain ⟨h1, h2⟩ := key 0xe1 (by norm_num) hc rfl
      rw [h1, h2]; exact ⟨hc.symm, rfl⟩
    · obtain ⟨h1, h2⟩ := key 0xf0 (by norm_num) hc rfl
      rw [h1, h2]; exact ⟨hc.symm, rfl⟩
    · obtain ⟨h1, h2⟩ := key 0xfa (by norm_num) hc rfl
      rw [h1, h2]; exact ⟨hc.symm, rfl⟩
    · obtain ⟨h1, h2⟩ := key 0xfe (by norm_num) hc rfl
      rw [h1, h2]; exact ⟨hc.symm, rfl⟩
    · obtain ⟨h1, h2⟩ := key 0xff (by norm_num) hc rfl
      rw [h1, h2]; exact ⟨hc.symm, rfl⟩

/-- C22 at the byte 0xff received by the idle translated decoder. -/
theorem protocol_code_effects_witness :
    atkbd_decode platform_x86 atkbd_idle_translated 0xff =
      ({ atkbd_idle_translated with err_count := (atkbd_idle_translated.err_count + 1) % 2 ^ 64 },
       [effect.input_event_msc_raw 0xff]) ∧
    (atkbd_decode platform_x86 atkbd_idle_translated 0xff).1.err_count = 1 :=
  ⟨((protocol_code_effects platform_x86 (Or.inl rfl) atkbd_idle_translated (by decide) 0xff
      (by decide) 0xff (by decide)).2.2.2.2.2.1 rfl).1,
   ((protocol_code_effects platform_x86 (Or.inl rfl) atkbd_idle_translated (by decide) 0xff
      (by decide) 0xff (by decide)).2.2.2.2.2.1 rfl).2 (by decide)⟩

/-- C25: a byte that reaches the key lookup of line 980 leaves `release` false when
the decoder returns, whatever keycode was looked up; a byte that the `switch` stops
as 0xe0 or 0xe1 (the code after the unmangling step is 0xe0 or 0xe1: the byte itself,
in raw mode or at emulation depth 0) does not reach the lookup and leaves `release`
as it was. -/
theorem release_cleared_after_lookup (p : platform) (a : atkbd) (data : Nat) :
    (∀ sc, (atkbd_scancode p a data).2.2 = some sc →
      (atkbd_decode p a data).1.release = false) ∧
    (fixup_known p →
      ((atkbd_unmangle (atkbd_fixup p a data).1 (atkbd_fixup p a data).2 data).2 = 0xe0 ∨
       (atkbd_unmangle (atkbd_fixup p a data).1 (atkbd_fixup p a data).2 data).2 = 0xe1) →
      (data = 0xe0 ∨ data = 0xe1) ∧ (a.translated = false ∨ a.emul = 0) ∧
      (atkbd_scancode p a data).2.2 = none ∧
      (atkbd_decode p a data).1.release = a.release) ∧
    (fixup_known p → (a.translated = false ∨ a.emul = 0) → (data = 0xe0 ∨ data = 0xe1) →
      (atkbd_unmangle (atkbd_fixup p a data).1 (atkbd_fixup p a data).2 data).2 = data ∧
      (atkbd_scancode p a data).2.2 = none ∧
      (atkbd_decode p a data).1.release = a.release) := by
  have hrel : ∀ d, (if a.translated = true then atkbd_calculate_xl_bit a d else a).release
      = a.release := by
    intro d
    split_ifs <;> rfl
  have key : fixup_known p → (data = 0xe0 ∨ data = 0xe1) →
      (atkbd_unmangle (atkbd_fixup p a data).1 (atkbd_fixup p a data).2 data).2 = data →
      (atkbd_scancode p a data).2.2 = none ∧ (atkbd_decode p a data).1.release = a.release := by
    intro hp hdat hu
    have h80 : 0x80 ≤ (atkbd_unmangle (atkbd_fixup p a data).1 (atkbd_fixup p a data).2 data).2 := by
      rw [hu]
      rcases hdat with e | e <;> rw [e] <;> norm_num
    obtain ⟨_, hs⟩ := atkbd_scancode_high p hp a data h80
    have hnone : (atkbd_scancode p a data).2.2 = none := by
      rw [hs]
      rcases hdat with e | e <;> rw [e] <;> rfl
    refine ⟨hnone, ?_⟩
    rw [(atkbd_decode_no_lookup p a data hnone).1, hs]
    rcases hdat with e | e <;> rw [e] <;> exact hrel _
  refine ⟨?_, ?_, ?_⟩
  · intro sc hs
    rw [atkbd_decode_eq]
    simp only [hs]
    exact atkbd_report_release_false _ _ _
  · intro hp hu
    have h80 : 0x80 ≤ (atkbd_unmangle (atkbd_fixup p a data).1 (atkbd_fixup p a data).2 data).2 := by
      rcases hu with e | e <;> rw [e] <;> norm_num
    obtain ⟨hdat, _⟩ := atkbd_scancode_high p hp a data h80
    obtain ⟨_, _, hte⟩ := atkbd_unmangle_high p hp a data h80
    have hd2 : data = 0xe0 ∨ data = 0xe1 := by
      rcases hu with e | e
      · exact Or.inl (hdat.symm.trans e)
      · exact Or.inr (hdat.symm.trans e)
    have hmode : a.translated = false ∨ a.emul = 0 := by
      cases ht : a.translated
      · exact Or.inl rfl
      · exact Or.inr (hte ht).1
    exact ⟨hd2, hmode, key hp hd2 hdat⟩
  · intro hp hmode hdat
    have hn : atkbd_need_xlate a.xl_bit data = false := by
      rcases hdat with e | e <;> rw [e]
      · exact (atkbd_need_xlate_emul a.xl_bit).1
      · exact (atkbd_need_xlate_emul a.xl_bit).2
    have hf : atkbd_fixup p a data = (a, data) := by
      rcases hmode with h | h
      · exact atkbd_fixup_id_of p hp a data (Or.inl h)
      · exact atkbd_fixup_id p hp a data (by rw [h]; decide)
    have hu : (atkbd_unmangle (atkbd_fixup p a data).1 (atkbd_fixup p a data).2 data).2 = data := by
      rw [hf]
      unfold atkbd_unmangle
      rcases hmode with h | h
      · rw [if_neg (by rw [h]; decide)]
      · by_cases ht : a.translated = true
        · rw [if_pos ht, if_neg (by rw [h, hn]; simp), if_pos h]
        · rw [if_neg ht]
    exact ⟨hu, key hp hdat hu⟩

/-- C25 on the idle translated decoder with a release pending: the byte 0xe0 leaves
`release` set. -/
theorem release_cleared_after_lookup_witness :
    (atkbd_scancode platform_x86 { atkbd_idle_translated with release := true } 0xe0).2.2 = none ∧
    (atkbd_decode platform_x86 { atkbd_idle_translated with release := true } 0xe0).1.release =
      true :=
  ((release_cleared_after_lookup platform_x86 { atkbd_idle_translated with release := true }
      0xe0).2.2 (Or.inl rfl) (Or.inr rfl) (Or.inl rfl)).2

/-- A byte that goes on to the key lookup has made the raw-scancode event only. -/
theorem atkbd_scancode_some_out (p : platform) (a : atkbd) (data sc : Nat)
    (h : (atkbd_scancode p a data).2.2 = some sc) :
    (atkbd_scancode p a data).2.1 = [effect.input_event_msc_raw data] := by
  simp only [atkbd_scancode] at h ⊢
  generalize atkbd_unmangle (atkbd_fixup p a data).1 (atkbd_fixup p a data).2 data = u at h ⊢
  unfold atkbd_switch at h ⊢
  split_ifs at h ⊢ <;> rfl

/-- Lines 980-1053 on a composed scancode whose table entry is `ATKBD_KEY_NULL`. -/
theorem atkbd_report_null (p : platform) (a : atkbd) (code : Nat)
    (hk : a.keycode code = ATKBD_KEY_NULL) :
    atkbd_report p a code =
      ({ a with release := false },
       if a.scroll = true then
         [effect.input_report_rel_wheel 0, effect.input_report_rel_hwheel 0, effect.input_sync]
       else []) := by
  unfold atkbd_report
  simp only [hk, atkbd_report_switch, if_true, ne_eq, not_true_eq_false, and_false, if_false,
    List.nil_append, neg_zero, ite_self]
  split_ifs <;> rfl

/-- Lines 980-1053 on a composed scancode whose table entry is `ATKBD_KEY_UNKNOWN`. -/
theorem atkbd_report_unknown (p : platform) (a : atkbd) (code : Nat)
    (hk : a.keycode code = ATKBD_KEY_UNKNOWN) :
    atkbd_report p a code =
      ({ a with release := false },
       (if a.release = true ∧ a.force_release_mask code = true then []
        else [effect.input_event_msc_scan code]) ++
       [effect.dev_warn_unknown_key code, effect.input_sync] ++
       if a.scroll = true then
         [effect.input_report_rel_wheel 0, effect.input_report_rel_hwheel 0, effect.input_sync]
       else []) := by
  have h0 : ATKBD_KEY_UNKNOWN ≠ ATKBD_KEY_NULL := by decide
  unfold atkbd_report
  simp only [hk, atkbd_report_switch, h0, if_true, if_false, ne_eq, not_false_eq_true, and_true,
    neg_zero, ite_self, ite_not, not_true_eq_false]
  split_ifs <;> simp

/-- C24: a byte whose composed scancode has the table entry `ATKBD_KEY_NULL` (255) is
dropped: the decoder makes no key event and no scancode (`MSC_SCAN`) event, only the
raw-scancode event made before the lookup and, with the scroll feature on, the empty
wheel report; a byte whose composed scancode has the table entry `ATKBD_KEY_UNKNOWN`
(0) makes no key event, only the warning that carries the scancode (with the
scancode event, unless a release of a force-release scancode is pending).  In both
cases `release` is false afterwards and nothing else changes. -/
theorem null_and_unknown_emit_no_key_event (p : platform) (a : atkbd) (data sc : Nat)
    (hs : (atkbd_scancode p a data).2.2 = some sc) :
    ((atkbd_scancode p a data).1.keycode sc = ATKBD_KEY_NULL →
      atkbd_decode p a data =
        ({ (atkbd_scancode p a data).1 with release := false },
         effect.input_event_msc_raw data ::
           if (atkbd_scancode p a data).1.scroll = true then
             [effect.input_report_rel_wheel 0, effect.input_report_rel_hwheel 0,
              effect.input_sync]
           else []) ∧
      key_events (atkbd_decode p a data).2 = [] ∧
      ∀ c, effect.input_event_msc_scan c ∉ (atkbd_decode p a data).2) ∧
    ((atkbd_scancode p a data).1.keycode sc = ATKBD_KEY_UNKNOWN →
      atkbd_decode p a data =
        ({ (atkbd_scancode p a data).1 with release := false },
         effect.input_event_msc_raw data ::
           ((if (atkbd_scancode p a data).1.release = true ∧
                (atkbd_scancode p a data).1.force_release_mask sc = true then []
             else [effect.input_event_msc_scan sc]) ++
            [effect.dev_warn_unknown_key sc, effect.input_sync] ++
            if (atkbd_scancode p a data).1.scroll = true then
              [effect.input_report_rel_wheel 0, effect.input_report_rel_hwheel 0,
               effect.input_sync]
            else [])) ∧
      key_events (atkbd_decode p a data).2 = [] ∧
      effect.dev_warn_unknown_key sc ∈ (atkbd_decode p a data).2) := by
  have hd : atkbd_decode p a data =
      ((atkbd_report p (atkbd_scancode p a data).1 sc).1,
       effect.input_event_msc_raw data :: (atkbd_report p (atkbd_scancode p a data).1 sc).2) := by
    rw [atkbd_decode_eq]
    simp only [hs, atkbd_scancode_some_out p a data sc hs, List.singleton_append]
  constructor
  · intro hk
    have hr := atkbd_report_null p _ sc hk
    rw [hd, hr]
    refine ⟨rfl, ?_, ?_⟩
    · split_ifs <;> rfl
    · intro c
      split_ifs <;> simp
  · intro hk
    have hr := atkbd_report_unknown p _ sc hk
    rw [hd, hr]
    refine ⟨rfl, ?_, ?_⟩
    · split_ifs <;> rfl
    · simp

set_option maxRecDepth 100000 in
/-- C24 on the default translated table: after 0xe0 the byte 0x2a composes the
scancode 0xaa, whose entry is `ATKBD_KEY_NULL`; at depth 0 the byte 0x55 has the entry
`ATKBD_KEY_UNKNOWN`. -/
theorem null_and_unknown_emit_no_key_event_witness :
    (key_events (atkbd_decode platform_x86 { atkbd_idle_translated with emul := 1 } 0x2a).2 = [] ∧
     ∀ c, effect.input_event_msc_scan c ∉
       (atkbd_decode platform_x86 { atkbd_idle_translated with emul := 1 } 0x2a).2) ∧
    key_events (atkbd_decode platform_x86 atkbd_idle_translated 0x55).2 = [] ∧
    effect.dev_warn_unknown_key 0x55 ∈ (atkbd_decode platform_x86 atkbd_idle_translated 0x55).2 :=
  ⟨((null_and_unknown_emit_no_key_event platform_x86 { atkbd_idle_translated with emul := 1 }
      0x2a 0xaa (by decide)).1 (by decide)).2,
   ((null_and_unknown_emit_no_key_event platform_x86 atkbd_idle_translated 0x55 0x55
      (by decide)).2 (by decide)).2⟩

/-- With the enable flag 0 the overlay bypasses every byte and touches nothing. -/
theorem wataash_disabled_bypass (st : overlay) (code : Nat) :
    wataash_do_atkbd_emacs 0 st code = some (wataash_do_atkbd_emacs_bypass, st, []) := by
  unfold wataash_do_atkbd_emacs
  by_cases h1 : code = 0
  · rw [if_pos h1]
  · rw [if_neg h1]
    by_cases h2 : (code &&& 0xFFFFFF7F) ≥ 0x80
    · rw [if_pos h2]
    · rw [if_neg h2, if_pos rfl]

/-- C27: with the global `wataash_atkbd_emacs` equal to 0 the overlay returns bypass
for every code (the four trigger codes too) in every overlay state, makes no `action`
call and leaves `held` and every slot as they were; so `atkbd_interrupt` leaves the
overlay state and does to the decoder state exactly what it does without the overlay
stage. -/
theorem overlay_disabled_is_bare_decoder (st : overlay) (code : Nat) :
    wataash_do_atkbd_emacs 0 st code = some (wataash_do_atkbd_emacs_bypass, st, []) ∧
    (∀ (p : platform) (a : atkbd) (flags : Nat), p.wataash_atkbd_emacs = 0 →
      atkbd_interrupt p st a code flags =
        some (st, atkbd_interrupt_decoder p a code flags)) := by
  refine ⟨wataash_disabled_bypass st code, ?_⟩
  intro p a flags h0
  by_cases hflag : flags &&& SERIO_WATAASH_DOING_ACTION = 0
  · unfold atkbd_interrupt atkbd_interrupt_decoder
    rcases atkbd_interrupt_head p a code flags with ⟨a1, out1, b⟩
    cases b
    · rfl
    · simp only [hflag, if_true, h0, wataash_disabled_bypass, atkbd_replay_nil,
        List.append_nil]
  · exact atkbd_interrupt_marked p st a code flags hflag

/-- C27 on the CapsLock press byte with a mode held and a slot pressing. -/
theorem overlay_disabled_is_bare_decoder_witness :
    wataash_do_atkbd_emacs 0 overlay_caps_a_pressing 0x3a =
      some (wataash_do_atkbd_emacs_bypass, overlay_caps_a_pressing, []) ∧
    atkbd_interrupt { platform_x86 with wataash_atkbd_emacs := 0 } overlay_caps_a_pressing
        atkbd_idle_translated 0x3a 0 =
      some (overlay_caps_a_pressing,
        atkbd_interrupt_decoder { platform_x86 with wataash_atkbd_emacs := 0 }
          atkbd_idle_translated 0x3a 0) :=
  ⟨(overlay_disabled_is_bare_decoder overlay_caps_a_pressing 0x3a).1,
   (overlay_disabled_is_bare_decoder overlay_caps_a_pressing 0x3a).2
     { platform_x86 with wataash_atkbd_emacs := 0 } atkbd_idle_translated 0 rfl⟩

/-- The two composed scancodes of the Hangeul and Hanja bytes differ. -/
theorem atkbd_compat_scancode_hangeul_ne_hanja (a : atkbd) :
    atkbd_compat_scancode a ATKBD_RET_HANGEUL ≠ atkbd_compat_scancode a ATKBD_RET_HANJA := by
  unfold atkbd_compat_scancode
  split_ifs <;> decide

/-- Without firmware keymap `atkbd_set_keycode_table` does not fault. -/
theorem atkbd_set_keycode_table_none (fixup : Option (atkbd → atkbd)) (a : atkbd) :
    atkbd_set_keycode_table none fixup a = some (atkbd_set_keycode_table_rest none fixup a) :=
  rfl

/-- The loop of lines 1545-1549 faults exactly when an element of the property has its
index outside `keycode[512]`. -/
theorem atkbd_get_keymap_loop_isSome :
    ∀ (ptr : List Nat) (keycode : Nat → Nat),
      (atkbd_get_keymap_loop ptr keycode).isSome = true ↔
        ∀ x ∈ ptr, SCANCODE x < ATKBD_KEYMAP_SIZE := by
  intro ptr
  induction ptr with
  | nil =>
    intro keycode
    simp [atkbd_get_keymap_loop]
  | cons x rest ih =>
    intro keycode
    unfold atkbd_get_keymap_loop
    by_cases hx : SCANCODE x < ATKBD_KEYMAP_SIZE
    · rw [if_pos hx, ih]
      simp [hx]
    · rw [if_neg hx]
      simp [hx]

/-- The function `atkbd_set_keycode_table` returns, with the state that lines
1566-1610 leave, when every element of the firmware keymap has its index inside
`keycode[512]`; it faults when the property has an accepted length (1 to 512
elements) and an element with its index outside. -/
theorem atkbd_set_keycode_table_fault (fw : Option (List Nat))
    (fixup : Option (atkbd → atkbd)) (a : atkbd) :
    ((∀ ptr, fw = some ptr → ∀ x ∈ ptr, SCANCODE x < ATKBD_KEYMAP_SIZE) →
      ∃ keymap, atkbd_set_keycode_table fw fixup a =
        some (atkbd_set_keycode_table_rest keymap fixup a)) ∧
    (∀ ptr, fw = some ptr → ptr.length ≤ ATKBD_KEYMAP_SIZE →
      (∃ x ∈ ptr, ATKBD_KEYMAP_SIZE ≤ SCANCODE x) →
      atkbd_set_keycode_table fw fixup a = none) := by
  constructor
  · intro h
    cases fw with
    | none => exact ⟨none, rfl⟩
    | some ptr =>
      by_cases hl : ptr.length = 0 ∨ ptr.length > ATKBD_KEYMAP_SIZE
      · refine ⟨none, ?_⟩
        simp only [atkbd_set_keycode_table, atkbd_get_keymap_from_fwnode, if_pos hl]
      · have hs := (atkbd_get_keymap_loop_isSome ptr (fun _ => 0)).2 (h ptr rfl)
        obtain ⟨k, hk⟩ := Option.isSome_iff_exists.1 hs
        refine ⟨some k, ?_⟩
        simp only [atkbd_set_keycode_table, atkbd_get_keymap_from_fwnode, if_neg hl, hk]
  · intro ptr hfw hlen hx
    subst hfw
    obtain ⟨x, hxm, hxo⟩ := hx
    have hl : ¬ (ptr.length = 0 ∨ ptr.length > ATKBD_KEYMAP_SIZE) := by
      intro h
      rcases h with h | h
      · rw [List.length_eq_zero] at h
        rw [h] at hxm
        exact absurd hxm (List.not_mem_nil x)
      · omega
    have hn : atkbd_get_keymap_loop ptr (fun _ => 0) = none := by
      cases hk : atkbd_get_keymap_loop ptr (fun _ => 0) with
      | none => rfl
      | some k =>
        have h1 := (atkbd_get_keymap_loop_isSome ptr (fun _ => 0)).1 (by rw [hk]; rfl) x hxm
        omega
    simp only [atkbd_set_keycode_table, atkbd_get_keymap_from_fwnode, if_neg hl, hn]

/-- What lines 1566-1610 of `atkbd_set_keycode_table` leave at the composed scancodes
of the Hangeul and Hanja bytes, whatever table was loaded before; they write `keycode`
and `force_release_mask` only. -/
theorem atkbd_set_keycode_table_rest_hangeul_hanja (keymap : Option (Nat → Nat)) (a : atkbd) :
    (atkbd_set_keycode_table_rest keymap none a).keycode (atkbd_compat_scancode a ATKBD_RET_HANGEUL) =
      KEY_HANGEUL ∧
    (atkbd_set_keycode_table_rest keymap none a).keycode (atkbd_compat_scancode a ATKBD_RET_HANJA) =
      KEY_HANJA ∧
    (atkbd_set_keycode_table_rest keymap none a).force_release_mask
      (atkbd_compat_scancode a ATKBD_RET_HANGEUL) = true ∧
    (atkbd_set_keycode_table_rest keymap none a).force_release_mask
      (atkbd_compat_scancode a ATKBD_RET_HANJA) = true ∧
    atkbd_set_keycode_table_rest keymap none a =
      { a with keycode := (atkbd_set_keycode_table_rest keymap none a).keycode,
               force_release_mask := (atkbd_set_keycode_table_rest keymap none a).force_release_mask } := by
  have hne := atkbd_compat_scancode_hangeul_ne_hanja a
  refine ⟨?_, ?_, ?_, ?_, rfl⟩
  · show Function.update (Function.update _ (atkbd_compat_scancode a ATKBD_RET_HANGEUL) _)
      (atkbd_compat_scancode a ATKBD_RET_HANJA) _ _ = _
    rw [Function.update_noteq hne, Function.update_same]
  · show Function.update (Function.update _ (atkbd_compat_scancode a ATKBD_RET_HANGEUL) _)
      (atkbd_compat_scancode a ATKBD_RET_HANJA) _ _ = _
    rw [Function.update_same]
  · show Function.update (Function.update _ (atkbd_compat_scancode a ATKBD_RET_HANGEUL) _)
      (atkbd_compat_scancode a ATKBD_RET_HANJA) _ _ = _
    rw [Function.update_noteq hne, Function.update_same]
  · show Function.update (Function.update _ (atkbd_compat_scancode a ATKBD_RET_HANGEUL) _)
      (atkbd_compat_scancode a ATKBD_RET_HANJA) _ _ = _
    rw [Function.update_same]

/-- The scancode stage on the Hangeul or Hanja byte at emulation depth 0, when in
translated mode `atkbd_need_xlate` refuses the byte: the byte goes to the key lookup
with its composed scancode, and only `xl_bit` may have changed. -/
theorem atkbd_scancode_hangeul_hanja (p : platform) (hp : fixup_known p) (a : atkbd)
    (data : Nat) (hdata : data = ATKBD_RET_HANJA ∨ data = ATKBD_RET_HANGEUL) (he : a.emul = 0)
    (hn : a.translated = true → atkbd_need_xlate a.xl_bit data = false) :
    atkbd_scancode p a data =
      (if a.translated = true then atkbd_calculate_xl_bit a data else a,
       [effect.input_event_msc_raw data], some (atkbd_compat_scancode a data)) := by
  have hf := atkbd_fixup_id p hp a data (by rw [he]; decide)
  have hu : atkbd_unmangle a data data =
      (if a.translated = true then atkbd_calculate_xl_bit a data else a, data) := by
    unfold atkbd_unmangle
    by_cases ht : a.translated = true
    · rw [if_pos ht, if_neg (by rw [he, hn ht]; simp), if_pos he, if_pos ht]
    · rw [if_neg ht, if_neg ht]
  have hs : ∀ s : atkbd, s.emul = 0 → s.set = a.set →
      atkbd_switch s data = (s, [], some (atkbd_compat_scancode a data)) := by
    intro s hse hss
    have hc : atkbd_compat_scancode s data = atkbd_compat_scancode a data := by
      unfold atkbd_compat_scancode
      rw [hse, hss, he]
    unfold atkbd_switch
    rcases hdata with e | e <;> rw [e] at hc ⊢ <;>
      simp [ATKBD_RET_HANJA, ATKBD_RET_HANGEUL, ATKBD_RET_BAT, ATKBD_RET_EMUL0, ATKBD_RET_EMUL1,
        ATKBD_RET_RELEASE, ATKBD_RET_ACK, ATKBD_RET_NAK, ATKBD_RET_ERR, hse] at hc ⊢ <;>
      exact hc
  simp only [atkbd_scancode, hf, hu]
  rw [hs _ (by split_ifs <;> exact he) (by split_ifs <;> rfl)]

/-- A byte that goes to the key lookup with a force-release scancode of an ordinary
key that is up, no release pending: a press, then at once the release. -/
theorem atkbd_decode_forced_release (p : platform) (a s : atkbd) (data sc : Nat)
    (hs : atkbd_scancode p a data = (s, [effect.input_event_msc_raw data], some sc))
    (hr : s.release = false) (hm : s.force_release_mask sc = true)
    (hk : ordinary_key (s.keycode sc)) (hup : s.dev_key (s.keycode sc) = false) :
    key_events (atkbd_decode p a data).2 = [(s.keycode sc, 1), (s.keycode sc, 0)] := by
  rw [atkbd_decode_eq, hs]
  simp only [key_events_append, atkbd_report_forced_release p s sc hr hm hk hup]
  rfl

/-- When `atkbd_set_keycode_table` returns (no platform fixup): in every
configuration (translated or raw, any code set, scroll on or off, whatever table
`atkbd_get_keymap_from_fwnode` left), `keycode[atkbd_compat_scancode(0xf2)]` is
`KEY_HANGEUL`, `keycode[atkbd_compat_scancode(0xf1)]` is `KEY_HANJA`, and both indices
are set in `force_release_mask`; so, the table being set up and the byte decoded at
emulation depth 0, a single byte 0xf2 or 0xf1 decoded with no release pending, its
`xl_bit` bit clear (translated mode) and the key up makes a press and at once a
release of that key, and no other key event. -/
theorem atkbd_set_keycode_table_rest_press_release (keymap : Option (Nat → Nat))
    (a : atkbd) :
    (atkbd_set_keycode_table_rest keymap none a).keycode
      (atkbd_compat_scancode (atkbd_set_keycode_table_rest keymap none a) ATKBD_RET_HANGEUL) =
        KEY_HANGEUL ∧
    (atkbd_set_keycode_table_rest keymap none a).keycode
      (atkbd_compat_scancode (atkbd_set_keycode_table_rest keymap none a) ATKBD_RET_HANJA) =
        KEY_HANJA ∧
    (atkbd_set_keycode_table_rest keymap none a).force_release_mask
      (atkbd_compat_scancode (atkbd_set_keycode_table_rest keymap none a) ATKBD_RET_HANGEUL) = true ∧
    (atkbd_set_keycode_table_rest keymap none a).force_release_mask
      (atkbd_compat_scancode (atkbd_set_keycode_table_rest keymap none a) ATKBD_RET_HANJA) = true ∧
    (∀ p : platform, fixup_known p → a.emul = 0 → a.release = false →
      (a.translated = true → test_bit 5 a.xl_bit = false) → a.dev_key KEY_HANGEUL = false →
      key_events (atkbd_decode p (atkbd_set_keycode_table_rest keymap none a) ATKBD_RET_HANGEUL).2 =
        [(KEY_HANGEUL, 1), (KEY_HANGEUL, 0)]) ∧
    (∀ p : platform, fixup_known p → a.emul = 0 → a.release = false →
      (a.translated = true → test_bit 4 a.xl_bit = false) → a.dev_key KEY_HANJA = false →
      key_events (atkbd_decode p (atkbd_set_keycode_table_rest keymap none a) ATKBD_RET_HANJA).2 =
        [(KEY_HANJA, 1), (KEY_HANJA, 0)]) := by
  obtain ⟨h1, h2, h3, h4, _⟩ := atkbd_set_keycode_table_rest_hangeul_hanja keymap a
  have key : ∀ (p : platform) (data i k : Nat), fixup_known p →
      data = ATKBD_RET_HANJA ∨ data = ATKBD_RET_HANGEUL → xl_table.getD i 0 = data → i < 6 →
      (atkbd_set_keycode_table_rest keymap none a).keycode (atkbd_compat_scancode a data) = k →
      (atkbd_set_keycode_table_rest keymap none a).force_release_mask (atkbd_compat_scancode a data)
        = true →
      ordinary_key k → a.emul = 0 → a.release = false →
      (a.translated = true → test_bit i a.xl_bit = false) → a.dev_key k = false →
      key_events (atkbd_decode p (atkbd_set_keycode_table_rest keymap none a) data).2 =
        [(k, 1), (k, 0)] := by
    intro p data i k hp hdata hi hi6 hk hm hord he hr hx hup
    have hn : (atkbd_set_keycode_table_rest keymap none a).translated = true →
        atkbd_need_xlate (atkbd_set_keycode_table_rest keymap none a).xl_bit data = false := by
      intro ht
      rw [← hi, atkbd_need_xlate_table _ i hi6]
      exact hx ht
    have hsc := atkbd_scancode_hangeul_hanja p hp (atkbd_set_keycode_table_rest keymap none a) data
      hdata he hn
    have hkc : (if (atkbd_set_keycode_table_rest keymap none a).translated = true then
          atkbd_calculate_xl_bit (atkbd_set_keycode_table_rest keymap none a) data
        else atkbd_set_keycode_table_rest keymap none a).keycode
          (atkbd_compat_scancode (atkbd_set_keycode_table_rest keymap none a) data) = k := by
      split_ifs <;> exact hk
    have h := atkbd_decode_forced_release p _ _ data _ hsc (by split_ifs <;> exact hr)
      (by split_ifs <;> exact hm) (by rw [hkc]; exact hord) (by rw [hkc]; split_ifs <;> exact hup)
    rw [hkc] at h
    exact h
  refine ⟨h1, h2, h3, h4, ?_, ?_⟩
  · intro p hp he hr hx hup
    exact key p ATKBD_RET_HANGEUL 5 KEY_HANGEUL hp (Or.inr rfl) rfl (by norm_num) h1 h3
      (by decide) he hr hx hup
  · intro p hp he hr hx hup
    exact key p ATKBD_RET_HANJA 4 KEY_HANJA hp (Or.inl rfl) rfl (by norm_num) h2 h4
      (by decide) he hr hx hup

/-- With a firmware keymap whose elements all have their index inside `keycode[512]`,
or without firmware keymap, `atkbd_set_keycode_table` (no platform fixup) returns, and
in the state it leaves `keycode[atkbd_compat_scancode(0xf2)]` is `KEY_HANGEUL`,
`keycode[atkbd_compat_scancode(0xf1)]` is `KEY_HANJA`, both indices are set in
`force_release_mask`, and a byte 0xf2 or 0xf1 decoded at emulation depth 0 with no
release pending, its `xl_bit` bit clear (translated mode) and the key up makes a press
and at once a release of that key. -/
theorem hangeul_hanja_press_release_in_bounds (fw : Option (List Nat)) (a : atkbd)
    (hfw : ∀ ptr, fw = some ptr → ∀ x ∈ ptr, SCANCODE x < ATKBD_KEYMAP_SIZE) :
    ∃ t, atkbd_set_keycode_table fw none a = some t ∧
      t.keycode (atkbd_compat_scancode t ATKBD_RET_HANGEUL) = KEY_HANGEUL ∧
      t.keycode (atkbd_compat_scancode t ATKBD_RET_HANJA) = KEY_HANJA ∧
      t.force_release_mask (atkbd_compat_scancode t ATKBD_RET_HANGEUL) = true ∧
      t.force_release_mask (atkbd_compat_scancode t ATKBD_RET_HANJA) = true ∧
      (∀ p : platform, fixup_known p → a.emul = 0 → a.release = false →
        (a.translated = true → test_bit 5 a.xl_bit = false) → a.dev_key KEY_HANGEUL = false →
        key_events (atkbd_decode p t ATKBD_RET_HANGEUL).2 =
          [(KEY_HANGEUL, 1), (KEY_HANGEUL, 0)]) ∧
      (∀ p : platform, fixup_known p → a.emul = 0 → a.release = false →
        (a.translated = true → test_bit 4 a.xl_bit = false) → a.dev_key KEY_HANJA = false →
        key_events (atkbd_decode p t ATKBD_RET_HANJA).2 =
          [(KEY_HANJA, 1), (KEY_HANJA, 0)]) := by
  obtain ⟨keymap, hk⟩ := (atkbd_set_keycode_table_fault fw none a).1 hfw
  exact ⟨_, hk, atkbd_set_keycode_table_rest_press_release keymap a⟩

/-- C26: with a firmware keymap that has an element whose index is outside
`keycode[512]`, here the single element `0x02270002` (index 551, keycode 2),
`atkbd_get_keymap_from_fwnode` accepts the property, its length being in 1..512, and
line 1548 writes outside the array: `atkbd_set_keycode_table` faults and establishes
nothing about the Hangeul and Hanja entries.  A firmware keymap whose indices are all
inside the array, such as `0x00f2001e`, does not fault. -/
theorem firmware_keymap_writes_outside_keycode (a : atkbd) :
    SCANCODE 0x02270002 = 551 ∧ KEYCODE 0x02270002 = 2 ∧ ATKBD_KEYMAP_SIZE = 512 ∧
    atkbd_get_keymap_loop [0x02270002] (fun _ => 0) = none ∧
    atkbd_get_keymap_from_fwnode (some [0x02270002]) = none ∧
    atkbd_set_keycode_table (some [0x02270002]) none a = none ∧
    (atkbd_set_keycode_table (some [0x00f2001e]) none a).isSome = true :=
  ⟨by decide, by decide, rfl, rfl, rfl, rfl, rfl⟩

/-- The composed scancodes of the Hangeul and Hanja bytes are not below 0x80. -/
theorem atkbd_compat_scancode_hangeul_hanja_high (a : atkbd) :
    0x80 ≤ atkbd_compat_scancode a ATKBD_RET_HANGEUL ∧
    0x80 ≤ atkbd_compat_scancode a ATKBD_RET_HANJA := by
  unfold atkbd_compat_scancode
  split_ifs <;> decide

set_option maxRecDepth 100000 in
/-- Below 0x80 the loop of lines 1572-1580 gives the same table with the scroll
feature on or off, that of the idle translated decoder. -/
theorem atkbd_translated_loop_low :
    ∀ c, c < 0x80 →
      atkbd_translated_loop true 128 0 (fun _ => 0) c = atkbd_idle_translated.keycode c ∧
      atkbd_translated_loop false 128 0 (fun _ => 0) c = atkbd_idle_translated.keycode c := by
  decide

/-- The default table of translated mode below 0x80: whatever the code set, the
scroll feature and the emulation depth, `atkbd_set_keycode_table` without firmware
keymap gives the entries of the idle translated decoder, and no scancode below 0x80
is in `force_release_mask`. -/
theorem default_translated_table_low (a : atkbd) (ht : a.translated = true) (c : Nat)
    (hc : c < 0x80) :
    (atkbd_set_keycode_table_rest none none a).keycode c = atkbd_idle_translated.keycode c ∧
    (atkbd_set_keycode_table_rest none none a).force_release_mask c = false := by
  obtain ⟨h1, h2⟩ := atkbd_compat_scancode_hangeul_hanja_high a
  have n1 : c ≠ atkbd_compat_scancode a ATKBD_RET_HANGEUL := by omega
  have n2 : c ≠ atkbd_compat_scancode a ATKBD_RET_HANJA := by omega
  constructor
  · show Function.update (Function.update _ (atkbd_compat_scancode a ATKBD_RET_HANGEUL) _)
      (atkbd_compat_scancode a ATKBD_RET_HANJA) _ c = _
    rw [Function.update_noteq n2, Function.update_noteq n1]
    show (if a.translated = true then atkbd_translated_loop a.scroll 128 0 (fun _ => 0)
        else _) c = _
    simp only [ht, if_true]
    cases a.scroll
    · exact (atkbd_translated_loop_low c hc).2
    · exact (atkbd_translated_loop_low c hc).1
  · show Function.update (Function.update _ (atkbd_compat_scancode a ATKBD_RET_HANGEUL) _)
      (atkbd_compat_scancode a ATKBD_RET_HANJA) _ c = _
    rw [Function.update_noteq n2, Function.update_noteq n1]

/-- The press byte of a scancode below 0x80 whose low seven bits are those of the
`i`-th element of `xl_table` sets bit `i` of `xl_bit`. -/
theorem atkbd_calculate_xl_bit_loop_arm (c xl_bit i : Nat) (hi : i < 6)
    (hm : c = xl_table.getD i 0 &&& 0x7f) :
    test_bit i (atkbd_calculate_xl_bit_loop (c % 256) xl_bit xl_table 0) = true := by
  interval_cases i <;> subst hm <;> exact test_bit_set_bit _ _

/-- C28: the decoder proper in translated mode with the default table below 0x80 and
no force-release scancode there, from emulation depth 0 with any `xl_bit` and any
`release`, for every scancode `c` below 0x80 whose table entry is an ordinary key that
is up: the byte `c` makes exactly the key event (key, 1), the byte `c|0x80` after
it exactly (key, 0), and `release` is false and `emul` 0 after each.  This holds
also when `c|0x80` is an element of `xl_table`, because the press sets the matching
bit of `xl_bit`, so that `atkbd_need_xlate` accepts the release byte. -/
theorem translated_make_break_decode (p1 p2 : platform) (hp1 : fixup_known p1)
    (hp2 : fixup_known p2) (a : atkbd) (ht : a.translated = true)
    (hkc : ∀ c, c < 0x80 → a.keycode c = atkbd_idle_translated.keycode c)
    (hmask : ∀ c, c < 0x80 → a.force_release_mask c = false) (he : a.emul = 0)
    (c : Nat) (hc : c < 0x80) (hk : ordinary_key (a.keycode c))
    (hup : a.dev_key (a.keycode c) = false) :
    key_events (atkbd_decode p1 a c).2 = [(a.keycode c, 1)] ∧
    (atkbd_decode p1 a c).1.release = false ∧ (atkbd_decode p1 a c).1.emul = 0 ∧
    key_events (atkbd_decode p2 (atkbd_decode p1 a c).1 (c ||| 0x80)).2 = [(a.keycode c, 0)] ∧
    (atkbd_decode p2 (atkbd_decode p1 a c).1 (c ||| 0x80)).1.release = false ∧
    (atkbd_decode p2 (atkbd_decode p1 a c).1 (c ||| 0x80)).1.emul = 0 ∧
    atkbd_need_xlate (atkbd_decode p1 a c).1.xl_bit (c ||| 0x80) = true ∧
    (∀ i, i < 6 → c = xl_table.getD i 0 &&& 0x7f →
      c ||| 0x80 = xl_table.getD i 0 ∧ test_bit i (atkbd_decode p1 a c).1.xl_bit = true) := by
  have hf := make_break_facts c hc
  have hd := default_translated_table_facts c hc (by rw [← hkc c hc]; exact hk)
  have hm := hmask c hc
  have hmake := atkbd_decode_translated_make p1 hp1 a c ht he hc hm hk (Or.inr hup)
  have hx := atkbd_need_xlate_after_press a.xl_bit c hc hd.2.1 hd.2.2.1
  have hbreak := atkbd_decode_translated_break p2 hp2
    { a with release := false,
             xl_bit := atkbd_calculate_xl_bit_loop (c % 256) a.xl_bit xl_table 0,
             last := c, time := (p1.jiffies + p1.rep_delay_jiffies / 2) % 2 ^ 64,
             dev_key := Function.update a.dev_key (a.keycode c) true }
    c ht he hc hx hm hk
  have hA1 : (atkbd_decode p1 a c).1 =
      { a with release := false,
               xl_bit := atkbd_calculate_xl_bit_loop (c % 256) a.xl_bit xl_table 0,
               last := c, time := (p1.jiffies + p1.rep_delay_jiffies / 2) % 2 ^ 64,
               dev_key := Function.update a.dev_key (a.keycode c) true } := by
    rw [hmake]
  rw [hf.1, hA1, hbreak, hmake]
  refine ⟨?_, rfl, he, ?_, rfl, he, hx, ?_⟩
  · cases hs : a.scroll <;> simp [key_events]
  · cases hs : a.scroll <;> simp [key_events]
  · intro i hi hci
    refine ⟨?_, atkbd_calculate_xl_bit_loop_arm c a.xl_bit i hi hci⟩
    rw [← hf.1]
    interval_cases i <;> subst hci <;> rfl

set_option maxRecDepth 100000 in
/-- C28 at the scancode 0x2a (left shift, keycode 42), whose release byte 0xaa is
the self-test code, on the default table of a translated decoder with the scroll
feature on: a press and a release of the key 42, and bit 0 of `xl_bit` set by the
press. -/
theorem translated_make_break_decode_witness :
    ∃ t, atkbd_set_keycode_table none none { atkbd_idle_translated with scroll := true } =
        some t ∧
      key_events (atkbd_decode platform_x86 t 0x2a).2 = [(42, 1)] ∧
      key_events (atkbd_decode platform_x86
        (atkbd_decode platform_x86 t 0x2a).1 (0x2a ||| 0x80)).2 = [(42, 0)] ∧
      test_bit 0 (atkbd_decode platform_x86 t 0x2a).1.xl_bit = true := by
  refine ⟨_, rfl, ?_⟩
  have h := translated_make_break_decode platform_x86 platform_x86 (Or.inl rfl) (Or.inl rfl)
    (atkbd_set_keycode_table_rest none none { atkbd_idle_translated with scroll := true }) rfl
    (fun c hc => (default_translated_table_low _ rfl c hc).1)
    (fun c hc => (default_translated_table_low _ rfl c hc).2) rfl 0x2a (by decide)
    (by decide) (by decide)
  have hk : (atkbd_set_keycode_table_rest none none
      { atkbd_idle_translated with scroll := true }).keycode 0x2a = 42 := by decide
  rw [hk] at h
  exact ⟨h.1, h.2.2.2.1, (h.2.2.2.2.2.2.2 0 (by decide) (by decide)).2⟩

/-- Lines 980-1053 on a composed scancode of an ordinary key: the key events are those
of the `default` case of the keycode `switch`, and the state is the one it leaves,
with `release` false. -/
theorem atkbd_report_ordinary (p : platform) (a : atkbd) (code : Nat)
    (hk : ordinary_key (a.keycode code)) :
    key_events (atkbd_report p a code).2 =
      key_events (atkbd_report_key p a code (a.keycode code)).2 ∧
    (atkbd_report p a code).1 =
      { (atkbd_report_key p a code (a.keycode code)).1 with release := false } := by
  unfold atkbd_report
  simp only [atkbd_report_switch_ordinary p a code _ hk, ne_eq, not_true_eq_false, if_false,
    List.append_nil]
  split_ifs <;> simp [key_events_append, key_events]

/-- The `default` case of the keycode `switch` on an ordinary key that is down,
software repeat off, no release pending: the value of the key event is 1 when
`jiffies` is before `atkbd->time` and `atkbd->last` is this scancode, and 2 otherwise;
only the key bitmap of the input device may change. -/
theorem atkbd_report_key_down (p : platform) (a : atkbd) (code keycode : Nat)
    (hr : a.release = false) (hs : a.softrepeat = false) (hdown : a.dev_key keycode = true) :
    key_events (atkbd_report_key p a code keycode).2 =
      (keycode, if time_before p.jiffies a.time = true ∧ a.last = code then 1 else 2) ::
        (if a.force_release_mask code = true then [(keycode, 0)] else []) ∧
    (atkbd_report_key p a code keycode).1 =
      { a with dev_key := (atkbd_report_key p a code keycode).1.dev_key } := by
  have h1 : ¬ (a.release = true) := by rw [hr]; decide
  have h2 : a.softrepeat = false ∧ a.dev_key keycode = true := ⟨hs, hdown⟩
  unfold atkbd_report_key
  simp only [if_neg h1, if_pos h2]
  by_cases hw : time_before p.jiffies a.time = true ∧ a.last = code
  · rw [if_pos hw]
    by_cases hm : a.force_release_mask code = true
    · rw [if_pos ⟨by decide, hm⟩, if_pos hm]
      exact ⟨rfl, rfl⟩
    · rw [if_neg (fun h => hm h.2), if_neg hm]
      exact ⟨rfl, rfl⟩
  · rw [if_neg hw]
    by_cases hm : a.force_release_mask code = true
    · rw [if_pos ⟨by decide, hm⟩, if_pos hm]
      exact ⟨rfl, rfl⟩
    · rw [if_neg (fun h => hm h.2), if_neg hm]
      exact ⟨rfl, rfl⟩

/-- Lines 980-1053 on the make code of an ordinary key that is down, software repeat
off, no release pending. -/
theorem atkbd_report_down (p : platform) (a : atkbd) (code : Nat)
    (hr : a.release = false) (hs : a.softrepeat = false) (hk : ordinary_key (a.keycode code))
    (hdown : a.dev_key (a.keycode code) = true) :
    key_events (atkbd_report p a code).2 =
      (a.keycode code, if time_before p.jiffies a.time = true ∧ a.last = code then 1 else 2) ::
        (if a.force_release_mask code = true then [(a.keycode code, 0)] else []) ∧
    (atkbd_report p a code).1.last = a.last ∧ (atkbd_report p a code).1.time = a.time := by
  obtain ⟨h1, h2⟩ := atkbd_report_ordinary p a code hk
  obtain ⟨h3, h4⟩ := atkbd_report_key_down p a code (a.keycode code) hr hs hdown
  rw [h1, h3, h2, h4]
  exact ⟨rfl, rfl, rfl⟩

set_option maxRecDepth 100000 in
/-- C23, counterexample: the idle translated decoder, software repeat off, gets the
make code 0x1e (key 30) at `jiffies` 1000 with a repeat delay of 250, which opens the
window up to 1125; the same make code at `jiffies` 1100, inside the window, while the
key is down, is reported with the value 1, not 2; at `jiffies` 1200, after the
window, it is reported with the value 2. -/
theorem repeated_make_in_window_is_press :
    (atkbd_decode platform_x86 atkbd_idle_translated 0x1e).1.softrepeat = false ∧
    (atkbd_decode platform_x86 atkbd_idle_translated 0x1e).1.dev_key 30 = true ∧
    (atkbd_decode platform_x86 atkbd_idle_translated 0x1e).1.last = 0x1e ∧
    (atkbd_decode platform_x86 atkbd_idle_translated 0x1e).1.time = 1125 ∧
    time_before 1100 1125 = true ∧ time_before 1200 1125 = false ∧
    key_events (atkbd_decode platform_x86 atkbd_idle_translated 0x1e).2 = [(30, 1)] ∧
    key_events (atkbd_decode { platform_x86 with jiffies := 1100 }
      (atkbd_decode platform_x86 atkbd_idle_translated 0x1e).1 0x1e).2 = [(30, 1)] ∧
    key_events (atkbd_decode { platform_x86 with jiffies := 1200 }
      (atkbd_decode platform_x86 atkbd_idle_translated 0x1e).1 0x1e).2 = [(30, 2)] := by
  decide

/-- C23, amended: with software repeat off, a make code for an ordinary key that is
down, no release pending, is reported with the value 1 (a press, which the input core
drops for a key that is down) when it comes before the end of the window (`jiffies`
before `atkbd->time`, the time of the last new press plus half the repeat delay) and
its composed scancode is that of the last new press (`atkbd->last`); it is reported
with the value 2 (repeat) otherwise, that is after the window or for another
scancode.  In translated mode at emulation depth 0: the make code of a key that is up
is a new press that opens the window, and the same make code after it has the value 1
inside the window and 2 after it. -/
theorem repeated_make_value (p1 p2 : platform) (hp1 : fixup_known p1) (hp2 : fixup_known p2)
    (a : atkbd) (ht : a.translated = true) (he : a.emul = 0) (hs : a.softrepeat = false)
    (c : Nat) (hc : c < 0x80) (hm : a.force_release_mask c = false)
    (hk : ordinary_key (a.keycode c)) (hup : a.dev_key (a.keycode c) = false) :
    (∀ (p : platform) (s : atkbd) (code : Nat), s.release = false → s.softrepeat = false →
      ordinary_key (s.keycode code) → s.dev_key (s.keycode code) = true →
      key_events (atkbd_report p s code).2 =
        (s.keycode code,
          if time_before p.jiffies s.time = true ∧ s.last = code then 1 else 2) ::
          (if s.force_release_mask code = true then [(s.keycode code, 0)] else []) ∧
      (atkbd_report p s code).1.last = s.last ∧ (atkbd_report p s code).1.time = s.time) ∧
    key_events (atkbd_decode p1 a c).2 = [(a.keycode c, 1)] ∧
    (atkbd_decode p1 a c).1.last = c ∧
    (atkbd_decode p1 a c).1.time = (p1.jiffies + p1.rep_delay_jiffies / 2) % 2 ^ 64 ∧
    key_events (atkbd_decode p2 (atkbd_decode p1 a c).1 c).2 =
      [(a.keycode c,
        if time_before p2.jiffies ((p1.jiffies + p1.rep_delay_jiffies / 2) % 2 ^ 64) = true
        then 1 else 2)] := by
  have hf := make_break_facts c hc
  have hmake := atkbd_decode_translated_make p1 hp1 a c ht he hc hm hk (Or.inr hup)
  have hA1 : (atkbd_decode p1 a c).1 =
      { a with release := false,
               xl_bit := atkbd_calculate_xl_bit_loop (c % 256) a.xl_bit xl_table 0,
               last := c, time := (p1.jiffies + p1.rep_delay_jiffies / 2) % 2 ^ 64,
               dev_key := Function.update a.dev_key (a.keycode c) true } := by
    rw [hmake]
  have hx : ∀ xl, atkbd_need_xlate xl c = true :=
    fun xl => atkbd_need_xlate_other xl c (by omega) (by omega)
  have hsc := atkbd_scancode_translated p2 hp2
    { a with release := false,
             xl_bit := atkbd_calculate_xl_bit_loop (c % 256) a.xl_bit xl_table 0,
             last := c, time := (p1.jiffies + p1.rep_delay_jiffies / 2) % 2 ^ 64,
             dev_key := Function.update a.dev_key (a.keycode c) true }
    c ht he (hx _)
  rw [hf.2.2.2.1, hf.2.2.2.2] at hsc
  refine ⟨fun p s code h1 h2 h3 h4 => atkbd_report_down p s code h1 h2 h3 h4, ?_, ?_, ?_, ?_⟩
  · rw [hmake]
    cases hsr : a.scroll <;> simp [key_events]
  · rw [hA1]
  · rw [hA1]
  · rw [hA1, atkbd_decode_eq, hsc]
    simp only [key_events_append]
    have hd := (atkbd_report_down p2
      (atkbd_calculate_xl_bit
        { a with release := false,
                 xl_bit := atkbd_calculate_xl_bit_loop (c % 256) a.xl_bit xl_table 0,
                 last := c, time := (p1.jiffies + p1.rep_delay_jiffies / 2) % 2 ^ 64,
                 dev_key := Function.update a.dev_key (a.keycode c) true } c)
      c rfl hs hk (Function.update_same _ _ _)).1
    rw [hd]
    have hm2 : ¬ ((atkbd_calculate_xl_bit
        { a with release := false,
                 xl_bit := atkbd_calculate_xl_bit_loop (c % 256) a.xl_bit xl_table 0,
                 last := c, time := (p1.jiffies + p1.rep_delay_jiffies / 2) % 2 ^ 64,
                 dev_key := Function.update a.dev_key (a.keycode c) true }
        c).force_release_mask c = true) := by
      show ¬ (a.force_release_mask c = true)
      rw [hm]; decide
    rw [if_neg hm2]
    show key_events [effect.input_event_msc_raw c] ++
      [(a.keycode c,
        if time_before p2.jiffies ((p1.jiffies + p1.rep_delay_jiffies / 2) % 2 ^ 64) = true ∧
          c = c then 1 else 2)] = _
    simp [key_events]

set_option maxRecDepth 100000 in
/-- C23 amended, instance: the make code 0x1e on the idle translated decoder at
`jiffies` 1000, then again at 1100 (value 1) or at 1200 (value 2). -/
theorem repeated_make_value_witness :
    key_events (atkbd_decode { platform_x86 with jiffies := 1100 }
      (atkbd_decode platform_x86 atkbd_idle_translated 0x1e).1 0x1e).2 =
      [(atkbd_idle_translated.keycode 0x1e,
        if time_before 1100 ((1000 + 250 / 2) % 2 ^ 64) = true then 1 else 2)] ∧
    key_events (atkbd_decode { platform_x86 with jiffies := 1200 }
      (atkbd_decode platform_x86 atkbd_idle_translated 0x1e).1 0x1e).2 =
      [(atkbd_idle_translated.keycode 0x1e,
        if time_before 1200 ((1000 + 250 / 2) % 2 ^ 64) = true then 1 else 2)] :=
  ⟨(repeated_make_value platform_x86 { platform_x86 with jiffies := 1100 } (Or.inl rfl)
      (Or.inl rfl) atkbd_idle_translated rfl rfl rfl 0x1e (by decide) (by decide) (by decide)
      (by decide)).2.2.2.2,
   (repeated_make_value platform_x86 { platform_x86 with jiffies := 1200 } (Or.inl rfl)
      (Or.inl rfl) atkbd_idle_translated rfl rfl rfl 0x1e (by decide) (by decide) (by decide)
      (by decide)).2.2.2.2⟩

/-! ## Lemmas on the tables, the overlay invariants, the replay and the repeat rate -/

set_option maxRecDepth 100000 in
/-- C39: `atkbd_unxlate_table` is a permutation of 0..127: it has 128 elements, every
one below 128 (so that `atkbd_unxlate_table[i] | 0x80` is below 256, inside
`atkbd_set2_keycode[512]`), no two equal, and every value below 128 occurs. -/
theorem unxlate_table_permutation :
    atkbd_unxlate_table.length = 128 ∧
    (∀ x ∈ atkbd_unxlate_table, x < 128 ∧ x ||| 0x80 < 256 ∧ x ||| 0x80 < ATKBD_KEYMAP_SIZE) ∧
    atkbd_unxlate_table.Nodup ∧
    (∀ v, v < 128 → v ∈ atkbd_unxlate_table) ∧
    (∀ i, i < 128 → ∀ j, j < 128 →
      atkbd_unxlate_table.getD i 0 = atkbd_unxlate_table.getD j 0 → i = j) := by
  refine ⟨by decide, by decide, by decide, by decide, ?_⟩
  have hnd : atkbd_unxlate_table.Nodup := by decide
  have hlen : atkbd_unxlate_table.length = 128 := by decide
  intro i hi j hj h
  rw [List.getD_eq_getElem _ _ (by rw [hlen]; exact hi),
    List.getD_eq_getElem _ _ (by rw [hlen]; exact hj)] at h
  exact (List.Nodup.getElem_inj_iff hnd).mp h

set_option maxRecDepth 100000 in
/-- C39 at the translated codes 0x1e and 0x30, whose native codes are 28 and 50. -/
theorem unxlate_table_permutation_witness :
    atkbd_unxlate_table.getD 0x1e 0 = 28 ∧ atkbd_unxlate_table.getD 0x30 0 = 50 ∧
    (28 : Nat) ∈ atkbd_unxlate_table ∧
    (atkbd_unxlate_table.getD 0x1e 0 = atkbd_unxlate_table.getD 0x30 0 → (0x1e : Nat) = 0x30) :=
  ⟨by decide, by decide, unxlate_table_permutation.2.2.2.1 28 (by decide),
   unxlate_table_permutation.2.2.2.2 0x1e (by decide) 0x30 (by decide)⟩

/-- C34, counterexample: in translated mode at emulation depth 1 (after 0xe0) the
OQO fixup turns the code 0x64 into 0xe4 and writes the decoder state: the emulation
depth becomes 0. -/
theorem oqo_fixup_resets_emul :
    ({ atkbd_idle_translated with emul := 1 } : atkbd).emul = 1 ∧
    (atkbd_oqo_01plus_scancode_fixup { atkbd_idle_translated with emul := 1 } 0x64).2 = 0xe4 ∧
    (atkbd_oqo_01plus_scancode_fixup { atkbd_idle_translated with emul := 1 } 0x64).1.emul = 0 ∧
    (atkbd_fixup { platform_x86 with
        atkbd_platform_scancode_fixup := some atkbd_oqo_01plus_scancode_fixup }
      { atkbd_idle_translated with emul := 1 } 0x64).1.emul = 0 := by
  decide

/-- C34, amended: `atkbd_oqo_01plus_scancode_fixup` returns the code and leaves the
decoder state as they are, except in translated mode at emulation depth 1 for the
codes 0x64, 0x65, 0x66: there it returns `code | 0x80` and sets `emul` to 0, leaving
every other field. -/
theorem oqo_fixup_effect (a : atkbd) (code : Nat) :
    (a.translated = true ∧ a.emul = 1 ∧ (code = 0x64 ∨ code = 0x65 ∨ code = 0x66) →
      atkbd_oqo_01plus_scancode_fixup a code = ({ a with emul := 0 }, code ||| 0x80)) ∧
    (¬ (a.translated = true ∧ a.emul = 1 ∧ (code = 0x64 ∨ code = 0x65 ∨ code = 0x66)) →
      atkbd_oqo_01plus_scancode_fixup a code = (a, code)) ∧
    (atkbd_oqo_01plus_scancode_fixup a code).1 =
      { a with emul := (atkbd_oqo_01plus_scancode_fixup a code).1.emul } ∧
    (∀ p : platform, p.atkbd_platform_scancode_fixup = none → atkbd_fixup p a code = (a, code)) := by
  refine ⟨?_, ?_, ?_, ?_⟩
  · intro h
    unfold atkbd_oqo_01plus_scancode_fixup
    rw [if_pos h]
  · intro h
    unfold atkbd_oqo_01plus_scancode_fixup
    rw [if_neg h]
  · unfold atkbd_oqo_01plus_scancode_fixup
    split_ifs <;> rfl
  · intro p hp
    unfold atkbd_fixup
    rw [hp]

/-- C34 amended, instances: the code 0x64 at depth 1 and at depth 0 in translated
mode. -/
theorem oqo_fixup_effect_witness :
    atkbd_oqo_01plus_scancode_fixup { atkbd_idle_translated with emul := 1 } 0x64 =
      ({ ({ atkbd_idle_translated with emul := 1 } : atkbd) with emul := 0 }, 0x64 ||| 0x80) ∧
    atkbd_oqo_01plus_scancode_fixup atkbd_idle_translated 0x64 = (atkbd_idle_translated, 0x64) :=
  ⟨(oqo_fixup_effect { atkbd_idle_translated with emul := 1 } 0x64).1
      ⟨rfl, rfl, Or.inl rfl⟩,
   (oqo_fixup_effect atkbd_idle_translated 0x64).2.1 (fun h => absurd h.2.1 (by decide))⟩

/-- C38: the overlay reads nothing of the decoder state.  For two calls of
`atkbd_interrupt` with the same byte, the same overlay state and the same enable
flag, on any two decoder states and platforms, both reaching the overlay stage
(lines 892-917 passed, no marker in the flags): the verdict, the replayed calls and
the new overlay state are those of `wataash_do_atkbd_emacs` on the enable flag, the
overlay state and the byte, the same for both; each decoder state then gets the same
replayed calls, followed by the byte itself exactly when the verdict is bypass. -/
theorem overlay_ignores_decoder_state (p p' : platform) (ov : overlay) (a a' : atkbd)
    (data flags flags' : Nat) (hen : p'.wataash_atkbd_emacs = p.wataash_atkbd_emacs)
    (hflag : flags &&& SERIO_WATAASH_DOING_ACTION = 0)
    (hflag' : flags' &&& SERIO_WATAASH_DOING_ACTION = 0)
    (hhead : (atkbd_interrupt_head p a data flags).2.2 = true)
    (hhead' : (atkbd_interrupt_head p' a' data flags').2.2 = true) :
    (wataash_do_atkbd_emacs p.wataash_atkbd_emacs ov data = none →
      atkbd_interrupt p ov a data flags = none ∧ atkbd_interrupt p' ov a' data flags' = none) ∧
    (∀ ret ov1 calls,
      wataash_do_atkbd_emacs p.wataash_atkbd_emacs ov data = some (ret, ov1, calls) →
      atkbd_interrupt p ov a data flags =
        some (ov1,
          if ret = wataash_do_atkbd_emacs_consumed then
            ((atkbd_replay p (atkbd_interrupt_head p a data flags).1 calls).1,
             (atkbd_interrupt_head p a data flags).2.1 ++
               (atkbd_replay p (atkbd_interrupt_head p a data flags).1 calls).2)
          else
            ((atkbd_decode p (atkbd_replay p (atkbd_interrupt_head p a data flags).1 calls).1
                data).1,
             (atkbd_interrupt_head p a data flags).2.1 ++
               (atkbd_replay p (atkbd_interrupt_head p a data flags).1 calls).2 ++
               (atkbd_decode p (atkbd_replay p (atkbd_interrupt_head p a data flags).1 calls).1
                 data).2)) ∧
      atkbd_interrupt p' ov a' data flags' =
        some (ov1,
          if ret = wataash_do_atkbd_emacs_consumed then
            ((atkbd_replay p' (atkbd_interrupt_head p' a' data flags').1 calls).1,
             (atkbd_interrupt_head p' a' data flags').2.1 ++
               (atkbd_replay p' (atkbd_interrupt_head p' a' data flags').1 calls).2)
          else
            ((atkbd_decode p' (atkbd_replay p' (atkbd_interrupt_head p' a' data flags').1
                calls).1 data).1,
             (atkbd_interrupt_head p' a' data flags').2.1 ++
               (atkbd_replay p' (atkbd_interrupt_head p' a' data flags').1 calls).2 ++
               (atkbd_decode p' (atkbd_replay p' (atkbd_interrupt_head p' a' data flags').1
                 calls).1 data).2)) ∧
      (atkbd_interrupt p ov a data flags).map Prod.fst =
        (atkbd_interrupt p' ov a' data flags').map Prod.fst) := by
  have hnone : ∀ (q : platform) (b : atkbd) (fl : Nat),
      fl &&& SERIO_WATAASH_DOING_ACTION = 0 → (atkbd_interrupt_head q b data fl).2.2 = true →
      wataash_do_atkbd_emacs q.wataash_atkbd_emacs ov data = none →
      atkbd_interrupt q ov b data fl = none := by
    intro q b fl hf hh ho
    unfold atkbd_interrupt
    rcases hq : atkbd_interrupt_head q b data fl with ⟨a1, out1, ok⟩
    rw [hq] at hh
    cases ok
    · exact Bool.noConfusion hh
    · simp only [hf, if_true, ho]
  constructor
  · intro ho
    exact ⟨hnone p a flags hflag hhead ho, hnone p' a' flags' hflag' hhead' (by rw [hen]; exact ho)⟩
  · intro ret ov1 calls ho
    have h1 := atkbd_interrupt_eq p ov a data flags hflag hhead ret ov1 calls ho
    have h2 := atkbd_interrupt_eq p' ov a' data flags' hflag' hhead' ret ov1 calls
      (by rw [hen]; exact ho)
    refine ⟨h1, h2, ?_⟩
    rw [h1, h2]
    rfl

/-- C38 on the byte 0x1e with CapsLock held: an idle decoder and a decoder in raw
mode at emulation depth 2 with a release pending leave the same overlay state. -/
theorem overlay_ignores_decoder_state_witness :
    (atkbd_interrupt platform_x86 overlay_caps_a_pressing atkbd_idle_translated 0x1e 0).map
        Prod.fst =
      (atkbd_interrupt platform_x86 overlay_caps_a_pressing
        { atkbd_idle_translated with translated := false, emul := 2, release := true }
        0x1e 0).map Prod.fst := by
  obtain ⟨ret, ov1, calls, h, _⟩ :=
    overlay_wf_step platform_x86.wataash_atkbd_emacs overlay_caps_a_pressing
      overlay_wf_caps_a_pressing 0x1e (by decide)
  exact ((overlay_ignores_decoder_state platform_x86 platform_x86 overlay_caps_a_pressing
    atkbd_idle_translated
    { atkbd_idle_translated with translated := false, emul := 2, release := true }
    0x1e 0 0 rfl rfl rfl rfl rfl).2 ret ov1 calls h).2.2

/-- The loop started at index `i` ends `i` further than the loop started at 0. -/
theorem atkbd_repeat_index_shift (rep : Int) :
    ∀ (l : List Int) (i : Nat),
      atkbd_repeat_index rep l i = i + atkbd_repeat_index rep l 0 := by
  intro l
  induction l with
  | nil => intro i; simp [atkbd_repeat_index]
  | cons x t ih =>
    intro i
    cases t with
    | nil => simp [atkbd_repeat_index]
    | cons y rest =>
      simp only [atkbd_repeat_index]
      split_ifs
      · rw [ih (i + 1), ih (0 + 1)]
        omega
      · rfl

/-- The loop on an ascending array: the index stays inside the array, the element
there is the least one that is not below `rep` when there is one and the last one
otherwise, and the loop on that element ends at the same index. -/
theorem atkbd_repeat_index_spec (rep : Int) :
    ∀ (l : List Int), l ≠ [] → l.Pairwise (fun x y => x < y) →
      atkbd_repeat_index rep l 0 < l.length ∧
      l.getD (atkbd_repeat_index rep l 0) 0 ∈ l ∧
      (∀ x ∈ l, rep ≤ x → l.getD (atkbd_repeat_index rep l 0) 0 ≤ x) ∧
      (l.getD (atkbd_repeat_index rep l 0) 0 < rep →
        (∀ x ∈ l, x < rep) ∧
        l.getD (atkbd_repeat_index rep l 0) 0 = l.getD (l.length - 1) 0) ∧
      atkbd_repeat_index (l.getD (atkbd_repeat_index rep l 0) 0) l 0 =
        atkbd_repeat_index rep l 0 := by
  intro l
  induction l with
  | nil => intro h; exact absurd rfl h
  | cons x t ih =>
    intro _ hs
    cases t with
    | nil =>
      simp only [atkbd_repeat_index, List.getD_cons_zero, List.length_singleton,
        List.mem_singleton]
      refine ⟨by norm_num, trivial, ?_, ?_, trivial⟩
      · intro y hy _
        rw [hy]
      · intro h
        exact ⟨fun y hy => by rw [hy]; exact h, rfl⟩
    | cons y rest =>
      have hs' := List.Pairwise.of_cons hs
      have hx : ∀ z ∈ y :: rest, x < z := (List.pairwise_cons.mp hs).1
      obtain ⟨h1, h2, h3, h4, h5⟩ := ih (by simp) hs'
      simp only [atkbd_repeat_index]
      by_cases hlt : x < rep
      · rw [if_pos hlt, atkbd_repeat_index_shift rep (y :: rest) (0 + 1)]
        have e : 0 + 1 + atkbd_repeat_index rep (y :: rest) 0 =
            atkbd_repeat_index rep (y :: rest) 0 + 1 := by omega
        rw [e, List.getD_cons_succ]
        refine ⟨?_, ?_, ?_, ?_, ?_⟩
        · simp only [List.length_cons] at h1 ⊢
          omega
        · exact List.mem_cons_of_mem _ h2
        · intro z hz hrz
          rcases List.mem_cons.mp hz with e1 | e1
          · rw [e1] at hrz
            omega
          · exact h3 z e1 hrz
        · intro hv
          obtain ⟨h41, h42⟩ := h4 hv
          refine ⟨?_, ?_⟩
          · intro z hz
            rcases List.mem_cons.mp hz with e1 | e1
            · rw [e1]; exact hlt
            · exact h41 z e1
          · rw [h42]
            simp only [List.length_cons, Nat.add_sub_cancel]
            rw [List.getD_cons_succ]
        · have hxv := hx _ h2
          rw [if_pos hxv, atkbd_repeat_index_shift _ (y :: rest) (0 + 1), h5]
          exact e
      · rw [if_neg hlt]
        simp only [List.getD_cons_zero, List.length_cons]
        refine ⟨by omega, List.mem_cons_self _ _, ?_, ?_, ?_⟩
        · intro z hz _
          rcases List.mem_cons.mp hz with e1 | e1
          · rw [e1]
          · exact le_of_lt (hx z e1)
        · intro h
          exact absurd h hlt
        · rw [if_neg (lt_irrefl x)]

/-- The two arrays of `atkbd_set_repeat_rate` are ascending. -/
theorem atkbd_repeat_tables_ascending :
    atkbd_repeat_period.Pairwise (fun x y => x < y) ∧
    atkbd_repeat_delay.Pairwise (fun x y => x < y) := by
  constructor <;> decide

/-- C40: `atkbd_set_repeat_rate` rounds up to the supported values.  For every
requested period and delay: the stored period is an element of the 32-element array,
the least one that is not below the request, or 500 (the last one) when the request
is above them all; the stored delay is in the same way the least of 250, 500, 750,
1000 not below the request, or 1000; the parameter is the period index or-ed with the
delay index shifted by 5, the indices are below 32 and 4, the parameter is below 128;
and a second call on the stored values gives the same period, delay and parameter. -/
theorem set_repeat_rate_rounds_up (rep_period rep_delay : Int) :
    (atkbd_set_repeat_rate rep_period rep_delay).1 ∈ atkbd_repeat_period ∧
    (∀ x ∈ atkbd_repeat_period, rep_period ≤ x →
      rep_period ≤ (atkbd_set_repeat_rate rep_period rep_delay).1 ∧
      (atkbd_set_repeat_rate rep_period rep_delay).1 ≤ x) ∧
    ((∀ x ∈ atkbd_repeat_period, x < rep_period) →
      (atkbd_set_repeat_rate rep_period rep_delay).1 = 500) ∧
    (atkbd_set_repeat_rate rep_period rep_delay).2.1 ∈ atkbd_repeat_delay ∧
    (∀ x ∈ atkbd_repeat_delay, rep_delay ≤ x →
      rep_delay ≤ (atkbd_set_repeat_rate rep_period rep_delay).2.1 ∧
      (atkbd_set_repeat_rate rep_period rep_delay).2.1 ≤ x) ∧
    ((∀ x ∈ atkbd_repeat_delay, x < rep_delay) →
      (atkbd_set_repeat_rate rep_period rep_delay).2.1 = 1000) ∧
    atkbd_repeat_index rep_period atkbd_repeat_period 0 < 32 ∧
    atkbd_repeat_index rep_delay atkbd_repeat_delay 0 < 4 ∧
    (atkbd_set_repeat_rate rep_period rep_delay).2.2 =
      atkbd_repeat_index rep_period atkbd_repeat_period 0 |||
        (atkbd_repeat_index rep_delay atkbd_repeat_delay 0 <<< 5) ∧
    (atkbd_set_repeat_rate rep_period rep_delay).2.2 < 128 ∧
    atkbd_set_repeat_rate (atkbd_set_repeat_rate rep_period rep_delay).1
        (atkbd_set_repeat_rate rep_period rep_delay).2.1 =
      atkbd_set_repeat_rate rep_period rep_delay := by
  obtain ⟨hsp, hsd⟩ := atkbd_repeat_tables_ascending
  obtain ⟨p1, p2, p3, p4, p5⟩ :=
    atkbd_repeat_index_spec rep_period atkbd_repeat_period (by decide) hsp
  obtain ⟨d1, d2, d3, d4, d5⟩ :=
    atkbd_repeat_index_spec rep_delay atkbd_repeat_delay (by decide) hsd
  have hp32 : atkbd_repeat_index rep_period atkbd_repeat_period 0 < 32 := p1
  have hd4 : atkbd_repeat_index rep_delay atkbd_repeat_delay 0 < 4 := d1
  have hlt : atkbd_repeat_index rep_period atkbd_repeat_period 0 |||
      (atkbd_repeat_index rep_delay atkbd_repeat_delay 0 <<< 5) < 2 ^ 7 := by
    apply Nat.or_lt_two_pow
    · omega
    · rw [Nat.shiftLeft_eq]
      omega
  have hpar : (atkbd_set_repeat_rate rep_period rep_delay).2.2 =
      atkbd_repeat_index rep_period atkbd_repeat_period 0 |||
        (atkbd_repeat_index rep_delay atkbd_repeat_delay 0 <<< 5) := by
    show (_ ||| _) % 256 = _
    exact Nat.mod_eq_of_lt (by omega)
  refine ⟨p2, ?_, ?_, d2, ?_, ?_, hp32, hd4, hpar, by rw [hpar]; exact hlt, ?_⟩
  · intro x hx hle
    refine ⟨?_, p3 x hx hle⟩
    by_contra hc
    exact absurd ((p4 (not_le.mp hc)).1 x hx) (not_lt.mpr hle)
  · intro h
    have h1 := h _ p2
    exact (p4 h1).2
  · intro x hx hle
    refine ⟨?_, d3 x hx hle⟩
    by_contra hc
    exact absurd ((d4 (not_le.mp hc)).1 x hx) (not_lt.mpr hle)
  · intro h
    have h1 := h _ d2
    exact (d4 h1).2
  · show (_, _, _) = (_, _, _)
    simp only [atkbd_set_repeat_rate]
    rw [p5, d5]

/-- C40 at the request of a period of 34 and a delay of 251: the stored values are 37
and 500, the parameter is `1 | (1 << 5)`, and a second call changes nothing. -/
theorem set_repeat_rate_rounds_up_witness :
    atkbd_set_repeat_rate 34 251 = (37, 500, 33) ∧
    ((37 : Int) ∈ atkbd_repeat_period →
      (34 : Int) ≤ (atkbd_set_repeat_rate 34 251).1 ∧ (atkbd_set_repeat_rate 34 251).1 ≤ 37) ∧
    atkbd_set_repeat_rate (atkbd_set_repeat_rate 34 251).1 (atkbd_set_repeat_rate 34 251).2.1 =
      atkbd_set_repeat_rate 34 251 :=
  ⟨by decide,
   fun h => (set_repeat_rate_rounds_up 34 251).2.1 37 h (by decide),
   (set_repeat_rate_rounds_up 34 251).2.2.2.2.2.2.2.2.2.2⟩

/-- Outside set 3 the composed scancodes of the Hangeul and Hanja bytes are not below
0x100. -/
theorem atkbd_compat_scancode_hangeul_hanja_set2 (a : atkbd) (h3 : a.set ≠ 3) :
    0x100 ≤ atkbd_compat_scancode a ATKBD_RET_HANGEUL ∧
    0x100 ≤ atkbd_compat_scancode a ATKBD_RET_HANJA := by
  unfold atkbd_compat_scancode
  rw [if_neg h3, if_neg h3]
  split_ifs <;> decide

set_option maxRecDepth 100000 in
/-- What the loop of lines 1572-1580 leaves, with the scroll feature off. -/
theorem atkbd_translated_loop_entries :
    ∀ i, i < 128 →
      atkbd_translated_loop false 128 0 (fun _ => 0) i =
        atkbd_set2_keycode.getD (atkbd_unxlate_table.getD i 0) 0 ∧
      atkbd_translated_loop false 128 0 (fun _ => 0) (i ||| 0x80) =
        atkbd_set2_keycode.getD (atkbd_unxlate_table.getD i 0 ||| 0x80) 0 ∧
      i ||| 0x80 < 0x100 ∧ atkbd_unxlate_table.getD i 0 < 0x80 ∧
      atkbd_unxlate_table.getD i 0 ||| 0x80 < 0x100 := by
  decide

/-- The table of translated mode below 0x100, without firmware keymap, scroll feature
off, outside set 3: what the loop of lines 1572-1580 leaves. -/
theorem translated_table_below_0x100 (a : atkbd) (ht : a.translated = true)
    (hs : a.scroll = false) (h3 : a.set ≠ 3) (c : Nat) (hc : c < 0x100) :
    (atkbd_set_keycode_table_rest none none a).keycode c =
      atkbd_translated_loop false 128 0 (fun _ => 0) c := by
  obtain ⟨h1, h2⟩ := atkbd_compat_scancode_hangeul_hanja_set2 a h3
  have n1 : c ≠ atkbd_compat_scancode a ATKBD_RET_HANGEUL := by omega
  have n2 : c ≠ atkbd_compat_scancode a ATKBD_RET_HANJA := by omega
  show Function.update (Function.update _ (atkbd_compat_scancode a ATKBD_RET_HANGEUL) _)
    (atkbd_compat_scancode a ATKBD_RET_HANJA) _ c = _
  rw [Function.update_noteq n2, Function.update_noteq n1]
  show (if a.translated = true then atkbd_translated_loop a.scroll 128 0 (fun _ => 0)
      else _) c = _
  simp only [ht, if_true, hs]

/-- The table of raw set 2 below 0x100, without firmware keymap, scroll feature off:
the array `atkbd_set2_keycode`. -/
theorem raw_set2_table_below_0x100 (r : atkbd) (ht : r.translated = false)
    (hs : r.scroll = false) (h3 : r.set ≠ 3) (c : Nat) (hc : c < 0x100) :
    (atkbd_set_keycode_table_rest none none r).keycode c = atkbd_set2_keycode.getD c 0 := by
  obtain ⟨h1, h2⟩ := atkbd_compat_scancode_hangeul_hanja_set2 r h3
  have n1 : c ≠ atkbd_compat_scancode r ATKBD_RET_HANGEUL := by omega
  have n2 : c ≠ atkbd_compat_scancode r ATKBD_RET_HANJA := by omega
  show Function.update (Function.update _ (atkbd_compat_scancode r ATKBD_RET_HANGEUL) _)
    (atkbd_compat_scancode r ATKBD_RET_HANJA) _ c = _
  rw [Function.update_noteq n2, Function.update_noteq n1]
  show (if r.translated = true then _
      else if r.set = 3 then _
      else if r.scroll = true then _
      else fun i => atkbd_set2_keycode.getD i 0) c = _
  simp only [ht, hs, h3, if_false, Bool.false_eq_true]

/-- C32: in translated mode (where the code set is 2: `atkbd_select_set` returns 2),
without firmware keymap and with the scroll feature off, the table that
`atkbd_set_keycode_table` builds has, for every `i` in 0..127,
`keycode[i] = atkbd_set2_keycode[atkbd_unxlate_table[i]]` and
`keycode[i | 0x80] = atkbd_set2_keycode[atkbd_unxlate_table[i] | 0x80]`.  So the
entry that a translated byte `i` reaches at emulation depth 0, or at depth 1 after
0xe0, is the entry that its native code `atkbd_unxlate_table[i]` reaches at the same
depth in the table of raw set 2. -/
theorem translated_table_is_unxlated_set2 (a : atkbd) (ht : a.translated = true)
    (hs : a.scroll = false) (h3 : a.set ≠ 3) (i : Nat) (hi : i < 128) :
    ∃ t, atkbd_set_keycode_table none none a = some t ∧
      t.keycode i = atkbd_set2_keycode.getD (atkbd_unxlate_table.getD i 0) 0 ∧
      t.keycode (i ||| 0x80) =
        atkbd_set2_keycode.getD (atkbd_unxlate_table.getD i 0 ||| 0x80) 0 ∧
      (∀ r : atkbd, r.translated = false → r.scroll = false → r.set ≠ 3 →
        ∃ tr, atkbd_set_keycode_table none none r = some tr ∧
          t.keycode (atkbd_compat_scancode { a with emul := 0 } i) =
            tr.keycode
              (atkbd_compat_scancode { r with emul := 0 } (atkbd_unxlate_table.getD i 0)) ∧
          t.keycode (atkbd_compat_scancode { a with emul := 1 } i) =
            tr.keycode
              (atkbd_compat_scancode { r with emul := 1 } (atkbd_unxlate_table.getD i 0))) := by
  obtain ⟨e1, e2, b1, b2, b3⟩ := atkbd_translated_loop_entries i hi
  have k1 := translated_table_below_0x100 a ht hs h3 i (by omega)
  have k2 := translated_table_below_0x100 a ht hs h3 (i ||| 0x80) b1
  refine ⟨_, rfl, k1.trans e1, k2.trans e2, ?_⟩
  intro r hrt hrs hr3
  refine ⟨_, rfl, ?_⟩
  have c1 := (atkbd_compat_scancode_low { a with emul := 0 } i hi).1 (show (0 : Nat) ≠ 1 by decide)
  have c2 := (atkbd_compat_scancode_low { a with emul := 1 } i hi).2 rfl h3
  have c3 := (atkbd_compat_scancode_low { r with emul := 0 } _ b2).1 (show (0 : Nat) ≠ 1 by decide)
  have c4 := (atkbd_compat_scancode_low { r with emul := 1 } _ b2).2 rfl hr3
  rw [c1, c2, c3, c4, k1, k2, e1, e2,
    raw_set2_table_below_0x100 r hrt hrs hr3 _ (by omega),
    raw_set2_table_below_0x100 r hrt hrs hr3 _ b3]
  exact ⟨rfl, rfl⟩

set_option maxRecDepth 100000 in
/-- C32 at the translated code 0x1e ("a"): the native code is 28, the key 30; after
0xe0 the translated code 0x47 (Home): the native code is 108, the key 102. -/
theorem translated_table_is_unxlated_set2_witness :
    (∃ t, atkbd_set_keycode_table none none atkbd_idle_translated = some t ∧
      t.keycode 0x1e = atkbd_set2_keycode.getD 28 0) ∧
    (∃ t, atkbd_set_keycode_table none none atkbd_idle_translated = some t ∧
      t.keycode (0x47 ||| 0x80) = atkbd_set2_keycode.getD (108 ||| 0x80) 0) := by
  obtain ⟨t, h, h1, _⟩ :=
    translated_table_is_unxlated_set2 atkbd_idle_translated rfl rfl (by decide) 0x1e (by decide)
  obtain ⟨u, k, _, k2, _⟩ :=
    translated_table_is_unxlated_set2 atkbd_idle_translated rfl rfl (by decide) 0x47 (by decide)
  exact ⟨⟨t, h, h1⟩, ⟨u, k, k2⟩⟩

/-- Raw mode: the scancode stage is the `switch` on the received byte. -/
theorem atkbd_scancode_raw (p : platform) (hp : fixup_known p) (a : atkbd) (data : Nat)
    (ht : a.translated = false) :
    atkbd_scancode p a data =
      ((atkbd_switch a data).1, effect.input_event_msc_raw data :: (atkbd_switch a data).2.1,
       (atkbd_switch a data).2.2) := by
  have hu : atkbd_unmangle a data data = (a, data) := by
    unfold atkbd_unmangle
    rw [if_neg (by rw [ht]; decide)]
  simp only [atkbd_scancode, atkbd_fixup_id_of p hp a data (Or.inl ht), hu]

/-- Raw mode: the bytes 0xe0 and 0xf0 set the emulation depth and the release flag
and make no call but the raw-scancode event. -/
theorem atkbd_decode_raw_prefixes (p : platform) (hp : fixup_known p) (a : atkbd)
    (ht : a.translated = false) :
    atkbd_decode p a 0xe0 = ({ a with emul := 1 }, [effect.input_event_msc_raw 0xe0]) ∧
    atkbd_decode p a 0xf0 = ({ a with release := true }, [effect.input_event_msc_raw 0xf0]) := by
  have h1 := atkbd_scancode_raw p hp a 0xe0 ht
  have h2 := atkbd_scancode_raw p hp a 0xf0 ht
  constructor
  · rw [(atkbd_decode_no_lookup p a 0xe0 (by rw [h1]; rfl)).1, h1]
    rfl
  · rw [(atkbd_decode_no_lookup p a 0xf0 (by rw [h2]; rfl)).1, h2]
    rfl

/-- Raw mode, a release pending, emulation depth 0 or 1: a byte below 0x80 whose
composed scancode has an ordinary key makes exactly the release event of that key,
and leaves the release flag and the emulation depth clear. -/
theorem atkbd_decode_raw_release (p : platform) (hp : fixup_known p) (a : atkbd) (c : Nat)
    (ht : a.translated = false) (hc : c < 0x80) (he : a.emul ≤ 1) (hr : a.release = true)
    (hk : ordinary_key (a.keycode (atkbd_compat_scancode a c))) :
    key_events (atkbd_decode p a c).2 = [(a.keycode (atkbd_compat_scancode a c), 0)] ∧
    (atkbd_decode p a c).1.release = false ∧ (atkbd_decode p a c).1.emul = 0 := by
  have hs := atkbd_scancode_raw p hp a c ht
  rw [atkbd_switch_low a c hc] at hs
  have key : ∀ s : atkbd, s.keycode = a.keycode → s.release = true → s.emul = 0 →
      atkbd_scancode p a c = (s, [effect.input_event_msc_raw c],
        some (atkbd_compat_scancode a c)) →
      key_events (atkbd_decode p a c).2 = [(a.keycode (atkbd_compat_scancode a c), 0)] ∧
      (atkbd_decode p a c).1.release = false ∧ (atkbd_decode p a c).1.emul = 0 := by
    intro s hkc hsr hse hsc
    have hk' : ordinary_key (s.keycode (atkbd_compat_scancode a c)) := by rw [hkc]; exact hk
    obtain ⟨o1, o2⟩ := atkbd_report_ordinary p s _ hk'
    have o3 := atkbd_report_key_release p s (atkbd_compat_scancode a c)
      (s.keycode (atkbd_compat_scancode a c)) hsr
    rw [atkbd_decode_eq, hsc]
    simp only [key_events_append]
    rw [o1, o2, o3, hkc]
    exact ⟨rfl, rfl, hse⟩
  by_cases h0 : a.emul = 0
  · rw [if_neg (by rw [h0]; decide)] at hs
    exact key a rfl hr h0 hs
  · have h1 : a.emul = 1 := by omega
    rw [if_pos h0, if_neg (by rw [h1]; decide)] at hs
    refine key { a with emul := a.emul - 1 } rfl hr ?_ hs
    show a.emul - 1 = 0
    omega

/-- C31: the decoder proper in raw mode, code set 2, from emulation depth 0.  For
every `c` below 0x80 whose entry `keycode[c]` is an ordinary key, the bytes 0xf0, `c`
make exactly one key event, the release of that key; for every `c` below 0x80 whose
entry `keycode[c | 0x80]` is an ordinary key, the bytes 0xe0, 0xf0, `c` make exactly
one key event, the release of that key: the release flag set by 0xf0 and the depth
set by 0xe0 are both there when `c` arrives.  In both cases the release flag and the
emulation depth are clear afterwards. -/
theorem raw_break_sequences (p1 p2 p3 : platform) (hp1 : fixup_known p1)
    (hp2 : fixup_known p2) (hp3 : fixup_known p3) (a : atkbd) (ht : a.translated = false)
    (h3 : a.set ≠ 3) (he : a.emul = 0) (c : Nat) (hc : c < 0x80) :
    (ordinary_key (a.keycode c) →
      key_events (atkbd_decode p1 a 0xf0).2 = [] ∧
      (atkbd_decode p1 a 0xf0).1.release = true ∧
      key_events (atkbd_decode p2 (atkbd_decode p1 a 0xf0).1 c).2 = [(a.keycode c, 0)] ∧
      (atkbd_decode p2 (atkbd_decode p1 a 0xf0).1 c).1.release = false ∧
      (atkbd_decode p2 (atkbd_decode p1 a 0xf0).1 c).1.emul = 0) ∧
    (ordinary_key (a.keycode (c ||| 0x80)) →
      key_events (atkbd_decode p1 a 0xe0).2 = [] ∧
      key_events (atkbd_decode p2 (atkbd_decode p1 a 0xe0).1 0xf0).2 = [] ∧
      (atkbd_decode p2 (atkbd_decode p1 a 0xe0).1 0xf0).1.release = true ∧
      (atkbd_decode p2 (atkbd_decode p1 a 0xe0).1 0xf0).1.emul = 1 ∧
      key_events (atkbd_decode p3 (atkbd_decode p2 (atkbd_decode p1 a 0xe0).1 0xf0).1 c).2 =
        [(a.keycode (c ||| 0x80), 0)] ∧
      (atkbd_decode p3 (atkbd_decode p2 (atkbd_decode p1 a 0xe0).1 0xf0).1 c).1.release =
        false ∧
      (atkbd_decode p3 (atkbd_decode p2 (atkbd_decode p1 a 0xe0).1 0xf0).1 c).1.emul = 0) := by
  constructor
  · intro hk
    have e1 := (atkbd_decode_raw_prefixes p1 hp1 a ht).2
    have hcs : atkbd_compat_scancode { a with release := true } c = c :=
      (atkbd_compat_scancode_low { a with release := true } c hc).1
        (by show a.emul ≠ 1; rw [he]; decide)
    have h := atkbd_decode_raw_release p2 hp2 { a with release := true } c ht hc
      (by show a.emul ≤ 1; omega) rfl (by rw [hcs]; exact hk)
    rw [hcs] at h
    rw [e1]
    exact ⟨rfl, rfl, h.1, h.2.1, h.2.2⟩
  · intro hk
    have e1 := (atkbd_decode_raw_prefixes p1 hp1 a ht).1
    have e2 := (atkbd_decode_raw_prefixes p2 hp2 { a with emul := 1 } ht).2
    have hcs : atkbd_compat_scancode { a with emul := 1, release := true } c = c ||| 0x80 :=
      (atkbd_compat_scancode_low { a with emul := 1, release := true } c hc).2 rfl h3
    have h := atkbd_decode_raw_release p3 hp3 { a with emul := 1, release := true } c ht hc
      (by show (1 : Nat) ≤ 1; omega) rfl (by rw [hcs]; exact hk)
    rw [hcs] at h
    rw [e1, e2]
    exact ⟨rfl, rfl, rfl, rfl, h.1, h.2.1, h.2.2⟩

set_option maxRecDepth 100000 in
/-- C31 on the table of raw set 2: the bytes 0xf0, 0x1c release the key 30 ("a"),
and the bytes 0xe0, 0xf0, 0x6c release the key 102 (Home). -/
theorem raw_break_sequences_witness :
    ∃ t, atkbd_set_keycode_table none none
        { atkbd_idle_translated with translated := false } = some t ∧
      key_events (atkbd_decode platform_x86
        (atkbd_decode platform_x86 t 0xf0).1 0x1c).2 = [(30, 0)] ∧
      key_events (atkbd_decode platform_x86
        (atkbd_decode platform_x86
          (atkbd_decode platform_x86 t 0xe0).1 0xf0).1 0x6c).2 = [(102, 0)] := by
  refine ⟨_, rfl, ?_⟩
  have h := raw_break_sequences platform_x86 platform_x86 platform_x86 (Or.inl rfl)
    (Or.inl rfl) (Or.inl rfl)
    (atkbd_set_keycode_table_rest none none { atkbd_idle_translated with translated := false })
    rfl (by decide) rfl
  have k1 : (atkbd_set_keycode_table_rest none none
      { atkbd_idle_translated with translated := false }).keycode 0x1c = 30 := by decide
  have k2 : (atkbd_set_keycode_table_rest none none
      { atkbd_idle_translated with translated := false }).keycode (0x6c ||| 0x80) = 102 := by
    decide
  have h1 := (h 0x1c (by decide)).1 (by rw [k1]; decide)
  have h2 := (h 0x6c (by decide)).2 (by rw [k2]; decide)
  rw [k1] at h1
  rw [k2] at h2
  exact ⟨h1.2.2.1, h2.2.2.2.2.1⟩

/-- Lines 803-869 in full: they never fault on a byte, leave `held`, do nothing when
no modifier is held, never make a slot modifier-released, and replay at most one
action sequence, that of the slot of the held table. -/
theorem held_key_action_cases (st : overlay) (code : Nat) (hb : code < 256) :
    ∃ ret st2 mapped, held_key_action st code = some (ret, st2, mapped) ∧
      st2.held = st.held ∧
      (st.held = HELD_NONE → st2 = st ∧ mapped = []) ∧
      (∀ i, st2.maps_henkan_key_state i = st.maps_henkan_key_state i ∨
        st2.maps_henkan_key_state i = KEY_STATE_PRESSING ∨
        st2.maps_henkan_key_state i = KEY_STATE_RELEASED) ∧
      (mapped = [] ∨
        (st.held = HELD_CAPSLOCK ∧ (maps_capslock (code &&& 0x7f)).key ≠ none ∧
          action (if decide (code &&& 0x80 = 0) = true
            then (maps_capslock (code &&& 0x7f)).press_action_codes
            else (maps_capslock (code &&& 0x7f)).release_action_codes) = some mapped) ∨
        (st.held = HELD_HENKAN ∧ (maps_henkan (code &&& 0x7f)).key ≠ none ∧
          action (if decide (code &&& 0x80 = 0) = true
            then (maps_henkan (code &&& 0x7f)).press_action_codes
            else (maps_henkan (code &&& 0x7f)).release_action_codes) = some mapped)) := by
  have hidx := base_index_of_byte code hb
  cases hheld : st.held with
  | HELD_NONE =>
    refine ⟨wataash_do_atkbd_emacs_bypass, st, [], ?_, hheld, fun _ => ⟨rfl, rfl⟩,
      fun i => Or.inl rfl, Or.inl rfl⟩
    simp only [held_key_action, hheld]
  | HELD_CAPSLOCK =>
    by_cases hkey : (maps_capslock (code &&& 0x7f)).key = none
    · refine ⟨wataash_do_atkbd_emacs_bypass, st, [], ?_, hheld,
        fun h => absurd h (by decide), fun i => Or.inl rfl, Or.inl rfl⟩
      simp only [held_key_action, hheld, hidx.1, hkey, if_true]
    · have hent := maps_capslock_entries _ hidx.2 hkey
      have hsel : (action (if decide (code &&& 0x80 = 0) = true
          then (maps_capslock (code &&& 0x7f)).press_action_codes
          else (maps_capslock (code &&& 0x7f)).release_action_codes)).isSome = true := by
        by_cases hp : code &&& 0x80 = 0
        · simp only [hp, decide_True, if_true]; exact hent.1
        · simp only [hp, decide_False]; exact hent.2.1
      obtain ⟨calls, hcalls⟩ := Option.isSome_iff_exists.1 hsel
      exact ⟨_, _, _, held_key_action_capslock st code hb hheld hkey calls hcalls, rfl,
        fun h => absurd h (by decide), fun i => Or.inl rfl, Or.inr (Or.inl ⟨rfl, hkey, hcalls⟩)⟩
  | HELD_HENKAN =>
    by_cases hkey : (maps_henkan (code &&& 0x7f)).key = none
    · refine ⟨wataash_do_atkbd_emacs_bypass, st, [], ?_, hheld,
        fun h => absurd h (by decide), fun i => Or.inl rfl, Or.inl rfl⟩
      simp only [held_key_action, hheld, hidx.1, hkey, if_true]
    · have hent := maps_henkan_entries _ hidx.2 hkey
      have hsel : (action (if decide (code &&& 0x80 = 0) = true
          then (maps_henkan (code &&& 0x7f)).press_action_codes
          else (maps_henkan (code &&& 0x7f)).release_action_codes)).isSome = true := by
        by_cases hp : code &&& 0x80 = 0
        · simp only [hp, decide_True, if_true]; exact hent.1
        · simp only [hp, decide_False]; exact hent.2.1
      obtain ⟨calls, hcalls⟩ := Option.isSome_iff_exists.1 hsel
      refine ⟨_, _, _, held_key_action_henkan st code hb hheld hkey calls hcalls, rfl,
        fun h => absurd h (by decide), fun i => ?_, Or.inr (Or.inr ⟨rfl, hkey, hcalls⟩)⟩
      show Function.update st.maps_henkan_key_state _ _ i = _ ∨
        Function.update st.maps_henkan_key_state _ _ i = _ ∨
        Function.update st.maps_henkan_key_state _ _ i = _
      by_cases hi : i = code &&& 0x7f
      · rw [hi, Function.update_same]
        by_cases hp : code &&& 0x80 = 0
        · simp [hp]
        · simp [hp]
      · rw [Function.update_noteq hi]
        exact Or.inl rfl

/-- Lines 780-801 in a state of the invariant: they never fault, leave `held`, keep
the invariant, and replay at most the release sequence of the `maps_capslock` slot,
which they do exactly for a release byte whose slot is modifier-released. -/
theorem release_pending_keys_inv (st : overlay) (hinv : overlay_inv st) (code : Nat)
    (hb : code < 256) :
    ∃ st1, release_pending_keys st code =
        some (st1,
          if code &&& 0x80 ≠ 0 ∧
            st.maps_capslock_key_state (code &&& 0x7f) = KEY_STATE_MODIFIER_RELEASED
          then (action (maps_capslock (code &&& 0x7f)).release_action_codes).getD []
          else []) ∧
      overlay_inv st1 ∧ st1.held = st.held := by
  have hidx := base_index_of_byte code hb
  obtain ⟨hwf, hhen, hcaps⟩ := hinv
  by_cases hp : code &&& 0x80 = 0
  · refine ⟨st, ?_, ⟨hwf, hhen, hcaps⟩, rfl⟩
    rw [release_pending_keys_press st code hp, if_neg (fun h => h.1 hp)]
  · obtain ⟨st1, calls1, h1, hwf1⟩ := release_pending_keys_wf st hwf code hb
    have h2 := release_pending_keys_eq st hwf code hb hp
    rw [if_neg (hhen _ hidx.2), List.append_nil] at h2
    refine ⟨{ held := st.held
              maps_capslock_key_state := fun i =>
                if i = code &&& 0x7f ∧ st.maps_capslock_key_state i = KEY_STATE_MODIFIER_RELEASED
                then KEY_STATE_RELEASED else st.maps_capslock_key_state i
              maps_henkan_key_state := fun i =>
                if i = code &&& 0x7f ∧ st.maps_henkan_key_state i = KEY_STATE_MODIFIER_RELEASED
                then KEY_STATE_RELEASED else st.maps_henkan_key_state i },
      ?_, ⟨?_, ?_, ?_⟩, rfl⟩
    · rw [h2]
      by_cases hm : st.maps_capslock_key_state (code &&& 0x7f) = KEY_STATE_MODIFIER_RELEASED
      · rw [if_pos hm, if_pos ⟨hp, hm⟩]
      · rw [if_neg hm, if_neg (fun h => hm h.2)]
    · rw [h1] at h2
      simp only [Option.some.injEq, Prod.mk.injEq] at h2
      rw [← h2.1]
      exact hwf1
    · intro i hi
      show (if i = code &&& 0x7f ∧ st.maps_henkan_key_state i = KEY_STATE_MODIFIER_RELEASED
        then KEY_STATE_RELEASED else st.maps_henkan_key_state i) ≠ _
      rw [if_neg (fun h => hhen i hi h.2)]
      exact hhen i hi
    · intro hh i hi
      show (if i = code &&& 0x7f ∧ st.maps_capslock_key_state i = KEY_STATE_MODIFIER_RELEASED
        then KEY_STATE_RELEASED else st.maps_capslock_key_state i) ≠ _
      split_ifs
      · decide
      · exact hcaps hh i hi

/-- The initial overlay state has the invariant. -/
theorem overlay_inv_init : overlay_inv overlay_init :=
  ⟨overlay_wf_init, fun _ _ h => key_state.noConfusion h,
    fun _ _ _ h => key_state.noConfusion h⟩

/-- Every step of the overlay on a byte keeps the invariant and does not fault,
whatever the enable flag is. -/
theorem overlay_inv_step (en : Nat) (st : overlay) (hinv : overlay_inv st) (code : Nat)
    (hb : code < 256) :
    ∃ ret st1 calls, wataash_do_atkbd_emacs en st code = some (ret, st1, calls) ∧
      overlay_inv st1 := by
  have hidx := base_index_of_byte code hb
  by_cases h0 : code = 0
  · exact ⟨wataash_do_atkbd_emacs_bypass, st, [],
      by simp only [wataash_do_atkbd_emacs, h0, if_true], hinv⟩
  by_cases hen : en = 0
  · refine ⟨wataash_do_atkbd_emacs_bypass, st, [], ?_, hinv⟩
    unfold wataash_do_atkbd_emacs
    rw [if_neg h0, if_neg (by rw [hidx.1]; have := hidx.2; omega), if_pos hen]
  by_cases h1 : code = 0x3a
  · have h := (wataash_trigger_press_eq en hen st).1
    rw [← h1] at h
    exact ⟨_, _, _, h, ⟨hinv.1, hinv.2.1, fun hh => held_mode.noConfusion hh⟩⟩
  by_cases h3 : code = 0x79
  · have h := (wataash_trigger_press_eq en hen st).2
    rw [← h3] at h
    exact ⟨_, _, _, h, ⟨hinv.1, hinv.2.1, fun hh => held_mode.noConfusion hh⟩⟩
  by_cases h24 : code = 0xba ∨ code = 0xf9
  · refine ⟨_, _, _, wataash_trigger_release_eq en hen st hinv.1 code h24,
      ⟨?_, hinv.2.1, ?_⟩⟩
    · intro i hi
      refine ⟨fun hk => ?_, (hinv.1 i hi).2⟩
      have := (hinv.1 i hi).1 hk
      simp [this]
    · intro _ i hi
      show (if i < 0x80 ∧ st.maps_capslock_key_state i = KEY_STATE_PRESSING
        then KEY_STATE_MODIFIER_RELEASED else st.maps_capslock_key_state i) ≠ _
      by_cases hp : st.maps_capslock_key_state i = KEY_STATE_PRESSING
      · rw [if_pos ⟨hi, hp⟩]
        decide
      · rw [if_neg (fun h => hp h.2)]
        exact hp
  obtain ⟨st1, hpend, hinv1, hheld1⟩ := release_pending_keys_inv st hinv code hb
  obtain ⟨ret, st2, calls2, hact, hheld2, hnone, hhen2, _⟩ := held_key_action_cases st1 code hb
  have hwf2 := held_key_action_wf st1 hinv1.1 code hb ret st2 calls2 hact
  refine ⟨ret, st2,
    (if code &&& 0x80 ≠ 0 ∧
        st.maps_capslock_key_state (code &&& 0x7f) = KEY_STATE_MODIFIER_RELEASED
      then (action (maps_capslock (code &&& 0x7f)).release_action_codes).getD []
      else []) ++ calls2, ?_, ?_⟩
  swap
  · unfold overlay_inv
    refine ⟨hwf2, ?_, ?_⟩
    · intro i hi
      rcases hhen2 i with e | e | e
      · rw [e]; exact hinv1.2.1 i hi
      · rw [e]; decide
      · rw [e]; decide
    · intro hh
      rw [hheld2] at hh
      rw [(hnone hh).1]
      exact hinv1.2.2 hh
  · rw [wataash_do_atkbd_emacs_other en hen st code h0 hb h1 (fun h => h24 (Or.inl h)) h3
      (fun h => h24 (Or.inr h)), hpend]
    simp only [hact]

/-- Every run of bytes from a state of the invariant ends, without a fault, in a
state of the invariant. -/
theorem overlay_run_inv (en : Nat) :
    ∀ (bytes : List Nat) (st : overlay), overlay_inv st → (∀ b ∈ bytes, b < 256) →
      ∃ st1 calls, overlay_run en st bytes = some (st1, calls) ∧ overlay_inv st1 := by
  intro bytes
  induction bytes with
  | nil =>
    intro st hinv _
    exact ⟨st, [], rfl, hinv⟩
  | cons b rest ih =>
    intro st hinv hb
    obtain ⟨ret, st1, calls, h1, hinv1⟩ :=
      overlay_inv_step en st hinv b (hb b (List.mem_cons_self _ _))
    obtain ⟨st2, calls2, h2, hinv2⟩ :=
      ih st1 hinv1 (fun c hc => hb c (List.mem_cons_of_mem _ hc))
    refine ⟨st2, calls ++ calls2, ?_, hinv2⟩
    simp only [overlay_run, h1, h2]

/-- C36: in every state that a sequence of genuine bytes reaches from the initial
overlay state (the run does not fault), whenever no modifier is held no slot of
`maps_capslock` is pressing; and from such a state every further byte, with the
enable flag at any value, leads again to a state with this property. -/
theorem no_mode_held_no_capslock_pressing (en : Nat) (bytes : List Nat)
    (hb : ∀ b ∈ bytes, b < 256) :
    ∃ st calls, overlay_run en overlay_init bytes = some (st, calls) ∧
      (st.held = HELD_NONE →
        ∀ i, i < 0x80 → st.maps_capslock_key_state i ≠ KEY_STATE_PRESSING) ∧
      (∀ (en1 code : Nat), code < 256 →
        ∃ ret st1 calls1, wataash_do_atkbd_emacs en1 st code = some (ret, st1, calls1) ∧
          (st1.held = HELD_NONE →
            ∀ i, i < 0x80 → st1.maps_capslock_key_state i ≠ KEY_STATE_PRESSING)) := by
  obtain ⟨st, calls, hrun, hinv⟩ := overlay_run_inv en bytes overlay_init overlay_inv_init hb
  refine ⟨st, calls, hrun, hinv.2.2, ?_⟩
  intro en1 code hc
  obtain ⟨ret, st1, calls1, h1, hinv1⟩ := overlay_inv_step en1 st hinv code hc
  exact ⟨ret, st1, calls1, h1, hinv1.2.2⟩

/-- C36 after the bytes 0x3a, 0x1e, 0xba (CapsLock press, "a" press, CapsLock
release). -/
theorem no_mode_held_no_capslock_pressing_witness :
    ∃ st calls, overlay_run 1 overlay_init [0x3a, 0x1e, 0xba] = some (st, calls) ∧
      (st.held = HELD_NONE →
        ∀ i, i < 0x80 → st.maps_capslock_key_state i ≠ KEY_STATE_PRESSING) := by
  obtain ⟨st, calls, h1, h2, _⟩ :=
    no_mode_held_no_capslock_pressing 1 [0x3a, 0x1e, 0xba] (by decide)
  exact ⟨st, calls, h1, h2⟩

/-- C33: the table accesses of the overlay are in bounds.  For a byte the index
`code & ~0x80U` is `code & 0x7f`, below 0x80, the size of both tables; for any code
whose index is not below 0x80 the overlay returns bypass at line 669, before any
table is read.  With `held` equal to `HELD_NONE` lines 803-806 return bypass before
`held` indexes the two arrays of size `HELD_NONE` = 2 at lines 815 and 820-823; the
two other values of `held` are 0 and 1.  In every state that genuine bytes reach from
the initial state (the run does not fault) every slot is in one of the three states
of the `enum`, a slot without table entry is released, and the overlay does not fault
on the next byte. -/
theorem overlay_accesses_in_bounds (en : Nat) (bytes : List Nat)
    (hb : ∀ b ∈ bytes, b < 256) :
    (∀ code, code < 256 → code &&& 0xFFFFFF7F = code &&& 0x7f ∧ code &&& 0x7f < 0x80) ∧
    (∀ (st : overlay) (code : Nat), 0x80 ≤ code &&& 0xFFFFFF7F →
      wataash_do_atkbd_emacs en st code = some (wataash_do_atkbd_emacs_bypass, st, [])) ∧
    (∀ (st : overlay) (code : Nat), st.held = HELD_NONE →
      held_key_action st code = some (wataash_do_atkbd_emacs_bypass, st, [])) ∧
    (∀ h : held_mode, h ≠ HELD_NONE → held_mode_value h < held_mode_value HELD_NONE) ∧
    held_mode_value HELD_NONE = 2 ∧
    (∃ st calls, overlay_run en overlay_init bytes = some (st, calls) ∧ overlay_wf st ∧
      (∀ i,
        (st.maps_capslock_key_state i = KEY_STATE_RELEASED ∨
         st.maps_capslock_key_state i = KEY_STATE_PRESSING ∨
         st.maps_capslock_key_state i = KEY_STATE_MODIFIER_RELEASED) ∧
        (st.maps_henkan_key_state i = KEY_STATE_RELEASED ∨
         st.maps_henkan_key_state i = KEY_STATE_PRESSING ∨
         st.maps_henkan_key_state i = KEY_STATE_MODIFIER_RELEASED)) ∧
      (∀ code, code < 256 → (wataash_do_atkbd_emacs en st code).isSome = true)) := by
  refine ⟨base_index_of_byte, ?_, ?_, ?_, rfl, ?_⟩
  · intro st code h
    unfold wataash_do_atkbd_emacs
    by_cases h0 : code = 0
    · rw [if_pos h0]
    · rw [if_neg h0, if_pos h]
  · intro st code h
    simp only [held_key_action, h]
  · intro h hne
    cases h
    · decide
    · decide
    · exact absurd rfl hne
  · obtain ⟨st, calls, hrun, hinv⟩ := overlay_run_inv en bytes overlay_init overlay_inv_init hb
    refine ⟨st, calls, hrun, hinv.1, ?_, ?_⟩
    · intro i
      constructor
      · cases st.maps_capslock_key_state i
        · exact Or.inl rfl
        · exact Or.inr (Or.inl rfl)
        · exact Or.inr (Or.inr rfl)
      · cases st.maps_henkan_key_state i
        · exact Or.inl rfl
        · exact Or.inr (Or.inl rfl)
        · exact Or.inr (Or.inr rfl)
    · intro code hc
      obtain ⟨ret, st1, calls1, h1, _⟩ := overlay_inv_step en st hinv code hc
      rw [h1]
      rfl

/-- C33 after the bytes 0x3a, 0x1e, 0xba, and for the code 0x180, whose index is not
below 0x80. -/
theorem overlay_accesses_in_bounds_witness :
    wataash_do_atkbd_emacs 1 overlay_caps_a_pressing 0x180 =
      some (wataash_do_atkbd_emacs_bypass, overlay_caps_a_pressing, []) ∧
    (∃ st calls, overlay_run 1 overlay_init [0x3a, 0x1e, 0xba] = some (st, calls) ∧
      overlay_wf st ∧
      (∀ code, code < 256 → (wataash_do_atkbd_emacs 1 st code).isSome = true)) := by
  have h := overlay_accesses_in_bounds 1 [0x3a, 0x1e, 0xba] (by decide)
  obtain ⟨st, calls, h1, h2, _, h4⟩ := h.2.2.2.2.2
  exact ⟨h.2.1 overlay_caps_a_pressing 0x180 (by decide), st, calls, h1, h2, h4⟩

/-- C35: after the genuine bytes 0x3a, 0x1e, 0xba, 0x3a (CapsLock press, "a" press,
CapsLock release, CapsLock press) CapsLock is held and the slot of "a" is
modifier-released; the single release byte 0x9e of "a" then replays the Home release
sequence (0xe0, 0xc7) twice: once at line 789, where the deferred release is
completed and the slot set to released, and, the function not returning there, once
more at line 859 for the same slot under the held modifier. -/
theorem key_release_replays_release_twice :
    action (maps_capslock 0x1e).release_action_codes = some [(0xe0, 0x200), (0xc7, 0x200)] ∧
    (overlay_run 1 overlay_init [0x3a, 0x1e, 0xba, 0x3a]).bind (fun r =>
      (wataash_do_atkbd_emacs 1 r.1 0x9e).map (fun q =>
        (r.1.held, r.1.maps_capslock_key_state 0x1e, q.1, q.2.2))) =
    some (HELD_CAPSLOCK, KEY_STATE_MODIFIER_RELEASED, wataash_do_atkbd_emacs_consumed,
          [(0xe0, 0x200), (0xc7, 0x200), (0xe0, 0x200), (0xc7, 0x200)]) := by
  constructor <;> rfl

/-- What a byte that is none of the four trigger codes replays, in every overlay state
that genuine bytes reach from the initial state with the overlay enabled (the run
does not fault): first, only for a release byte whose `maps_capslock` slot is
modifier-released, the release sequence of that slot (lines 784-791; no `maps_henkan`
slot is modifier-released); then, only while a modifier is held and the held table
has an entry for the byte, the press or release sequence of that entry (lines
829-869).  So at most two sequences, and at most one when no modifier is held or when
the `maps_capslock` slot is not modifier-released. -/
theorem non_trigger_byte_replays (en : Nat) (hen : en ≠ 0) (bytes : List Nat)
    (hb : ∀ b ∈ bytes, b < 256) (code : Nat) (hc : code < 256)
    (h1 : code ≠ 0x3a) (h2 : code ≠ 0xba) (h3 : code ≠ 0x79) (h4 : code ≠ 0xf9) :
    ∃ st calls0, overlay_run en overlay_init bytes = some (st, calls0) ∧
      (∀ i, i < 0x80 → st.maps_henkan_key_state i ≠ KEY_STATE_MODIFIER_RELEASED) ∧
      ∃ ret st1 deferred mapped,
        wataash_do_atkbd_emacs en st code = some (ret, st1, deferred ++ mapped) ∧
        deferred =
          (if code &&& 0x80 ≠ 0 ∧
              st.maps_capslock_key_state (code &&& 0x7f) = KEY_STATE_MODIFIER_RELEASED
            then (action (maps_capslock (code &&& 0x7f)).release_action_codes).getD []
            else []) ∧
        (st.held = HELD_NONE → mapped = []) ∧
        (mapped = [] ∨
          (st.held = HELD_CAPSLOCK ∧ (maps_capslock (code &&& 0x7f)).key ≠ none ∧
            action (if decide (code &&& 0x80 = 0) = true
              then (maps_capslock (code &&& 0x7f)).press_action_codes
              else (maps_capslock (code &&& 0x7f)).release_action_codes) = some mapped) ∨
          (st.held = HELD_HENKAN ∧ (maps_henkan (code &&& 0x7f)).key ≠ none ∧
            action (if decide (code &&& 0x80 = 0) = true
              then (maps_henkan (code &&& 0x7f)).press_action_codes
              else (maps_henkan (code &&& 0x7f)).release_action_codes) = some mapped)) := by
  obtain ⟨st, calls0, hrun, hinv⟩ := overlay_run_inv en bytes overlay_init overlay_inv_init hb
  by_cases h0 : code = 0
  · subst h0
    exact ⟨st, calls0, hrun, hinv.2.1, wataash_do_atkbd_emacs_bypass, st, [], [], rfl,
      (if_neg (fun h => h.1 (by decide))).symm, fun _ => rfl, Or.inl rfl⟩
  obtain ⟨st1, hpend, _, hheld1⟩ := release_pending_keys_inv st hinv code hc
  obtain ⟨ret, st2, mapped, hact, _, hnone, _, hcases⟩ := held_key_action_cases st1 code hc
  refine ⟨st, calls0, hrun, hinv.2.1, ret, st2, _, mapped, ?_, rfl, ?_, ?_⟩
  · rw [wataash_do_atkbd_emacs_other en hen st code h0 hc h1 h2 h3 h4, hpend]
    simp only [hact]
  · intro hh
    exact (hnone (hheld1.trans hh)).2
  · rw [hheld1] at hcases
    exact hcases

/-- The `default` case of the keycode `switch` writes none of the fields that the
scancode stage reads. -/
theorem atkbd_report_key_static (p : platform) (a : atkbd) (code keycode : Nat) :
    (atkbd_report_key p a code keycode).1.translated = a.translated ∧
    (atkbd_report_key p a code keycode).1.enabled = a.enabled ∧
    (atkbd_report_key p a code keycode).1.ps2dev_flags = a.ps2dev_flags ∧
    (atkbd_report_key p a code keycode).1.emul = a.emul ∧
    (atkbd_report_key p a code keycode).1.xl_bit = a.xl_bit := by
  unfold atkbd_report_key
  simp only []
  split_ifs <;> exact ⟨rfl, rfl, rfl, rfl, rfl⟩

/-- The keycode `switch` writes none of the fields that the scancode stage reads. -/
theorem atkbd_report_switch_static (p : platform) (a : atkbd) (code keycode : Nat) :
    (atkbd_report_switch p a code keycode).1.translated = a.translated ∧
    (atkbd_report_switch p a code keycode).1.enabled = a.enabled ∧
    (atkbd_report_switch p a code keycode).1.ps2dev_flags = a.ps2dev_flags ∧
    (atkbd_report_switch p a code keycode).1.emul = a.emul ∧
    (atkbd_report_switch p a code keycode).1.xl_bit = a.xl_bit := by
  unfold atkbd_report_switch
  split_ifs
  all_goals first | exact ⟨rfl, rfl, rfl, rfl, rfl⟩ | exact atkbd_report_key_static p a code keycode

/-- Lines 980-1053 write none of the fields that the scancode stage reads. -/
theorem atkbd_report_static (p : platform) (a : atkbd) (code : Nat) :
    (atkbd_report p a code).1.translated = a.translated ∧
    (atkbd_report p a code).1.enabled = a.enabled ∧
    (atkbd_report p a code).1.ps2dev_flags = a.ps2dev_flags ∧
    (atkbd_report p a code).1.emul = a.emul ∧
    (atkbd_report p a code).1.xl_bit = a.xl_bit := by
  unfold atkbd_report
  simp only []
  split_ifs
  all_goals exact atkbd_report_switch_static p a code _

/-- The decoder proper on a byte that goes to the key lookup: the fields that the
scancode stage reads are those that the scancode stage left. -/
theorem atkbd_decode_static (p : platform) (a s : atkbd) (data sc : Nat) (out : List effect)
    (h : atkbd_scancode p a data = (s, out, some sc)) :
    (atkbd_decode p a data).1.translated = s.translated ∧
    (atkbd_decode p a data).1.enabled = s.enabled ∧
    (atkbd_decode p a data).1.ps2dev_flags = s.ps2dev_flags ∧
    (atkbd_decode p a data).1.emul = s.emul ∧
    (atkbd_decode p a data).1.xl_bit = s.xl_bit := by
  rw [atkbd_decode_eq, h]
  exact atkbd_report_static p s sc

/-- Translated mode, emulation depth 0: the scancode stage stops the byte 0xe0 and
sets the depth to 1. -/
theorem atkbd_scancode_translated_e0 (p : platform) (hp : fixup_known p) (a : atkbd)
    (ht : a.translated = true) (he : a.emul = 0) :
    atkbd_scancode p a 0xe0 = ({ a with emul := 1 }, [effect.input_event_msc_raw 0xe0], none) := by
  have hu : atkbd_unmangle a 0xe0 0xe0 = (a, 0xe0) := by
    unfold atkbd_unmangle
    rw [if_pos ht, if_neg (by rw [(atkbd_need_xlate_emul a.xl_bit).1]; simp [he]), if_pos he]
    rfl
  simp only [atkbd_scancode, atkbd_fixup_id p hp a 0xe0 (by omega), hu]
  rfl

/-- Translated mode, emulation depth 1, a byte that the OQO fixup leaves: the byte
goes to the key lookup with the scancode composed from its low seven bits, and the
depth is 0 again. -/
theorem atkbd_scancode_translated_depth1 (p : platform) (hp : fixup_known p) (a : atkbd)
    (data : Nat) (ht : a.translated = true) (he : a.emul = 1)
    (hd : data ≠ 0x64 ∧ data ≠ 0x65 ∧ data ≠ 0x66) :
    atkbd_scancode p a data =
      ({ a with release := decide (data >>> 7 ≠ 0), emul := 0 },
        [effect.input_event_msc_raw data], some (atkbd_compat_scancode a (data &&& 0x7f))) := by
  have hlt : data &&& 0x7f < 0x80 := by
    have : data &&& 0x7f ≤ 0x7f := Nat.and_le_right
    omega
  have hu : atkbd_unmangle a data data =
      ({ a with release := decide (data >>> 7 ≠ 0) }, data &&& 0x7f) := by
    unfold atkbd_unmangle
    rw [if_pos ht, if_pos (Or.inl (by omega)), if_neg (by omega)]
  simp only [atkbd_scancode, atkbd_fixup_id_of p hp a data (Or.inr hd), hu,
    atkbd_switch_low _ _ hlt]
  have he1 : ({ a with release := decide (data >>> 7 ≠ 0) } : atkbd).emul = 1 := he
  rw [if_pos (by rw [he1]; decide), if_neg (by rw [he1]; decide)]
  simp only [he, atkbd_compat_scancode]

set_option maxRecDepth 100000 in
/-- Bit 7 of a byte, tested by the shift of line 938 or by the mask. -/
theorem release_bit_facts :
    ∀ c, c < 256 → decide (c >>> 7 ≠ 0) = decide (c &&& 0x80 ≠ 0) := by
  decide

/-- The verdict of `atkbd_need_xlate` survives when more bits of `xl_bit` are set. -/
theorem atkbd_need_xlate_mono (m x c : Nat) (hc : c < 256)
    (hm : ∀ i, i < 6 → test_bit i m = true → test_bit i x = true)
    (h : atkbd_need_xlate m c = true) : atkbd_need_xlate x c = true := by
  by_cases h8 : c ≠ 0xe0 ∧ c ≠ 0xe1 ∧ c ≠ 0xaa ∧ c ≠ 0xff ∧ c ≠ 0xfa ∧ c ≠ 0xfe ∧
      c ≠ 0xf1 ∧ c ≠ 0xf2
  · exact atkbd_need_xlate_other x c hc h8
  · have hcase : c = 0xe0 ∨ c = 0xe1 ∨ c = 0xaa ∨ c = 0xff ∨ c = 0xfa ∨ c = 0xfe ∨
        c = 0xf1 ∨ c = 0xf2 := by omega
    rcases hcase with e | e | e | e | e | e | e | e <;> subst e
    · rw [(atkbd_need_xlate_emul m).1] at h
      exact absurd h (by decide)
    · rw [(atkbd_need_xlate_emul m).2] at h
      exact absurd h (by decide)
    · exact (atkbd_need_xlate_table x 0 (by norm_num)).trans
        (hm 0 (by norm_num) ((atkbd_need_xlate_table m 0 (by norm_num)).symm.trans h))
    · exact (atkbd_need_xlate_table x 1 (by norm_num)).trans
        (hm 1 (by norm_num) ((atkbd_need_xlate_table m 1 (by norm_num)).symm.trans h))
    · exact (atkbd_need_xlate_table x 2 (by norm_num)).trans
        (hm 2 (by norm_num) ((atkbd_need_xlate_table m 2 (by norm_num)).symm.trans h))
    · exact (atkbd_need_xlate_table x 3 (by norm_num)).trans
        (hm 3 (by norm_num) ((atkbd_need_xlate_table m 3 (by norm_num)).symm.trans h))
    · exact (atkbd_need_xlate_table x 4 (by norm_num)).trans
        (hm 4 (by norm_num) ((atkbd_need_xlate_table m 4 (by norm_num)).symm.trans h))
    · exact (atkbd_need_xlate_table x 5 (by norm_num)).trans
        (hm 5 (by norm_num) ((atkbd_need_xlate_table m 5 (by norm_num)).symm.trans h))

/-- Setting the same bit keeps the inclusion of the set bits. -/
theorem set_bit_mono (k m x : Nat)
    (hm : ∀ i, i < 6 → test_bit i m = true → test_bit i x = true) :
    ∀ i, i < 6 → test_bit i (set_bit k m) = true → test_bit i (set_bit k x) = true := by
  intro i hi h
  by_cases e : i = k
  · rw [e]
    exact test_bit_set_bit _ _
  · rw [test_bit_set_bit_other k i m e] at h
    rw [test_bit_set_bit_other k i x e]
    exact hm i hi h

set_option maxRecDepth 100000 in
/-- The bits of a byte below 0x80. -/
theorem low_byte_facts :
    ∀ c, c < 0x80 → c &&& 0x7f = c ∧ c &&& 0x80 = 0 ∧ c % 256 = c := by
  decide

/-- On a byte below 0x80 `atkbd_calculate_xl_bit` keeps the inclusion of the set
bits. -/
theorem atkbd_calculate_xl_bit_loop_mono (c m x : Nat) (hc : c < 0x80)
    (hm : ∀ i, i < 6 → test_bit i m = true → test_bit i x = true) :
    ∀ i, i < 6 → test_bit i (atkbd_calculate_xl_bit_loop c m xl_table 0) = true →
      test_bit i (atkbd_calculate_xl_bit_loop c x xl_table 0) = true := by
  obtain ⟨f1, f2, _⟩ := low_byte_facts c hc
  rw [atkbd_calculate_xl_bit_loop_eq c m (by omega), atkbd_calculate_xl_bit_loop_eq c x (by omega),
    f1, f2]
  simp only [ne_eq, not_true_eq_false, if_false]
  split_ifs
  · exact set_bit_mono 0 m x hm
  · exact set_bit_mono 1 m x hm
  · exact set_bit_mono 2 m x hm
  · exact set_bit_mono 3 m x hm
  · exact set_bit_mono 4 m x hm
  · exact set_bit_mono 5 m x hm
  · exact hm

/-- A replayed call on an enabled decoder with no command in flight passes lines
892-917 untouched, and `atkbd_interrupt` without the overlay stage is the decoder
proper. -/
theorem atkbd_replayed_call (p : platform) (a : atkbd) (data : Nat)
    (hps2 : a.ps2dev_flags = 0) (hen : a.enabled = true) :
    atkbd_interrupt_head p a data SERIO_WATAASH_DOING_ACTION = (a, [], true) ∧
    atkbd_interrupt_decoder p a data SERIO_WATAASH_DOING_ACTION = atkbd_decode p a data :=
  ⟨atkbd_interrupt_head_quiet p a data SERIO_WATAASH_DOING_ACTION
      (Or.inr ⟨by decide, Or.inl (by decide)⟩) hps2 hen,
   atkbd_interrupt_decoder_replayed p a data hps2 hen⟩

/-- No bit of the empty mask is set. -/
theorem test_bit_zero_mask (i : Nat) : test_bit i 0 = false := by
  unfold test_bit
  exact Nat.zero_testBit i

/-- Soundness of `action_bytes_ok`: on a translated, enabled decoder with no command
in flight, at emulation depth `d` and with the bits of `m` set in `xl_bit`, replayed
calls whose bytes pass the check all reach the key lookup (or are a prefix 0xe0), and
the decoder is left translated, enabled and at depth 0. -/
theorem action_bytes_sound (p : platform) (hp : fixup_known p) :
    ∀ (calls : List (Nat × Nat)) (d m : Nat) (a : atkbd),
      a.translated = true → a.enabled = true → a.ps2dev_flags = 0 → a.emul = d →
      (∀ i, i < 6 → test_bit i m = true → test_bit i a.xl_bit = true) →
      (∀ c ∈ calls, c.2 = SERIO_WATAASH_DOING_ACTION) →
      action_bytes_ok d m (calls.map Prod.fst) = true →
      replay_reaches_lookup p a calls ∧
      (atkbd_replay p a calls).1.translated = true ∧
      (atkbd_replay p a calls).1.enabled = true ∧
      (atkbd_replay p a calls).1.ps2dev_flags = 0 ∧
      (atkbd_replay p a calls).1.emul = 0 := by
  intro calls
  induction calls with
  | nil =>
    intro d m a ht hen hps he _ _ hok
    simp only [List.map_nil, action_bytes_ok, decide_eq_true_eq] at hok
    exact ⟨trivial, ht, hen, hps, he.trans hok⟩
  | cons call rest ih =>
    intro d m a ht hen hps he hm hf hok
    obtain ⟨c, f⟩ := call
    have hf0 : f = SERIO_WATAASH_DOING_ACTION := hf (c, f) (List.mem_cons_self _ _)
    subst hf0
    have hfr : ∀ x ∈ rest, x.2 = SERIO_WATAASH_DOING_ACTION :=
      fun x hx => hf x (List.mem_cons_of_mem _ hx)
    obtain ⟨hq, hdec⟩ := atkbd_replayed_call p a c hps hen
    simp only [List.map_cons, action_bytes_ok] at hok
    show (a.enabled = true ∧
        atkbd_interrupt_head p a c SERIO_WATAASH_DOING_ACTION = (a, [], true) ∧
        ((c = 0xe0 ∧ a.emul = 0 ∧ (atkbd_scancode p a c).2.2 = none ∧
            (atkbd_scancode p a c).1.emul = 1) ∨
          ((atkbd_scancode p a c).2.2 = some (atkbd_compat_scancode a (c &&& 0x7f)) ∧
            (atkbd_scancode p a c).1.release = decide (c &&& 0x80 ≠ 0))) ∧
        replay_reaches_lookup p
          (atkbd_interrupt_decoder p a c SERIO_WATAASH_DOING_ACTION).1 rest) ∧
      (atkbd_replay p (atkbd_interrupt_decoder p a c SERIO_WATAASH_DOING_ACTION).1 rest).1.translated
        = true ∧
      (atkbd_replay p (atkbd_interrupt_decoder p a c SERIO_WATAASH_DOING_ACTION).1 rest).1.enabled
        = true ∧
      (atkbd_replay p (atkbd_interrupt_decoder p a c SERIO_WATAASH_DOING_ACTION).1
        rest).1.ps2dev_flags = 0 ∧
      (atkbd_replay p (atkbd_interrupt_decoder p a c SERIO_WATAASH_DOING_ACTION).1 rest).1.emul = 0
    rw [hdec]
    have hlt : c &&& 0x7f < 0x80 := by
      have : c &&& 0x7f ≤ 0x7f := Nat.and_le_right
      omega
    by_cases hd0 : d = 0
    · subst hd0
      rw [if_pos rfl] at hok
      by_cases hce : c = 0xe0
      · subst hce
        rw [if_pos rfl] at hok
        have hs := atkbd_scancode_translated_e0 p hp a ht he
        have hd1 : atkbd_decode p a 0xe0 =
            ({ a with emul := 1 }, [effect.input_event_msc_raw 0xe0]) := by
          rw [atkbd_decode_eq, hs]
        have ih1 := ih 1 m { a with emul := 1 } ht hen hps rfl hm hfr hok
        rw [hd1]
        exact ⟨⟨hen, hq, Or.inl ⟨rfl, he, by rw [hs], by rw [hs]⟩, ih1.1⟩, ih1.2⟩
      · rw [if_neg hce] at hok
        by_cases hlow : c < 0x80
        · rw [if_pos hlow] at hok
          have hx : atkbd_need_xlate a.xl_bit c = true :=
            atkbd_need_xlate_other a.xl_bit c (by omega) (by omega)
          have hs := atkbd_scancode_translated p hp a c ht he hx
          obtain ⟨t1, t2, t3, t4, t5⟩ := atkbd_decode_static p a _ c _ _ hs
          have hm1 : ∀ i, i < 6 →
              test_bit i (atkbd_calculate_xl_bit_loop c m xl_table 0) = true →
              test_bit i (atkbd_decode p a c).1.xl_bit = true := by
            intro i hi h
            rw [t5]
            show test_bit i (atkbd_calculate_xl_bit_loop (c % 256) a.xl_bit xl_table 0) = true
            rw [(low_byte_facts c hlow).2.2]
            exact atkbd_calculate_xl_bit_loop_mono c m a.xl_bit hlow hm i hi h
          have ih1 := ih 0 _ (atkbd_decode p a c).1 (t1.trans ht) (t2.trans hen) (t3.trans hps)
            (t4.trans he) hm1 hfr hok
          refine ⟨⟨hen, hq, Or.inr ⟨?_, ?_⟩, ih1.1⟩, ih1.2⟩
          · rw [hs, (atkbd_compat_scancode_low a (c &&& 0x7f) hlt).1 (by omega)]
          · rw [hs]
            exact release_bit_facts c (by omega)
        · rw [if_neg hlow] at hok
          simp only [Bool.and_eq_true, decide_eq_true_eq] at hok
          obtain ⟨⟨hc, hx0⟩, hok1⟩ := hok
          have hx : atkbd_need_xlate a.xl_bit c = true :=
            atkbd_need_xlate_mono m a.xl_bit c hc hm hx0
          have hs := atkbd_scancode_translated p hp a c ht he hx
          obtain ⟨t1, t2, t3, t4, _⟩ := atkbd_decode_static p a _ c _ _ hs
          have hm1 : ∀ i, i < 6 → test_bit i 0 = true →
              test_bit i (atkbd_decode p a c).1.xl_bit = true := by
            intro i _ h
            rw [test_bit_zero_mask] at h
            exact Bool.noConfusion h
          have ih1 := ih 0 0 (atkbd_decode p a c).1 (t1.trans ht) (t2.trans hen) (t3.trans hps)
            (t4.trans he) hm1 hfr hok1
          refine ⟨⟨hen, hq, Or.inr ⟨?_, ?_⟩, ih1.1⟩, ih1.2⟩
          · rw [hs, (atkbd_compat_scancode_low a (c &&& 0x7f) hlt).1 (by omega)]
          · rw [hs]
            exact release_bit_facts c hc
    · rw [if_neg hd0] at hok
      simp only [Bool.and_eq_true, decide_eq_true_eq] at hok
      obtain ⟨⟨⟨hd1, hc⟩, hne⟩, hok1⟩ := hok
      subst hd1
      have hs := atkbd_scancode_translated_depth1 p hp a c ht he hne
      obtain ⟨t1, t2, t3, t4, t5⟩ := atkbd_decode_static p a _ c _ _ hs
      have hm1 : ∀ i, i < 6 → test_bit i m = true →
          test_bit i (atkbd_decode p a c).1.xl_bit = true := by
        intro i hi h
        rw [t5]
        exact hm i hi h
      have ih1 := ih 0 m (atkbd_decode p a c).1 (t1.trans ht) (t2.trans hen) (t3.trans hps)
        t4 hm1 hfr hok1
      refine ⟨⟨hen, hq, Or.inr ⟨?_, ?_⟩, ih1.1⟩, ih1.2⟩
      · rw [hs]
      · rw [hs]
        exact release_bit_facts c hc

/-- The check `action_codes_ok` on an array gives the calls of `action` and their
soundness conditions. -/
theorem action_codes_ok_calls (action_codes : Option (List Nat))
    (h : action_codes_ok action_codes = true) :
    ∃ calls, action action_codes = some calls ∧
      action_bytes_ok 0 0 (calls.map Prod.fst) = true ∧
      ∀ c ∈ calls, c.2 = SERIO_WATAASH_DOING_ACTION := by
  unfold action_codes_ok at h
  cases hact : action action_codes with
  | none =>
    rw [hact] at h
    exact Bool.noConfusion h
  | some calls =>
    rw [hact] at h
    simp only [Bool.and_eq_true, List.all_eq_true, decide_eq_true_eq] at h
    exact ⟨calls, rfl, h.1, h.2⟩

set_option maxRecDepth 1000000 in
/-- Every press and release array that the two mode tables reference passes
`action_codes_ok`. -/
theorem maps_action_codes_ok :
    ∀ i, i < 0x80 →
      ((maps_capslock i).key ≠ none →
        action_codes_ok (maps_capslock i).press_action_codes = true ∧
        action_codes_ok (maps_capslock i).release_action_codes = true) ∧
      ((maps_henkan i).key ≠ none →
        action_codes_ok (maps_henkan i).press_action_codes = true ∧
        action_codes_ok (maps_henkan i).release_action_codes = true) := by
  decide

/-- The predicate `replay_reaches_lookup` on a concatenation: the first calls satisfy
it, and the remaining ones satisfy it from the state that the first calls leave. -/
theorem replay_reaches_lookup_append (p : platform) :
    ∀ (xs ys : List (Nat × Nat)) (a : atkbd), replay_reaches_lookup p a (xs ++ ys) →
      replay_reaches_lookup p a xs ∧ replay_reaches_lookup p (atkbd_replay p a xs).1 ys := by
  intro xs
  induction xs with
  | nil =>
    intro ys a h
    exact ⟨trivial, h⟩
  | cons call rest ih =>
    intro ys a h
    obtain ⟨h1, h2, h3, h4⟩ := h
    obtain ⟨i1, i2⟩ := ih ys _ h4
    exact ⟨⟨h1, h2, h3, i1⟩, i2⟩

/-- On a translated, enabled decoder with no command in flight at emulation depth 0,
after replayed calls whose bytes pass `action_bytes_ok`, a further replayed byte 0xaa
that satisfies `replay_reaches_lookup` goes to the key lookup as the release of
scancode 0x2a. -/
theorem replayed_0xaa_is_release (p : platform) (hp : fixup_known p) (a : atkbd)
    (ht : a.translated = true) (hen : a.enabled = true) (hps : a.ps2dev_flags = 0)
    (he : a.emul = 0) (xs ys : List (Nat × Nat))
    (hx : ∀ c ∈ xs, c.2 = SERIO_WATAASH_DOING_ACTION)
    (hxok : action_bytes_ok 0 0 (xs.map Prod.fst) = true)
    (hf : ∀ c ∈ xs ++ (0xaa, SERIO_WATAASH_DOING_ACTION) :: ys, c.2 = SERIO_WATAASH_DOING_ACTION)
    (hok : action_bytes_ok 0 0 ((xs ++ (0xaa, SERIO_WATAASH_DOING_ACTION) :: ys).map Prod.fst)
      = true) :
    (atkbd_scancode p (atkbd_replay p a xs).1 0xaa).2.2 = some 0x2a ∧
    (atkbd_scancode p (atkbd_replay p a xs).1 0xaa).1.release = true := by
  have hm : ∀ i, i < 6 → test_bit i 0 = true → test_bit i a.xl_bit = true := by
    intro i _ h
    rw [test_bit_zero_mask] at h
    exact Bool.noConfusion h
  have s1 := action_bytes_sound p hp xs 0 0 a ht hen hps he hm hx hxok
  have s2 := action_bytes_sound p hp _ 0 0 a ht hen hps he hm hf hok
  obtain ⟨_, _, hd, _⟩ := (replay_reaches_lookup_append p xs _ a s2.1).2
  rcases hd with ⟨h0, _⟩ | ⟨h1, h2⟩
  · exact absurd h0 (by decide)
  · have hc := (atkbd_compat_scancode_low (atkbd_replay p a xs).1 (0xaa &&& 0x7f)
      (by decide)).1 (by rw [s1.2.2.2.2]; decide)
    rw [hc] at h1
    exact ⟨h1, h2⟩

/-- C37: in translated mode, on an enabled decoder with no command in flight at
emulation depth 0, whatever `xl_bit` holds, `action` succeeds on every press and
release array that `maps_capslock` or `maps_henkan` references, and each of its
calls, all marked `SERIO_WATAASH_DOING_ACTION`, finds the device enabled, passes
lines 892-917 untouched and either is the prefix 0xe0 at depth 0 or goes to the key
lookup with the scancode of its low seven bits (no byte is stopped by the `switch` as
0xaa, ACK, NAK or error); after the sequence the device is enabled and the depth is 0
again.  The sixth call of `action_codes_kill_line` and of
`action_codes_unix_line_discard`, the byte 0xaa, goes to the key lookup as the
release of scancode 0x2a. -/
theorem action_sequences_reach_lookup (p : platform) (hp : fixup_known p) (a : atkbd)
    (ht : a.translated = true) (hen : a.enabled = true) (hps : a.ps2dev_flags = 0)
    (he : a.emul = 0) :
    (∀ i, i < 0x80 → ∀ map : key_map, map = maps_capslock i ∨ map = maps_henkan i →
      map.key ≠ none →
      ∀ codes, codes = map.press_action_codes ∨ codes = map.release_action_codes →
        ∃ calls, action codes = some calls ∧
          (∀ c ∈ calls, c.2 = SERIO_WATAASH_DOING_ACTION) ∧
          replay_reaches_lookup p a calls ∧
          (atkbd_replay p a calls).1.enabled = true ∧
          (atkbd_replay p a calls).1.emul = 0) ∧
    (action (some action_codes_kill_line) =
        some ([(0x2a, 0x200), (0xe0, 0x200), (0x4f, 0x200), (0xe0, 0x200), (0xcf, 0x200)] ++
          (0xaa, 0x200) :: [(0xe0, 0x200), (0x53, 0x200), (0xe0, 0x200), (0xd3, 0x200)]) ∧
      (atkbd_scancode p (atkbd_replay p a
        [(0x2a, 0x200), (0xe0, 0x200), (0x4f, 0x200), (0xe0, 0x200), (0xcf, 0x200)]).1
        0xaa).2.2 = some 0x2a ∧
      (atkbd_scancode p (atkbd_replay p a
        [(0x2a, 0x200), (0xe0, 0x200), (0x4f, 0x200), (0xe0, 0x200), (0xcf, 0x200)]).1
        0xaa).1.release = true) ∧
    (action (some action_codes_unix_line_discard) =
        some ([(0x2a, 0x200), (0xe0, 0x200), (0x47, 0x200), (0xe0, 0x200), (0xc7, 0x200)] ++
          (0xaa, 0x200) :: [(0xe0, 0x200), (0x53, 0x200), (0xe0, 0x200), (0xd3, 0x200)]) ∧
      (atkbd_scancode p (atkbd_replay p a
        [(0x2a, 0x200), (0xe0, 0x200), (0x47, 0x200), (0xe0, 0x200), (0xc7, 0x200)]).1
        0xaa).2.2 = some 0x2a ∧
      (atkbd_scancode p (atkbd_replay p a
        [(0x2a, 0x200), (0xe0, 0x200), (0x47, 0x200), (0xe0, 0x200), (0xc7, 0x200)]).1
        0xaa).1.release = true) := by
  have hm : ∀ i, i < 6 → test_bit i 0 = true → test_bit i a.xl_bit = true := by
    intro i _ h
    rw [test_bit_zero_mask] at h
    exact Bool.noConfusion h
  refine ⟨?_, ⟨by decide, ?_⟩, ⟨by decide, ?_⟩⟩
  · intro i hi map hmap hkey codes hcodes
    have hok : action_codes_ok codes = true := by
      rcases hmap with e | e <;> rcases hcodes with c | c <;> subst e <;> subst c
      · exact ((maps_action_codes_ok i hi).1 hkey).1
      · exact ((maps_action_codes_ok i hi).1 hkey).2
      · exact ((maps_action_codes_ok i hi).2 hkey).1
      · exact ((maps_action_codes_ok i hi).2 hkey).2
    obtain ⟨calls, hact, hb, hf⟩ := action_codes_ok_calls codes hok
    have s := action_bytes_sound p hp calls 0 0 a ht hen hps he hm hf hb
    exact ⟨calls, hact, hf, s.1, s.2.2.1, s.2.2.2.2⟩
  · exact replayed_0xaa_is_release p hp a ht hen hps he _
      [(0xe0, 0x200), (0x53, 0x200), (0xe0, 0x200), (0xd3, 0x200)]
      (by decide) (by decide) (by decide) (by decide)
  · exact replayed_0xaa_is_release p hp a ht hen hps he _
      [(0xe0, 0x200), (0x53, 0x200), (0xe0, 0x200), (0xd3, 0x200)]
      (by decide) (by decide) (by decide) (by decide)

/-- C37 on the idle translated decoder of the example platform: the sixth byte of
`action_codes_kill_line`, 0xaa, goes to the key lookup as the release of scancode
0x2a, and the press sequence of the capslock mapping of "k", which is that array,
reaches the key lookup and leaves the decoder enabled at depth 0. -/
theorem action_sequences_reach_lookup_witness :
    (atkbd_scancode platform_x86 (atkbd_replay platform_x86 atkbd_idle_translated
      [(0x2a, 0x200), (0xe0, 0x200), (0x4f, 0x200), (0xe0, 0x200), (0xcf, 0x200)]).1
      0xaa).2.2 = some 0x2a ∧
    ∃ calls, action (maps_capslock 0x25).press_action_codes = some calls ∧
      replay_reaches_lookup platform_x86 atkbd_idle_translated calls ∧
      (atkbd_replay platform_x86 atkbd_idle_translated calls).1.enabled = true ∧
      (atkbd_replay platform_x86 atkbd_idle_translated calls).1.emul = 0 := by
  have h := action_sequences_reach_lookup platform_x86 (Or.inl rfl) atkbd_idle_translated
    rfl rfl rfl rfl
  obtain ⟨calls, h1, _, h3, h4, h5⟩ :=
    h.1 0x25 (by decide) (maps_capslock 0x25) (Or.inl rfl) (by decide) _ (Or.inl rfl)
  exact ⟨h.2.1.2.1, calls, h1, h3, h4, h5⟩

end Atkbd
